import Mathlib

/-!
nvbio: striped Smith-Waterman scoring, checkpoints and traceback.

A shallow embedding of `nvbio/alignment/sw/sw_inl.h`.

Conventions of the embedding:
* arrays reached through raw pointers or iterators (`temp`, `band`, `q_cache`,
  checkpoints, direction submatrix) are total maps from indices, and a store
  `a[k] = v` is `store a k v`;
* scores are mathematical integers (the C++ `int32` range is assumed not to be
  exceeded by score arithmetic); the unsigned-to-signed conversion
  `score_type(M - block - BAND_LEN)` and the unsigned `N-1` of `run` are modelled
  with wrap-around;
* `for` loops over an index range are left folds over that range; the block
  loop of `run` and the `while` loop of `alignment_traceback` carry a fuel
  argument and return `none` when it is exhausted;
* the template parameters `context_type` and `sink_type` become records of
  functions over an explicit context state and sink state.
-/

namespace nvbio

/-! ## Data model -/

/-- The three alignment types of `AlignmentType`. -/
inductive AlignmentType where
  | LOCAL
  | SEMI_GLOBAL
  | GLOBAL
  deriving DecidableEq, Repr

open AlignmentType

/-- Modelled from the spec: the `DirectionVector` constants are declared in a header that is
not among the sources; a direction is a byte, and only the pairwise distinctness of the four
constants is used. -/
def SUBSTITUTION : Nat := 0

/-- Modelled from the spec: see `SUBSTITUTION`. -/
def INSERTION : Nat := 1

/-- Modelled from the spec: see `SUBSTITUTION`. -/
def DELETION : Nat := 2

/-- Modelled from the spec: see `SUBSTITUTION`. -/
def SINK : Nat := 3

/-- The scoring scheme as `run` uses it: `scoring.match()`, `scoring.mismatch()`,
`scoring.deletion()`, `scoring.insertion()`.  The scheme class itself is declared outside the
sources; `match(q)` is taken not to depend on the quality argument, so `match(255)` is
`match_` too. -/
structure Scoring where
  match_ : Int
  mismatch : Int
  deletion : Int
  insertion : Int
  deriving DecidableEq, Repr

/-- The store `a[k] = v` on an array seen as a total map. -/
def store {α : Type} (a : Nat → α) (k : Nat) (v : α) : Nat → α :=
  fun x => if x = k then v else a x

/-- The maximum of three scores, `nvbio::max3`. -/
def max3 (a b c : Int) : Int := max (max a b) c

/-- Conversion of an integer to `int32` with wrap-around. -/
def to_int32 (x : Int) : Int := (x + 2147483648) % 4294967296 - 2147483648

/-- Conversion of an integer to `uint32` with wrap-around. -/
def to_uint32 (x : Int) : Nat := (x % 4294967296).toNat

/-- The interface `run` expects of its `context_type` template parameter, over an explicit
context state `σ`: `init(j, N, column, scoring, zero)` returns the initialised column,
`previous_column(j, N, column)` and `new_cell(i, N, j, M, score, dir)` return the new state. -/
structure Context (σ : Type) where
  init : σ → Nat → Nat → (Nat → Int) → Scoring → (Nat → Int)
  previous_column : σ → Nat → Nat → (Nat → Int) → σ
  new_cell : σ → Nat → Nat → Nat → Nat → Int → Nat → σ

/-- The interface of the `sink_type` template parameter: `report(score, (x, y))`. -/
structure Sink (τ : Type) where
  report : τ → Int → Nat × Nat → τ

/-- The column a context without checkpoint writes at `j == 0`:
`column[i] = TYPE == GLOBAL ? scoring.deletion() * (i+1) : zero` for `i < N`. -/
def first_column (TYPE : AlignmentType) (scoring : Scoring) (N : Nat) (column : Nat → Int) :
    Nat → Int :=
  fun i => if i < N then (if TYPE = GLOBAL then scoring.deletion * ((i : Int) + 1) else 0)
    else column i

/-- The context `SWScoringContext`: initialises column 0 only, ignores everything else. -/
def SWScoringContext (TYPE : AlignmentType) : Context Unit where
  init := fun _ j N column scoring => if j = 0 then first_column TYPE scoring N column else column
  previous_column := fun s _ _ _ => s
  new_cell := fun s _ _ _ _ _ _ => s

/-- The context `SWCheckpointedScoringContext`; its state is the checkpoint `m_checkpoint`. -/
def SWCheckpointedScoringContext (TYPE : AlignmentType) : Context (Nat → Int) where
  init := fun m_checkpoint j N column scoring =>
    if j = 0 then first_column TYPE scoring N column
    else fun i => if i < N then m_checkpoint i else column i
  previous_column := fun s _ _ _ => s
  new_cell := fun s _ _ _ _ _ _ => s

/-- The state of `SWSubmatrixContext`. -/
structure SubmatrixState where
  m_checkpoints : Nat → Int
  m_checkpoint_id : Nat
  m_submatrix : Nat → Nat

/-- The context `SWSubmatrixContext`. -/
def SWSubmatrixContext (TYPE : AlignmentType) (CHECKPOINTS : Nat) : Context SubmatrixState where
  init := fun s _ N column _ =>
    fun i => if i < N then s.m_checkpoints (s.m_checkpoint_id * N + i) else column i
  previous_column := fun s _ _ _ => s
  new_cell := fun s i N j _ score dir =>
    let offset := s.m_checkpoint_id * CHECKPOINTS
    if TYPE = LOCAL then
      { s with m_submatrix := store s.m_submatrix ((j - offset) * N + i)
                                (if score ≠ 0 then dir else SINK) }
    else
      { s with m_submatrix := store s.m_submatrix ((j - offset) * N + i) dir }

/-- Modelled from the spec: `save_Mth` (declared in `alignment_base_inl.h`, not among the
sources) reports the band entry that holds pattern column `M` at text row `i`, with coordinate
`(i+1, M)`.  The band of the last block starts at column `BAND_LEN * ((M-1) / BAND_LEN)`, so
column `M` is entry `(M-1) % BAND_LEN + 1` of the band. -/
def save_Mth {τ : Type} (K : Sink τ) (BAND_LEN M : Nat) (band : Nat → Int) (i : Nat) (sink : τ) :
    τ :=
  K.report sink (band (if M = 0 then 0 else (M - 1) % BAND_LEN + 1)) ((i + 1) % 4294967296, M)

/-- Modelled from the spec: `save_boundary` (declared in `alignment_base_inl.h`, not among the
sources) saves the score of the last column `H[*][M]` at row `i` when the block holds
column `M`. -/
def save_boundary {τ : Type} (K : Sink τ) (BAND_LEN block M : Nat) (band : Nat → Int) (i : Nat)
    (sink : τ) : τ :=
  if M ≤ block + BAND_LEN then save_Mth K BAND_LEN M band i sink else sink

/-! ## `sw_alignment_score_dispatch::update_row` -/

/-- The direction passed to `new_cell`. -/
def direction (top left diagonal : Int) : Nat :=
  if top > left then (if top > diagonal then DELETION else SUBSTITUTION)
  else (if left > diagonal then INSERTION else SUBSTITUTION)

/-- The score of a cell: `max3(top, left, diagonal)`, clamped to zero for `LOCAL`. -/
def cell_score (TYPE : AlignmentType) (top left diagonal : Int) : Int :=
  if TYPE = LOCAL then max (max3 top left diagonal) 0 else max3 top left diagonal

/-- The variables the cell loop of `update_row` updates. -/
structure CellState (σ : Type) where
  context : σ
  band : Nat → Int
  prev : Int

/-- One iteration `j` of the loop "update all cells" of `update_row`. -/
def update_cell {σ : Type} (C : Context σ) (TYPE : AlignmentType) (block M i N : Nat)
    (r_i : Nat) (q_cache : Nat → Nat) (V S G I : Int) (st : CellState σ) (j : Nat) :
    CellState σ :=
  let q_j := q_cache (j - 1)
  let S_ij := if r_i = q_j then V else S
  let diagonal := st.prev + S_ij
  let top := st.band j + G
  let left := st.band (j - 1) + I
  let hi := cell_score TYPE top left diagonal
  { context := C.new_cell st.context i N (block + j - 1) M hi (direction top left diagonal)
    band := store st.band j hi
    prev := st.band j }

/-- The variables `update_row` reads and writes through references. -/
structure RowState (σ τ : Type) where
  context : σ
  temp : Nat → Int
  temp_i : Int
  band : Nat → Int
  sink : τ
  max_score : Int

/-- The function `update_row<CHECK_M>`. -/
def update_row {σ τ : Type} (CHECK_M : Bool) (C : Context σ) (K : Sink τ) (BAND_LEN : Nat)
    (TYPE : AlignmentType) (block M i N : Nat) (r_i : Nat) (q_cache : Nat → Nat)
    (V S G I : Int) (st : RowState σ τ) : RowState σ τ :=
  let prev := st.temp_i
  let temp_i := st.temp i
  let cs := (List.range' 1 BAND_LEN).foldl
    (update_cell C TYPE block M i N r_i q_cache V S G I)
    { context := st.context, band := store st.band 0 temp_i, prev := prev }
  { context := cs.context
    temp := store st.temp i (cs.band BAND_LEN)
    temp_i := temp_i
    band := cs.band
    sink :=
      if TYPE = LOCAL then
        if CHECK_M then
          (List.range' 1 BAND_LEN).foldl
            (fun s j => if block + j ≤ M then K.report s (cs.band j) (i + 1, block + j) else s)
            st.sink
        else
          (List.range' 1 BAND_LEN).foldl
            (fun s j => K.report s (cs.band j) (i + 1, block + j)) st.sink
      else if CHECK_M then
        (if TYPE = SEMI_GLOBAL then save_boundary K BAND_LEN block M cs.band i st.sink
         else st.sink)
      else st.sink
    max_score := max st.max_score (cs.band BAND_LEN) }

/-! ## `sw_alignment_score_dispatch::run` -/

/-- The variables of `run` that live across blocks. -/
structure RunState (σ τ : Type) where
  context : σ
  temp : Nat → Int
  band : Nat → Int
  q_cache : Nat → Nat
  sink : τ

/-- The first band of a block, `band[j] = (TYPE != LOCAL) ? G * (block + j) : zero` for
`j <= BAND_LEN`. -/
def first_band (BAND_LEN : Nat) (TYPE : AlignmentType) (scoring : Scoring) (block : Nat)
    (band : Nat → Int) : Nat → Int :=
  fun j =>
    if j ≤ BAND_LEN then (if TYPE ≠ LOCAL then scoring.deletion * ((block : Int) + j) else 0)
    else band j

/-- The load of a block of the query into `q_cache`: every entry `t < BAND_LEN` in the block
loop (`CHECK_M = false`), only the entries with `block + t < block_end` in the last block. -/
def load_query (CHECK_M : Bool) (BAND_LEN : Nat) (query : List Nat) (block : Nat)
    (q_cache : Nat → Nat) : Nat → Nat :=
  let block_end := min (block + BAND_LEN) query.length
  fun t =>
    if t < BAND_LEN ∧ (CHECK_M = false ∨ block + t < block_end) then query.getD (block + t) 0
    else q_cache t

/-- The body shared by the block loop of `run` (`CHECK_M = false`) and by its last block
(`CHECK_M = true`, where the query cache is loaded only below `block_end`): returns the new
state and the block's `max_score`.  `score_min` stands for `Field_traits<score_type>::min()`,
declared outside the sources. -/
def score_block {σ τ : Type} (CHECK_M : Bool) (C : Context σ) (K : Sink τ) (BAND_LEN : Nat)
    (TYPE : AlignmentType) (scoring : Scoring) (score_min : Int) (query ref : List Nat)
    (block : Nat) (st : RunState σ τ) : RunState σ τ × Int :=
  let M := query.length
  let N := ref.length
  let context := C.previous_column st.context block N st.temp
  let band := first_band BAND_LEN TYPE scoring block st.band
  let q_cache := load_query CHECK_M BAND_LEN query block st.q_cache
  let rs := (List.range N).foldl
    (fun rs i => update_row CHECK_M C K BAND_LEN TYPE block M i N (ref.getD i 0) q_cache
      scoring.match_ scoring.mismatch scoring.deletion scoring.insertion rs)
    { context := context, temp := st.temp, temp_i := band 0, band := band, sink := st.sink,
      max_score := score_min }
  ({ context := rs.context, temp := rs.temp, band := rs.band, q_cache := q_cache,
     sink := rs.sink }, rs.max_score)

/-- The early-exit test at the end of a block of the loop of `run`. -/
def early_exit (scoring : Scoring) (M BAND_LEN block : Nat) (max_score min_score : Int) : Bool :=
  let missing_cols := to_int32 ((M : Int) - block - BAND_LEN)
  decide (max_score + missing_cols * scoring.match_ < min_score)

/-- The block loop of `run`, `for (block = window_begin; block + BAND_LEN < end_block;
block += BAND_LEN)`: `some (false, _)` on an early exit, `some (true, _)` when the loop
condition fails, `none` when the fuel is used up. -/
def run_blocks {σ τ : Type} (C : Context σ) (K : Sink τ) (BAND_LEN : Nat)
    (TYPE : AlignmentType) (scoring : Scoring) (score_min : Int) (query ref : List Nat)
    (min_score : Int) (end_block : Nat) :
    Nat → Nat → RunState σ τ → Option (Bool × RunState σ τ)
  | 0, _, _ => none
  | fuel + 1, block, st =>
    if block + BAND_LEN < end_block then
      let r := score_block false C K BAND_LEN TYPE scoring score_min query ref block st
      if early_exit scoring query.length BAND_LEN block r.2 min_score then some (false, r.1)
      else run_blocks C K BAND_LEN TYPE scoring score_min query ref min_score end_block
        fuel (block + BAND_LEN) r.1
    else some (true, st)

/-- The value of `end_block` in `run`. -/
def end_block_of (BAND_LEN M window_end : Nat) : Nat :=
  if window_end = M then max BAND_LEN (BAND_LEN * ((M + BAND_LEN - 1) / BAND_LEN))
  else window_end + BAND_LEN

/-- The part of `run` after the block loop: the last block when `window_end == M`, then the
report of the last cell for `GLOBAL`. -/
def run_tail {σ τ : Type} (C : Context σ) (K : Sink τ) (BAND_LEN : Nat) (TYPE : AlignmentType)
    (scoring : Scoring) (score_min : Int) (query ref : List Nat) (window_end : Nat)
    (st2 : RunState σ τ) : RunState σ τ :=
  let M := query.length
  let N := ref.length
  let st3 :=
    if window_end = M then
      (score_block true C K BAND_LEN TYPE scoring score_min query ref
        (end_block_of BAND_LEN M window_end - BAND_LEN) st2).1
    else st2
  if TYPE = GLOBAL then
    { st3 with sink := save_Mth K BAND_LEN M st3.band (to_uint32 ((N : Int) - 1)) st3.sink }
  else st3

/-- The function `sw_alignment_score_dispatch<BAND_LEN,TYPE,symbol_type>::run` with a caller
supplied column `temp`.  The state passed in holds the context, the sink, the column and the
(uninitialised) contents of the local arrays `band` and `q_cache`. -/
def run {σ τ : Type} (C : Context σ) (K : Sink τ) (BAND_LEN : Nat) (TYPE : AlignmentType)
    (scoring : Scoring) (score_min : Int) (query ref : List Nat) (min_score : Int)
    (window_begin window_end : Nat) (st : RunState σ τ) : Option (Bool × RunState σ τ) :=
  let M := query.length
  let N := ref.length
  let st1 := { st with temp := C.init st.context window_begin N st.temp scoring }
  let end_block := end_block_of BAND_LEN M window_end
  match run_blocks C K BAND_LEN TYPE scoring score_min query ref min_score end_block
      (end_block + 1) window_begin st1 with
  | none => none
  | some (false, st2) => some (false, st2)
  | some (true, st2) =>
    some (true, run_tail C K BAND_LEN TYPE scoring score_min query ref window_end st2)

/-! ## The dispatchers -/

/-- The function `alignment_score_dispatch::dispatch` across the whole pattern.  `BAND_LEN` is
the constant `sw_bandlen_selector<TYPE,1u,symbol_type>::BAND_LEN` (16 for plain symbols, 8 or 1
for `simd4u8`). -/
def dispatch {τ : Type} (K : Sink τ) (BAND_LEN : Nat) (TYPE : AlignmentType)
    (scoring : Scoring) (score_min : Int) (pattern text : List Nat) (min_score : Int)
    (st : RunState Unit τ) : Option (Bool × RunState Unit τ) :=
  run (SWScoringContext TYPE) K BAND_LEN TYPE scoring score_min pattern text min_score
    0 pattern.length st

/-- The function `alignment_score_dispatch::dispatch` in a window of the pattern, restoring
the column from a checkpoint. -/
def dispatch_window_checkpoint {τ : Type} (K : Sink τ) (BAND_LEN : Nat) (TYPE : AlignmentType)
    (scoring : Scoring) (score_min : Int) (pattern text : List Nat) (min_score : Int)
    (window_begin window_end : Nat) (st : RunState (Nat → Int) τ) :
    Option (Bool × RunState (Nat → Int) τ) :=
  run (SWCheckpointedScoringContext TYPE) K BAND_LEN TYPE scoring score_min pattern text
    min_score window_begin window_end st

/-- The function `alignment_score_dispatch::dispatch` in a window of the pattern, used as a
continuation on the column vector. -/
def dispatch_window {τ : Type} (K : Sink τ) (BAND_LEN : Nat) (TYPE : AlignmentType)
    (scoring : Scoring) (score_min : Int) (pattern text : List Nat) (min_score : Int)
    (window_begin window_end : Nat) (st : RunState Unit τ) : Option (Bool × RunState Unit τ) :=
  run (SWScoringContext TYPE) K BAND_LEN TYPE scoring score_min pattern text min_score
    window_begin window_end st

/-- The sink `NullSink`, which drops every report. -/
def NullSink : Sink Unit where
  report := fun s _ _ => s

/-- What the `while` loop of `alignment_traceback` leaves: whether it returned from inside on a
`SINK` marker, the current cell and the output. -/
structure Walk where
  at_sink : Bool
  current_row : Int
  current_col : Int
  output : List Nat
  deriving DecidableEq, Repr

/-- The loop `while (current_row > 0 && current_col >= 0)` of `alignment_traceback`;
`output.push(op)` appends `op` to the output. -/
def traceback_loop (TYPE : AlignmentType) (submatrix : Nat → Nat) (submatrix_height : Nat) :
    Nat → Int → Int → List Nat → Option Walk
  | 0, _, _, _ => none
  | fuel + 1, current_row, current_col, output =>
    if current_row > 0 ∧ current_col ≥ 0 then
      let op := submatrix (current_col * submatrix_height + (current_row - 1)).toNat
      if TYPE = LOCAL ∧ op = SINK then
        some { at_sink := true, current_row := current_row, current_col := current_col,
               output := output }
      else
        traceback_loop TYPE submatrix submatrix_height fuel
          (if op ≠ INSERTION then current_row - 1 else current_row)
          (if op ≠ DELETION then current_col - 1 else current_col)
          (output ++ [op])
    else
      some { at_sink := false, current_row := current_row, current_col := current_col,
             output := output }

/-- The function `alignment_traceback` for `SmithWatermanAligner`: returns the flag, the new
`sink` and the output.  Coordinates are taken to be below `2^31`, so that the conversions
between `uint32` and `int32` of the source are the identity; the fuel exceeds the number of
iterations of the walk, since the row or the column decreases in every iteration. -/
def alignment_traceback (CHECKPOINTS : Nat) (TYPE : AlignmentType) (checkpoint_id : Nat)
    (submatrix : Nat → Nat) (submatrix_height : Nat) (sink : Nat × Nat) (output : List Nat) :
    Option (Bool × (Nat × Nat) × List Nat) :=
  let current_row : Int := sink.1
  let current_col : Int := (sink.2 : Int) - checkpoint_id * CHECKPOINTS - 1
  match traceback_loop TYPE submatrix submatrix_height (sink.1 + sink.2 + 2) current_row
      current_col output with
  | none => none
  | some w =>
    some (if w.at_sink then true else decide (w.current_row = 0),
          (w.current_row.toNat, (w.current_col + checkpoint_id * CHECKPOINTS + 1).toNat),
          w.output)

/-! ## Sinks used to observe a run -/

/-- A sink that keeps every report in order. -/
def TraceSink : Sink (List (Int × Nat × Nat)) where
  report := fun s score xy => s ++ [(score, xy)]

/-- Modelled from the spec: `BestSink` (declared in `sink.h`, not among the sources) records
the best `(score, coordinate)` pair reported so far; a report replaces the record when its
score is strictly higher. -/
def BestSink : Sink (Int × Nat × Nat) where
  report := fun s score xy => if s.1 < score then (score, xy) else s

/-- A context that records every `new_cell` call as `(i, j, score, dir)`. -/
def CellTrace (TYPE : AlignmentType) : Context (List (Nat × Nat × Int × Nat)) where
  init := fun _ j N column scoring => if j = 0 then first_column TYPE scoring N column else column
  previous_column := fun s _ _ _ => s
  new_cell := fun s i _ j _ score dir => s ++ [(i, j, score, dir)]

/-! ## The dynamic-programming matrix -/

/-- Row `i+1` of a matrix from the row above it, the boundary entry to its left and the
substitution scores of the row: entry `d+1` is the cell score of `top = above[d+1] + G`,
`left = row[d] + I` and `diagonal = above[d] + sub[d]`. -/
def dp_next_row (TYPE : AlignmentType) (G I : Int) (above : Nat → Int) (left0 : Int)
    (sub : Nat → Int) : Nat → Int
  | 0 => left0
  | d + 1 => cell_score TYPE (above (d + 1) + G) (dp_next_row TYPE G I above left0 sub d + I)
      (above d + sub d)

/-- The matrix with first row `row0`, first column `col0` (`col0 i` is the entry of row `i+1`)
and substitution scores `sub i d` for the cell of row `i+1` and column `d+1`. -/
def dp (TYPE : AlignmentType) (G I : Int) (row0 : Nat → Int) (col0 : Nat → Int)
    (sub : Nat → Nat → Int) : Nat → Nat → Int
  | 0 => row0
  | i + 1 => dp_next_row TYPE G I (dp TYPE G I row0 col0 sub i) (col0 i) (sub i)

/-- The first row the scorer uses, `band[j] = (TYPE != LOCAL) ? G * (block + j) : zero`. -/
def row_zero (TYPE : AlignmentType) (scoring : Scoring) (j : Nat) : Int :=
  if TYPE ≠ LOCAL then scoring.deletion * (j : Int) else 0

/-- The substitution score of text row `i` against the pattern symbol `q`. -/
def sub_score (scoring : Scoring) (ref : List Nat) (q : Nat → Nat) (i d : Nat) : Int :=
  if ref.getD i 0 = q d then scoring.match_ else scoring.mismatch

/-- The matrix of the scorer over the window that starts at pattern column `c0` with boundary
column `col0`: `H_window .. i d` is the score of row `i` and pattern column `c0 + d`, for the
pattern symbols `q`. -/
def H_window (TYPE : AlignmentType) (scoring : Scoring) (ref : List Nat) (q : Nat → Nat)
    (c0 : Nat) (col0 : Nat → Int) (i d : Nat) : Int :=
  dp TYPE scoring.deletion scoring.insertion (fun d => row_zero TYPE scoring (c0 + d)) col0
    (fun i d => sub_score scoring ref q i (c0 + d)) i d

/-- The matrix of the scorer over the whole pattern: `H .. i j` is the score of row `i` and
column `j`, with first column `TYPE == GLOBAL ? deletion * i : 0`. -/
def H (TYPE : AlignmentType) (scoring : Scoring) (pattern ref : List Nat) (i j : Nat) : Int :=
  H_window TYPE scoring ref (fun d => pattern.getD d 0) 0
    (fun i => if TYPE = GLOBAL then scoring.deletion * ((i : Int) + 1) else 0) i j

/-! ## The calls a run makes, as lists -/

/-- A call a run makes on its context. -/
inductive CtxEvent where
  | previous_column (j : Nat) (column : Nat → Int)
  | new_cell (i j : Nat) (score : Int) (dir : Nat)

/-- The effect of one call on the state of a context. -/
def Context.apply {σ : Type} (C : Context σ) (N M : Nat) (s : σ) : CtxEvent → σ
  | CtxEvent.previous_column j column => C.previous_column s j N column
  | CtxEvent.new_cell i j score dir => C.new_cell s i N j M score dir

/-- The effect of one report on the state of a sink. -/
def Sink.apply {τ : Type} (K : Sink τ) (s : τ) (r : Int × Nat × Nat) : τ :=
  K.report s r.1 r.2

/-- The direction of the cell in row `i+1` and column `d+1` of a matrix `W` with substitution
scores `sub`. -/
def cell_dir (W : Nat → Nat → Int) (G I : Int) (sub : Nat → Nat → Int) (i d : Nat) : Nat :=
  direction (W i (d + 1) + G) (W (i + 1) d + I) (W i d + sub i d)

/-- The `new_cell` call for the cell in row `i+1` and column `d+1` of a window matrix `W` that
starts at pattern column `c0`. -/
def cell_event (W : Nat → Nat → Int) (G I : Int) (sub : Nat → Nat → Int) (c0 i d : Nat) :
    CtxEvent :=
  CtxEvent.new_cell i (c0 + d) (W (i + 1) (d + 1)) (cell_dir W G I sub i d)

/-- The `new_cell` calls of the block of width `B` at window offset `o`, row by row. -/
def rows_events (W : Nat → Nat → Int) (G I : Int) (sub : Nat → Nat → Int) (c0 B N o : Nat) :
    List CtxEvent :=
  (List.range N).flatMap (fun i => (List.range B).map (fun t => cell_event W G I sub c0 i (o + t)))

/-- The reports of row `i` of the block at window offset `o` (pattern column `c0 + o`). -/
def row_reports (CHECK_M : Bool) (TYPE : AlignmentType) (W : Nat → Nat → Int)
    (c0 B M o i : Nat) : List (Int × Nat × Nat) :=
  if TYPE = LOCAL then
    if CHECK_M then
      ((List.range B).filter (fun t => decide (c0 + o + (t + 1) ≤ M))).map
        (fun t => (W (i + 1) (o + (t + 1)), (i + 1, c0 + o + (t + 1))))
    else
      (List.range B).map (fun t => (W (i + 1) (o + (t + 1)), (i + 1, c0 + o + (t + 1))))
  else if CHECK_M = true ∧ TYPE = SEMI_GLOBAL ∧ M ≤ c0 + o + B then
    [(W (i + 1) (o + (if M = 0 then 0 else (M - 1) % B + 1)), ((i + 1) % 4294967296, M))]
  else []

/-- The reports of the block at window offset `o`, row by row. -/
def rows_reports (CHECK_M : Bool) (TYPE : AlignmentType) (W : Nat → Nat → Int)
    (c0 B M N o : Nat) : List (Int × Nat × Nat) :=
  (List.range N).flatMap (fun i => row_reports CHECK_M TYPE W c0 B M o i)

/-! ## The block loop, block by block -/

/-- The state of the block loop of `run` after its first `k` blocks, started at
`window_begin` in state `st`. -/
def blocks_state {σ τ : Type} (C : Context σ) (K : Sink τ) (BAND_LEN : Nat)
    (TYPE : AlignmentType) (scoring : Scoring) (score_min : Int) (query ref : List Nat)
    (window_begin : Nat) (st : RunState σ τ) : Nat → RunState σ τ
  | 0 => st
  | k + 1 => (score_block false C K BAND_LEN TYPE scoring score_min query ref
      (window_begin + k * BAND_LEN)
      (blocks_state C K BAND_LEN TYPE scoring score_min query ref window_begin st k)).1

/-- The value of `max_score` at the end of block `k` of the block loop. -/
def blocks_max {σ τ : Type} (C : Context σ) (K : Sink τ) (BAND_LEN : Nat)
    (TYPE : AlignmentType) (scoring : Scoring) (score_min : Int) (query ref : List Nat)
    (window_begin : Nat) (st : RunState σ τ) (k : Nat) : Int :=
  (score_block false C K BAND_LEN TYPE scoring score_min query ref
      (window_begin + k * BAND_LEN)
      (blocks_state C K BAND_LEN TYPE scoring score_min query ref window_begin st k)).2

/-- Whether the early-exit test succeeds at the end of block `k` of the block loop. -/
def blocks_exit {σ τ : Type} (C : Context σ) (K : Sink τ) (BAND_LEN : Nat)
    (TYPE : AlignmentType) (scoring : Scoring) (score_min : Int) (query ref : List Nat)
    (min_score : Int) (window_begin : Nat) (st : RunState σ τ) (k : Nat) : Bool :=
  early_exit scoring query.length BAND_LEN (window_begin + k * BAND_LEN)
    (blocks_max C K BAND_LEN TYPE scoring score_min query ref window_begin st k) min_score

/-- The first index `e` with `k ≤ e < k + n` at which `p` holds. -/
def first_exit (p : Nat → Bool) : Nat → Nat → Option Nat
  | _, 0 => none
  | k, n + 1 => if p k then some k else first_exit p (k + 1) n

/-- The calls on the context of block `k` of a window that starts at pattern column `c0` with
column `col0`: the `previous_column` call with the column entering the block, then the
`new_cell` calls of its rows. -/
def block_events (W : Nat → Nat → Int) (G I : Int) (sub : Nat → Nat → Int) (c0 B N : Nat)
    (col0 : Nat → Int) (k : Nat) : List CtxEvent :=
  CtxEvent.previous_column (c0 + k * B) (fun x => if x < N then W (x + 1) (k * B) else col0 x) ::
    rows_events W G I sub c0 B N (k * B)

/-! ## The walk of `alignment_traceback`, operation by operation -/

/-- The move of the walk an operation stands for: `DELETION` decrements the row only,
`INSERTION` the column only, any other operation both. -/
def move (cell : Int × Int) (op : Nat) : Int × Int :=
  if op = DELETION then (cell.1 - 1, cell.2)
  else if op = INSERTION then (cell.1, cell.2 - 1)
  else (cell.1 - 1, cell.2 - 1)

/-- The pattern symbols the cells of a run over the whole window are computed from: the
pattern itself below `M`, and for the padding columns of the last block (block `nb` of the
window that starts at `wb`) the entries of `q_cache` the last block does not load, left by the
block before it or never initialised. -/
def pad_query (query : List Nat) (B wb nb : Nat) (q_cache : Nat → Nat) : Nat → Nat :=
  fun c =>
    if c < query.length then query.getD c 0
    else if nb ≠ 0 ∧ c - (wb + nb * B) < B then
      query.getD (wb + (nb - 1) * B + (c - (wb + nb * B))) 0
    else q_cache (c - (wb + nb * B))

/-- A state of `run` on entry whose column and local arrays hold zeros. -/
def zero_state {σ τ : Type} (context : σ) (sink : τ) : RunState σ τ :=
  { context := context, temp := fun _ => 0, band := fun _ => 0, q_cache := fun _ => 0,
    sink := sink }

/-- The score an operation stands for when it is re-applied at the cell of row `x` and pattern
column `y`: the deletion cost for `DELETION`, the insertion cost for `INSERTION`, and otherwise
the match or mismatch score of text symbol `x` against pattern symbol `y`. -/
def op_score (scoring : Scoring) (pattern text : List Nat) (x y : Int) (op : Nat) : Int :=
  if op = DELETION then scoring.deletion
  else if op = INSERTION then scoring.insertion
  else if text.getD (x - 1).toNat 0 = pattern.getD (y - 1).toNat 0 then scoring.match_
  else scoring.mismatch

/-- The score of a list of operations, in the order `alignment_traceback` pushes them,
re-applied to the pattern and the text from the cell the walk starts at. -/
def rescore (scoring : Scoring) (pattern text : List Nat) : Int × Int → List Nat → Int
  | _, [] => 0
  | cell, op :: ops =>
    op_score scoring pattern text cell.1 cell.2 op +
      rescore scoring pattern text (move cell op) ops

/-- What `SWSubmatrixContext::new_cell` stores for a cell: the direction, or for `LOCAL` the
`SINK` marker when the score is zero. -/
def stored_dir (TYPE : AlignmentType) (score : Int) (dir : Nat) : Nat :=
  if TYPE = LOCAL then (if score ≠ 0 then dir else SINK) else dir

/-- The matrix of the standard recurrence as the specification states it (a definition that
follows the specification, to be compared with `H`): the same cell recurrence, with
boundaries `H[0][j] = j * insertion` and `H[i][0] = i * deletion` for `GLOBAL`,
`H[0][j] = j * insertion` and `H[i][0] = 0` for `SEMI_GLOBAL`, and all boundaries 0 for
`LOCAL`. -/
def H_standard (TYPE : AlignmentType) (scoring : Scoring) (pattern ref : List Nat)
    (i j : Nat) : Int :=
  dp TYPE scoring.deletion scoring.insertion
    (fun j => if TYPE = LOCAL then 0 else (j : Int) * scoring.insertion)
    (fun i => if TYPE = GLOBAL then ((i : Int) + 1) * scoring.deletion else 0)
    (fun i d => sub_score scoring ref (fun d => pattern.getD d 0) i d) i j

/-- Modelled from the spec: the caller of the windowed `dispatch` is not among the sources;
per the spec the pattern is scored in two window-resumed calls, window `[0, c)` and then
window `[c, M)`, the second call continuing on the column and the sink the first one left;
when the first call reports failure the second one is not made. -/
def dispatch_two_windows {τ : Type} (K : Sink τ) (BAND_LEN : Nat) (TYPE : AlignmentType)
    (scoring : Scoring) (score_min : Int) (pattern text : List Nat) (min_score : Int)
    (c : Nat) (st : RunState Unit τ) : Option (Bool × RunState Unit τ) :=
  match dispatch_window K BAND_LEN TYPE scoring score_min pattern text min_score 0 c st with
  | some (true, st1) =>
    dispatch_window K BAND_LEN TYPE scoring score_min pattern text min_score c pattern.length
      st1
  | r => r

/-! ## Seed-hit selection (`nvBowtie/bowtie2/cuda/select_inl.h`)

Conventions of this part:
* a kernel is embedded as the function one thread computes on the shared state; a launch runs
  the threads of the grid one after the other, in the order a schedule gives, which is the
  linearisation the atomic slot allocation of the source provides;
* `uint32` counters and ids are natural numbers, assumed to stay below `2^32` (the sentinel
  `uint32(-1)` is `4294967295`); the random seed is updated modulo `2^32`;
* the weights of the sum tree are `float` in the source; the kernels only compare the root
  with `0.0f` and store `0.0f`, and the embedding keeps the weights as integers.
-/

/-- Modelled from the spec: `SeedHit` (declared in `seed_hit.h`, not among the sources) holds
an index range `[range_x, range_y)` (the value of `get_range()`), the position in the read,
the search direction and the read type. -/
structure SeedHit where
  range_x : Nat
  range_y : Nat
  posinread : Nat
  indexdir : Nat
  readtype : Bool
  deriving DecidableEq, Repr, Inhabited

/-- Modelled from the spec: `SeedHit::pop_front` returns the lower bound of the range and
advances it by one. -/
def SeedHit.pop_front (hit : SeedHit) : Nat × SeedHit :=
  (hit.range_x, { hit with range_x := hit.range_x + 1 })

/-- Modelled from the spec: the hit store of one read (a reference into
`SeedHitDequeArrayDeviceView`, declared in `seed_hit_deque_array.h`, not among the sources).
The field `data` lists the hits in priority order: `size()` is its length, `top()` its first
entry, `pop_top()` removes the first entry and `get_data()[i]` is entry `i`; `probs` holds the
cells `get_probs()` hands to the sum tree. -/
structure HitDeque where
  data : List SeedHit
  probs : Nat → Int

/-- Modelled from the spec: `hits.erase( read_id )` retires the store, leaving it with no
hits. -/
def HitDeque.erase (d : HitDeque) : HitDeque :=
  { d with data := [] }

/-- Modelled from the spec: `packed_read` (declared in `defs.h`, not among the sources), an
entry of the active-read queue. -/
structure packed_read where
  read_id : Nat
  top_flag : Nat
  deriving DecidableEq, Repr, Inhabited

/-- Modelled from the spec: `packed_seed` (declared in `defs.h`, not among the sources), the
seed descriptor of a hit: position in the read, direction, read type and top flag. -/
structure packed_seed where
  pos_in_read : Nat
  index_dir : Nat
  rc : Nat
  top_flag : Nat
  deriving DecidableEq, Repr, Inhabited

/-- Modelled from the spec: an entry of the hit queue as `HitReference` writes it (`read_id`,
`loc` and `seed`). -/
structure Hit where
  read_id : Nat
  loc : Nat
  seed : packed_seed
  deriving DecidableEq, Repr, Inhabited

/-- The state the selection kernels work on: the hit stores `hits` and the random seeds
`rseeds`, both indexed by read id, and the scoring queues.  Of `scoring_queues`, whose type is
declared in headers that are not among the sources, the embedding keeps (modelled from the
spec) the input queue `active_reads.in_queue` with its length `active_reads.in_size`, the
output queue `active_reads.out_queue` with its counter `active_reads.out_size`, the hit queue
`hits` (here `hit_queue`) with its counter `hits_pool`, and the binding of hits to a parent
read that `ReadHitsBinder` keeps: `hits_count parent` and `hits_index parent i`. -/
structure SelectState where
  hits : Nat → HitDeque
  rseeds : Nat → Nat
  in_size : Nat
  in_queue : Nat → packed_read
  out_size : Nat
  out_queue : Nat → packed_read
  hit_queue : Nat → Hit
  hits_pool : Nat
  hits_count : Nat → Nat
  hits_index : Nat → Nat → Nat

/-- Modelled from the spec: `next_power_of_two`, the padding of the leaf count in the
constructor of `SumTree` (whose body is in `sum_tree_inl.h`, not among the sources). -/
def next_power_of_two (size : Nat) : Nat :=
  if size ≤ 1 then 1 else 2 ^ (Nat.log2 (size - 1) + 1)

/-- The method `SumTree::sum`: the cell `m_cells[ m_padded_size * 2u - 2u ]`. -/
def SumTree.sum (size : Nat) (cells : Nat → Int) : Int :=
  cells ((next_power_of_two size * 2 + 4294967294) % 4294967296)

/-- The operations of the sum tree whose bodies are in `sum_tree_inl.h`, not among the
sources; they are parameters of the embedding.  `sample size cells rf` is the result of
`sample( prob_tree, rf )` and `set size cells i v` the cells after `prob_tree.set( i, v )`,
for the tree over `size` leaves with storage `cells`. -/
structure SumTreeOps where
  sample : Nat → (Nat → Int) → Nat × Nat → Nat
  set : Nat → (Nat → Int) → Nat → Int → (Nat → Int)

/-- The value of the conversion `float(n)` of a 32-bit unsigned integer: `n` rounded to the
nearest number with a 24-bit significand, ties to even. -/
def float_of_uint32 (n : Nat) : Nat :=
  if n < 16777216 then n
  else
    let e := Nat.log2 n - 23
    let q := n / 2 ^ e
    let r := n % 2 ^ e
    let half := 2 ^ (e - 1)
    if half < r ∨ (r = half ∧ q % 2 = 1) then (q + 1) * 2 ^ e else q * 2 ^ e

/-- The emission both single-hit kernels end with, for the selected hit `hit` standing at
entry `hit_id` of the store `deque` of read `read_id`: pop the front row of the hit, allocate
a slot with `alloc( scoring_queues.active_reads.out_size, .. )` (modelled from the spec as an
atomic bump: the slot is the counter, which is incremented), and write the active read and
the hit at that slot. -/
def emit_hit (read_id top_flag : Nat) (deque : HitDeque) (hit_id : Nat) (hit : SeedHit)
    (st : SelectState) : SelectState :=
  let sa_pos := hit.pop_front.1
  let hit1 := hit.pop_front.2
  let r_type := if hit1.readtype then 1 else 0
  let slot := st.out_size
  { st with
    hits := store st.hits read_id { deque with data := deque.data.set hit_id hit1 }
    out_size := st.out_size + 1
    out_queue := store st.out_queue slot { read_id := read_id, top_flag := top_flag }
    hit_queue := store st.hit_queue slot
      { read_id := read_id, loc := sa_pos,
        seed := { pos_in_read := hit1.posinread, index_dir := hit1.indexdir, rc := r_type,
                  top_flag := top_flag } } }

/-- The kernel `select_kernel`, as run by the thread `thread_id`; `stop` is `context.stop`,
and `scoring_queues.active_read_count()` is the length `in_size` of the input queue (modelled
from the spec, as is the entry `active_read( thread_id )`, which is `in_queue thread_id`). -/
def select_kernel (stop : Nat → Bool) (thread_id : Nat) (st : SelectState) : SelectState :=
  if thread_id ≥ st.in_size then st
  else
    let read_info := st.in_queue thread_id
    let read_id := read_info.read_id
    let top_flag := read_info.top_flag
    if stop read_id then st
    else
      let hit_deque := st.hits read_id
      match hit_deque.data with
      | [] => st
      | hit :: rest =>
        if hit.range_x ≥ hit.range_y then
          let popped : HitDeque := { hit_deque with data := rest }
          match rest with
          | [] => { st with hits := store st.hits read_id popped }
          | hit2 :: _ => emit_hit read_id 0 popped 0 hit2 st
        else
          emit_hit read_id top_flag hit_deque 0 hit st

/-- The emission of `rand_select_kernel`: as `emit_hit`, and when the range of the selected
hit became empty its weight is set to zero with `prob_tree.set( hit_id, 0.0f )`. -/
def emit_rand_hit (T : SumTreeOps) (read_id top_flag : Nat) (deque : HitDeque) (hit_id : Nat)
    (hit : SeedHit) (st : SelectState) : SelectState :=
  let hit1 := hit.pop_front.2
  let deque1 : HitDeque :=
    if hit1.range_x ≥ hit1.range_y then
      { deque with probs := T.set deque.data.length deque.probs hit_id 0 }
    else deque
  emit_hit read_id top_flag deque1 hit_id hit st

/-- The kernel `rand_select_kernel`, as run by the thread `thread_id`.  The quotient
`rf = float(ri) / float(0xFFFFFFFFu)` is handed to `sample` as the pair of its numerator and
its denominator; an index `hit_id` outside the store reads as a hit with an empty range. -/
def rand_select_kernel (T : SumTreeOps) (stop : Nat → Bool) (thread_id : Nat)
    (st : SelectState) : SelectState :=
  if thread_id ≥ st.in_size then st
  else
    let read_info := st.in_queue thread_id
    let read_id := read_info.read_id
    let top_flag0 := read_info.top_flag
    if stop read_id then st
    else
      let hit_deque := st.hits read_id
      if hit_deque.data.length = 0 then st
      else
        let hits_data := hit_deque.data
        let top_flag :=
          if top_flag0 ≠ 0 then
            if (hits_data.getD 0 default).range_x ≥ (hits_data.getD 0 default).range_y then 0
            else top_flag0
          else top_flag0
        if top_flag ≠ 0 then
          emit_rand_hit T read_id top_flag hit_deque 0 (hits_data.getD 0 default) st
        else
          if SumTree.sum hits_data.length hit_deque.probs ≤ 0 then
            { st with hits := store st.hits read_id hit_deque.erase }
          else
            let ri := (1664525 * st.rseeds read_id + 1013904223) % 4294967296
            let st1 := { st with rseeds := store st.rseeds read_id ri }
            let rf := (float_of_uint32 ri, float_of_uint32 4294967295)
            let hit_id := T.sample hits_data.length hit_deque.probs rf
            let hit := hits_data.getD hit_id default
            if hit.range_x ≥ hit.range_y then st1
            else emit_rand_hit T read_id top_flag hit_deque hit_id hit st1

/-- The local variables of the loop of `select_multi_kernel` together with the shared
state. -/
structure MultiLoop where
  active : Bool
  parent : Nat
  n_selected_hits : Nat
  top_flag : Nat
  st : SelectState

/-- One iteration of the loop of `select_multi_kernel` (the branch taken by the build, after
`#else`) for the read `read_id`.  The case of an empty store in an active thread does not
arise (the store is non-empty when the loop is entered and the thread goes idle as soon as it
empties); there the thread goes idle. -/
def select_multi_step (read_id : Nat) (s : MultiLoop) : MultiLoop :=
  let s1 : MultiLoop :=
    if s.active then
      let hit_deque := s.st.hits read_id
      match hit_deque.data with
      | [] => { s with active := false }
      | hit :: rest =>
        if hit.range_x ≥ hit.range_y then
          let st1 := { s.st with hits := store s.st.hits read_id { hit_deque with data := rest } }
          if rest.length = 0 then { s with active := false, st := st1 }
          else { s with top_flag := 0, st := st1 }
        else s
    else s
  if s1.active then
    let s2 : MultiLoop :=
      if s1.parent = 4294967295 then
        { s1 with parent := s1.st.out_size,
                  st := { s1.st with out_size := s1.st.out_size + 1 } }
      else s1
    let hit_deque := s2.st.hits read_id
    let hit := hit_deque.data.getD 0 default
    let sa_pos := hit.pop_front.1
    let hit1 := hit.pop_front.2
    let r_type := if hit1.readtype then 1 else 0
    let slot := s2.st.hits_pool
    { s2 with
      n_selected_hits := s2.n_selected_hits + 1
      st := { s2.st with
        hits := store s2.st.hits read_id { hit_deque with data := hit_deque.data.set 0 hit1 }
        hits_pool := s2.st.hits_pool + 1
        hits_index := store s2.st.hits_index s2.parent
          (store (s2.st.hits_index s2.parent) s2.n_selected_hits slot)
        hit_queue := store s2.st.hit_queue slot
          { read_id := read_id, loc := sa_pos,
            seed := { pos_in_read := hit1.posinread, index_dir := hit1.indexdir, rc := r_type,
                      top_flag := s2.top_flag } } } }
  else s1

/-- The loop `for (i = 0; i < n_multi && __any(active); ++i)` of `select_multi_kernel`, for
one thread: an iteration of an idle thread changes nothing, so the thread runs `n_multi`
iterations whatever the other threads of its warp do. -/
def select_multi_loop (read_id : Nat) : Nat → MultiLoop → MultiLoop
  | 0, s => s
  | n + 1, s => select_multi_loop read_id n (select_multi_step read_id s)

/-- The kernel `select_multi_kernel`, as run by the thread `thread_id`.  Modelled from the
spec: `ReadHitsBinder` (not among the sources) binds hit `i` of the parent to a slot of the
hit queue (`hits_index`), `set_read_info` writes the parent entry of the output queue and
`resize` records the number of hits of the parent (`hits_count`). -/
def select_multi_kernel (stop : Nat → Bool) (n_multi : Nat) (thread_id : Nat)
    (st : SelectState) : SelectState :=
  if thread_id ≥ st.in_size then st
  else
    let read_info := st.in_queue thread_id
    let read_id := read_info.read_id
    let top_flag := read_info.top_flag
    if stop read_id then st
    else
      if (st.hits read_id).data.length = 0 then st
      else
        let s := select_multi_loop read_id n_multi
          { active := true, parent := 4294967295, n_selected_hits := 0, top_flag := top_flag,
            st := st }
        if s.parent ≠ 4294967295 then
          { s.st with
            out_queue := store s.st.out_queue s.parent
              { read_id := read_id, top_flag := s.top_flag }
            hits_count := store s.st.hits_count s.parent s.n_selected_hits }
        else s.st

/-- A kernel launch `kernel<<<blocks, BLOCKDIM>>>`: the threads `0 .. blocks*BLOCKDIM - 1` run
one after the other, in the order `sched` puts them in. -/
def launch (kernel : Nat → SelectState → SelectState) (sched : List Nat → List Nat)
    (blocks BLOCKDIM : Nat) (st : SelectState) : SelectState :=
  (sched (List.range (blocks * BLOCKDIM))).foldl (fun s thread_id => kernel thread_id s) st

/-- The number of blocks `(in_size + BLOCKDIM-1) / BLOCKDIM` of the three host functions. -/
def select_blocks (BLOCKDIM in_size : Nat) : Nat :=
  ((in_size + BLOCKDIM - 1) % 4294967296) / BLOCKDIM

/-- The host function `select` with five arguments (deterministic single-hit selection). -/
def select_single (stop : Nat → Bool) (sched : List Nat → List Nat) (BLOCKDIM : Nat)
    (st : SelectState) : SelectState :=
  launch (select_kernel stop) sched (select_blocks BLOCKDIM st.in_size) BLOCKDIM st

/-- The host function `rand_select`. -/
def rand_select (T : SumTreeOps) (stop : Nat → Bool) (sched : List Nat → List Nat)
    (BLOCKDIM : Nat) (st : SelectState) : SelectState :=
  launch (rand_select_kernel T stop) sched (select_blocks BLOCKDIM st.in_size) BLOCKDIM st

/-- The host function `select_multi`. -/
def select_multi (stop : Nat → Bool) (sched : List Nat → List Nat) (BLOCKDIM : Nat)
    (n_multi : Nat) (st : SelectState) : SelectState :=
  launch (select_multi_kernel stop n_multi) sched (select_blocks BLOCKDIM st.in_size) BLOCKDIM
    st

/-- The host function `select` with seven arguments, the entry point of the selection;
`randomized` is `params.randomized`. -/
def select (T : SumTreeOps) (stop : Nat → Bool) (sched : List Nat → List Nat) (BLOCKDIM : Nat)
    (n_multi : Nat) (randomized : Bool) (st : SelectState) : SelectState :=
  if n_multi > 1 then select_multi stop sched BLOCKDIM n_multi st
  else if randomized then rand_select T stop sched BLOCKDIM st
  else select_single stop sched BLOCKDIM st

/-- A state at the start of a round, built from the entries of the input queue and from the
hit stores of the reads `0, 1, ..`: empty output queues, every seed equal to `seed` and every
store with the sum-tree cells `probs`. -/
def select_state (queue : List packed_read) (stores : List (List SeedHit)) (probs : Nat → Int)
    (seed : Nat) : SelectState :=
  { hits := fun r => { data := stores.getD r [], probs := probs },
    rseeds := fun _ => seed,
    in_size := queue.length,
    in_queue := fun t => queue.getD t default,
    out_size := 0,
    out_queue := fun _ => default,
    hit_queue := fun _ => default,
    hits_pool := 0,
    hits_count := fun _ => 0,
    hits_index := fun _ _ => 0 }

/-- The number of rows the hits of a store still hold. -/
def remaining_rows (data : List SeedHit) : Nat :=
  (data.map (fun hit => hit.range_y - hit.range_x)).sum

/-- The hits batched selection takes from a store, as the specification describes them (a
definition that follows the specification, to be compared with `select_multi_kernel`): up to
`n` times, discard the top hit when it is exhausted (stopping when the store is then empty,
clearing the top flag otherwise) and pop the front row of the top hit.  The result lists the
popped rows, each with the hit it was taken from and the top flag at that moment, and gives
the store left and the final top flag. -/
def multi_pops : Nat → List SeedHit → Nat → List (Nat × SeedHit × Nat) × List SeedHit × Nat
  | 0, data, tf => ([], data, tf)
  | _ + 1, [], tf => ([], [], tf)
  | n + 1, hit :: rest, tf =>
    if hit.range_x ≥ hit.range_y then
      match rest with
      | [] => ([], [], tf)
      | hit2 :: rest2 =>
        ((hit2.range_x, hit2, 0) :: (multi_pops n (hit2.pop_front.2 :: rest2) 0).1,
         (multi_pops n (hit2.pop_front.2 :: rest2) 0).2.1,
         (multi_pops n (hit2.pop_front.2 :: rest2) 0).2.2)
    else
      ((hit.range_x, hit, tf) :: (multi_pops n (hit.pop_front.2 :: rest) tf).1,
       (multi_pops n (hit.pop_front.2 :: rest) tf).2.1,
       (multi_pops n (hit.pop_front.2 :: rest) tf).2.2)

/-- The entry of the hit queue for a popped row `(row, hit, top_flag)` of read `read_id`. -/
def hit_entry (read_id : Nat) (e : Nat × SeedHit × Nat) : Hit :=
  { read_id := read_id, loc := e.1,
    seed := { pos_in_read := e.2.1.posinread, index_dir := e.2.1.indexdir,
              rc := if e.2.1.readtype then 1 else 0, top_flag := e.2.2 } }

/-- The loop state of `select_multi_kernel` after an iteration that emits the front row of
`hit`, the top of the store `hit :: rest` of the read, with top flag `tf`: the parent slot is
allocated in the first such iteration, a slot of the hit queue in each. -/
def multi_emit (read_id tf : Nat) (hit : SeedHit) (rest : List SeedHit) (s : MultiLoop) :
    MultiLoop :=
  { active := true,
    parent := if s.parent = 4294967295 then s.st.out_size else s.parent,
    n_selected_hits := s.n_selected_hits + 1,
    top_flag := tf,
    st := { s.st with
      out_size := if s.parent = 4294967295 then s.st.out_size + 1 else s.st.out_size
      hits := store s.st.hits read_id
        { (s.st.hits read_id) with data := hit.pop_front.2 :: rest }
      hits_pool := s.st.hits_pool + 1
      hits_index := store s.st.hits_index
        (if s.parent = 4294967295 then s.st.out_size else s.parent)
        (store (s.st.hits_index (if s.parent = 4294967295 then s.st.out_size else s.parent))
          s.n_selected_hits s.st.hits_pool)
      hit_queue := store s.st.hit_queue s.st.hits_pool
        (hit_entry read_id (hit.range_x, hit, tf)) } }

/-- The relation between the state `s` in which the loop of `select_multi_kernel` is entered
for a read and the state `s1` in which it is left, when the loop emits the rows `r.1`, leaves
the store `r.2.1` and the top flag `r.2.2`: the rows are written to consecutive slots of the
hit queue, from the slot the counter `hits_pool` stood at, and bound in order to the parent,
which is allocated if there is a row and no parent yet; nothing else is changed. -/
def multi_loop_post (read_id : Nat) (s : MultiLoop)
    (r : List (Nat × SeedHit × Nat) × List SeedHit × Nat) (s1 : MultiLoop) : Prop :=
  s1.n_selected_hits = s.n_selected_hits + r.1.length ∧
  s1.top_flag = r.2.2 ∧
  s1.st.hits_pool = s.st.hits_pool + r.1.length ∧
  (s1.st.hits read_id).data = r.2.1 ∧
  (s1.st.hits read_id).probs = (s.st.hits read_id).probs ∧
  (∀ q, q ≠ read_id → s1.st.hits q = s.st.hits q) ∧
  s1.parent = (if r.1.length = 0 then s.parent
    else if s.parent = 4294967295 then s.st.out_size else s.parent) ∧
  s1.st.out_size = (if r.1.length = 0 then s.st.out_size
    else if s.parent = 4294967295 then s.st.out_size + 1 else s.st.out_size) ∧
  (∀ i, i < r.1.length →
    s1.st.hit_queue (s.st.hits_pool + i) = hit_entry read_id (r.1.getD i default)) ∧
  (∀ slot, (slot < s.st.hits_pool ∨ s.st.hits_pool + r.1.length ≤ slot) →
    s1.st.hit_queue slot = s.st.hit_queue slot) ∧
  (∀ i, i < r.1.length →
    s1.st.hits_index (if s.parent = 4294967295 then s.st.out_size else s.parent)
      (s.n_selected_hits + i) = s.st.hits_pool + i) ∧
  (∀ p j, (p ≠ (if s.parent = 4294967295 then s.st.out_size else s.parent) ∨
      j < s.n_selected_hits ∨ s.n_selected_hits + r.1.length ≤ j) →
    s1.st.hits_index p j = s.st.hits_index p j) ∧
  s1.st.out_queue = s.st.out_queue ∧ s1.st.hits_count = s.st.hits_count ∧
  s1.st.rseeds = s.st.rseeds ∧ s1.st.in_size = s.st.in_size ∧
  s1.st.in_queue = s.st.in_queue

/-- The effect a thread may have on the active-read queues: the input queue is left as it
was, and either the output queue is left as it was too, or the thread handles an entry of the
input queue, the counter `out_size` grows by one and the one entry written, at the slot the
counter stood at, carries the read id of the entry handled and a top flag that is the flag of
that entry or 0. -/
def queue_effect (thread_id : Nat) (st st1 : SelectState) : Prop :=
  st1.in_size = st.in_size ∧ st1.in_queue = st.in_queue ∧
  ((st1.out_size = st.out_size ∧ st1.out_queue = st.out_queue) ∨
   (thread_id < st.in_size ∧ st1.out_size = st.out_size + 1 ∧
     ∃ tf, (tf = (st.in_queue thread_id).top_flag ∨ tf = 0) ∧
       st1.out_queue = store st.out_queue st.out_size
         { read_id := (st.in_queue thread_id).read_id, top_flag := tf }))

/-! ## Band length (`nvBowtie/bowtie2/cuda/aligner.h`) -/

/-- The loop `while (band_len-1 < max_dist*2+1) band_len *= 2;` of `Aligner::band_length`, in
`uint32` arithmetic; the result is the value of `band_len` when the loop is left, or `none`
when the fuel is exhausted. -/
def band_length_loop : Nat → Nat → Nat → Option Nat
  | 0, _, _ => none
  | fuel + 1, band_len, max_dist =>
    if (band_len + 4294967295) % 4294967296 < (max_dist * 2 + 1) % 4294967296 then
      band_length_loop fuel ((band_len * 2) % 4294967296) max_dist
    else some band_len

/-- The function `Aligner::band_length`.  The loop doubles `band_len` at most 30 times before
the 32-bit value wraps to 0 and the test fails, so the fuel 32 is never exhausted. -/
def band_length (max_dist : Nat) : Option Nat :=
  (band_length_loop 32 4 max_dist).map (fun band_len => (band_len + 4294967295) % 4294967296)

/-! ## Vector arrays (`nvbio/basic/cuda/vector_array.h`)

A pointer into the arena is kept as the offset from `m_arena`, and `NULL` is `none`. -/

/-- The view `DeviceVectorArrayView`: the index table `m_index`, the pool counter `*m_pool`
and the arena size `m_size`. -/
structure DeviceVectorArrayView where
  m_index : Nat → Nat
  m_pool : Nat
  m_size : Nat

/-- The method `DeviceVectorArrayView::alloc`: `atomicAdd` returns the old value of the pool
counter and adds `size` to it, in `uint32` arithmetic. -/
def DeviceVectorArrayView.alloc (v : DeviceVectorArrayView) (index size : Nat) :
    Option Nat × DeviceVectorArrayView :=
  let slot := v.m_pool
  let v1 := { v with m_pool := (v.m_pool + size) % 4294967296 }
  if (slot + size) % 4294967296 ≥ v.m_size then
    (none, { v1 with m_index := store v1.m_index index v.m_size })
  else
    (some slot, { v1 with m_index := store v1.m_index index slot })

/-- The method `DeviceVectorArrayView::slot`. -/
def DeviceVectorArrayView.slot (v : DeviceVectorArrayView) (index : Nat) : Nat :=
  v.m_index index

/-- The method `resize` of a `thrust` vector: the vector is cut or padded with default values
to the length `n`. -/
def vector_resize {α : Type} [Inhabited α] (l : List α) (n : Nat) : List α :=
  l.take n ++ List.replicate (n - l.length) default

/-- The container `DeviceVectorArray`. -/
structure DeviceVectorArray (α : Type) where
  m_arena : List α
  m_index : List Nat
  m_pool : List Nat

/-- The method `DeviceVectorArray::resize`; `sizeof_T` is `sizeof(T)`, and the byte count is
accumulated in `uint64` arithmetic. -/
def DeviceVectorArray.resize {α : Type} [Inhabited α] (sizeof_T : Nat)
    (d : DeviceVectorArray α) (size arena : Nat) (do_alloc : Bool) :
    Nat × DeviceVectorArray α :=
  let bytes := 0
  let d1 := if do_alloc then { d with m_arena := vector_resize d.m_arena arena } else d
  let bytes := (bytes + (sizeof_T * arena) % 18446744073709551616) % 18446744073709551616
  let d2 := if do_alloc then { d1 with m_index := vector_resize d1.m_index size } else d1
  let bytes := (bytes + (4 * size) % 18446744073709551616) % 18446744073709551616
  (bytes, d2)

/-- The method `DeviceVectorArray::device_view`. -/
def DeviceVectorArray.device_view {α : Type} (d : DeviceVectorArray α) : DeviceVectorArrayView :=
  { m_index := fun i => d.m_index.getD i 0,
    m_pool := d.m_pool.getD 0 0,
    m_size := d.m_arena.length % 4294967296 }

/-- The container `HostVectorArray`. -/
structure HostVectorArray (α : Type) where
  m_arena : List α
  m_index : List Nat
  m_pool : List Nat

/-- The method `HostVectorArray::resize`. -/
def HostVectorArray.resize {α : Type} [Inhabited α] (sizeof_T : Nat)
    (d : HostVectorArray α) (size arena : Nat) (do_alloc : Bool) :
    Nat × HostVectorArray α :=
  let bytes := 0
  let d1 := if do_alloc then { d with m_arena := vector_resize d.m_arena arena } else d
  let bytes := (bytes + (sizeof_T * arena) % 18446744073709551616) % 18446744073709551616
  let d2 := if do_alloc then { d1 with m_index := vector_resize d1.m_index size } else d1
  let bytes := (bytes + (4 * size) % 18446744073709551616) % 18446744073709551616
  (bytes, d2)

/-- The method `HostVectorArray::slot`. -/
def HostVectorArray.slot {α : Type} (d : HostVectorArray α) (index : Nat) : Nat :=
  d.m_index.getD index 0

/-! ## Initialisation of the best alignments (`nvBowtie/bowtie2/cuda/aligner.h`) -/

/-- Modelled from the spec: `io::Alignment` (declared in `alignments.h`, not among the
sources) as the constructor `Alignment( pos, ed, score, mate )` fills it: reference position,
edit distance, score and mate id. -/
structure Alignment where
  m_align : Nat
  m_ed : Nat
  m_score : Int
  m_mate : Nat
  deriving DecidableEq, Repr, Inhabited

/-- Modelled from the spec: `io::BestAlignments`, the primary record `m_a1` and the secondary
record `m_a2`. -/
structure BestAlignments where
  m_a1 : Alignment
  m_a2 : Alignment
  deriving DecidableEq, Repr, Inhabited

/-- The method `ReadDataView::get_range`. -/
def get_range (m_read_index : Nat → Nat) (i : Nat) : Nat × Nat :=
  (m_read_index i, m_read_index (i + 1))

/-- The read length `read_range.y - read_range.x` of `init_alignments_kernel`, a `uint32`
difference. -/
def read_length (m_read_index : Nat → Nat) (i : Nat) : Nat :=
  ((get_range m_read_index i).2 + 4294967296 - (get_range m_read_index i).1 % 4294967296)
    % 4294967296

/-- The alignment `io::Alignment( uint32(-1), io::Alignment::max_ed(), worst_score, mate )`;
`max_ed` is the constant `io::Alignment::max_ed()` (declared in a header that is not among
the sources). -/
def worst_alignment (max_ed mate : Nat) (worst_score : Int) : Alignment :=
  { m_align := 4294967295, m_ed := max_ed, m_score := worst_score, m_mate := mate }

/-- The kernel `init_alignments_kernel`, as run by the thread `thread_id`; `size` is
`read_batch.size()` and `m_read_index` the read index of the batch. -/
def init_alignments_kernel (size : Nat) (m_read_index : Nat → Nat) (worst_score_fun : Nat → Int)
    (max_ed mate : Nat) (thread_id : Nat) (best_data : Nat → BestAlignments) :
    Nat → BestAlignments :=
  if thread_id ≥ size then best_data
  else
    let read_len := read_length m_read_index thread_id
    let worst_score := worst_score_fun read_len
    let best : BestAlignments :=
      { m_a1 := worst_alignment max_ed mate worst_score,
        m_a2 := worst_alignment max_ed mate worst_score }
    store best_data thread_id best

/-- A kernel launch `kernel<<<blocks, BLOCKDIM>>>` on any state: the threads
`0 .. blocks*BLOCKDIM - 1` run one after the other, in the order `sched` puts them in. -/
def launch_grid {σ : Type} (kernel : Nat → σ → σ) (sched : List Nat → List Nat)
    (blocks BLOCKDIM : Nat) (st : σ) : σ :=
  (sched (List.range (blocks * BLOCKDIM))).foldl (fun s thread_id => kernel thread_id s) st

/-- The host function `init_alignments`. -/
def init_alignments (size : Nat) (m_read_index : Nat → Nat) (worst_score_fun : Nat → Int)
    (max_ed mate : Nat) (sched : List Nat → List Nat) (BLOCKDIM : Nat)
    (best_data : Nat → BestAlignments) : Nat → BestAlignments :=
  launch_grid (init_alignments_kernel size m_read_index worst_score_fun max_ed mate) sched
    (((size + BLOCKDIM - 1) % 4294967296) / BLOCKDIM) BLOCKDIM best_data

/-! ## Edit-distance scoring (`nvBowtie/bowtie2/cuda/scoring.h`) -/

/-- The scheme `EditDistanceScoringScheme`: its only member is `m_min_score`. -/
structure EditDistanceScoringScheme where
  m_min_score : Int
  deriving DecidableEq, Repr

/-- The constructor `EditDistanceScoringScheme(const Params& params)`, which sets
`m_min_score(-(int32)params.max_dist)`. -/
def EditDistanceScoringScheme.make (max_dist : Nat) : EditDistanceScoringScheme :=
  { m_min_score := to_int32 (-(to_int32 max_dist)) }

/-- The method `EditDistanceScoringScheme::perfect_score`. -/
def EditDistanceScoringScheme.perfect_score (_s : EditDistanceScoringScheme) (_read_len : Nat) :
    Int := 0

/-- The method `EditDistanceScoringScheme::min_score`. -/
def EditDistanceScoringScheme.min_score (s : EditDistanceScoringScheme) (_len : Nat) : Int :=
  to_int32 (s.m_min_score - 1)

/-- The method `EditDistanceScoringScheme::threshold_score`, a constant function of the read
length. -/
def EditDistanceScoringScheme.threshold_score (s : EditDistanceScoringScheme) : Int :=
  s.m_min_score

/-- Modelled from the spec: the costs of the edit-distance aligner (`EditDistanceAligner` is
declared outside the sources), as the scorer sees them: a match scores 0 and every edit
(mismatch, insertion, deletion) scores -1. -/
def edit_distance_scoring : Scoring :=
  { match_ := 0, mismatch := -1, deletion := -1, insertion := -1 }

/-! ## Sum trees (`nvbio/basic/sum_tree.h`)

The header declares `setup`, `add` and `set`; their bodies are in `sum_tree_inl.h`, which is
not among the sources.  The storage holds the `padded_size` leaves first and then the levels of
inner nodes one after the other, the root being the last node, at index
`2 * padded_size - 2`, where `sum()` reads it. -/

/-- Modelled from the spec: the number of levels of inner nodes above the leaves, i.e. the
exponent of `padded_size = next_power_of_two(size)`. -/
def SumTree.levels (size : Nat) : Nat :=
  if size ≤ 1 then 0 else Nat.log2 (size - 1) + 1

/-- Modelled from the spec: one pass of `setup` over a level of `2 * n` nodes starting at
`src`: each of the `n` nodes of the next level, which starts at `dst`, receives the sum of its
two children. -/
def SumTree.setup_level (src dst n : Nat) (cells : Nat → Int) : Nat → Int :=
  (List.range n).foldl
    (fun c i => store c (dst + i) (c (src + 2 * i) + c (src + 2 * i + 1))) cells

/-- Modelled from the spec: the passes of `setup` over the `k` levels above a level of `2^k`
nodes starting at `src`. -/
def SumTree.setup_levels : Nat → Nat → (Nat → Int) → (Nat → Int)
  | 0, _, cells => cells
  | k + 1, src, cells =>
    SumTree.setup_levels k (src + 2 ^ (k + 1))
      (SumTree.setup_level src (src + 2 ^ (k + 1)) (2 ^ k) cells)

/-- Modelled from the spec: `SumTree::setup(zero)`: the padding leaves `size .. padded_size - 1`
are set to `zero`, and every inner node is set to the sum of its two children, level by
level. -/
def SumTree.setup (size : Nat) (cells : Nat → Int) (zero : Int) : Nat → Int :=
  let padded := (List.range (next_power_of_two size)).foldl
    (fun c i => if i < size then c else store c i zero) cells
  SumTree.setup_levels (SumTree.levels size) 0 padded

/-- Modelled from the spec: the walk of `add` from node `j` of a level of `2^k` nodes starting
at `src` up to the root: `v` is added to the node and to each of its ancestors. -/
def SumTree.add_levels (v : Int) : Nat → Nat → Nat → (Nat → Int) → (Nat → Int)
  | 0, src, j, cells => store cells (src + j) (cells (src + j) + v)
  | k + 1, src, j, cells =>
    SumTree.add_levels v k (src + 2 ^ (k + 1)) (j / 2)
      (store cells (src + j) (cells (src + j) + v))

/-- Modelled from the spec: `SumTree::add(i, v)`, which increments the value of leaf `i` by `v`
and updates all its ancestors. -/
def SumTree.add (size : Nat) (cells : Nat → Int) (i : Nat) (v : Int) : Nat → Int :=
  SumTree.add_levels v (SumTree.levels size) 0 i cells

/-- Modelled from the spec: `SumTree::set(i, v)`, which resets the value of leaf `i` to `v` and
updates all its ancestors by the difference. -/
def SumTree.set (size : Nat) (cells : Nat → Int) (i : Nat) (v : Int) : Nat → Int :=
  SumTree.add size cells i (v - cells i)

/-- An update of a sum tree: `add(i, v)` or `set(i, v)`. -/
inductive SumTreeOp where
  | add (i : Nat) (v : Int)
  | set (i : Nat) (v : Int)
  deriving DecidableEq, Repr

/-- The leaf an update addresses. -/
def SumTreeOp.index : SumTreeOp → Nat
  | SumTreeOp.add i _ => i
  | SumTreeOp.set i _ => i

/-- An update applied to the storage of the tree over `size` leaves. -/
def SumTreeOp.apply (size : Nat) (cells : Nat → Int) : SumTreeOp → (Nat → Int)
  | SumTreeOp.add i v => SumTree.add size cells i v
  | SumTreeOp.set i v => SumTree.set size cells i v

/-- The leaf values an update is meant to leave (a definition that follows the
specification): `add(i, v)` increments leaf `i` by `v`, `set(i, v)` makes it `v`, and the
other leaves keep their values. -/
def SumTreeOp.leaves (leaf : Nat → Int) : SumTreeOp → (Nat → Int)
  | SumTreeOp.add i v => store leaf i (leaf i + v)
  | SumTreeOp.set i v => store leaf i v

/-- The sum `f 0 + ... + f (n-1)`. -/
def range_sum (f : Nat → Int) (n : Nat) : Int :=
  ((List.range n).map f).sum

/-- The invariant of the storage above a level of `2^k` nodes starting at `src`: every inner
node holds the sum of its two children. -/
def SumTree.consistent : Nat → Nat → (Nat → Int) → Prop
  | 0, _, _ => True
  | k + 1, src, cells =>
    (∀ i, i < 2 ^ k →
      cells (src + 2 ^ (k + 1) + i) = cells (src + 2 * i) + cells (src + 2 * i + 1)) ∧
    SumTree.consistent k (src + 2 ^ (k + 1)) cells

/-! ## Packed streams over 32-bit words (`nvbio/basic/packedstream_inl.h`)

A stream is a total map from word indices to words; a word read from the stream is a `uint32`,
and the arithmetic on words is that of `uint32`.  A symbol index is taken to be representable
in the index type, so that `index_type( bit_idx >> 5u )` is `bit_idx >> 5u`, and a symbol to
fit the `Symbol` type, so that the conversion `Symbol( symbol )` is the identity. -/

/-- The helper `is_pow2<N>()` (declared in a header that is not among the sources): whether
`N` is a power of two. -/
def is_pow2 (n : Nat) : Bool :=
  n != 0 && (n &&& (n - 1)) == 0

/-- The function `packer<BIG_ENDIAN_T,SYMBOL_SIZE,Symbol,InputStream,IndexType,uint32>::get_symbol`. -/
def packer_uint32.get_symbol (BIG_ENDIAN_T : Bool) (SYMBOL_SIZE : Nat) (stream : Nat → Nat)
    (sym_idx : Nat) : Nat :=
  let SYMBOL_COUNT := (1 <<< SYMBOL_SIZE) % 4294967296
  let SYMBOL_MASK := (SYMBOL_COUNT + 4294967295) % 4294967296
  let bit_idx := (sym_idx * SYMBOL_SIZE) % 18446744073709551616
  let word_idx := bit_idx >>> 5
  if is_pow2 SYMBOL_SIZE then
    let word := stream word_idx % 4294967296
    let symbol_offset :=
      if BIG_ENDIAN_T then (4294967328 - SYMBOL_SIZE - (bit_idx &&& 31)) % 4294967296
      else bit_idx &&& 31
    let symbol := (word >>> symbol_offset) &&& SYMBOL_MASK
    symbol
  else
    let word1 := stream word_idx % 4294967296
    let symbol_offset := bit_idx &&& 31
    let symbol1 := (word1 >>> symbol_offset) &&& SYMBOL_MASK
    let read_bits := min (32 - symbol_offset) SYMBOL_SIZE
    let rem_bits := SYMBOL_SIZE - read_bits
    if rem_bits ≠ 0 then
      let rem_mask := ((1 <<< rem_bits) % 4294967296 + 4294967295) % 4294967296
      let word2 := stream (word_idx + 1) % 4294967296
      let symbol2 := word2 &&& rem_mask
      symbol1 ||| ((symbol2 <<< read_bits) % 4294967296)
    else symbol1

/-- The function `packer<BIG_ENDIAN_T,SYMBOL_SIZE,Symbol,InputStream,IndexType,uint32>::set_symbol`;
the result is the stream after the call. -/
def packer_uint32.set_symbol (BIG_ENDIAN_T : Bool) (SYMBOL_SIZE : Nat) (stream : Nat → Nat)
    (sym_idx : Nat) (sym : Nat) : Nat → Nat :=
  let SYMBOL_COUNT := (1 <<< SYMBOL_SIZE) % 4294967296
  let SYMBOL_MASK := (SYMBOL_COUNT + 4294967295) % 4294967296
  let bit_idx := (sym_idx * SYMBOL_SIZE) % 18446744073709551616
  let word_idx := bit_idx >>> 5
  if is_pow2 SYMBOL_SIZE then
    let word := stream word_idx % 4294967296
    let symbol_offset :=
      if BIG_ENDIAN_T then (4294967328 - SYMBOL_SIZE - (bit_idx &&& 31)) % 4294967296
      else bit_idx &&& 31
    let symbol := ((sym &&& SYMBOL_MASK) <<< symbol_offset) % 4294967296
    let word := word &&& (4294967295 ^^^ ((SYMBOL_MASK <<< symbol_offset) % 4294967296))
    store stream word_idx (word ||| symbol)
  else
    let word1 := stream word_idx % 4294967296
    let symbol_offset := bit_idx &&& 31
    let symbol1 := ((sym &&& SYMBOL_MASK) <<< symbol_offset) % 4294967296
    let word1 := word1 &&& (4294967295 ^^^ ((SYMBOL_MASK <<< symbol_offset) % 4294967296))
    let stream1 := store stream word_idx (word1 ||| symbol1)
    let read_bits := min (32 - symbol_offset) SYMBOL_SIZE
    let rem_bits := SYMBOL_SIZE - read_bits
    if rem_bits ≠ 0 then
      let word2 := stream1 (word_idx + 1) % 4294967296
      let symbol2 := ((sym &&& SYMBOL_MASK) % 4294967296) >>> read_bits
      let rem_mask := ((1 <<< rem_bits) % 4294967296 + 4294967295) % 4294967296
      let word2 := word2 &&& (4294967295 ^^^ rem_mask)
      store stream1 (word_idx + 1) (word2 ||| symbol2)
    else stream1

/-- The function `packer<BIG_ENDIAN_T,2u,Symbol,InputStream,IndexType,uint32>::get_symbol`. -/
def packer_2u_uint32.get_symbol (BIG_ENDIAN_T : Bool) (stream : Nat → Nat) (sym_idx : Nat) :
    Nat :=
  let SYMBOL_MASK := 3
  let word_idx := sym_idx >>> 4
  let word := stream word_idx % 4294967296
  let symbol_offset :=
    if BIG_ENDIAN_T then (4294967326 - (((sym_idx &&& 15) <<< 1) % 4294967296)) % 4294967296
    else ((sym_idx &&& 15) <<< 1) % 4294967296
  let symbol := (word >>> symbol_offset) &&& SYMBOL_MASK
  symbol

/-- The function `packer<BIG_ENDIAN_T,2u,Symbol,InputStream,IndexType,uint32>::set_symbol`. -/
def packer_2u_uint32.set_symbol (BIG_ENDIAN_T : Bool) (stream : Nat → Nat) (sym_idx : Nat)
    (sym : Nat) : Nat → Nat :=
  let SYMBOL_MASK := 3
  let word_idx := sym_idx >>> 4
  let word := stream word_idx % 4294967296
  let symbol_offset :=
    if BIG_ENDIAN_T then (4294967326 - (((sym_idx &&& 15) <<< 1) % 4294967296)) % 4294967296
    else ((sym_idx &&& 15) <<< 1) % 4294967296
  let symbol := ((sym &&& SYMBOL_MASK) <<< symbol_offset) % 4294967296
  let word := word &&& (4294967295 ^^^ ((SYMBOL_MASK <<< symbol_offset) % 4294967296))
  store stream word_idx (word ||| symbol)

/-- The function `packer<BIG_ENDIAN_T,4u,Symbol,InputStream,IndexType,uint32>::get_symbol`. -/
def packer_4u_uint32.get_symbol (BIG_ENDIAN_T : Bool) (stream : Nat → Nat) (sym_idx : Nat) :
    Nat :=
  let SYMBOL_MASK := 15
  let word_idx := sym_idx >>> 3
  let word := stream word_idx % 4294967296
  let symbol_offset :=
    if BIG_ENDIAN_T then (4294967324 - (((sym_idx &&& 7) <<< 2) % 4294967296)) % 4294967296
    else ((sym_idx &&& 7) <<< 2) % 4294967296
  let symbol := (word >>> symbol_offset) &&& SYMBOL_MASK
  symbol

/-- The function `packer<BIG_ENDIAN_T,4u,Symbol,InputStream,IndexType,uint32>::set_symbol`. -/
def packer_4u_uint32.set_symbol (BIG_ENDIAN_T : Bool) (stream : Nat → Nat) (sym_idx : Nat)
    (sym : Nat) : Nat → Nat :=
  let SYMBOL_MASK := 15
  let word_idx := sym_idx >>> 3
  let word := stream word_idx % 4294967296
  let symbol_offset :=
    if BIG_ENDIAN_T then (4294967324 - (((sym_idx &&& 7) <<< 2) % 4294967296)) % 4294967296
    else ((sym_idx &&& 7) <<< 2) % 4294967296
  let symbol := ((sym &&& SYMBOL_MASK) <<< symbol_offset) % 4294967296
  let word := word &&& (4294967295 ^^^ ((SYMBOL_MASK <<< symbol_offset) % 4294967296))
  store stream word_idx (word ||| symbol)

/-- The bit `p` of a stream of 32-bit words, the bits numbered from the least significant bit
of word 0. -/
def stream_bit (stream : Nat → Nat) (p : Nat) : Bool :=
  Nat.testBit (stream (p / 32) % 4294967296) (p % 32)

/-- Reading one field of a word: `(word >> symbol_offset) & mask` with `mask = 2^S - 1`. -/
def word_get (S : Nat) (stream : Nat → Nat) (word_idx symbol_offset : Nat) : Nat :=
  ((stream word_idx % 4294967296) >>> symbol_offset) &&& (2 ^ S - 1)

/-- Writing one field of a word: the bits under `mask << symbol_offset` are cleared and the
masked symbol is put in their place. -/
def word_set (S : Nat) (stream : Nat → Nat) (word_idx symbol_offset sym : Nat) : Nat → Nat :=
  store stream word_idx
    (((stream word_idx % 4294967296) &&&
        (4294967295 ^^^ (((2 ^ S - 1) <<< symbol_offset) % 4294967296))) |||
      (((sym &&& (2 ^ S - 1)) <<< symbol_offset) % 4294967296))

/-- Reading a field that may continue in the next word: the low `read_bits` bits come from the
word `word_idx` and the remaining `rem_bits` bits from the word `word_idx + 1`. -/
def words_get (S : Nat) (stream : Nat → Nat) (word_idx symbol_offset : Nat) : Nat :=
  if S - min (32 - symbol_offset) S ≠ 0 then
    word_get S stream word_idx symbol_offset |||
      ((((stream (word_idx + 1) % 4294967296) &&& (2 ^ (S - min (32 - symbol_offset) S) - 1))
        <<< min (32 - symbol_offset) S) % 4294967296)
  else word_get S stream word_idx symbol_offset

/-- Writing a field that may continue in the next word. -/
def words_set (S : Nat) (stream : Nat → Nat) (word_idx symbol_offset sym : Nat) : Nat → Nat :=
  if S - min (32 - symbol_offset) S ≠ 0 then
    store (word_set S stream word_idx symbol_offset sym) (word_idx + 1)
      (((word_set S stream word_idx symbol_offset sym (word_idx + 1) % 4294967296) &&&
          (4294967295 ^^^ (2 ^ (S - min (32 - symbol_offset) S) - 1))) |||
        (((sym &&& (2 ^ S - 1)) % 4294967296) >>> min (32 - symbol_offset) S))
  else word_set S stream word_idx symbol_offset sym

/-- The offset of symbol `sym_idx` inside its first word: `bit_idx & 31`, or for a big-endian
stream of symbols of a power-of-two size `32 - SYMBOL_SIZE - (bit_idx & 31)`. -/
def symbol_offset (BIG_ENDIAN_T : Bool) (SYMBOL_SIZE sym_idx : Nat) : Nat :=
  if BIG_ENDIAN_T = true ∧ is_pow2 SYMBOL_SIZE = true then
    32 - SYMBOL_SIZE - (sym_idx * SYMBOL_SIZE) % 32
  else (sym_idx * SYMBOL_SIZE) % 32

/-! ## Packed streams over 64-bit and 8-bit words (`nvbio/basic/packedstream_inl.h`) -/

/-- The function `packer<BIG_ENDIAN_T,SYMBOL_SIZE,Symbol,InputStream,IndexType,uint64>::get_symbol`.
In the branch for sizes that are not powers of two the first word is read into the 32-bit
variable `const uint32 word1`; the shift `word1 >> symbol_offset` of that 32-bit value by 32 or
more, which C++ leaves undefined, is taken with the shift count modulo 32, as the shift
instruction of the host does. -/
def packer_uint64.get_symbol (BIG_ENDIAN_T : Bool) (SYMBOL_SIZE : Nat) (stream : Nat → Nat)
    (sym_idx : Nat) : Nat :=
  let SYMBOL_COUNT := (1 <<< SYMBOL_SIZE) % 4294967296
  let SYMBOL_MASK := (SYMBOL_COUNT + 4294967295) % 4294967296
  let bit_idx := (sym_idx * SYMBOL_SIZE) % 18446744073709551616
  let word_idx := bit_idx >>> 6
  if is_pow2 SYMBOL_SIZE then
    let word := stream word_idx % 18446744073709551616
    let symbol_offset :=
      if BIG_ENDIAN_T then (4294967360 - SYMBOL_SIZE - (bit_idx &&& 63)) % 4294967296
      else bit_idx &&& 63
    let symbol := ((word >>> symbol_offset) &&& SYMBOL_MASK) % 4294967296
    symbol
  else
    let word1 := (stream word_idx % 18446744073709551616) % 4294967296
    let symbol_offset := bit_idx &&& 63
    let symbol1 := ((word1 >>> (symbol_offset % 32)) &&& SYMBOL_MASK) % 4294967296
    let read_bits := min (64 - symbol_offset) SYMBOL_SIZE
    let rem_bits := SYMBOL_SIZE - read_bits
    if rem_bits ≠ 0 then
      let rem_mask := ((1 <<< rem_bits) % 18446744073709551616 + 18446744073709551615)
        % 18446744073709551616
      let word2 := stream (word_idx + 1) % 18446744073709551616
      let symbol2 := (word2 &&& rem_mask) % 4294967296
      symbol1 ||| ((symbol2 <<< read_bits) % 4294967296)
    else symbol1

/-- The function `packer<BIG_ENDIAN_T,SYMBOL_SIZE,Symbol,InputStream,IndexType,uint64>::set_symbol`;
the result is the stream after the call.  In the branch for sizes that are not powers of two
the second word is read into the 32-bit variable `uint32 word2`. -/
def packer_uint64.set_symbol (BIG_ENDIAN_T : Bool) (SYMBOL_SIZE : Nat) (stream : Nat → Nat)
    (sym_idx : Nat) (sym : Nat) : Nat → Nat :=
  let SYMBOL_COUNT := (1 <<< SYMBOL_SIZE) % 4294967296
  let SYMBOL_MASK := (SYMBOL_COUNT + 4294967295) % 4294967296
  let bit_idx := (sym_idx * SYMBOL_SIZE) % 18446744073709551616
  let word_idx := bit_idx >>> 6
  if is_pow2 SYMBOL_SIZE then
    let word := stream word_idx % 18446744073709551616
    let symbol_offset :=
      if BIG_ENDIAN_T then (4294967360 - SYMBOL_SIZE - (bit_idx &&& 63)) % 4294967296
      else bit_idx &&& 63
    let symbol := ((sym &&& SYMBOL_MASK) <<< symbol_offset) % 18446744073709551616
    let word := word &&&
      (18446744073709551615 ^^^ ((SYMBOL_MASK <<< symbol_offset) % 18446744073709551616))
    store stream word_idx (word ||| symbol)
  else
    let word1 := stream word_idx % 18446744073709551616
    let symbol_offset := bit_idx &&& 63
    let symbol1 := ((sym &&& SYMBOL_MASK) <<< symbol_offset) % 18446744073709551616
    let word1 := word1 &&&
      (18446744073709551615 ^^^ ((SYMBOL_MASK <<< symbol_offset) % 18446744073709551616))
    let stream1 := store stream word_idx (word1 ||| symbol1)
    let read_bits := min (64 - symbol_offset) SYMBOL_SIZE
    let rem_bits := SYMBOL_SIZE - read_bits
    if rem_bits ≠ 0 then
      let word2 := (stream1 (word_idx + 1) % 18446744073709551616) % 4294967296
      let symbol2 := ((sym &&& SYMBOL_MASK) % 18446744073709551616) >>> read_bits
      let rem_mask := ((1 <<< rem_bits) % 18446744073709551616 + 18446744073709551615)
        % 18446744073709551616
      let word2 := (word2 &&& (18446744073709551615 ^^^ rem_mask)) % 4294967296
      store stream1 (word_idx + 1) (word2 ||| symbol2)
    else stream1

/-- The function `packer<BIG_ENDIAN_T,2u,Symbol,InputStream,IndexType,uint64>::get_symbol`. -/
def packer_2u_uint64.get_symbol (BIG_ENDIAN_T : Bool) (stream : Nat → Nat) (sym_idx : Nat) :
    Nat :=
  let SYMBOL_MASK := 3
  let word_idx := sym_idx >>> 5
  let word := stream word_idx % 18446744073709551616
  let symbol_offset :=
    (if BIG_ENDIAN_T then
      (18446744073709551678 - (((sym_idx &&& 31) <<< 1) % 18446744073709551616))
        % 18446744073709551616
    else ((sym_idx &&& 31) <<< 1) % 18446744073709551616) % 4294967296
  let symbol := (word >>> symbol_offset) &&& SYMBOL_MASK
  symbol

/-- The function `packer<BIG_ENDIAN_T,2u,Symbol,InputStream,IndexType,uint64>::set_symbol`. -/
def packer_2u_uint64.set_symbol (BIG_ENDIAN_T : Bool) (stream : Nat → Nat) (sym_idx : Nat)
    (sym : Nat) : Nat → Nat :=
  let SYMBOL_MASK := 3
  let word_idx := sym_idx >>> 5
  let word := stream word_idx % 18446744073709551616
  let symbol_offset :=
    (if BIG_ENDIAN_T then
      (18446744073709551678 - (((sym_idx &&& 31) <<< 1) % 18446744073709551616))
        % 18446744073709551616
    else ((sym_idx &&& 31) <<< 1) % 18446744073709551616) % 4294967296
  let symbol := ((sym &&& SYMBOL_MASK) <<< symbol_offset) % 18446744073709551616
  let word := word &&&
    (18446744073709551615 ^^^ ((SYMBOL_MASK <<< symbol_offset) % 18446744073709551616))
  store stream word_idx (word ||| symbol)

/-- The function `packer<BIG_ENDIAN_T,SYMBOL_SIZE,Symbol,InputStream,IndexType,uint8>::get_symbol`.
A word read from the stream is a `uint8`; `8u - SYMBOL_SIZE - uint8(bit_idx & 7u)` is computed
in 32 bits and stored in a `uint8`. -/
def packer_uint8.get_symbol (BIG_ENDIAN_T : Bool) (SYMBOL_SIZE : Nat) (stream : Nat → Nat)
    (sym_idx : Nat) : Nat :=
  let SYMBOL_COUNT := (1 <<< SYMBOL_SIZE) % 256
  let SYMBOL_MASK := (SYMBOL_COUNT + 255) % 256
  let bit_idx := (sym_idx * SYMBOL_SIZE) % 18446744073709551616
  let word_idx := bit_idx >>> 3
  if is_pow2 SYMBOL_SIZE then
    let word := stream word_idx % 256
    let symbol_offset :=
      if BIG_ENDIAN_T then ((4294967304 - SYMBOL_SIZE - (bit_idx &&& 7)) % 4294967296) % 256
      else bit_idx &&& 7
    let symbol := ((word >>> symbol_offset) &&& SYMBOL_MASK) % 256
    symbol
  else
    let word1 := stream word_idx % 256
    let symbol_offset := bit_idx &&& 7
    let symbol1 := ((word1 >>> symbol_offset) &&& SYMBOL_MASK) % 256
    let read_bits := min (8 - symbol_offset) SYMBOL_SIZE
    let rem_bits := SYMBOL_SIZE - read_bits
    if rem_bits ≠ 0 then
      let rem_mask := (((1 <<< rem_bits) % 4294967296 + 4294967295) % 4294967296) % 256
      let word2 := stream (word_idx + 1) % 256
      let symbol2 := (word2 &&& rem_mask) % 256
      symbol1 ||| (symbol2 <<< read_bits)
    else symbol1

/-! ## Decoding of BAM reads (`nvbio/io/reads/bam.cpp`) -/

/-- The function `decode_BAM_bp`: the entry `bp` of the table `"=ACMGRSVTWYHKDBN"`, given by
the codes of its characters and its terminating zero. -/
def decode_BAM_bp (bp : Nat) : Nat :=
  [61, 65, 67, 77, 71, 82, 83, 86, 84, 87, 89, 72, 75, 68, 66, 78, 0].getD bp 0

/-- The number of sequence bytes `ReadDataFile_BAM::nextChunk` reads for a record,
`encoded_read_len = (align.l_seq + 1) / 2`. -/
def encoded_read_len (l_seq : Nat) : Nat :=
  (l_seq + 1) / 2

/-- The buffer `data.decoded_read` of `ReadDataFile_BAM::nextChunk` after the decoding loop:
`l_seq + 1` bytes, `decoded_read[c] = decode_BAM_bp(stream[c])` for `c < l_seq`, where `stream`
is a `PackedStream<uint8*, uint8, 4, true>` over the bytes `encoded_read` (its `operator[]`
is `get`, which calls `get_symbol` of the `uint8` packer), and `decoded_read[l_seq] = 0`. -/
def decoded_read (l_seq : Nat) (encoded_read : Nat → Nat) : List Nat :=
  (List.range l_seq).map (fun c => decode_BAM_bp (packer_uint8.get_symbol true 4 encoded_read c))
    ++ [0]

/-- The length of a null-terminated string held in a buffer: the number of bytes before the
first zero. -/
def strlen (buffer : List Nat) : Nat :=
  (buffer.takeWhile (fun b => b != 0)).length

/-! ## Gap penalties of `SmithWatermanScoringScheme` (`nvBowtie/bowtie2/cuda/scoring.h`) -/

/-- The gap members of `SmithWatermanScoringScheme`: the open and extension penalties of gaps
in the read and in the reference, of type `int`. -/
structure SmithWatermanScoringScheme where
  m_read_gap_const : Int
  m_read_gap_coeff : Int
  m_ref_gap_const : Int
  m_ref_gap_coeff : Int
  deriving DecidableEq, Repr

/-- The method `pattern_gap_open`, `-m_read_gap_const - m_read_gap_coeff` in `int`
arithmetic. -/
def SmithWatermanScoringScheme.pattern_gap_open (s : SmithWatermanScoringScheme) : Int :=
  to_int32 (to_int32 (-s.m_read_gap_const) - s.m_read_gap_coeff)

/-- The method `pattern_gap_extension`. -/
def SmithWatermanScoringScheme.pattern_gap_extension (s : SmithWatermanScoringScheme) : Int :=
  to_int32 (-s.m_read_gap_coeff)

/-- The method `text_gap_open`. -/
def SmithWatermanScoringScheme.text_gap_open (s : SmithWatermanScoringScheme) : Int :=
  to_int32 (to_int32 (-s.m_ref_gap_const) - s.m_ref_gap_coeff)

/-- The method `text_gap_extension`. -/
def SmithWatermanScoringScheme.text_gap_extension (s : SmithWatermanScoringScheme) : Int :=
  to_int32 (-s.m_ref_gap_coeff)

/-- The method `cumulative_insertion`: `m_read_gap_const + m_read_gap_coeff * i` with `i` a
`uint32`, so that the sum is computed modulo `2^32` and converted to `int`. -/
def SmithWatermanScoringScheme.cumulative_insertion (s : SmithWatermanScoringScheme)
    (i : Nat) : Int :=
  to_int32 (s.m_read_gap_const + s.m_read_gap_coeff * (i : Int))

/-- The method `cumulative_deletion`. -/
def SmithWatermanScoringScheme.cumulative_deletion (s : SmithWatermanScoringScheme)
    (i : Nat) : Int :=
  to_int32 (s.m_ref_gap_const + s.m_ref_gap_coeff * (i : Int))

/-! ## Sequences of allocations (`nvbio/basic/cuda/vector_array.h`) -/

/-- The method `DeviceVectorArray::clear`, `m_pool[0] = 0`. -/
def DeviceVectorArray.clear {α : Type} (d : DeviceVectorArray α) : DeviceVectorArray α :=
  { d with m_pool := d.m_pool.set 0 0 }

/-- A sequence of calls `alloc( index, size )` on a view, one after the other: the pointers
returned, in order, and the view left. -/
def alloc_all : DeviceVectorArrayView → List (Nat × Nat) → List (Option Nat) × DeviceVectorArrayView
  | v, [] => ([], v)
  | v, (index, size) :: reqs =>
    ((v.alloc index size).1 :: (alloc_all (v.alloc index size).2 reqs).1,
     (alloc_all (v.alloc index size).2 reqs).2)

/-! ## The reads of `alignment_traceback` (`nvbio/alignment/sw/sw_inl.h`) -/

/-- The indices at which the loop of `alignment_traceback` reads the submatrix, in order: the
loop of `traceback_loop` with the index `current_col * submatrix_height + (current_row-1u)` of
each iteration recorded. -/
def traceback_reads (TYPE : AlignmentType) (submatrix : Nat → Nat) (submatrix_height : Nat) :
    Nat → Int → Int → List Nat → Option (List Nat)
  | 0, _, _, _ => none
  | fuel + 1, current_row, current_col, reads =>
    if current_row > 0 ∧ current_col ≥ 0 then
      let idx := (current_col * submatrix_height + (current_row - 1)).toNat
      let op := submatrix idx
      if TYPE = LOCAL ∧ op = SINK then some (reads ++ [idx])
      else
        traceback_reads TYPE submatrix submatrix_height fuel
          (if op ≠ INSERTION then current_row - 1 else current_row)
          (if op ≠ DELETION then current_col - 1 else current_col)
          (reads ++ [idx])
    else some reads

/-! ## The invariant of the hit stores (`nvBowtie/bowtie2/cuda/select_inl.h`) -/

/-- The condition on the hit stores that deterministic selection relies on: for every read,
every stored hit other than the top one has a non-empty range. -/
def hits_below_top_nonempty (hits : Nat → HitDeque) : Prop :=
  ∀ r hit, hit ∈ (hits r).data.tail → hit.range_x < hit.range_y

/-! ## The pattern indices a block reads (`nvbio/alignment/sw/sw_inl.h`) -/

/-- The indices at which the load of a block into `q_cache` reads `query`, in order:
`block + t` for every `t < BAND_LEN` in the block loop (`CHECK_M = false`), only those with
`block + t < block_end` in the last block, where `block_end = min(block + BAND_LEN, M)`. -/
def query_reads (CHECK_M : Bool) (BAND_LEN M block : Nat) : List Nat :=
  let block_end := min (block + BAND_LEN) M
  ((List.range BAND_LEN).filter
    (fun t => decide (CHECK_M = false ∨ block + t < block_end))).map (fun t => block + t)

/-! ## The scorer on a local column of `int16` (`nvbio/alignment/sw/sw_inl.h`) -/

/-- A row `loc` is held by a store when it lies in the range of one of its hits. -/
def row_in_store (data : List SeedHit) (loc : Nat) : Prop :=
  ∃ hit, hit ∈ data ∧ hit.range_x ≤ loc ∧ loc < hit.range_y

/-- The ranges `[range_x, range_y)` of two hits share no row. -/
def ranges_disjoint (a b : SeedHit) : Bool :=
  decide (a.range_y ≤ a.range_x ∨ b.range_y ≤ b.range_x ∨ a.range_y ≤ b.range_x ∨
    b.range_y ≤ a.range_x)

/-! ## Sum trees over `float` weights (`nvbio/basic/sum_tree.h`)

Seed-hit selection instantiates the tree as `SumTree<float*>`.  A `float` value is written
here as an integer number of units, the unit being a power of two of which all the values at
hand are multiples (`2^-149` for arbitrary finite values, `1` for integer-valued weights).  The
sum of two values is their exact sum rounded to the nearest number with a 24-bit significand,
ties to even; overflow to infinity is not modelled. -/

/-- The number of low bits rounding drops from `n`: the least `e` with `n / 2^e < 2^24`. -/
def float_shift : Nat → Nat → Nat
  | 0, _ => 0
  | fuel + 1, n => if n < 16777216 then 0 else float_shift fuel (n / 2) + 1

/-- The natural number `n` rounded to the nearest number with a 24-bit significand, ties to
even. -/
def float_round_nat (n : Nat) : Nat :=
  let e := float_shift 300 n
  let q := n / 2 ^ e
  let r := n % 2 ^ e
  if 2 ^ e < 2 * r ∨ (2 * r = 2 ^ e ∧ q % 2 = 1) then (q + 1) * 2 ^ e else q * 2 ^ e

/-- The integer `x` rounded to the nearest number with a 24-bit significand, ties to even. -/
def float_round (x : Int) : Int :=
  Int.sign x * (float_round_nat x.natAbs : Int)

/-- The sum of two `float` values. -/
def float_add (a b : Int) : Int := float_round (a + b)

/-- Modelled from the spec: one pass of `setup` over a level, on `float` cells. -/
def SumTree.setup_level_float (src dst n : Nat) (cells : Nat → Int) : Nat → Int :=
  (List.range n).foldl
    (fun c i => store c (dst + i) (float_add (c (src + 2 * i)) (c (src + 2 * i + 1)))) cells

/-- Modelled from the spec: the passes of `setup` over the `k` levels above a level of `2^k`
nodes starting at `src`, on `float` cells. -/
def SumTree.setup_levels_float : Nat → Nat → (Nat → Int) → (Nat → Int)
  | 0, _, cells => cells
  | k + 1, src, cells =>
    SumTree.setup_levels_float k (src + 2 ^ (k + 1))
      (SumTree.setup_level_float src (src + 2 ^ (k + 1)) (2 ^ k) cells)

/-- Modelled from the spec: `SumTree<float*>::setup(zero)`: the padding leaves are set to
`zero`, and every inner node is set to the `float` sum of its two children, level by level. -/
def SumTree.setup_float (size : Nat) (cells : Nat → Int) (zero : Int) : Nat → Int :=
  let padded := (List.range (next_power_of_two size)).foldl
    (fun c i => if i < size then c else store c i zero) cells
  SumTree.setup_levels_float (SumTree.levels size) 0 padded

/-- Modelled from the spec: the walk of `add` from node `j` of a level of `2^k` nodes starting
at `src` up to the root, on `float` cells: `v` is added to the node and to each of its
ancestors, each sum being rounded. -/
def SumTree.add_levels_float (v : Int) : Nat → Nat → Nat → (Nat → Int) → (Nat → Int)
  | 0, src, j, cells => store cells (src + j) (float_add (cells (src + j)) v)
  | k + 1, src, j, cells =>
    SumTree.add_levels_float v k (src + 2 ^ (k + 1)) (j / 2)
      (store cells (src + j) (float_add (cells (src + j)) v))

/-- Modelled from the spec: `SumTree<float*>::add(i, v)`. -/
def SumTree.add_float (size : Nat) (cells : Nat → Int) (i : Nat) (v : Int) : Nat → Int :=
  SumTree.add_levels_float v (SumTree.levels size) 0 i cells

/-- Modelled from the spec: `SumTree<float*>::set(i, v)`, which resets the value of leaf `i`
to `v` and updates all its ancestors by the (rounded) difference. -/
def SumTree.set_float (size : Nat) (cells : Nat → Int) (i : Nat) (v : Int) : Nat → Int :=
  SumTree.add_float size cells i (float_add v (-(cells i)))

/-- An update applied to the `float` storage of the tree over `size` leaves. -/
def SumTreeOp.apply_float (size : Nat) (cells : Nat → Int) : SumTreeOp → (Nat → Int)
  | SumTreeOp.add i v => SumTree.add_float size cells i v
  | SumTreeOp.set i v => SumTree.set_float size cells i v

/-- The value an update carries. -/
def SumTreeOp.value : SumTreeOp → Int
  | SumTreeOp.add _ v => v
  | SumTreeOp.set _ v => v

/-- The leaves are multiples of `2^j` units whose absolute values add up to less than
`2^23 * 2^j` units, so that every sum and difference of sums of leaves is a `float`. -/
def float_exact_leaves (j size : Nat) (leaf : Nat → Int) : Bool :=
  (List.range size).all (fun i => leaf i % 2 ^ j == 0) &&
    decide (range_sum (fun i => |leaf i|) size < 2 ^ 23 * 2 ^ j)

/-- The leaves stay within `float_exact_leaves` along a sequence of updates whose values are
multiples of `2^j` units. -/
def SumTreeOp.float_exact (j size : Nat) : (Nat → Int) → List SumTreeOp → Bool
  | leaf, [] => float_exact_leaves j size leaf
  | leaf, op :: ops =>
    float_exact_leaves j size leaf && (op.value % 2 ^ j == 0) &&
      SumTreeOp.float_exact j size (op.leaves leaf) ops

/-! ## The scorer in 32-bit arithmetic (`nvbio/alignment/sw/sw_inl.h`)

The definitions of `run` and of the functions it calls, with the scores computed in
`score_type = int32` and the column indices in `uint32`, both with wrap-around (the behaviour
of the compiled code; C++ leaves the overflow of `int32` undefined), and with the reads of the
pattern checked against its length.  The definitions without the suffix `32` (`update_cell`,
`update_row`, `first_band`, `load_query`, `score_block`, `early_exit`, `end_block_of`,
`run_blocks`, `run_tail`, `run` and the dispatch functions) compute the same on integers of
unbounded size; the two agree in the range `no_overflow`, see `run32_eq_run_of_no_overflow`. -/

/-- The first band of a block in `int32`: `band[j] = (TYPE != LOCAL) ? G * (block + j) : zero`,
the product being taken in `uint32` and converted to `score_type`. -/
def first_band32 (BAND_LEN : Nat) (TYPE : AlignmentType) (scoring : Scoring) (block : Nat)
    (band : Nat → Int) : Nat → Int :=
  fun j =>
    if j ≤ BAND_LEN then
      (if TYPE ≠ LOCAL then to_int32 (scoring.deletion * (((block + j) % 4294967296 : Nat) : Int))
       else 0)
    else band j

/-- One iteration `j` of the loop "update all cells" of `update_row`, in `int32`. -/
def update_cell32 {σ : Type} (C : Context σ) (TYPE : AlignmentType) (block M i N : Nat)
    (r_i : Nat) (q_cache : Nat → Nat) (V S G I : Int) (st : CellState σ) (j : Nat) :
    CellState σ :=
  let q_j := q_cache (j - 1)
  let S_ij := if r_i = q_j then V else S
  let diagonal := to_int32 (st.prev + S_ij)
  let top := to_int32 (st.band j + G)
  let left := to_int32 (st.band (j - 1) + I)
  let hi := cell_score TYPE top left diagonal
  { context := C.new_cell st.context i N ((block + j - 1) % 4294967296) M hi
      (direction top left diagonal)
    band := store st.band j hi
    prev := st.band j }

/-- The function `update_row<CHECK_M>` in `int32`, with `uint32` coordinates. -/
def update_row32 {σ τ : Type} (CHECK_M : Bool) (C : Context σ) (K : Sink τ) (BAND_LEN : Nat)
    (TYPE : AlignmentType) (block M i N : Nat) (r_i : Nat) (q_cache : Nat → Nat)
    (V S G I : Int) (st : RowState σ τ) : RowState σ τ :=
  let prev := st.temp_i
  let temp_i := st.temp i
  let cs := (List.range' 1 BAND_LEN).foldl
    (update_cell32 C TYPE block M i N r_i q_cache V S G I)
    { context := st.context, band := store st.band 0 temp_i, prev := prev }
  { context := cs.context
    temp := store st.temp i (cs.band BAND_LEN)
    temp_i := temp_i
    band := cs.band
    sink :=
      if TYPE = LOCAL then
        if CHECK_M then
          (List.range' 1 BAND_LEN).foldl
            (fun s j => if (block + j) % 4294967296 ≤ M then
                K.report s (cs.band j) ((i + 1) % 4294967296, (block + j) % 4294967296)
              else s)
            st.sink
        else
          (List.range' 1 BAND_LEN).foldl
            (fun s j => K.report s (cs.band j)
              ((i + 1) % 4294967296, (block + j) % 4294967296)) st.sink
      else if CHECK_M then
        (if TYPE = SEMI_GLOBAL then save_boundary K BAND_LEN block M cs.band i st.sink
         else st.sink)
      else st.sink
    max_score := max st.max_score (cs.band BAND_LEN) }

/-- The load of a block of the query into `q_cache`, `q_cache[t] = query[block + t]`, with the
reads checked: the result is `none` when an index read is not below the length of the query.
Every entry `t < BAND_LEN` is loaded in the block loop (`CHECK_M = false`), only the entries
with `block + t < block_end` in the last block. -/
def load_query32 (CHECK_M : Bool) (BAND_LEN : Nat) (query : List Nat) (block : Nat)
    (q_cache : Nat → Nat) : Option (Nat → Nat) :=
  let block_end := min ((block + BAND_LEN) % 4294967296) query.length
  (List.range BAND_LEN).foldl
    (fun acc t =>
      match acc with
      | none => none
      | some q =>
        if CHECK_M = false ∨ (block + t) % 4294967296 < block_end then
          match query.get? ((block + t) % 4294967296) with
          | none => none
          | some a => some (store q t a)
        else some q)
    (some q_cache)

/-- The body of a block of `run` in 32-bit arithmetic: `none` when a read of the query is out
of range. -/
def score_block32 {σ τ : Type} (CHECK_M : Bool) (C : Context σ) (K : Sink τ) (BAND_LEN : Nat)
    (TYPE : AlignmentType) (scoring : Scoring) (score_min : Int) (query ref : List Nat)
    (block : Nat) (st : RunState σ τ) : Option (RunState σ τ × Int) :=
  let M := query.length
  let N := ref.length
  let context := C.previous_column st.context block N st.temp
  let band := first_band32 BAND_LEN TYPE scoring block st.band
  match load_query32 CHECK_M BAND_LEN query block st.q_cache with
  | none => none
  | some q_cache =>
    let rs := (List.range N).foldl
      (fun rs i => update_row32 CHECK_M C K BAND_LEN TYPE block M i N (ref.getD i 0) q_cache
        scoring.match_ scoring.mismatch scoring.deletion scoring.insertion rs)
      { context := context, temp := st.temp, temp_i := band 0, band := band, sink := st.sink,
        max_score := score_min }
    some ({ context := rs.context, temp := rs.temp, band := rs.band, q_cache := q_cache,
            sink := rs.sink }, rs.max_score)

/-- The early-exit test at the end of a block of the loop of `run`, in 32-bit arithmetic:
`missing_cols = score_type(M - block - BAND_LEN)` with the subtraction in `uint32`, and
`max_score + missing_cols * scoring.match(255) < score_type(min_score)` in `int32`. -/
def early_exit32 (scoring : Scoring) (M BAND_LEN block : Nat) (max_score min_score : Int) :
    Bool :=
  let missing_cols := to_int32 (to_uint32 ((M : Int) - block - BAND_LEN) : Nat)
  decide (to_int32 (max_score + to_int32 (missing_cols * scoring.match_)) < min_score)

/-- The value of `end_block` in `run`, in `uint32`. -/
def end_block_of32 (BAND_LEN M window_end : Nat) : Nat :=
  if window_end = M then
    max BAND_LEN ((BAND_LEN * (((M + BAND_LEN - 1) % 4294967296) / BAND_LEN)) % 4294967296)
  else (window_end + BAND_LEN) % 4294967296

/-- The block loop of `run` in 32-bit arithmetic, `for (block = window_begin;
block + BAND_LEN < end_block; block += BAND_LEN)` with `uint32 block`: `some (false, _)` on an
early exit, `some (true, _)` when the loop condition fails, `none` when a read of the query is
out of range or the fuel is used up. -/
def run_blocks32 {σ τ : Type} (C : Context σ) (K : Sink τ) (BAND_LEN : Nat)
    (TYPE : AlignmentType) (scoring : Scoring) (score_min : Int) (query ref : List Nat)
    (min_score : Int) (end_block : Nat) :
    Nat → Nat → RunState σ τ → Option (Bool × RunState σ τ)
  | 0, _, _ => none
  | fuel + 1, block, st =>
    if (block + BAND_LEN) % 4294967296 < end_block then
      match score_block32 false C K BAND_LEN TYPE scoring score_min query ref block st with
      | none => none
      | some r =>
        if early_exit32 scoring query.length BAND_LEN block r.2 min_score then some (false, r.1)
        else run_blocks32 C K BAND_LEN TYPE scoring score_min query ref min_score end_block
          fuel ((block + BAND_LEN) % 4294967296) r.1
    else some (true, st)

/-- The part of `run` after the block loop, in 32-bit arithmetic: the last block at
`end_block - BAND_LEN` when `window_end == M`, then the report of the last cell for
`GLOBAL`. -/
def run_tail32 {σ τ : Type} (C : Context σ) (K : Sink τ) (BAND_LEN : Nat) (TYPE : AlignmentType)
    (scoring : Scoring) (score_min : Int) (query ref : List Nat) (window_end : Nat)
    (st2 : RunState σ τ) : Option (RunState σ τ) :=
  let M := query.length
  let N := ref.length
  let st3 :=
    if window_end = M then
      (score_block32 true C K BAND_LEN TYPE scoring score_min query ref
        ((end_block_of32 BAND_LEN M window_end + 4294967296 - BAND_LEN) % 4294967296) st2).map
        Prod.fst
    else some st2
  st3.map (fun st3 =>
    if TYPE = GLOBAL then
      { st3 with sink := save_Mth K BAND_LEN M st3.band (to_uint32 ((N : Int) - 1)) st3.sink }
    else st3)

/-- The function `sw_alignment_score_dispatch<BAND_LEN,TYPE,symbol_type>::run` in 32-bit
arithmetic on a column of `int32`: the stores of `context.init` into the column convert to
`int32`.  The fuel `2^32` of the block loop is the number of values `block` can take, so that
the loop returns within it whenever it returns at all. -/
def run32 {σ τ : Type} (C : Context σ) (K : Sink τ) (BAND_LEN : Nat) (TYPE : AlignmentType)
    (scoring : Scoring) (score_min : Int) (query ref : List Nat) (min_score : Int)
    (window_begin window_end : Nat) (st : RunState σ τ) : Option (Bool × RunState σ τ) :=
  let M := query.length
  let N := ref.length
  let st1 :=
    { st with temp := fun i => to_int32 (C.init st.context window_begin N st.temp scoring i) }
  let end_block := end_block_of32 BAND_LEN M window_end
  match run_blocks32 C K BAND_LEN TYPE scoring score_min query ref min_score end_block
      4294967296 window_begin st1 with
  | none => none
  | some (false, st2) => some (false, st2)
  | some (true, st2) =>
    (run_tail32 C K BAND_LEN TYPE scoring score_min query ref window_end st2).map
      (fun st3 => (true, st3))

/-- The function `alignment_score_dispatch::dispatch` across the whole pattern, in 32-bit
arithmetic. -/
def dispatch32 {τ : Type} (K : Sink τ) (BAND_LEN : Nat) (TYPE : AlignmentType)
    (scoring : Scoring) (score_min : Int) (pattern text : List Nat) (min_score : Int)
    (st : RunState Unit τ) : Option (Bool × RunState Unit τ) :=
  run32 (SWScoringContext TYPE) K BAND_LEN TYPE scoring score_min pattern text min_score
    0 pattern.length st

/-- The function `alignment_checkpointed_dispatch::dispatch_submatrix`, in 32-bit arithmetic:
returns the run and the submatrix width. -/
def dispatch_submatrix32 (BAND_LEN CHECKPOINTS : Nat) (TYPE : AlignmentType)
    (scoring : Scoring) (score_min : Int) (pattern text : List Nat) (min_score : Int)
    (checkpoints : Nat → Int) (checkpoint_id : Nat) (submatrix : Nat → Nat)
    (column band : Nat → Int) (q_cache : Nat → Nat) :
    Option (Bool × RunState SubmatrixState Unit) × Nat :=
  let window_begin := (checkpoint_id * CHECKPOINTS) % 4294967296
  let window_end := min ((window_begin + CHECKPOINTS) % 4294967296) pattern.length
  (run32 (SWSubmatrixContext TYPE CHECKPOINTS) NullSink BAND_LEN TYPE scoring score_min pattern
      text min_score window_begin window_end
      { context := { m_checkpoints := checkpoints, m_checkpoint_id := checkpoint_id,
                     m_submatrix := submatrix }
        temp := column, band := band, q_cache := q_cache, sink := () },
   (window_end + 4294967296 - window_begin) % 4294967296)

/-- Modelled from the spec: the caller of `dispatch_submatrix` and `alignment_traceback`, as
`window_traceback`, on the scorer in 32-bit arithmetic. -/
def window_traceback32 (BAND_LEN CHECKPOINTS : Nat) (TYPE : AlignmentType) (scoring : Scoring)
    (score_min : Int) (pattern text : List Nat) (min_score : Int) (checkpoints : Nat → Int)
    (checkpoint_id : Nat) (submatrix : Nat → Nat) (column band : Nat → Int)
    (q_cache : Nat → Nat) (sink : Nat × Nat) : Option (Bool × (Nat × Nat) × List Nat) :=
  match (dispatch_submatrix32 BAND_LEN CHECKPOINTS TYPE scoring score_min pattern text min_score
      checkpoints checkpoint_id submatrix column band q_cache).1 with
  | some (true, st2) =>
    alignment_traceback CHECKPOINTS TYPE checkpoint_id st2.context.m_submatrix text.length
      sink []
  | _ => none

/-- A context instrumented with a log: it behaves as the context `C` and records the argument
`block` of every `previous_column` call, i.e. the blocks a run processes, in order. -/
def LogContext {σ : Type} (C : Context σ) : Context (σ × List Nat) where
  init := fun s j N column scoring => C.init s.1 j N column scoring
  previous_column := fun s j N column => (C.previous_column s.1 j N column, s.2 ++ [j])
  new_cell := fun s i N j M score dir => (C.new_cell s.1 i N j M score dir, s.2)

/-- The largest magnitude of the scores of a scheme. -/
def Scoring.magnitude (scoring : Scoring) : Int :=
  max (max |scoring.match_| |scoring.mismatch|) (max |scoring.insertion| |scoring.deletion|)

/-- A range in which a run over a pattern of `M` symbols and a text of `N` symbols with
blocks of `BAND_LEN` columns involves no wrap-around: the column indices stay below `2^32`,
the number of missing columns converts to `int32` as it is, and every score, every sum of a
score and a cost and the bound of the early-exit test stay within `int32` (a cell of row `i`
and column `j` has a score of magnitude at most `(i + j)` times the largest magnitude of the
scheme).  `score_min` is the least `score_type` value, which `max_score` starts from. -/
def no_overflow (scoring : Scoring) (score_min : Int) (N M BAND_LEN : Nat) : Prop :=
  M + BAND_LEN ≤ 4294967296 ∧ BAND_LEN < 4294967296 ∧ M < 2147483648 ∧ N < 4294967296 ∧
  -2147483648 ≤ score_min ∧ score_min ≤ 0 ∧
  (0 < N ∨ 0 ≤ scoring.match_) ∧
  ((N + 2 * M + BAND_LEN + 1 : Nat) : Int) * scoring.magnitude ≤ 2147483647

instance (scoring : Scoring) (score_min : Int) (N M BAND_LEN : Nat) :
    Decidable (no_overflow scoring score_min N M BAND_LEN) := by
  unfold no_overflow
  exact inferInstance

/-! ## Lemmas and theorems -/

/-! ## Elementary facts -/

theorem store_same {α : Type} (a : Nat → α) (k : Nat) (v : α) : store a k v k = v := by
  simp [store]

theorem store_other {α : Type} (a : Nat → α) (k x : Nat) (v : α) (h : x ≠ k) :
    store a k v x = a x := by
  simp [store, h]

theorem to_int32_of_range (x : Int) (h1 : -2147483648 ≤ x) (h2 : x < 2147483648) :
    to_int32 x = x := by
  unfold to_int32
  omega

theorem to_int32_lt (x : Int) : to_int32 x < 2147483648 := by
  unfold to_int32
  omega

theorem to_uint32_of_range (x : Int) (h1 : 0 ≤ x) (h2 : x < 4294967296) :
    to_uint32 x = x.toNat := by
  unfold to_uint32
  rw [Int.emod_eq_of_lt h1 h2]

/-- A row computed by `dp_next_row` is determined by the recurrence. -/
theorem dp_next_row_eq (TYPE : AlignmentType) (G I : Int) (above : Nat → Int) (left0 : Int)
    (sub : Nat → Int) (f : Nat → Int) (n : Nat) (h0 : f 0 = left0)
    (hrec : ∀ d, d < n → f (d + 1) = cell_score TYPE (above (d + 1) + G) (f d + I)
      (above d + sub d)) :
    ∀ d, d ≤ n → dp_next_row TYPE G I above left0 sub d = f d := by
  intro d
  induction d with
  | zero => intro _; simp [dp_next_row, h0]
  | succ d ih =>
    intro hd
    rw [dp_next_row, ih (by omega), hrec d (by omega)]

/-- The cell loop of `update_row`, run for `n` cells. -/
theorem update_cells_spec {σ : Type} (C : Context σ) (TYPE : AlignmentType)
    (block M i N r_i : Nat) (q : Nat → Nat) (V S G I : Int) (ctx : σ) (band : Nat → Int)
    (prev : Int) (row : Nat → Int) (h0 : row 0 = band 0)
    (hrow : ∀ d, row (d + 1) = cell_score TYPE (band (d + 1) + G) (row d + I)
      ((if d = 0 then prev else band d) + (if r_i = q d then V else S))) (n : Nat) :
    (List.range' 1 n).foldl (update_cell C TYPE block M i N r_i q V S G I)
        { context := ctx, band := band, prev := prev } =
      { context := (List.range n).foldl (fun c t => C.new_cell c i N (block + t) M (row (t + 1))
            (direction (band (t + 1) + G) (row t + I)
              ((if t = 0 then prev else band t) + (if r_i = q t then V else S)))) ctx
        band := fun k => if 1 ≤ k ∧ k ≤ n then row k else band k
        prev := if n = 0 then prev else band n } := by
  induction n with
  | zero =>
    have hb : (fun k => if 1 ≤ k ∧ k ≤ 0 then row k else band k) = band := by
      funext k
      have : ¬ (1 ≤ k ∧ k ≤ 0) := by omega
      rw [if_neg this]
    simp only [List.range'_zero, List.foldl_nil, List.range_zero, hb, if_true]
  | succ n ih =>
    rw [List.range'_concat, List.foldl_append, ih, List.range_succ, List.foldl_append]
    simp only [List.foldl_cons, List.foldl_nil, update_cell, one_mul]
    have e1 : 1 + n - 1 = n := by omega
    have e2 : block + (1 + n) - 1 = block + n := by omega
    have e3 : (1 : Nat) + n = n + 1 := by omega
    have hb1 : ¬ (1 ≤ 1 + n ∧ 1 + n ≤ n) := by omega
    have hbn : (if 1 ≤ n ∧ n ≤ n then row n else band n) = row n := by
      by_cases hn : n = 0
      · subst hn; simp [h0]
      · have : 1 ≤ n ∧ n ≤ n := by omega
        simp [this]
    simp only [e1, e2, hb1, if_false, hbn]
    have hhi : cell_score TYPE (band (1 + n) + G) (row n + I)
        ((if n = 0 then prev else band n) + (if r_i = q n then V else S)) = row (n + 1) := by
      rw [hrow n, e3]
    rw [hhi]
    congr 1
    · rw [e3]
    · funext k
      unfold store
      by_cases hk : k = 1 + n
      · subst hk
        have : 1 ≤ 1 + n ∧ 1 + n ≤ n + 1 := by omega
        simp [this, e3]
      · simp only [hk, if_false]
        by_cases hk2 : 1 ≤ k ∧ k ≤ n
        · have : 1 ≤ k ∧ k ≤ n + 1 := by omega
          simp [hk2, this]
        · have : ¬ (1 ≤ k ∧ k ≤ n + 1) := by omega
          simp [hk2, this]
    · simp [e3]

theorem foldl_filter_eq {α β : Type} (p : α → Bool) (f : β → α → β) (l : List α) (b : β) :
    (l.filter p).foldl f b = l.foldl (fun b x => if p x then f b x else b) b := by
  induction l generalizing b with
  | nil => rfl
  | cons x xs ih =>
    by_cases hx : p x = true
    · simp [List.filter_cons, hx, ih]
    · simp [List.filter_cons, hx, ih]

/-- The cell loop of `update_row` on a row of a matrix `W` that satisfies the recurrence. -/
theorem update_cells_W {σ : Type} (C : Context σ) (TYPE : AlignmentType)
    (block M i N r_i : Nat) (q : Nat → Nat) (V S G I : Int) (ctx : σ) (band : Nat → Int)
    (prev : Int) (W : Nat → Nat → Int) (sub : Nat → Nat → Int) (c0 o B : Nat)
    (hb : block = c0 + o)
    (ha : ∀ k, 1 ≤ k → k ≤ B → band k = W i (o + k))
    (hp : prev = W i o)
    (hl : band 0 = W (i + 1) o)
    (hrec : ∀ d, d < B → W (i + 1) (o + d + 1) =
      cell_score TYPE (W i (o + d + 1) + G) (W (i + 1) (o + d) + I) (W i (o + d) + sub i (o + d)))
    (hq : ∀ d, d < B → (if r_i = q d then V else S) = sub i (o + d)) :
    (List.range' 1 B).foldl (update_cell C TYPE block M i N r_i q V S G I)
        { context := ctx, band := band, prev := prev } =
      { context := ((List.range B).map (fun t => cell_event W G I sub c0 i (o + t))).foldl
          (C.apply N M) ctx
        band := fun k => if 1 ≤ k ∧ k ≤ B then W (i + 1) (o + k) else band k
        prev := if B = 0 then prev else band B } := by
  have habove : ∀ d, d ≤ B → (if d = 0 then prev else band d) = W i (o + d) := by
    intro d hd
    by_cases h : d = 0
    · subst h; simp [hp]
    · simp only [h, if_false]; exact ha d (by omega) hd
  have hrow : ∀ d, d ≤ B →
      dp_next_row TYPE G I (fun k => if k = 0 then prev else band k) (band 0)
        (fun d => if r_i = q d then V else S) d = W (i + 1) (o + d) := by
    apply dp_next_row_eq TYPE G I _ _ _ (fun d => W (i + 1) (o + d)) B
    · simp [hl]
    · intro d hd
      have h1 : (if d + 1 = 0 then prev else band (d + 1)) = W i (o + d + 1) := by
        simp only [Nat.succ_ne_zero, if_false]; exact ha (d + 1) (by omega) (by omega)
      simp only [h1, habove d (by omega), hq d hd]
      exact hrec d hd
  rw [update_cells_spec C TYPE block M i N r_i q V S G I ctx band prev
    (dp_next_row TYPE G I (fun k => if k = 0 then prev else band k) (band 0)
        (fun d => if r_i = q d then V else S)) rfl
    (by intro d; simp [dp_next_row]) B]
  congr 1
  · rw [List.foldl_map]
    apply List.foldl_ext
    intro c t ht
    have htB : t < B := List.mem_range.mp ht
    simp only [Context.apply, cell_event, cell_dir]
    rw [hrow (t + 1) (by omega), hrow t (by omega), habove t (by omega), hq t htB,
      ha (t + 1) (by omega) (by omega), hb]
    simp only [Nat.add_assoc]
  · funext k
    by_cases hk : 1 ≤ k ∧ k ≤ B
    · simp only [hk, and_self, if_true]; exact hrow k hk.2
    · simp only [hk, if_false]

/-- One call of `update_row` on row `i` of a block whose cells follow a matrix `W`. -/
theorem update_row_W {σ τ : Type} (CHECK_M : Bool) (C : Context σ) (K : Sink τ) (B : Nat)
    (TYPE : AlignmentType) (block M i N r_i : Nat) (q : Nat → Nat) (V S G I : Int)
    (rs : RowState σ τ) (W : Nat → Nat → Int) (sub : Nat → Nat → Int) (c0 o : Nat)
    (hB : 0 < B) (hb : block = c0 + o)
    (hband : ∀ k, k ≤ B → rs.band k = W i (o + k))
    (hti : rs.temp_i = W i o)
    (htemp : rs.temp i = W (i + 1) o)
    (hrec : ∀ d, d < B → W (i + 1) (o + d + 1) =
      cell_score TYPE (W i (o + d + 1) + G) (W (i + 1) (o + d) + I) (W i (o + d) + sub i (o + d)))
    (hq : ∀ d, d < B → (if r_i = q d then V else S) = sub i (o + d)) :
    update_row CHECK_M C K B TYPE block M i N r_i q V S G I rs =
      { context := ((List.range B).map (fun t => cell_event W G I sub c0 i (o + t))).foldl
          (C.apply N M) rs.context
        temp := store rs.temp i (W (i + 1) (o + B))
        temp_i := W (i + 1) o
        band := fun k => if k ≤ B then W (i + 1) (o + k) else rs.band k
        sink := (row_reports CHECK_M TYPE W c0 B M o i).foldl K.apply rs.sink
        max_score := max rs.max_score (W (i + 1) (o + B)) } := by
  have hcs := update_cells_W C TYPE block M i N r_i q V S G I rs.context
    (store rs.band 0 (rs.temp i)) rs.temp_i W sub c0 o B hb
    (by intro k h1 h2; rw [store_other _ _ _ _ (by omega)]; exact hband k h2)
    hti (by rw [store_same]; exact htemp) hrec hq
  have hbandv : ∀ k, k ≤ B →
      (if 1 ≤ k ∧ k ≤ B then W (i + 1) (o + k) else store rs.band 0 (rs.temp i) k)
        = W (i + 1) (o + k) := by
    intro k hk
    by_cases h0 : k = 0
    · subst h0; simp [store, htemp]
    · have : 1 ≤ k ∧ k ≤ B := by omega
      simp only [this, and_self, if_true]
  unfold update_row
  simp only [hcs]
  congr 1
  · rw [hbandv B le_rfl]
  · funext k
    by_cases hk : k ≤ B
    · rw [hbandv k hk]; simp [hk]
    · have : ¬ (1 ≤ k ∧ k ≤ B) := by omega
      rw [if_neg this, if_neg hk, store_other _ _ _ _ (by omega)]
  · unfold row_reports
    by_cases hT : TYPE = LOCAL
    · simp only [hT, if_true]
      cases CHECK_M with
      | true =>
        simp only [if_true]
        rw [List.foldl_map, foldl_filter_eq, List.range'_eq_map_range, List.foldl_map]
        apply List.foldl_ext
        intro s t ht
        have htB : t < B := List.mem_range.mp ht
        have e : block + (1 + t) = c0 + o + (t + 1) := by omega
        have e2 : (1 : Nat) + t = t + 1 := by omega
        simp only [e, decide_eq_true_eq, Sink.apply]
        rw [hbandv (1 + t) (by omega), e2]
      | false =>
        simp only [Bool.false_eq_true, if_false]
        rw [List.foldl_map, List.range'_eq_map_range, List.foldl_map]
        apply List.foldl_ext
        intro s t ht
        have htB : t < B := List.mem_range.mp ht
        have e : block + (1 + t) = c0 + o + (t + 1) := by omega
        have e2 : (1 : Nat) + t = t + 1 := by omega
        simp only [e, Sink.apply]
        rw [hbandv (1 + t) (by omega), e2]
    · simp only [hT, if_false]
      cases CHECK_M with
      | false => simp
      | true =>
        by_cases hS : TYPE = SEMI_GLOBAL
        · simp only [hS, if_true, true_and, save_boundary, save_Mth, hb]
          by_cases hM : M ≤ c0 + o + B
          · simp only [hM, if_true, List.foldl_cons, List.foldl_nil, Sink.apply]
            have hm : (if M = 0 then 0 else (M - 1) % B + 1) ≤ B := by
              by_cases h0 : M = 0
              · simp [h0]
              · simp only [h0, if_false]
                have := Nat.mod_lt (M - 1) hB
                omega
            rw [hbandv _ hm]
          · simp only [hM, if_false, List.foldl_nil]
        · simp [hS]
  · rw [hbandv B le_rfl]

/-- The row loop of a block whose cells follow a matrix `W`, after `n` rows. -/
theorem rows_fold_W {σ τ : Type} (CHECK_M : Bool) (C : Context σ) (K : Sink τ) (B : Nat)
    (TYPE : AlignmentType) (block M N : Nat) (ref : List Nat) (q : Nat → Nat) (V S G I : Int)
    (rs0 : RowState σ τ) (W : Nat → Nat → Int) (sub : Nat → Nat → Int) (c0 o : Nat)
    (hB : 0 < B) (hb : block = c0 + o)
    (hband0 : ∀ k, k ≤ B → rs0.band k = W 0 (o + k))
    (hti0 : rs0.temp_i = W 0 o)
    (htemp : ∀ i, i < N → rs0.temp i = W (i + 1) o)
    (hrec : ∀ i, i < N → ∀ d, d < B → W (i + 1) (o + d + 1) =
      cell_score TYPE (W i (o + d + 1) + G) (W (i + 1) (o + d) + I) (W i (o + d) + sub i (o + d)))
    (hq : ∀ i, i < N → ∀ d, d < B → (if ref.getD i 0 = q d then V else S) = sub i (o + d))
    (n : Nat) (hn : n ≤ N) :
    (List.range n).foldl
        (fun rs i => update_row CHECK_M C K B TYPE block M i N (ref.getD i 0) q V S G I rs) rs0 =
      { context := ((List.range n).flatMap
            (fun i => (List.range B).map (fun t => cell_event W G I sub c0 i (o + t)))).foldl
          (C.apply N M) rs0.context
        temp := fun x => if x < n then W (x + 1) (o + B) else rs0.temp x
        temp_i := W n o
        band := fun k => if k ≤ B then W n (o + k) else rs0.band k
        sink := ((List.range n).flatMap (row_reports CHECK_M TYPE W c0 B M o)).foldl K.apply
          rs0.sink
        max_score := (List.range n).foldl (fun m i => max m (W (i + 1) (o + B)))
          rs0.max_score } := by
  induction n with
  | zero =>
    cases rs0 with
    | mk ctx temp temp_i band sink mx =>
      simp only [List.range_zero, List.foldl_nil, List.flatMap_nil]
      have h2 : (fun k => if k ≤ B then W 0 (o + k) else band k) = band := by
        funext k
        by_cases hk : k ≤ B
        · rw [if_pos hk]; exact (hband0 k hk).symm
        · rw [if_neg hk]
      have h3 : W 0 o = temp_i := hti0.symm
      simp only [h2, h3, Nat.not_lt_zero, if_false]
  | succ n ih =>
    rw [List.range_succ, List.foldl_append, ih (by omega)]
    simp only [List.foldl_cons, List.foldl_nil]
    rw [update_row_W CHECK_M C K B TYPE block M n N (ref.getD n 0) q V S G I _ W sub c0 o hB hb
      (by intro k hk; simp only [hk, if_true])
      rfl
      (by simp only [lt_irrefl, if_false]; exact htemp n (by omega))
      (hrec n (by omega)) (hq n (by omega))]
    congr 1
    · simp only [List.flatMap_append, List.foldl_append, List.flatMap_cons, List.flatMap_nil,
        List.append_nil]
    · funext x
      unfold store
      by_cases hx : x = n
      · subst hx; simp
      · by_cases hx2 : x < n
        · have : x < n + 1 := by omega
          simp [hx, hx2, this]
        · have : ¬ x < n + 1 := by omega
          simp [hx, hx2, this]
    · funext k
      by_cases hk : k ≤ B
      · simp only [hk, if_true]
      · simp only [hk, if_false]
    · simp only [List.flatMap_append, List.foldl_append, List.flatMap_cons, List.flatMap_nil,
        List.append_nil]
    · simp only [List.foldl_append, List.foldl_cons, List.foldl_nil]

/-- The scores of a column of `W` seen as the boundary column `temp`. -/
theorem score_block_spec {σ τ : Type} (CHECK_M : Bool) (C : Context σ) (K : Sink τ) (B : Nat)
    (TYPE : AlignmentType) (scoring : Scoring) (score_min : Int) (query ref : List Nat)
    (block : Nat) (st : RunState σ τ) (W : Nat → Nat → Int) (sub : Nat → Nat → Int)
    (c0 o : Nat) (hB : 0 < B) (hb : block = c0 + o)
    (hr0 : ∀ d, d ≤ B → W 0 (o + d) = row_zero TYPE scoring (block + d))
    (hc0 : ∀ i, i < ref.length → W (i + 1) o = st.temp i)
    (hrec : ∀ i, i < ref.length → ∀ d, d < B → W (i + 1) (o + d + 1) =
      cell_score TYPE (W i (o + d + 1) + scoring.deletion) (W (i + 1) (o + d) + scoring.insertion)
        (W i (o + d) + sub i (o + d)))
    (hq : ∀ i, i < ref.length → ∀ d, d < B →
      (if ref.getD i 0 = load_query CHECK_M B query block st.q_cache d then scoring.match_
        else scoring.mismatch) = sub i (o + d)) :
    score_block CHECK_M C K B TYPE scoring score_min query ref block st =
      ({ context := (rows_events W scoring.deletion scoring.insertion sub c0 B ref.length o).foldl
            (C.apply ref.length query.length)
            (C.previous_column st.context block ref.length st.temp)
         temp := fun x => if x < ref.length then W (x + 1) (o + B) else st.temp x
         band := fun k => if k ≤ B then W ref.length (o + k) else st.band k
         q_cache := load_query CHECK_M B query block st.q_cache
         sink := (rows_reports CHECK_M TYPE W c0 B query.length ref.length o).foldl K.apply
            st.sink },
       (List.range ref.length).foldl (fun m i => max m (W (i + 1) (o + B))) score_min) := by
  have hfb : ∀ k, k ≤ B → first_band B TYPE scoring block st.band k = W 0 (o + k) := by
    intro k hk
    rw [hr0 k hk]
    simp only [first_band, hk, if_true, row_zero]
    push_cast
    rfl
  unfold score_block
  simp only []
  rw [rows_fold_W CHECK_M C K B TYPE block query.length ref.length ref
    (load_query CHECK_M B query block st.q_cache) scoring.match_ scoring.mismatch
    scoring.deletion scoring.insertion _ W sub c0 o hB hb hfb
    (by have := hfb 0 (Nat.zero_le B); simpa using this)
    (by intro i hi; exact (hc0 i hi).symm) hrec hq ref.length le_rfl]
  simp only [rows_events, rows_reports]
  congr 2
  funext k
  by_cases hk : k ≤ B
  · simp only [hk, if_true]
  · simp only [hk, if_false, first_band]

theorem first_exit_some (p : Nat → Bool) (n : Nat) :
    ∀ k e, first_exit p k n = some e →
      k ≤ e ∧ e < k + n ∧ p e = true ∧ ∀ x, k ≤ x → x < e → p x = false := by
  induction n with
  | zero => intro k e h; simp [first_exit] at h
  | succ n ih =>
    intro k e h
    unfold first_exit at h
    by_cases hk : p k = true
    · simp only [hk, if_true, Option.some.injEq] at h
      subst h
      exact ⟨le_rfl, by omega, hk, by intro x h1 h2; omega⟩
    · have hkf : p k = false := by simpa using hk
      simp only [hkf, Bool.false_eq_true, if_false] at h
      obtain ⟨h1, h2, h3, h4⟩ := ih (k + 1) e h
      refine ⟨by omega, by omega, h3, ?_⟩
      intro x hx1 hx2
      by_cases hx : x = k
      · subst hx; exact hkf
      · exact h4 x (by omega) hx2

/-- The block loop of `run` unrolled: it leaves at the first block whose early-exit test
succeeds, or after the last block of the loop. -/
theorem run_blocks_unroll {σ τ : Type} (C : Context σ) (K : Sink τ) (B : Nat)
    (TYPE : AlignmentType) (scoring : Scoring) (score_min : Int) (query ref : List Nat)
    (min_score : Int) (end_block wb : Nat) (st : RunState σ τ) (nb : Nat) (hB : 0 < B)
    (hend : end_block = wb + nb * B + B) (n : Nat) :
    ∀ k fuel, k + n = nb → n < fuel →
      run_blocks C K B TYPE scoring score_min query ref min_score end_block fuel (wb + k * B)
          (blocks_state C K B TYPE scoring score_min query ref wb st k) =
        match first_exit (blocks_exit C K B TYPE scoring score_min query ref min_score wb st)
            k n with
        | some e => some (false, blocks_state C K B TYPE scoring score_min query ref wb st (e + 1))
        | none => some (true, blocks_state C K B TYPE scoring score_min query ref wb st nb) := by
  induction n with
  | zero =>
    intro k fuel hk hf
    obtain ⟨f, rfl⟩ : ∃ f, fuel = f + 1 := ⟨fuel - 1, by omega⟩
    have hk' : k = nb := by omega
    subst hk'
    have : ¬ (wb + k * B + B < end_block) := by omega
    simp only [run_blocks, this, if_false, first_exit]
  | succ n ih =>
    intro k fuel hk hf
    obtain ⟨f, rfl⟩ : ∃ f, fuel = f + 1 := ⟨fuel - 1, by omega⟩
    have hlt : wb + k * B + B < end_block := by
      have : k * B + B ≤ nb * B := by
        have : (k + 1) * B ≤ nb * B := Nat.mul_le_mul_right B (by omega)
        rw [Nat.add_mul, Nat.one_mul] at this
        exact this
      omega
    have hnext : wb + k * B + B = wb + (k + 1) * B := by rw [Nat.add_mul, Nat.one_mul]; omega
    simp only [run_blocks, hlt, if_true, first_exit]
    by_cases hx : blocks_exit C K B TYPE scoring score_min query ref min_score wb st k = true
    · have hx' := hx
      unfold blocks_exit blocks_max at hx'
      simp only [hx', hx, if_true]
      rfl
    · have hxf : blocks_exit C K B TYPE scoring score_min query ref min_score wb st k = false := by
        simpa using hx
      have hx' := hxf
      unfold blocks_exit blocks_max at hx'
      simp only [hx', hxf, Bool.false_eq_true, if_false]
      rw [hnext]
      exact ih (k + 1) f (by omega) (by omega)

theorem H_window_row_zero (TYPE : AlignmentType) (scoring : Scoring) (ref : List Nat)
    (q : Nat → Nat) (c0 : Nat) (col0 : Nat → Int) (d : Nat) :
    H_window TYPE scoring ref q c0 col0 0 d = row_zero TYPE scoring (c0 + d) := rfl

theorem H_window_col_zero (TYPE : AlignmentType) (scoring : Scoring) (ref : List Nat)
    (q : Nat → Nat) (c0 : Nat) (col0 : Nat → Int) (i : Nat) :
    H_window TYPE scoring ref q c0 col0 (i + 1) 0 = col0 i := rfl

theorem H_window_rec (TYPE : AlignmentType) (scoring : Scoring) (ref : List Nat)
    (q : Nat → Nat) (c0 : Nat) (col0 : Nat → Int) (i d : Nat) :
    H_window TYPE scoring ref q c0 col0 (i + 1) (d + 1) =
      cell_score TYPE (H_window TYPE scoring ref q c0 col0 i (d + 1) + scoring.deletion)
        (H_window TYPE scoring ref q c0 col0 (i + 1) d + scoring.insertion)
        (H_window TYPE scoring ref q c0 col0 i d + sub_score scoring ref q i (c0 + d)) := rfl

/-- The function `run`, with its block loop unrolled. -/
theorem run_eq {σ τ : Type} (C : Context σ) (K : Sink τ) (B : Nat)
    (TYPE : AlignmentType) (scoring : Scoring) (score_min : Int) (query ref : List Nat)
    (min_score : Int) (wb we : Nat) (st : RunState σ τ) (nb : Nat) (hB : 0 < B)
    (hend : end_block_of B query.length we = wb + nb * B + B) :
    run C K B TYPE scoring score_min query ref min_score wb we st =
      match first_exit (blocks_exit C K B TYPE scoring score_min query ref min_score wb
          { st with temp := C.init st.context wb ref.length st.temp scoring }) 0 nb with
      | some e => some (false, blocks_state C K B TYPE scoring score_min query ref wb
          { st with temp := C.init st.context wb ref.length st.temp scoring } (e + 1))
      | none => some (true, run_tail C K B TYPE scoring score_min query ref we
          (blocks_state C K B TYPE scoring score_min query ref wb
            { st with temp := C.init st.context wb ref.length st.temp scoring } nb)) := by
  have hfuel : nb < end_block_of B query.length we + 1 := by
    have : nb ≤ nb * B := Nat.le_mul_of_pos_right nb hB
    omega
  have h := run_blocks_unroll C K B TYPE scoring score_min query ref min_score
    (end_block_of B query.length we) wb
    { st with temp := C.init st.context wb ref.length st.temp scoring } nb hB hend nb 0
    (end_block_of B query.length we + 1) (by omega) hfuel
  simp only [Nat.zero_mul, Nat.add_zero, blocks_state] at h
  unfold run
  simp only []
  rw [h]
  cases first_exit (blocks_exit C K B TYPE scoring score_min query ref min_score wb
          { st with temp := C.init st.context wb ref.length st.temp scoring }) 0 nb with
  | none => rfl
  | some e => rfl

theorem load_query_full (B : Nat) (query : List Nat) (block : Nat) (q : Nat → Nat) (t : Nat)
    (ht : t < B) : load_query false B query block q t = query.getD (block + t) 0 := by
  simp [load_query, ht]

/-- One block of the block loop on the window matrix. -/
theorem score_block_window {σ τ : Type} (C : Context σ) (K : Sink τ) (B : Nat)
    (TYPE : AlignmentType) (scoring : Scoring) (score_min : Int) (query ref : List Nat)
    (wb : Nat) (col0 : Nat → Int) (st : RunState σ τ) (qf : Nat → Nat) (k : Nat) (hB : 0 < B)
    (hq : ∀ c, wb + k * B ≤ c → c < wb + k * B + B → qf c = query.getD c 0)
    (htemp : ∀ i, i < ref.length →
      st.temp i = H_window TYPE scoring ref qf wb col0 (i + 1) (k * B)) :
    score_block false C K B TYPE scoring score_min query ref (wb + k * B) st =
      ({ context := (rows_events (H_window TYPE scoring ref qf wb col0) scoring.deletion
              scoring.insertion (fun i d => sub_score scoring ref qf i (wb + d)) wb B ref.length
              (k * B)).foldl
            (C.apply ref.length query.length)
            (C.previous_column st.context (wb + k * B) ref.length st.temp)
         temp := fun x => if x < ref.length then
            H_window TYPE scoring ref qf wb col0 (x + 1) (k * B + B) else st.temp x
         band := fun j => if j ≤ B then H_window TYPE scoring ref qf wb col0 ref.length (k * B + j)
            else st.band j
         q_cache := load_query false B query (wb + k * B) st.q_cache
         sink := (rows_reports false TYPE (H_window TYPE scoring ref qf wb col0) wb B query.length
            ref.length (k * B)).foldl K.apply st.sink },
       (List.range ref.length).foldl
          (fun m i => max m (H_window TYPE scoring ref qf wb col0 (i + 1) (k * B + B)))
          score_min) := by
  apply score_block_spec false C K B TYPE scoring score_min query ref (wb + k * B) st
    (H_window TYPE scoring ref qf wb col0) (fun i d => sub_score scoring ref qf i (wb + d))
    wb (k * B) hB rfl
  · intro d _
    rw [H_window_row_zero, Nat.add_assoc]
  · intro i hi
    exact (htemp i hi).symm
  · intro i _ d _
    exact H_window_rec TYPE scoring ref qf wb col0 i (k * B + d)
  · intro i _ d hd
    rw [load_query_full B query _ _ d hd]
    simp only [sub_score]
    rw [hq (wb + (k * B + d)) (by omega) (by omega), Nat.add_assoc]

/-- The state of the block loop after `k` blocks, on the window matrix. -/
theorem blocks_state_spec {σ τ : Type} (C : Context σ) (K : Sink τ) (B : Nat)
    (TYPE : AlignmentType) (scoring : Scoring) (score_min : Int) (query ref : List Nat)
    (wb : Nat) (st : RunState σ τ) (qf : Nat → Nat) (nb : Nat) (hB : 0 < B)
    (hq : ∀ c, wb ≤ c → c < wb + nb * B → qf c = query.getD c 0) :
    ∀ k, k ≤ nb →
      blocks_state C K B TYPE scoring score_min query ref wb st k =
        { context := ((List.range k).flatMap
              (block_events (H_window TYPE scoring ref qf wb st.temp) scoring.deletion
                scoring.insertion (fun i d => sub_score scoring ref qf i (wb + d)) wb B
                ref.length st.temp)).foldl
            (C.apply ref.length query.length) st.context
          temp := fun x => if x < ref.length then
            H_window TYPE scoring ref qf wb st.temp (x + 1) (k * B) else st.temp x
          band := fun j => if k ≠ 0 ∧ j ≤ B then
            H_window TYPE scoring ref qf wb st.temp ref.length ((k - 1) * B + j) else st.band j
          q_cache := fun t => if k ≠ 0 ∧ t < B then query.getD (wb + (k - 1) * B + t) 0
            else st.q_cache t
          sink := ((List.range k).flatMap
              (fun k' => rows_reports false TYPE (H_window TYPE scoring ref qf wb st.temp) wb B
                query.length ref.length (k' * B))).foldl K.apply st.sink } := by
  intro k
  induction k with
  | zero =>
    intro _
    cases st with
    | mk ctx temp band q_cache sink =>
      simp only [blocks_state, List.range_zero, List.flatMap_nil, List.foldl_nil, Nat.zero_mul,
        H_window_col_zero, ne_eq, not_true_eq_false, false_and, if_false, ite_self]
  | succ k ih =>
    intro hk
    have hkB : k * B + B ≤ nb * B := by
      have : (k + 1) * B ≤ nb * B := Nat.mul_le_mul_right B (by omega)
      rw [Nat.add_mul, Nat.one_mul] at this
      exact this
    have hsB : (k + 1) * B = k * B + B := by rw [Nat.add_mul, Nat.one_mul]
    rw [blocks_state, ih (by omega)]
    rw [score_block_window C K B TYPE scoring score_min query ref wb st.temp _ qf k hB
      (by intro c h1 h2; exact hq c (by omega) (by omega))
      (by intro i hi; simp only [hi, if_true])]
    simp only [List.range_succ, List.flatMap_append, List.flatMap_cons, List.flatMap_nil,
      List.append_nil, List.foldl_append, block_events, List.foldl_cons, Context.apply,
      Nat.add_sub_cancel, hsB]
    congr 1
    · funext x
      by_cases hx : x < ref.length
      · simp only [hx, if_true]
      · simp only [hx, if_false]
    · funext j
      by_cases hj : j ≤ B
      · simp [hj]
      · simp [hj]
    · funext t
      by_cases ht : t < B
      · simp [load_query, ht, Nat.add_assoc]
      · simp [load_query, ht]

/-- The value of `max_score` the early-exit test of block `k` sees. -/
theorem blocks_max_spec {σ τ : Type} (C : Context σ) (K : Sink τ) (B : Nat)
    (TYPE : AlignmentType) (scoring : Scoring) (score_min : Int) (query ref : List Nat)
    (wb : Nat) (st : RunState σ τ) (qf : Nat → Nat) (nb : Nat) (hB : 0 < B)
    (hq : ∀ c, wb ≤ c → c < wb + nb * B → qf c = query.getD c 0) (k : Nat) (hk : k < nb) :
    blocks_max C K B TYPE scoring score_min query ref wb st k =
      (List.range ref.length).foldl
        (fun m i => max m (H_window TYPE scoring ref qf wb st.temp (i + 1) (k * B + B)))
        score_min := by
  have hkB : k * B + B ≤ nb * B := by
    have : (k + 1) * B ≤ nb * B := Nat.mul_le_mul_right B (by omega)
    rw [Nat.add_mul, Nat.one_mul] at this
    exact this
  rw [blocks_max, blocks_state_spec C K B TYPE scoring score_min query ref wb st qf nb hB hq k
    (by omega)]
  rw [score_block_window C K B TYPE scoring score_min query ref wb st.temp _ qf k hB
      (by intro c h1 h2; exact hq c (by omega) (by omega))
      (by intro i hi; simp only [hi, if_true])]

theorem step_move (op : Nat) (row col : Int) :
    ((if op ≠ INSERTION then row - 1 else row), (if op ≠ DELETION then col - 1 else col)) =
      move (row, col) op := by
  unfold move
  by_cases hd : op = DELETION
  · subst hd
    have : DELETION ≠ INSERTION := by decide
    simp [this]
  · by_cases hi : op = INSERTION
    · subst hi
      simp [hd]
    · simp [hd, hi]

theorem step_bounds (op : Nat) (row col : Int) :
    row - 1 ≤ (if op ≠ INSERTION then row - 1 else row) ∧
    (if op ≠ INSERTION then row - 1 else row) ≤ row ∧
    col - 1 ≤ (if op ≠ DELETION then col - 1 else col) ∧
    (if op ≠ DELETION then col - 1 else col) ≤ col ∧
    (if op ≠ INSERTION then row - 1 else row) + (if op ≠ DELETION then col - 1 else col)
      ≤ row + col - 1 := by
  by_cases hd : op = DELETION
  · subst hd
    have : DELETION ≠ INSERTION := by decide
    simp [this]
    omega
  · by_cases hi : op = INSERTION
    · subst hi
      simp [hd]
      omega
    · simp [hd, hi]
      omega

/-- The `while` loop of `alignment_traceback` returns, and what it leaves. -/
theorem traceback_loop_spec (TYPE : AlignmentType) (submatrix : Nat → Nat)
    (submatrix_height : Nat) :
    ∀ (fuel : Nat) (row col : Int) (output : List Nat),
      ((0 < row ∧ 0 ≤ col) → row + col + 2 ≤ fuel) → 1 ≤ fuel →
      ∃ w ops, traceback_loop TYPE submatrix submatrix_height fuel row col output = some w ∧
        w.output = output ++ ops ∧
        (w.current_row, w.current_col) = ops.foldl move (row, col) ∧
        (w.at_sink = true → TYPE = LOCAL ∧ 0 < w.current_row ∧ 0 ≤ w.current_col ∧
          submatrix (w.current_col * submatrix_height + (w.current_row - 1)).toNat
            = SINK) ∧
        (w.at_sink = false → ¬ (0 < w.current_row ∧ 0 ≤ w.current_col)) ∧
        (TYPE = LOCAL → SINK ∉ ops) ∧
        (0 ≤ row → 0 ≤ w.current_row) ∧ (-1 ≤ col → -1 ≤ w.current_col) ∧
        w.current_row ≤ row ∧ w.current_col ≤ col := by
  intro fuel
  induction fuel with
  | zero => intro row col output _ h; omega
  | succ fuel ih =>
    intro row col output hfuel _
    by_cases hc : 0 < row ∧ 0 ≤ col
    · have hf := hfuel hc
      push_cast at hf
      by_cases hs : TYPE = LOCAL ∧
          submatrix (col * submatrix_height + (row - 1)).toNat = SINK
      · refine ⟨{ at_sink := true, current_row := row, current_col := col, output := output },
          [], ?_, by simp, by simp, ?_, by simp, by simp, by simp,
          by simp, by simp, by simp⟩
        · simp only [traceback_loop, gt_iff_lt, ge_iff_le, hc, and_self, if_true, hs]
        · intro _; exact ⟨hs.1, hc.1, hc.2, hs.2⟩
      · obtain ⟨b1, b2, b3, b4, b5⟩ :=
          step_bounds (submatrix (col * submatrix_height + (row - 1)).toNat) row col
        obtain ⟨w, ops, h1, h2, h3, h4, h5, h6, h7, h8, h9, h10⟩ :=
          ih (if submatrix (col * submatrix_height + (row - 1)).toNat ≠ INSERTION
                then row - 1 else row)
             (if submatrix (col * submatrix_height + (row - 1)).toNat ≠ DELETION
                then col - 1 else col)
             (output ++ [submatrix (col * submatrix_height + (row - 1)).toNat])
             (by intro _; omega)
             (by omega)
        refine ⟨w, submatrix (col * submatrix_height + (row - 1)).toNat :: ops,
          ?_, ?_, ?_, h4, h5, ?_, ?_, ?_, ?_, ?_⟩
        · simp only [traceback_loop, gt_iff_lt, ge_iff_le, hc, and_self, if_true, hs, if_false]
          exact h1
        · rw [h2]; simp
        · rw [h3, List.foldl_cons, step_move]
        · intro hT
          have := h6 hT
          simp only [List.mem_cons, not_or]
          exact ⟨fun h => hs ⟨hT, h.symm⟩, this⟩
        · intro _; apply h7; omega
        · intro _; apply h8; omega
        · omega
        · omega
    · refine ⟨{ at_sink := false, current_row := row, current_col := col, output := output },
        [], ?_, by simp, by simp, by simp, ?_, by simp, by simp, by simp, by simp, by simp⟩
      · simp only [traceback_loop, gt_iff_lt, ge_iff_le, hc, if_false]
      · intro _; exact hc

/-- The moves of a list of operations, counted. -/
theorem foldl_move_count (ops : List Nat) :
    ∀ cell : Int × Int,
      (ops.foldl move cell).1 = cell.1 - ((ops.filter (fun op => decide (op ≠ INSERTION))).length : Int) ∧
      (ops.foldl move cell).2 = cell.2 - ((ops.filter (fun op => decide (op ≠ DELETION))).length : Int) := by
  induction ops with
  | nil => intro cell; simp
  | cons op ops ih =>
    intro cell
    rw [List.foldl_cons]
    obtain ⟨h1, h2⟩ := ih (move cell op)
    rw [h1, h2]
    unfold move
    by_cases hd : op = DELETION
    · have hi : op ≠ INSERTION := by rw [hd]; decide
      simp [List.filter_cons, hd, hi]
      have : ¬ (DELETION = INSERTION) := by decide
      simp [this]
      omega
    · by_cases hi : op = INSERTION
      · have : ¬ (INSERTION = DELETION) := by decide
        simp [List.filter_cons, hi, this]
        omega
      · simp [List.filter_cons, hd, hi]
        omega

/-- A matrix entry depends only on the boundary and substitution scores above and to the
left of it. -/
theorem dp_congr (TYPE : AlignmentType) (G I : Int) (row0 row0' col0 col0' : Nat → Int)
    (sub sub' : Nat → Nat → Int) (n m : Nat)
    (hrow : ∀ d, d ≤ m → row0 d = row0' d)
    (hcol : ∀ i, i < n → col0 i = col0' i)
    (hsub : ∀ i, i < n → ∀ d, d < m → sub i d = sub' i d) :
    ∀ i, i ≤ n → ∀ d, d ≤ m →
      dp TYPE G I row0 col0 sub i d = dp TYPE G I row0' col0' sub' i d := by
  intro i
  induction i with
  | zero => intro _ d hd; exact hrow d hd
  | succ i ih =>
    intro hi d
    induction d with
    | zero => intro _; exact hcol i (by omega)
    | succ d ihd =>
      intro hd
      show cell_score TYPE (dp TYPE G I row0 col0 sub i (d + 1) + G)
          (dp TYPE G I row0 col0 sub (i + 1) d + I) (dp TYPE G I row0 col0 sub i d + sub i d) =
        cell_score TYPE (dp TYPE G I row0' col0' sub' i (d + 1) + G)
          (dp TYPE G I row0' col0' sub' (i + 1) d + I)
          (dp TYPE G I row0' col0' sub' i d + sub' i d)
      rw [ih (by omega) (d + 1) hd, ih (by omega) d (by omega), ihd (by omega),
        hsub i (by omega) d (by omega)]

/-- The window matrix over the whole pattern agrees with `H` up to column `M`, whatever the
padding symbols and the column entries below the text are. -/
theorem H_window_eq_H (TYPE : AlignmentType) (scoring : Scoring) (pattern ref : List Nat)
    (qf : Nat → Nat) (col0 : Nat → Int) (n m : Nat)
    (hq : ∀ c, c < m → qf c = pattern.getD c 0)
    (hcol : ∀ i, i < n → col0 i = if TYPE = GLOBAL then scoring.deletion * ((i : Int) + 1) else 0)
    (i d : Nat) (hi : i ≤ n) (hd : d ≤ m) :
    H_window TYPE scoring ref qf 0 col0 i d = H TYPE scoring pattern ref i d := by
  unfold H H_window
  apply dp_congr TYPE scoring.deletion scoring.insertion _ _ _ _ _ _ n m _ hcol _ i hi d hd
  · intro d _; rfl
  · intro i _ d hd
    simp only [sub_score, Nat.zero_add]
    rw [hq d hd]

theorem pad_query_below (query : List Nat) (B wb nb : Nat) (q_cache : Nat → Nat) (c : Nat)
    (hc : c < query.length) : pad_query query B wb nb q_cache c = query.getD c 0 := by
  simp [pad_query, hc]

/-- The query cache of the last block holds the padded pattern. -/
theorem load_query_last (query : List Nat) (B wb nb : Nat) (q_cache : Nat → Nat) (d : Nat)
    (hd : d < B) :
    load_query true B query (wb + nb * B)
        (fun t => if nb ≠ 0 ∧ t < B then query.getD (wb + (nb - 1) * B + t) 0 else q_cache t) d =
      pad_query query B wb nb q_cache (wb + nb * B + d) := by
  unfold load_query pad_query
  by_cases hM : wb + nb * B + d < query.length
  · have : wb + nb * B + d < min (wb + nb * B + B) query.length := by
      simp only [lt_min_iff]; omega
    simp [hd, hM, this]
  · have : ¬ (wb + nb * B + d < min (wb + nb * B + B) query.length) := by
      simp only [lt_min_iff]; omega
    simp only [hd, true_and, Bool.true_eq_false, false_or, this, if_false, hM,
      Nat.add_sub_cancel_left]

/-- The value of `end_block` for a run over the whole pattern. -/
theorem end_block_full (B M : Nat) (hB : 0 < B) :
    end_block_of B M M = 0 + ((M + B - 1) / B - 1) * B + B ∧
      0 + ((M + B - 1) / B - 1) * B ≤ M ∧ M ≤ ((M + B - 1) / B - 1) * B + B ∧
      (0 < M → ((M + B - 1) / B - 1) * B < M) := by
  have h1 := Nat.div_add_mod (M + B - 1) B
  have h2 := Nat.mod_lt (M + B - 1) hB
  unfold end_block_of
  simp only [if_true]
  by_cases h0 : (M + B - 1) / B = 0
  · rw [h0] at h1
    simp only [h0, Nat.mul_zero, Nat.zero_sub, Nat.zero_mul, Nat.zero_add] at h1 ⊢
    have hM : M = 0 := by omega
    subst hM
    simp
  · obtain ⟨n, hn⟩ : ∃ n, (M + B - 1) / B = n + 1 := Nat.exists_eq_succ_of_ne_zero h0
    rw [hn] at h1 ⊢
    have e : B * (n + 1) = n * B + B := by rw [Nat.mul_add, Nat.mul_one, Nat.mul_comm]
    rw [e] at h1 ⊢
    simp only [Nat.add_sub_cancel, Nat.zero_add]
    refine ⟨?_, ?_, ?_, ?_⟩
    · rw [max_eq_right]; omega
    · omega
    · omega
    · intro _; omega

/-- A run that returns `false` left at a block of the block loop whose early-exit test
succeeded on the maximum of the column the block ends at. -/
theorem run_false_spec {σ τ : Type} (C : Context σ) (K : Sink τ) (B : Nat)
    (TYPE : AlignmentType) (scoring : Scoring) (score_min : Int) (query ref : List Nat)
    (min_score : Int) (wb we : Nat) (st st' : RunState σ τ) (qf : Nat → Nat) (nb : Nat)
    (hB : 0 < B) (hend : end_block_of B query.length we = wb + nb * B + B)
    (hq : ∀ c, wb ≤ c → c < wb + nb * B → qf c = query.getD c 0)
    (hrun : run C K B TYPE scoring score_min query ref min_score wb we st = some (false, st')) :
    ∃ e, e < nb ∧
      early_exit scoring query.length B (wb + e * B)
        ((List.range ref.length).foldl
          (fun m i => max m (H_window TYPE scoring ref qf wb
            (C.init st.context wb ref.length st.temp scoring) (i + 1) (e * B + B)))
          score_min) min_score = true := by
  rw [run_eq C K B TYPE scoring score_min query ref min_score wb we st nb hB hend] at hrun
  cases hfe : first_exit (blocks_exit C K B TYPE scoring score_min query ref min_score wb
      { st with temp := C.init st.context wb ref.length st.temp scoring }) 0 nb with
  | none => rw [hfe] at hrun; simp at hrun
  | some e =>
    obtain ⟨_, h2, h3, _⟩ := first_exit_some _ nb 0 e hfe
    refine ⟨e, by omega, ?_⟩
    unfold blocks_exit at h3
    rw [blocks_max_spec C K B TYPE scoring score_min query ref wb _ qf nb hB hq e (by omega)]
      at h3
    exact h3

theorem H_row_zero (TYPE : AlignmentType) (scoring : Scoring) (pattern ref : List Nat) (j : Nat) :
    H TYPE scoring pattern ref 0 j = row_zero TYPE scoring j := by
  unfold H
  rw [H_window_row_zero, Nat.zero_add]

theorem H_col_zero (TYPE : AlignmentType) (scoring : Scoring) (pattern ref : List Nat) (i : Nat) :
    H TYPE scoring pattern ref (i + 1) 0 =
      if TYPE = GLOBAL then scoring.deletion * ((i : Int) + 1) else 0 := rfl

theorem H_rec (TYPE : AlignmentType) (scoring : Scoring) (pattern ref : List Nat) (i j : Nat) :
    H TYPE scoring pattern ref (i + 1) (j + 1) =
      cell_score TYPE (H TYPE scoring pattern ref i (j + 1) + scoring.deletion)
        (H TYPE scoring pattern ref (i + 1) j + scoring.insertion)
        (H TYPE scoring pattern ref i j +
          (if ref.getD i 0 = pattern.getD j 0 then scoring.match_ else scoring.mismatch)) := by
  unfold H
  rw [H_window_rec]
  simp only [sub_score, Nat.zero_add]

theorem le_foldl_max (f : Nat → Int) (s : Int) (n : Nat) :
    s ≤ (List.range n).foldl (fun m i => max m (f i)) s ∧
      ∀ i, i < n → f i ≤ (List.range n).foldl (fun m i => max m (f i)) s := by
  induction n with
  | zero => simp
  | succ n ih =>
    rw [List.range_succ, List.foldl_append]
    simp only [List.foldl_cons, List.foldl_nil]
    refine ⟨le_trans ih.1 (le_max_left _ _), ?_⟩
    intro i hi
    by_cases h : i = n
    · subst h; exact le_max_right _ _
    · exact le_trans (ih.2 i (by omega)) (le_max_left _ _)

theorem dispatch_flag_false {σ τ : Type} (r : Option (Bool × RunState σ τ))
    (h : r.map Prod.fst = some false) : ∃ st', r = some (false, st') := by
  cases r with
  | none => simp at h
  | some p =>
    obtain ⟨b, s⟩ := p
    simp only [Option.map_some', Option.some.injEq] at h
    subst h
    exact ⟨s, rfl⟩

/-- Every column of the end-to-end matrix to the right of column `c` gains at most `match`
per column over a bound on column `c`. -/
theorem semi_global_column_bound (scoring : Scoring) (pattern ref : List Nat)
    (hmatch : 0 ≤ scoring.match_) (hmis : scoring.mismatch ≤ scoring.match_)
    (hins : scoring.insertion ≤ 0) (hdel : scoring.deletion ≤ 0) (c : Nat) (X : Int) (n : Nat)
    (hX : ∀ i, i ≤ n → H SEMI_GLOBAL scoring pattern ref i c ≤ X) :
    ∀ d i, i ≤ n → H SEMI_GLOBAL scoring pattern ref i (c + d) ≤ X + d * scoring.match_ := by
  intro d
  induction d with
  | zero => intro i hi; simpa using hX i hi
  | succ d ih =>
    intro i
    induction i with
    | zero =>
      intro _
      have h0 := ih 0 (Nat.zero_le n)
      rw [H_row_zero] at h0 ⊢
      simp only [row_zero, ne_eq, reduceCtorEq, not_false_eq_true, if_true] at h0 ⊢
      push_cast at h0 ⊢
      nlinarith
    | succ i ihi =>
      intro hi
      have e : c + (d + 1) = (c + d) + 1 := by omega
      rw [e, H_rec]
      have h1 := ihi (by omega)
      rw [e] at h1
      push_cast at h1
      have h2 := ih (i + 1) hi
      have h3 := ih i (by omega)
      have hs : (if ref.getD i 0 = pattern.getD (c + d) 0 then scoring.match_
          else scoring.mismatch) ≤ scoring.match_ := by
        split_ifs
        · exact le_rfl
        · exact hmis
      simp only [cell_score, reduceCtorEq, if_false, max3]
      push_cast
      refine max_le (max_le ?_ ?_) ?_ <;> nlinarith

/-- Row 1 of the end-to-end matrix is at least the cost of insertions only. -/
theorem semi_global_row_one (scoring : Scoring) (pattern ref : List Nat) :
    ∀ j : Nat, (j : Int) * scoring.insertion ≤ H SEMI_GLOBAL scoring pattern ref 1 j := by
  intro j
  induction j with
  | zero =>
    rw [H_col_zero]
    simp
  | succ j ih =>
    rw [H_rec]
    simp only [cell_score, reduceCtorEq, if_false, max3]
    push_cast
    have : H SEMI_GLOBAL scoring pattern ref (0 + 1) j + scoring.insertion ≤
        max (max (H SEMI_GLOBAL scoring pattern ref 0 (j + 1) + scoring.deletion)
          (H SEMI_GLOBAL scoring pattern ref (0 + 1) j + scoring.insertion))
          (H SEMI_GLOBAL scoring pattern ref 0 j +
            (if ref.getD 0 0 = pattern.getD j 0 then scoring.match_ else scoring.mismatch)) :=
      le_trans (le_max_right _ _) (le_max_left _ _)
    simp only [Nat.zero_add] at this
    linarith

theorem apply_new_cell {σ : Type} (C : Context σ) (N M : Nat) (s : σ) (i j : Nat)
    (score : Int) (dir : Nat) :
    C.apply N M s (CtxEvent.new_cell i j score dir) = C.new_cell s i N j M score dir := rfl

theorem max3_direction (t l g : Int) :
    max3 t l g = if direction t l g = DELETION then t
      else if direction t l g = INSERTION then l else g := by
  have h1 : SUBSTITUTION ≠ DELETION := by decide
  have h2 : SUBSTITUTION ≠ INSERTION := by decide
  have h3 : INSERTION ≠ DELETION := by decide
  have hmax : ∀ a b : Int, max a b = if a ≤ b then b else a := fun a b => max_def a b
  by_cases htl : t > l
  · by_cases htg : t > g
    · have hd : direction t l g = DELETION := by
        unfold direction; rw [if_pos htl, if_pos htg]
      rw [hd, if_pos rfl]
      unfold max3
      rw [hmax, hmax]
      split_ifs <;> omega
    · have hd : direction t l g = SUBSTITUTION := by
        unfold direction; rw [if_pos htl, if_neg htg]
      rw [hd, if_neg h1, if_neg h2]
      unfold max3
      rw [hmax, hmax]
      split_ifs <;> omega
  · by_cases hlg : l > g
    · have hd : direction t l g = INSERTION := by
        unfold direction; rw [if_neg htl, if_pos hlg]
      rw [hd, if_neg h3, if_pos rfl]
      unfold max3
      rw [hmax, hmax]
      split_ifs <;> omega
    · have hd : direction t l g = SUBSTITUTION := by
        unfold direction; rw [if_neg htl, if_neg hlg]
      rw [hd, if_neg h1, if_neg h2]
      unfold max3
      rw [hmax, hmax]
      split_ifs <;> omega

theorem direction_ne_sink (t l g : Int) : direction t l g ≠ SINK := by
  unfold direction
  split_ifs <;> decide

theorem traceback_fuel (x y : Nat) (c : Int) (hc : 0 ≤ c) :
    ((0 < (x : Int) ∧ 0 ≤ (y : Int) - c - 1) →
      (x : Int) + ((y : Int) - c - 1) + 2 ≤ ((x + y + 2 : Nat) : Int)) ∧ 1 ≤ x + y + 2 := by
  constructor
  · intro _
    push_cast
    omega
  · omega

/-- C9: in `alignment_traceback` every pushed operation moves the walk as specified
(`DELETION` decrements the row only, `INSERTION` the column only, any other operation both),
so on return the number of pushed operations other than `DELETION` is the initial minus the
final column and the number of pushed operations other than `INSERTION` is the initial minus
the final row. -/
theorem alignment_traceback_moves (CHECKPOINTS : Nat) (TYPE : AlignmentType)
    (checkpoint_id : Nat) (submatrix : Nat → Nat) (submatrix_height : Nat) (sink : Nat × Nat)
    (output : List Nat) :
    ∃ (w : Walk) (ops : List Nat),
      alignment_traceback CHECKPOINTS TYPE checkpoint_id submatrix submatrix_height sink output =
        some (if w.at_sink then true else decide (w.current_row = 0),
              (w.current_row.toNat, (w.current_col + checkpoint_id * CHECKPOINTS + 1).toNat),
              output ++ ops) ∧
      (w.current_row, w.current_col) =
        ops.foldl move ((sink.1 : Int), (sink.2 : Int) - checkpoint_id * CHECKPOINTS - 1) ∧
      ((ops.filter (fun op => decide (op ≠ DELETION))).length : Int) =
        ((sink.2 : Int) - checkpoint_id * CHECKPOINTS - 1) - w.current_col ∧
      ((ops.filter (fun op => decide (op ≠ INSERTION))).length : Int) =
        (sink.1 : Int) - w.current_row := by
  have hfuel := traceback_fuel sink.1 sink.2 ((checkpoint_id : Int) * CHECKPOINTS)
    (by positivity)
  obtain ⟨w, ops, h1, h2, h3, _⟩ := traceback_loop_spec TYPE submatrix submatrix_height
    (sink.1 + sink.2 + 2) (sink.1 : Int) ((sink.2 : Int) - checkpoint_id * CHECKPOINTS - 1)
    output hfuel.1 hfuel.2
  refine ⟨w, ops, ?_, h3, ?_, ?_⟩
  · unfold alignment_traceback
    simp only [h1, h2]
  · have := (foldl_move_count ops ((sink.1 : Int),
      (sink.2 : Int) - checkpoint_id * CHECKPOINTS - 1)).2
    rw [← h3] at this
    simp only [] at this
    omega
  · have := (foldl_move_count ops ((sink.1 : Int),
      (sink.2 : Int) - checkpoint_id * CHECKPOINTS - 1)).1
    rw [← h3] at this
    simp only [] at this
    omega

/-- C10: under the entry conditions the code asserts (row > 0, local column >= 0),
`alignment_traceback` returns `true` exactly when the walk read a `SINK` marker (`LOCAL` only;
it then stops at that cell and pushes no operation for it) or ended with the current row
equal to 0, and returns `false` exactly when the walk left the window through column -1 with
the row still positive. -/
theorem alignment_traceback_flag (CHECKPOINTS : Nat) (TYPE : AlignmentType)
    (checkpoint_id : Nat) (submatrix : Nat → Nat) (submatrix_height : Nat) (sink : Nat × Nat)
    (output : List Nat)
    (hrow : 0 < sink.1) (hcol : checkpoint_id * CHECKPOINTS + 1 ≤ sink.2) :
    ∃ (w : Walk) (ops : List Nat) (flag : Bool),
      traceback_loop TYPE submatrix submatrix_height (sink.1 + sink.2 + 2) (sink.1 : Int)
          ((sink.2 : Int) - checkpoint_id * CHECKPOINTS - 1) output = some w ∧
      alignment_traceback CHECKPOINTS TYPE checkpoint_id submatrix submatrix_height sink output =
        some (flag,
              (w.current_row.toNat, (w.current_col + checkpoint_id * CHECKPOINTS + 1).toNat),
              output ++ ops) ∧
      (flag = true ↔ (w.at_sink = true ∨ w.current_row = 0)) ∧
      (flag = false ↔ (w.current_col = -1 ∧ 0 < w.current_row)) ∧
      (w.at_sink = true → TYPE = LOCAL ∧ 0 < w.current_row ∧ 0 ≤ w.current_col ∧
        submatrix (w.current_col * submatrix_height + (w.current_row - 1)).toNat = SINK) ∧
      (TYPE = LOCAL → SINK ∉ ops) := by
  have hfuel := traceback_fuel sink.1 sink.2 ((checkpoint_id : Int) * CHECKPOINTS)
    (by positivity)
  obtain ⟨w, ops, h1, h2, _, h4, h5, h6, h7, h8, _, _⟩ :=
    traceback_loop_spec TYPE submatrix submatrix_height
    (sink.1 + sink.2 + 2) (sink.1 : Int) ((sink.2 : Int) - checkpoint_id * CHECKPOINTS - 1)
    output hfuel.1 hfuel.2
  have hr := h7 (by omega)
  have hc := h8 (by omega)
  refine ⟨w, ops, if w.at_sink then true else decide (w.current_row = 0), h1, ?_, ?_, ?_, h4, h6⟩
  · unfold alignment_traceback
    simp only [h1, h2]
  · cases hs : w.at_sink with
    | true => simp
    | false => simp
  · cases hs : w.at_sink with
    | true =>
      obtain ⟨_, h41, h42, _⟩ := h4 hs
      simp only [if_true, Bool.true_eq_false, false_iff, not_and, not_lt]
      intro h; omega
    | false =>
      have h5' := h5 hs
      simp only [Bool.false_eq_true, if_false, decide_eq_false_iff_not]
      constructor
      · intro h
        have : 0 < w.current_row := by omega
        have : ¬ (0 ≤ w.current_col) := fun hh => h5' ⟨this, hh⟩
        constructor <;> omega
      · intro h; omega

/-- C10 witness: a local walk entered at row 1, column 0 of window 0. -/
theorem alignment_traceback_flag_witness :
    ∃ (w : Walk) (ops : List Nat) (flag : Bool),
      traceback_loop LOCAL (fun _ => SUBSTITUTION) 1
          (((1, 1) : Nat × Nat).1 + ((1, 1) : Nat × Nat).2 + 2) ((((1, 1) : Nat × Nat).1 : Nat) : Int)
          ((((1, 1) : Nat × Nat).2 : Int) - (0 : Nat) * (4 : Nat) - 1) [] = some w ∧
      alignment_traceback 4 LOCAL 0 (fun _ => SUBSTITUTION) 1 (1, 1) [] =
        some (flag,
              (w.current_row.toNat, (w.current_col + (0 : Nat) * (4 : Nat) + 1).toNat),
              [] ++ ops) ∧
      (flag = true ↔ (w.at_sink = true ∨ w.current_row = 0)) ∧
      (flag = false ↔ (w.current_col = -1 ∧ 0 < w.current_row)) ∧
      (w.at_sink = true → LOCAL = LOCAL ∧ 0 < w.current_row ∧ 0 ≤ w.current_col ∧
        (fun _ => SUBSTITUTION) (w.current_col * (1 : Nat) + (w.current_row - 1)).toNat
          = SINK) ∧
      (LOCAL = LOCAL → SINK ∉ ops) :=
  alignment_traceback_flag 4 LOCAL 0 (fun _ => SUBSTITUTION) 1 (1, 1) [] (by decide) (by decide)

/-- On unbounded integers: for SEMI_GLOBAL (end-to-end) alignment with a non-empty text and
a scheme with `match >= 0`, `mismatch <= match` and `insertion = deletion <= 0`, a
full-pattern run that exits early (returns `false`) does so only when every last-column score
`H[i][M]`, `1 <= i <= N`, is strictly below `min_score`. -/
theorem semi_global_early_exit_sound_unbounded {τ : Type} (K : Sink τ) (BAND_LEN : Nat)
    (scoring : Scoring) (score_min : Int) (pattern text : List Nat) (min_score : Int)
    (st : RunState Unit τ)
    (hB : 0 < BAND_LEN) (hN : 0 < text.length) (hM : pattern.length < 2147483648)
    (hmatch : 0 ≤ scoring.match_) (hmis : scoring.mismatch ≤ scoring.match_)
    (hgap : scoring.insertion = scoring.deletion) (hdel : scoring.deletion ≤ 0)
    (hrun : (dispatch K BAND_LEN SEMI_GLOBAL scoring score_min pattern text min_score st).map
      Prod.fst = some false) :
    ∀ i, 1 ≤ i → i ≤ text.length →
      H SEMI_GLOBAL scoring pattern text i pattern.length < min_score := by
  intro i hi1 hi2
  obtain ⟨st', hst'⟩ := dispatch_flag_false _ hrun
  obtain ⟨hend, hle, hge, _⟩ := end_block_full BAND_LEN pattern.length hB
  obtain ⟨e, he, hexit⟩ := run_false_spec (SWScoringContext SEMI_GLOBAL) K BAND_LEN SEMI_GLOBAL
    scoring score_min pattern text min_score 0 pattern.length st st'
    (fun c => pattern.getD c 0) ((pattern.length + BAND_LEN - 1) / BAND_LEN - 1) hB hend
    (by intro c _ _; rfl) hst'
  have heB : e * BAND_LEN + BAND_LEN ≤
      ((pattern.length + BAND_LEN - 1) / BAND_LEN - 1) * BAND_LEN := by
    have : (e + 1) * BAND_LEN ≤ ((pattern.length + BAND_LEN - 1) / BAND_LEN - 1) * BAND_LEN :=
      Nat.mul_le_mul_right BAND_LEN (by omega)
    rw [Nat.add_mul, Nat.one_mul] at this
    exact this
  have hcM : e * BAND_LEN + BAND_LEN ≤ pattern.length := by omega
  -- the maximum the test saw bounds column `c` of the matrix, row 0 included
  have hW : ∀ x, x < text.length →
      H_window SEMI_GLOBAL scoring text (fun c => pattern.getD c 0) 0
        ((SWScoringContext SEMI_GLOBAL).init st.context 0 text.length st.temp scoring) (x + 1)
        (e * BAND_LEN + BAND_LEN) =
      H SEMI_GLOBAL scoring pattern text (x + 1) (e * BAND_LEN + BAND_LEN) := by
    intro x hx
    apply H_window_eq_H SEMI_GLOBAL scoring pattern text _ _ text.length
      (e * BAND_LEN + BAND_LEN) (by intro c _; rfl) _ (x + 1) _ (by omega) le_rfl
    intro i hi
    simp [SWScoringContext, first_column, hi]
  obtain ⟨_, hmax⟩ := le_foldl_max
    (fun i => H_window SEMI_GLOBAL scoring text (fun c => pattern.getD c 0) 0
        ((SWScoringContext SEMI_GLOBAL).init st.context 0 text.length st.temp scoring) (i + 1)
        (e * BAND_LEN + BAND_LEN)) score_min text.length
  generalize (List.range text.length).foldl
    (fun m i => max m (H_window SEMI_GLOBAL scoring text (fun c => pattern.getD c 0) 0
      ((SWScoringContext SEMI_GLOBAL).init st.context 0 text.length st.temp scoring)
      (i + 1) (e * BAND_LEN + BAND_LEN))) score_min = X at hexit hmax
  have hX : ∀ x, x ≤ text.length →
      H SEMI_GLOBAL scoring pattern text x (e * BAND_LEN + BAND_LEN) ≤ X := by
    intro x hx
    have hrow1 : H SEMI_GLOBAL scoring pattern text 1 (e * BAND_LEN + BAND_LEN) ≤ X := by
      have := hmax 0 hN
      rw [hW 0 hN] at this
      exact this
    cases x with
    | zero =>
      refine le_trans ?_ hrow1
      rw [H_row_zero]
      simp only [row_zero, ne_eq, reduceCtorEq, not_false_eq_true, if_true]
      have := semi_global_row_one scoring pattern text (e * BAND_LEN + BAND_LEN)
      rw [hgap] at this
      linarith
    | succ x =>
      have := hmax x (by omega)
      rw [hW x (by omega)] at this
      exact this
  have hbound := semi_global_column_bound scoring pattern text hmatch hmis (by omega) hdel
    (e * BAND_LEN + BAND_LEN) X text.length hX (pattern.length - (e * BAND_LEN + BAND_LEN)) i hi2
  have hcd : e * BAND_LEN + BAND_LEN + (pattern.length - (e * BAND_LEN + BAND_LEN))
      = pattern.length := by omega
  rw [hcd] at hbound
  simp only [early_exit, decide_eq_true_eq] at hexit
  rw [to_int32_of_range _ (by push_cast; omega) (by push_cast; omega)] at hexit
  have hcast : ((pattern.length - (e * BAND_LEN + BAND_LEN) : Nat) : Int) =
      (pattern.length : Int) - ((0 + e * BAND_LEN : Nat) : Int) - (BAND_LEN : Int) := by
    push_cast [Nat.cast_sub hcM]
    ring
  rw [hcast] at hbound
  linarith

/-- C11: under the entry conditions the code asserts (`1 <= row <= submatrix_height`, local
column `>= 0`), `alignment_traceback` returns and stores in `sink` the cell where the walk
stopped, in global coordinates: `sink.x` is the row and `sink.y` is the local column plus
`checkpoint_id * CHECKPOINTS + 1`.  When it returns `false` from window `k >= 1` (with
`CHECKPOINTS > 0`), `sink.y = k * CHECKPOINTS` and `1 <= sink.x <= submatrix_height`, so the
call with `checkpoint_id = k - 1` starts at local column `CHECKPOINTS - 1` and meets the entry
conditions again. -/
theorem alignment_traceback_carry (CHECKPOINTS : Nat) (TYPE : AlignmentType)
    (checkpoint_id : Nat) (submatrix : Nat → Nat) (submatrix_height : Nat) (sink : Nat × Nat)
    (output : List Nat)
    (hrow : 0 < sink.1 ∧ sink.1 ≤ submatrix_height)
    (hcol : checkpoint_id * CHECKPOINTS + 1 ≤ sink.2) :
    ∃ (w : Walk) (flag : Bool) (sink1 : Nat × Nat) (out : List Nat),
      traceback_loop TYPE submatrix submatrix_height (sink.1 + sink.2 + 2) (sink.1 : Int)
          ((sink.2 : Int) - checkpoint_id * CHECKPOINTS - 1) output = some w ∧
      alignment_traceback CHECKPOINTS TYPE checkpoint_id submatrix submatrix_height sink output =
        some (flag, sink1, out) ∧
      (sink1.1 : Int) = w.current_row ∧
      (sink1.2 : Int) = w.current_col + checkpoint_id * CHECKPOINTS + 1 ∧
      (flag = false → 1 ≤ checkpoint_id → 0 < CHECKPOINTS →
        sink1.2 = checkpoint_id * CHECKPOINTS ∧
        0 < sink1.1 ∧ sink1.1 ≤ submatrix_height ∧
        (checkpoint_id - 1) * CHECKPOINTS + 1 ≤ sink1.2 ∧
        (sink1.2 : Int) - ((checkpoint_id - 1 : Nat) : Int) * CHECKPOINTS - 1 =
          (CHECKPOINTS : Int) - 1) := by
  have hfuel := traceback_fuel sink.1 sink.2 ((checkpoint_id : Int) * CHECKPOINTS)
    (by positivity)
  obtain ⟨w, ops, h1, h2, _, h4, h5, _, h7, h8, h9, _⟩ :=
    traceback_loop_spec TYPE submatrix submatrix_height
    (sink.1 + sink.2 + 2) (sink.1 : Int) ((sink.2 : Int) - checkpoint_id * CHECKPOINTS - 1)
    output hfuel.1 hfuel.2
  have hr : 0 ≤ w.current_row := h7 (by omega)
  have hc : -1 ≤ w.current_col := h8 (by omega)
  have hkc : (0 : Int) ≤ (checkpoint_id : Int) * CHECKPOINTS := by positivity
  refine ⟨w, if w.at_sink then true else decide (w.current_row = 0),
    (w.current_row.toNat, (w.current_col + checkpoint_id * CHECKPOINTS + 1).toNat),
    w.output, h1, ?_, ?_, ?_, ?_⟩
  · unfold alignment_traceback
    simp only [h1]
  · exact Int.toNat_of_nonneg hr
  · exact Int.toNat_of_nonneg (by omega)
  · intro hflag hk hC
    cases hs : w.at_sink with
    | true => rw [hs] at hflag; simp at hflag
    | false =>
      rw [hs] at hflag
      simp only [Bool.false_eq_true, if_false, decide_eq_false_iff_not] at hflag
      have h5' := h5 hs
      have hrow1 : 0 < w.current_row := by omega
      have hcol1 : w.current_col = -1 := by
        have : ¬ (0 ≤ w.current_col) := fun hh => h5' ⟨hrow1, hh⟩
        omega
      obtain ⟨k, rfl⟩ : ∃ k, checkpoint_id = k + 1 := ⟨checkpoint_id - 1, by omega⟩
      have e2 : (w.current_col + ((k + 1 : Nat) : Int) * CHECKPOINTS + 1).toNat =
          (k + 1) * CHECKPOINTS := by
        rw [hcol1]
        have : (-1 : Int) + ((k + 1 : Nat) : Int) * CHECKPOINTS + 1 =
            (((k + 1) * CHECKPOINTS : Nat) : Int) := by push_cast; ring
        rw [this, Int.toNat_ofNat]
      have e1 : (w.current_row.toNat : Int) = w.current_row := Int.toNat_of_nonneg hr
      simp only [e2, Nat.add_sub_cancel]
      refine ⟨trivial, ?_, ?_, ?_, ?_⟩
      · omega
      · have : w.current_row ≤ (sink.1 : Int) := h9
        omega
      · nlinarith
      · push_cast; ring

/-- C11 witness: a walk over insertions entered at row 1, local column 0 of window 1 with
spacing 2; it leaves the window through its left edge. -/
theorem alignment_traceback_carry_witness :
    ∃ (w : Walk) (flag : Bool) (sink1 : Nat × Nat) (out : List Nat),
      traceback_loop GLOBAL (fun _ => INSERTION) 1
          (((1, 3) : Nat × Nat).1 + ((1, 3) : Nat × Nat).2 + 2) ((((1, 3) : Nat × Nat).1 : Nat) : Int)
          ((((1, 3) : Nat × Nat).2 : Int) - (1 : Nat) * (2 : Nat) - 1) [] = some w ∧
      alignment_traceback 2 GLOBAL 1 (fun _ => INSERTION) 1 (1, 3) [] = some (flag, sink1, out) ∧
      (sink1.1 : Int) = w.current_row ∧
      (sink1.2 : Int) = w.current_col + (1 : Nat) * (2 : Nat) + 1 ∧
      (flag = false → 1 ≤ 1 → 0 < 2 →
        sink1.2 = 1 * 2 ∧
        0 < sink1.1 ∧ sink1.1 ≤ 1 ∧
        (1 - 1) * 2 + 1 ≤ sink1.2 ∧
        (sink1.2 : Int) - ((1 - 1 : Nat) : Int) * (2 : Nat) - 1 = ((2 : Nat) : Int) - 1) :=
  alignment_traceback_carry 2 GLOBAL 1 (fun _ => INSERTION) 1 (1, 3) [] (by decide) (by decide)

/-- C12: in each of the three selection kernels, a thread whose read satisfies
`stop(read_id)` or whose hit store is empty leaves the whole state as it was: no output slot
is allocated, no active-read entry and no hit are written, and the hit store and the random
seed of the read are unchanged. -/
theorem stopped_or_empty_emits_nothing (T : SumTreeOps) (stop : Nat → Bool)
    (n_multi thread_id : Nat) (st : SelectState)
    (h : stop (st.in_queue thread_id).read_id = true ∨
      (st.hits (st.in_queue thread_id).read_id).data = []) :
    select_kernel stop thread_id st = st ∧
    rand_select_kernel T stop thread_id st = st ∧
    select_multi_kernel stop n_multi thread_id st = st := by
  refine ⟨?_, ?_, ?_⟩
  · unfold select_kernel
    rcases h with h | h
    · simp [h]
    · by_cases h1 : thread_id ≥ st.in_size
      · simp [h1]
      · by_cases h2 : stop (st.in_queue thread_id).read_id = true
        · simp [h2]
        · simp [h1, h2, h]
  · unfold rand_select_kernel
    rcases h with h | h
    · simp [h]
    · simp [h]
  · unfold select_multi_kernel
    rcases h with h | h
    · simp [h]
    · simp [h]

/-- C12 witness: a stopped read with a non-empty store, in a queue of one entry. -/
theorem stopped_or_empty_emits_nothing_witness :
    select_kernel (fun _ => true) 0
        (select_state [{ read_id := 0, top_flag := 1 }]
          [[{ range_x := 3, range_y := 5, posinread := 0, indexdir := 0, readtype := false }]]
          (fun _ => 0) 7) =
      select_state [{ read_id := 0, top_flag := 1 }]
          [[{ range_x := 3, range_y := 5, posinread := 0, indexdir := 0, readtype := false }]]
          (fun _ => 0) 7 ∧
    rand_select_kernel { sample := fun _ _ _ => 0, set := fun _ c _ _ => c } (fun _ => true) 0
        (select_state [{ read_id := 0, top_flag := 1 }]
          [[{ range_x := 3, range_y := 5, posinread := 0, indexdir := 0, readtype := false }]]
          (fun _ => 0) 7) =
      select_state [{ read_id := 0, top_flag := 1 }]
          [[{ range_x := 3, range_y := 5, posinread := 0, indexdir := 0, readtype := false }]]
          (fun _ => 0) 7 ∧
    select_multi_kernel (fun _ => true) 2 0
        (select_state [{ read_id := 0, top_flag := 1 }]
          [[{ range_x := 3, range_y := 5, posinread := 0, indexdir := 0, readtype := false }]]
          (fun _ => 0) 7) =
      select_state [{ read_id := 0, top_flag := 1 }]
          [[{ range_x := 3, range_y := 5, posinread := 0, indexdir := 0, readtype := false }]]
          (fun _ => 0) 7 :=
  stopped_or_empty_emits_nothing { sample := fun _ _ _ => 0, set := fun _ c _ _ => c }
    (fun _ => true) 2 0 _ (Or.inl rfl)

/-- C14: in `select_kernel`, for a read that is not stopped and whose store still holds a hit
`sel` after an exhausted top hit has been discarded, exactly one output slot is allocated (the
counter `out_size` grows by one) and one active-read entry and one hit are written, both at
that slot: both carry the read id and the same top flag `tf` (the flag read from the queue, or
0 when the top hit was discarded), and the hit carries the front row of `sel` with the
position in the read, the direction and the read type of `sel`; in the store `sel` has lost
its front row; nothing else changes. -/
theorem select_kernel_emits_one (stop : Nat → Bool) (thread_id : Nat) (st : SelectState)
    (sel : SeedHit) (rest : List SeedHit) (tf : Nat)
    (ht : thread_id < st.in_size)
    (hstop : stop (st.in_queue thread_id).read_id = false)
    (hsel : ((st.hits (st.in_queue thread_id).read_id).data = sel :: rest ∧
              sel.range_x < sel.range_y ∧ tf = (st.in_queue thread_id).top_flag) ∨
            (∃ top, (st.hits (st.in_queue thread_id).read_id).data = top :: sel :: rest ∧
              top.range_y ≤ top.range_x ∧ tf = 0)) :
    select_kernel stop thread_id st =
      { st with
        hits := store st.hits (st.in_queue thread_id).read_id
          { (st.hits (st.in_queue thread_id).read_id) with
            data := { sel with range_x := sel.range_x + 1 } :: rest }
        out_size := st.out_size + 1
        out_queue := store st.out_queue st.out_size
          { read_id := (st.in_queue thread_id).read_id, top_flag := tf }
        hit_queue := store st.hit_queue st.out_size
          { read_id := (st.in_queue thread_id).read_id, loc := sel.range_x,
            seed := { pos_in_read := sel.posinread, index_dir := sel.indexdir,
                      rc := if sel.readtype then 1 else 0, top_flag := tf } } } := by
  unfold select_kernel
  have h1 : ¬ (thread_id ≥ st.in_size) := by omega
  rcases hsel with ⟨hd, hr, htf⟩ | ⟨top, hd, hr, htf⟩
  · have h2 : ¬ (sel.range_x ≥ sel.range_y) := by omega
    simp only [h1, hstop, hd, h2, if_false, Bool.false_eq_true, emit_hit, SeedHit.pop_front,
      List.set_cons_zero, htf]
  · have h2 : top.range_x ≥ top.range_y := hr
    simp only [h1, hstop, hd, h2, if_true, if_false, Bool.false_eq_true, emit_hit,
      SeedHit.pop_front, List.set_cons_zero, htf]

/-- C14 witness: a read whose exhausted top hit is discarded and whose second hit is
selected. -/
theorem select_kernel_emits_one_witness :
    select_kernel (fun _ => false) 0
        (select_state [{ read_id := 0, top_flag := 1 }]
          [[{ range_x := 3, range_y := 3, posinread := 0, indexdir := 0, readtype := false },
            { range_x := 5, range_y := 7, posinread := 2, indexdir := 1, readtype := true }]]
          (fun _ => 0) 7) =
      { (select_state [{ read_id := 0, top_flag := 1 }]
          [[{ range_x := 3, range_y := 3, posinread := 0, indexdir := 0, readtype := false },
            { range_x := 5, range_y := 7, posinread := 2, indexdir := 1, readtype := true }]]
          (fun _ => 0) 7) with
        hits := store (select_state [{ read_id := 0, top_flag := 1 }]
          [[{ range_x := 3, range_y := 3, posinread := 0, indexdir := 0, readtype := false },
            { range_x := 5, range_y := 7, posinread := 2, indexdir := 1, readtype := true }]]
          (fun _ => 0) 7).hits 0
          { data := [{ range_x := 6, range_y := 7, posinread := 2, indexdir := 1,
                       readtype := true }],
            probs := fun _ => 0 }
        out_size := 1
        out_queue := store (fun _ => default) 0 { read_id := 0, top_flag := 0 }
        hit_queue := store (fun _ => default) 0
          { read_id := 0, loc := 5,
            seed := { pos_in_read := 2, index_dir := 1, rc := 1, top_flag := 0 } } } :=
  select_kernel_emits_one (fun _ => false) 0 _
    { range_x := 5, range_y := 7, posinread := 2, indexdir := 1, readtype := true } [] 0
    (by decide) rfl
    (Or.inr ⟨{ range_x := 3, range_y := 3, posinread := 0, indexdir := 0, readtype := false },
      rfl, by decide, rfl⟩)

/-- C18: in `rand_select_kernel`, for a live read (not stopped, non-empty store) that is no
longer on its top hit (its top flag is 0, or the range of the top hit is empty), if the total
weight `prob_tree.sum()` is `<= 0` the only effect of the thread is to erase the hit store of
the read: the random seed is not advanced, no slot is allocated and nothing is written to the
queues. -/
theorem rand_select_retires (T : SumTreeOps) (stop : Nat → Bool) (thread_id : Nat)
    (st : SelectState)
    (ht : thread_id < st.in_size)
    (hstop : stop (st.in_queue thread_id).read_id = false)
    (hne : (st.hits (st.in_queue thread_id).read_id).data ≠ [])
    (htop : (st.in_queue thread_id).top_flag = 0 ∨
      ((st.hits (st.in_queue thread_id).read_id).data.getD 0 default).range_y ≤
        ((st.hits (st.in_queue thread_id).read_id).data.getD 0 default).range_x)
    (hsum : SumTree.sum (st.hits (st.in_queue thread_id).read_id).data.length
      (st.hits (st.in_queue thread_id).read_id).probs ≤ 0) :
    rand_select_kernel T stop thread_id st =
      { st with hits := store st.hits (st.in_queue thread_id).read_id
                  (st.hits (st.in_queue thread_id).read_id).erase } := by
  unfold rand_select_kernel
  have h1 : ¬ (thread_id ≥ st.in_size) := by omega
  have h2 : ¬ ((st.hits (st.in_queue thread_id).read_id).data.length = 0) := by
    intro h
    exact hne (List.length_eq_zero.mp h)
  simp only [h1, hstop, h2, if_false, Bool.false_eq_true]
  have h3 : (if (st.in_queue thread_id).top_flag ≠ 0 then
        if ((st.hits (st.in_queue thread_id).read_id).data.getD 0 default).range_x ≥
            ((st.hits (st.in_queue thread_id).read_id).data.getD 0 default).range_y then 0
        else (st.in_queue thread_id).top_flag
      else (st.in_queue thread_id).top_flag) = 0 := by
    rcases htop with h | h
    · simp [h]
    · have : ((st.hits (st.in_queue thread_id).read_id).data.getD 0 default).range_x ≥
          ((st.hits (st.in_queue thread_id).read_id).data.getD 0 default).range_y := h
      simp only [this, if_true]
      split_ifs with h4
      · rfl
      · simpa using h4
  rw [h3]
  simp only [ne_eq, not_true_eq_false, if_false, hsum, if_true]

/-- C18 witness: a read whose top flag is cleared and whose sum tree has total weight 0. -/
theorem rand_select_retires_witness :
    rand_select_kernel { sample := fun _ _ _ => 0, set := fun _ c _ _ => c } (fun _ => false) 0
        (select_state [{ read_id := 0, top_flag := 0 }]
          [[{ range_x := 3, range_y := 3, posinread := 0, indexdir := 0, readtype := false }]]
          (fun _ => 0) 7) =
      { (select_state [{ read_id := 0, top_flag := 0 }]
          [[{ range_x := 3, range_y := 3, posinread := 0, indexdir := 0, readtype := false }]]
          (fun _ => 0) 7) with
        hits := store (select_state [{ read_id := 0, top_flag := 0 }]
          [[{ range_x := 3, range_y := 3, posinread := 0, indexdir := 0, readtype := false }]]
          (fun _ => 0) 7).hits 0 { data := [], probs := fun _ => 0 } } :=
  rand_select_retires { sample := fun _ _ _ => 0, set := fun _ c _ _ => c } (fun _ => false) 0
    _ (by decide) rfl (by decide) (Or.inl rfl) (by decide)

/-- C19: in `rand_select_kernel`, for a live read that is no longer on its top hit, when the
total weight is positive but the sampled hit has an empty range, the only effect of the thread
is the new value of the random seed of the read: no output slot is allocated, no active-read
entry and no hit is written, and no hit range and no weight of the store is changed. -/
theorem rand_select_empty_sample (T : SumTreeOps) (stop : Nat → Bool) (thread_id : Nat)
    (st : SelectState)
    (ht : thread_id < st.in_size)
    (hstop : stop (st.in_queue thread_id).read_id = false)
    (hne : (st.hits (st.in_queue thread_id).read_id).data ≠ [])
    (htop : (st.in_queue thread_id).top_flag = 0 ∨
      ((st.hits (st.in_queue thread_id).read_id).data.getD 0 default).range_y ≤
        ((st.hits (st.in_queue thread_id).read_id).data.getD 0 default).range_x)
    (hsum : 0 < SumTree.sum (st.hits (st.in_queue thread_id).read_id).data.length
      (st.hits (st.in_queue thread_id).read_id).probs)
    (hempty :
      ((st.hits (st.in_queue thread_id).read_id).data.getD
        (T.sample (st.hits (st.in_queue thread_id).read_id).data.length
          (st.hits (st.in_queue thread_id).read_id).probs
          (float_of_uint32
              ((1664525 * st.rseeds (st.in_queue thread_id).read_id + 1013904223) % 4294967296),
            float_of_uint32 4294967295)) default).range_y ≤
      ((st.hits (st.in_queue thread_id).read_id).data.getD
        (T.sample (st.hits (st.in_queue thread_id).read_id).data.length
          (st.hits (st.in_queue thread_id).read_id).probs
          (float_of_uint32
              ((1664525 * st.rseeds (st.in_queue thread_id).read_id + 1013904223) % 4294967296),
            float_of_uint32 4294967295)) default).range_x) :
    rand_select_kernel T stop thread_id st =
      { st with rseeds := store st.rseeds (st.in_queue thread_id).read_id
                  ((1664525 * st.rseeds (st.in_queue thread_id).read_id + 1013904223)
                    % 4294967296) } := by
  unfold rand_select_kernel
  have h1 : ¬ (thread_id ≥ st.in_size) := by omega
  have h2 : ¬ ((st.hits (st.in_queue thread_id).read_id).data.length = 0) := by
    intro h
    exact hne (List.length_eq_zero.mp h)
  simp only [h1, hstop, h2, if_false, Bool.false_eq_true]
  have h3 : (if (st.in_queue thread_id).top_flag ≠ 0 then
        if ((st.hits (st.in_queue thread_id).read_id).data.getD 0 default).range_x ≥
            ((st.hits (st.in_queue thread_id).read_id).data.getD 0 default).range_y then 0
        else (st.in_queue thread_id).top_flag
      else (st.in_queue thread_id).top_flag) = 0 := by
    rcases htop with h | h
    · simp [h]
    · have : ((st.hits (st.in_queue thread_id).read_id).data.getD 0 default).range_x ≥
          ((st.hits (st.in_queue thread_id).read_id).data.getD 0 default).range_y := h
      simp only [this, if_true]
      split_ifs with h4
      · rfl
      · simpa using h4
  rw [h3]
  have h5 : ¬ (SumTree.sum (st.hits (st.in_queue thread_id).read_id).data.length
      (st.hits (st.in_queue thread_id).read_id).probs ≤ 0) := by omega
  have h6 : ((st.hits (st.in_queue thread_id).read_id).data.getD
        (T.sample (st.hits (st.in_queue thread_id).read_id).data.length
          (st.hits (st.in_queue thread_id).read_id).probs
          (float_of_uint32
              ((1664525 * st.rseeds (st.in_queue thread_id).read_id + 1013904223) % 4294967296),
            float_of_uint32 4294967295)) default).range_x ≥
      ((st.hits (st.in_queue thread_id).read_id).data.getD
        (T.sample (st.hits (st.in_queue thread_id).read_id).data.length
          (st.hits (st.in_queue thread_id).read_id).probs
          (float_of_uint32
              ((1664525 * st.rseeds (st.in_queue thread_id).read_id + 1013904223) % 4294967296),
            float_of_uint32 4294967295)) default).range_y := hempty
  simp only [ne_eq, not_true_eq_false, if_false, h5, h6, if_true]

/-- C19 witness: a read with cleared top flag, total weight 1 and a single hit with an empty
range; the seed 7 becomes `1664525 * 7 + 1013904223`. -/
theorem rand_select_empty_sample_witness :
    rand_select_kernel { sample := fun _ _ _ => 0, set := fun _ c _ _ => c } (fun _ => false) 0
        (select_state [{ read_id := 0, top_flag := 0 }]
          [[{ range_x := 3, range_y := 3, posinread := 0, indexdir := 0, readtype := false }]]
          (fun _ => 1) 7) =
      { (select_state [{ read_id := 0, top_flag := 0 }]
          [[{ range_x := 3, range_y := 3, posinread := 0, indexdir := 0, readtype := false }]]
          (fun _ => 1) 7) with
        rseeds := store (fun _ => 7) 0 1025555898 } :=
  rand_select_empty_sample { sample := fun _ _ _ => 0, set := fun _ c _ _ => c }
    (fun _ => false) 0 _ (by decide) rfl (by decide) (Or.inl rfl) (by decide) (by decide)

/-- C20: the entry point `select` runs batched selection (`select_multi`) when `n_multi > 1`,
whatever the randomized flag is; otherwise it runs weighted-random selection (`rand_select`)
when `params.randomized` is set, and deterministic top-only selection otherwise; each of the
three is the launch of its kernel. -/
theorem select_dispatch (T : SumTreeOps) (stop : Nat → Bool) (sched : List Nat → List Nat)
    (BLOCKDIM n_multi : Nat) (randomized : Bool) (st : SelectState) :
    (1 < n_multi →
      select T stop sched BLOCKDIM n_multi randomized st =
        launch (select_multi_kernel stop n_multi) sched (select_blocks BLOCKDIM st.in_size)
          BLOCKDIM st) ∧
    (n_multi ≤ 1 → randomized = true →
      select T stop sched BLOCKDIM n_multi randomized st =
        launch (rand_select_kernel T stop) sched (select_blocks BLOCKDIM st.in_size)
          BLOCKDIM st) ∧
    (n_multi ≤ 1 → randomized = false →
      select T stop sched BLOCKDIM n_multi randomized st =
        launch (select_kernel stop) sched (select_blocks BLOCKDIM st.in_size) BLOCKDIM st) := by
  refine ⟨?_, ?_, ?_⟩
  · intro h
    simp [select, select_multi, h]
  · intro h hr
    have : ¬ n_multi > 1 := by omega
    simp [select, rand_select, this, hr]
  · intro h hr
    have : ¬ n_multi > 1 := by omega
    simp [select, select_single, this, hr]

/-- C20 witness: with `n_multi = 3` the entry point runs the batched kernel although the
randomized flag is set. -/
theorem select_dispatch_witness :
    select { sample := fun _ _ _ => 0, set := fun _ c _ _ => c } (fun _ => false) (fun l => l)
        2 3 true
        (select_state [{ read_id := 0, top_flag := 1 }]
          [[{ range_x := 3, range_y := 5, posinread := 0, indexdir := 0, readtype := false }]]
          (fun _ => 0) 7) =
      launch (select_multi_kernel (fun _ => false) 3) (fun l => l)
        (select_blocks 2 (select_state [{ read_id := 0, top_flag := 1 }]
          [[{ range_x := 3, range_y := 5, posinread := 0, indexdir := 0, readtype := false }]]
          (fun _ => 0) 7).in_size) 2
        (select_state [{ read_id := 0, top_flag := 1 }]
          [[{ range_x := 3, range_y := 5, posinread := 0, indexdir := 0, readtype := false }]]
          (fun _ => 0) 7) :=
  (select_dispatch { sample := fun _ _ _ => 0, set := fun _ c _ _ => c } (fun _ => false)
    (fun l => l) 2 3 true _).1 (by decide)

theorem emit_hit_effect (thread_id tf : Nat) (deque : HitDeque) (hit_id : Nat) (hit : SeedHit)
    (st st0 : SelectState) (ht : thread_id < st0.in_size)
    (h1 : st.in_size = st0.in_size) (h2 : st.in_queue = st0.in_queue)
    (h3 : st.out_size = st0.out_size) (h4 : st.out_queue = st0.out_queue)
    (htf : tf = (st0.in_queue thread_id).top_flag ∨ tf = 0) :
    queue_effect thread_id st0
      (emit_hit (st0.in_queue thread_id).read_id tf deque hit_id hit st) := by
  refine ⟨h1, h2, Or.inr ⟨ht, ?_, tf, htf, ?_⟩⟩
  · simp only [emit_hit, h3]
  · simp only [emit_hit, h3, h4]

theorem select_kernel_effect (stop : Nat → Bool) (thread_id : Nat) (st : SelectState) :
    queue_effect thread_id st (select_kernel stop thread_id st) := by
  unfold select_kernel
  by_cases h1 : thread_id ≥ st.in_size
  · simp only [h1, if_true]
    exact ⟨rfl, rfl, Or.inl ⟨rfl, rfl⟩⟩
  · simp only [h1, if_false]
    by_cases h2 : stop (st.in_queue thread_id).read_id = true
    · simp only [h2, if_true]
      exact ⟨rfl, rfl, Or.inl ⟨rfl, rfl⟩⟩
    · have h2f : stop (st.in_queue thread_id).read_id = false := by simpa using h2
      simp only [h2f, Bool.false_eq_true, if_false]
      have ht : thread_id < st.in_size := by omega
      cases hd : (st.hits (st.in_queue thread_id).read_id).data with
      | nil => exact ⟨rfl, rfl, Or.inl ⟨rfl, rfl⟩⟩
      | cons hit rest =>
        simp only []
        by_cases h3 : hit.range_x ≥ hit.range_y
        · simp only [h3, if_true]
          cases rest with
          | nil => exact ⟨rfl, rfl, Or.inl ⟨rfl, rfl⟩⟩
          | cons hit2 rest2 =>
            exact emit_hit_effect thread_id 0 _ 0 hit2 st st ht rfl rfl rfl rfl (Or.inr rfl)
        · simp only [h3, if_false]
          exact emit_hit_effect thread_id _ _ 0 hit st st ht rfl rfl rfl rfl (Or.inl rfl)

theorem rand_select_kernel_effect (T : SumTreeOps) (stop : Nat → Bool) (thread_id : Nat)
    (st : SelectState) :
    queue_effect thread_id st (rand_select_kernel T stop thread_id st) := by
  unfold rand_select_kernel
  by_cases h1 : thread_id ≥ st.in_size
  · simp only [h1, if_true]
    exact ⟨rfl, rfl, Or.inl ⟨rfl, rfl⟩⟩
  · simp only [h1, if_false]
    by_cases h2 : stop (st.in_queue thread_id).read_id = true
    · simp only [h2, if_true]
      exact ⟨rfl, rfl, Or.inl ⟨rfl, rfl⟩⟩
    · have h2f : stop (st.in_queue thread_id).read_id = false := by simpa using h2
      simp only [h2f, Bool.false_eq_true, if_false]
      have ht : thread_id < st.in_size := by omega
      by_cases h3 : (st.hits (st.in_queue thread_id).read_id).data.length = 0
      · simp only [h3, if_true]
        exact ⟨rfl, rfl, Or.inl ⟨rfl, rfl⟩⟩
      · simp only [h3, if_false]
        have hflag : ∀ tf0 : Nat, ∀ c : Prop, ∀ _ : Decidable c,
            ((if tf0 ≠ 0 then (if c then 0 else tf0) else tf0) = tf0 ∨
             (if tf0 ≠ 0 then (if c then 0 else tf0) else tf0) = 0) := by
          intro tf0 c _
          split_ifs <;> simp
        generalize htf : (if (st.in_queue thread_id).top_flag ≠ 0 then
            if ((st.hits (st.in_queue thread_id).read_id).data.getD 0 default).range_x ≥
                ((st.hits (st.in_queue thread_id).read_id).data.getD 0 default).range_y then 0
            else (st.in_queue thread_id).top_flag
          else (st.in_queue thread_id).top_flag) = tf
        have htf2 : tf = (st.in_queue thread_id).top_flag ∨ tf = 0 := by
          rw [← htf]
          exact hflag _ _ _
        by_cases h4 : tf ≠ 0
        · rw [if_pos h4]
          unfold emit_rand_hit
          exact emit_hit_effect thread_id tf _ 0 _ st st ht rfl rfl rfl rfl htf2
        · rw [if_neg h4]
          by_cases h5 : SumTree.sum (st.hits (st.in_queue thread_id).read_id).data.length
              (st.hits (st.in_queue thread_id).read_id).probs ≤ 0
          · rw [if_pos h5]
            exact ⟨rfl, rfl, Or.inl ⟨rfl, rfl⟩⟩
          · rw [if_neg h5]
            split_ifs with h6
            · exact ⟨rfl, rfl, Or.inl ⟨rfl, rfl⟩⟩
            · unfold emit_rand_hit
              exact emit_hit_effect thread_id tf _ _ _ _ st ht rfl rfl rfl rfl htf2

theorem select_multi_step_inv (read_id : Nat) (s : MultiLoop) :
    (select_multi_step read_id s).st.in_size = s.st.in_size ∧
    (select_multi_step read_id s).st.in_queue = s.st.in_queue ∧
    (select_multi_step read_id s).st.out_queue = s.st.out_queue ∧
    (select_multi_step read_id s).st.hits_count = s.st.hits_count ∧
    ((select_multi_step read_id s).top_flag = s.top_flag ∨
      (select_multi_step read_id s).top_flag = 0) ∧
    (((select_multi_step read_id s).parent = s.parent ∧
        (select_multi_step read_id s).st.out_size = s.st.out_size) ∨
     (s.parent = 4294967295 ∧ (select_multi_step read_id s).parent = s.st.out_size ∧
        (select_multi_step read_id s).st.out_size = s.st.out_size + 1)) := by
  unfold select_multi_step
  by_cases ha : s.active = true
  · simp only [ha, if_true]
    cases hd : (s.st.hits read_id).data with
    | nil => simp
    | cons hit rest =>
      simp only []
      by_cases h3 : hit.range_x ≥ hit.range_y
      · simp only [h3, if_true]
        by_cases h4 : rest.length = 0
        · simp [h4]
        · simp only [h4, if_false, ha, if_true]
          by_cases h5 : s.parent = 4294967295
          · simp [h5]
          · simp [h5]
      · simp only [h3, if_false, ha, if_true]
        by_cases h5 : s.parent = 4294967295
        · simp [h5]
        · simp [h5]
  · simp [ha]

theorem select_multi_loop_inv (read_id : Nat) :
    ∀ (n : Nat) (s : MultiLoop), (s.parent = 4294967295 → s.st.out_size ≠ 4294967295) →
    (select_multi_loop read_id n s).st.in_size = s.st.in_size ∧
    (select_multi_loop read_id n s).st.in_queue = s.st.in_queue ∧
    (select_multi_loop read_id n s).st.out_queue = s.st.out_queue ∧
    (select_multi_loop read_id n s).st.hits_count = s.st.hits_count ∧
    ((select_multi_loop read_id n s).top_flag = s.top_flag ∨
      (select_multi_loop read_id n s).top_flag = 0) ∧
    (((select_multi_loop read_id n s).parent = s.parent ∧
        (select_multi_loop read_id n s).st.out_size = s.st.out_size) ∨
     (s.parent = 4294967295 ∧ (select_multi_loop read_id n s).parent = s.st.out_size ∧
        (select_multi_loop read_id n s).st.out_size = s.st.out_size + 1)) := by
  intro n
  induction n with
  | zero =>
    intro s _
    simp [select_multi_loop]
  | succ n ih =>
    intro s hs
    obtain ⟨a1, a2, a3, a4, a5, a6⟩ := select_multi_step_inv read_id s
    have hs1 : (select_multi_step read_id s).parent = 4294967295 →
        (select_multi_step read_id s).st.out_size ≠ 4294967295 := by
      intro hp
      rcases a6 with ⟨b1, b2⟩ | ⟨b1, b2, b3⟩
      · rw [b2]; exact hs (by rw [← b1]; exact hp)
      · exfalso; exact hs b1 (by rw [← b2]; exact hp)
    obtain ⟨c1, c2, c3, c4, c5, c6⟩ := ih (select_multi_step read_id s) hs1
    simp only [select_multi_loop]
    refine ⟨c1.trans a1, c2.trans a2, c3.trans a3, c4.trans a4, ?_, ?_⟩
    · rcases c5 with c5 | c5
      · rw [c5]; exact a5
      · exact Or.inr c5
    · rcases a6 with ⟨b1, b2⟩ | ⟨b1, b2, b3⟩
      · rcases c6 with ⟨d1, d2⟩ | ⟨d1, d2, d3⟩
        · exact Or.inl ⟨d1.trans b1, d2.trans b2⟩
        · exact Or.inr ⟨by rw [← b1]; exact d1, by rw [d2, b2], by rw [d3, b2]⟩
      · rcases c6 with ⟨d1, d2⟩ | ⟨d1, d2, d3⟩
        · exact Or.inr ⟨b1, d1.trans b2, d2.trans b3⟩
        · exfalso; exact hs b1 (by rw [← b2]; exact d1)

theorem select_multi_kernel_effect (stop : Nat → Bool) (n_multi thread_id : Nat)
    (st : SelectState) (hs : thread_id < st.in_size → st.out_size ≠ 4294967295) :
    queue_effect thread_id st (select_multi_kernel stop n_multi thread_id st) := by
  unfold select_multi_kernel
  by_cases h1 : thread_id ≥ st.in_size
  · simp only [h1, if_true]
    exact ⟨rfl, rfl, Or.inl ⟨rfl, rfl⟩⟩
  · simp only [h1, if_false]
    by_cases h2 : stop (st.in_queue thread_id).read_id = true
    · simp only [h2, if_true]
      exact ⟨rfl, rfl, Or.inl ⟨rfl, rfl⟩⟩
    · have h2f : stop (st.in_queue thread_id).read_id = false := by simpa using h2
      simp only [h2f, Bool.false_eq_true, if_false]
      have ht : thread_id < st.in_size := by omega
      by_cases h3 : (st.hits (st.in_queue thread_id).read_id).data.length = 0
      · simp only [h3, if_true]
        exact ⟨rfl, rfl, Or.inl ⟨rfl, rfl⟩⟩
      · simp only [h3, if_false]
        obtain ⟨c1, c2, c3, _, c5, c6⟩ := select_multi_loop_inv (st.in_queue thread_id).read_id
          n_multi { active := true, parent := 4294967295, n_selected_hits := 0,
                    top_flag := (st.in_queue thread_id).top_flag, st := st }
          (fun _ => hs ht)
        simp only [] at c1 c2 c3 c5 c6
        rcases c6 with ⟨d1, d2⟩ | ⟨_, d2, d3⟩
        · simp only [d1, ne_eq, not_true_eq_false, if_false]
          exact ⟨c1, c2, Or.inl ⟨d2, c3⟩⟩
        · have hp : (select_multi_loop (st.in_queue thread_id).read_id n_multi
              { active := true, parent := 4294967295, n_selected_hits := 0,
                top_flag := (st.in_queue thread_id).top_flag, st := st }).parent ≠ 4294967295 := by
            rw [d2]; exact hs ht
          simp only [hp, ne_eq, not_false_eq_true, if_true]
          refine ⟨c1, c2, Or.inr ⟨ht, d3, _, c5, ?_⟩⟩
          simp only [c3, d2]

theorem nodup_length_le (l : List Nat) (n : Nat) (hnd : l.Nodup) (h : ∀ x ∈ l, x < n) :
    l.length ≤ n := by
  have h1 := Finset.card_le_card (s := l.toFinset) (t := Finset.range n)
    (by intro x hx; simp only [List.mem_toFinset] at hx; simp only [Finset.mem_range]; exact h x hx)
  rwa [List.toFinset_card_of_nodup hnd, Finset.card_range] at h1

theorem round_effect (kernel : Nat → SelectState → SelectState)
    (hk : ∀ t st, (t < st.in_size → st.out_size ≠ 4294967295) →
      queue_effect t st (kernel t st))
    (st : SelectState) (h0 : st.out_size = 0) (hin : st.in_size < 4294967296) :
    ∀ l : List Nat, l.Nodup →
    (l.foldl (fun s t => kernel t s) st).in_size = st.in_size ∧
    (l.foldl (fun s t => kernel t s) st).in_queue = st.in_queue ∧
    ∃ src : List Nat, src.Nodup ∧
      src.length = (l.foldl (fun s t => kernel t s) st).out_size ∧
      (∀ t ∈ src, t ∈ l ∧ t < st.in_size) ∧
      ∀ s, s < src.length →
        ∃ tf, (tf = (st.in_queue (src.getD s 0)).top_flag ∨ tf = 0) ∧
          (l.foldl (fun s t => kernel t s) st).out_queue s =
            { read_id := (st.in_queue (src.getD s 0)).read_id, top_flag := tf } := by
  intro l
  induction l using List.reverseRecOn with
  | nil =>
    intro _
    refine ⟨rfl, rfl, [], List.nodup_nil, ?_, ?_, ?_⟩
    · simp [h0]
    · intro t ht; simp at ht
    · intro s hs; simp at hs
  | append_singleton l t ih =>
    intro hnd
    have hnd1 : l.Nodup := (List.nodup_append.mp hnd).1
    have htl : t ∉ l := by
      intro h
      exact (List.nodup_append.mp hnd).2.2 h (List.mem_singleton_self t)
    obtain ⟨i1, i2, src, i3, i4, i5, i6⟩ := ih hnd1
    rw [List.foldl_append]
    simp only [List.foldl_cons, List.foldl_nil]
    generalize hst1 : l.foldl (fun s t => kernel t s) st = st1 at i1 i2 i4 i6
    have hts : t ∉ src := fun h => htl (i5 t h).1
    have hpre : t < st1.in_size → st1.out_size ≠ 4294967295 := by
      intro ht
      have hn : (src ++ [t]).Nodup := by
        rw [List.nodup_append]
        refine ⟨i3, List.nodup_singleton t, ?_⟩
        intro a ha hb
        rw [List.mem_singleton] at hb
        subst hb
        exact hts ha
      have hle := nodup_length_le (src ++ [t]) st.in_size hn (by
        intro x hx
        rw [List.mem_append] at hx
        rcases hx with hx | hx
        · exact (i5 x hx).2
        · rw [List.mem_singleton] at hx
          subst hx
          rw [← i1]; exact ht)
      rw [List.length_append, List.length_singleton] at hle
      omega
    obtain ⟨e1, e2, e3⟩ := hk t st1 hpre
    refine ⟨e1.trans i1, e2.trans i2, ?_⟩
    rcases e3 with ⟨f1, f2⟩ | ⟨f1, f2, tf, f3, f4⟩
    · refine ⟨src, i3, by rw [f1]; exact i4, ?_, ?_⟩
      · intro x hx
        exact ⟨List.mem_append_left _ (i5 x hx).1, (i5 x hx).2⟩
      · intro s hs
        rw [f2]
        exact i6 s hs
    · refine ⟨src ++ [t], ?_, ?_, ?_, ?_⟩
      · rw [List.nodup_append]
        refine ⟨i3, List.nodup_singleton t, ?_⟩
        intro a ha hb
        rw [List.mem_singleton] at hb
        subst hb
        exact hts ha
      · rw [List.length_append, List.length_singleton, f2, i4]
      · intro x hx
        rw [List.mem_append] at hx
        rcases hx with hx | hx
        · exact ⟨List.mem_append_left _ (i5 x hx).1, (i5 x hx).2⟩
        · rw [List.mem_singleton] at hx
          subst hx
          exact ⟨List.mem_append_right _ (List.mem_singleton_self _), by rw [← i1]; exact f1⟩
      · intro s hs
        rw [List.length_append, List.length_singleton] at hs
        rw [f4]
        by_cases hlt : s < src.length
        · have hne : s ≠ st1.out_size := by omega
          rw [store_other _ _ _ _ hne, List.getD_append _ _ _ _ hlt]
          exact i6 s hlt
        · have heq : s = src.length := by omega
          subst heq
          rw [i4, store_same]
          have hg : (src ++ [t]).getD st1.out_size 0 = t := by
            rw [← i4, List.getD_append_right _ _ _ _ (le_refl _)]
            simp
          rw [hg]
          rw [i2] at f3
          rw [i2]
          exact ⟨tf, f3, rfl⟩

theorem select_round (T : SumTreeOps) (stop : Nat → Bool) (sched : List Nat → List Nat)
    (BLOCKDIM n_multi : Nat) (randomized : Bool) (st : SelectState)
    (hsched : ∀ l, (sched l).Perm l) (h0 : st.out_size = 0) (hin : st.in_size < 4294967296) :
    (select T stop sched BLOCKDIM n_multi randomized st).in_size = st.in_size ∧
    (select T stop sched BLOCKDIM n_multi randomized st).in_queue = st.in_queue ∧
    ∃ src : List Nat, src.Nodup ∧
      src.length = (select T stop sched BLOCKDIM n_multi randomized st).out_size ∧
      (∀ t ∈ src, t < st.in_size) ∧
      ∀ s, s < src.length →
        ∃ tf, (tf = (st.in_queue (src.getD s 0)).top_flag ∨ tf = 0) ∧
          (select T stop sched BLOCKDIM n_multi randomized st).out_queue s =
            { read_id := (st.in_queue (src.getD s 0)).read_id, top_flag := tf } := by
  have hnd : (sched (List.range (select_blocks BLOCKDIM st.in_size * BLOCKDIM))).Nodup :=
    (hsched _).nodup_iff.mpr (List.nodup_range _)
  have key : ∀ kernel : Nat → SelectState → SelectState,
      (∀ t st, (t < st.in_size → st.out_size ≠ 4294967295) → queue_effect t st (kernel t st)) →
      (launch kernel sched (select_blocks BLOCKDIM st.in_size) BLOCKDIM st).in_size
        = st.in_size ∧
      (launch kernel sched (select_blocks BLOCKDIM st.in_size) BLOCKDIM st).in_queue
        = st.in_queue ∧
      ∃ src : List Nat, src.Nodup ∧
        src.length =
          (launch kernel sched (select_blocks BLOCKDIM st.in_size) BLOCKDIM st).out_size ∧
        (∀ t ∈ src, t < st.in_size) ∧
        ∀ s, s < src.length →
          ∃ tf, (tf = (st.in_queue (src.getD s 0)).top_flag ∨ tf = 0) ∧
            (launch kernel sched (select_blocks BLOCKDIM st.in_size) BLOCKDIM st).out_queue s =
              { read_id := (st.in_queue (src.getD s 0)).read_id, top_flag := tf } := by
    intro kernel hk
    obtain ⟨a1, a2, src, a3, a4, a5, a6⟩ := round_effect kernel hk st h0 hin _ hnd
    exact ⟨a1, a2, src, a3, a4, fun t ht => (a5 t ht).2, a6⟩
  unfold select
  split_ifs
  · exact key _ (fun t st hs => select_multi_kernel_effect stop n_multi t st hs)
  · exact key _ (fun t st _ => rand_select_kernel_effect T stop t st)
  · exact key _ (fun t st _ => select_kernel_effect stop t st)

/-- C16: for a round of any of the three kernels started with an empty output queue
(`out_size = 0`, `in_size` a 32-bit number, every thread of the grid run once), the entries
written to the next active-read queue carry the read ids of pairwise distinct entries of the
current queue; hence the output queue is not longer than the input queue, every allocated
slot is below `in_size`, and `read_id < batch_size` is preserved. -/
theorem round_output_from_input (T : SumTreeOps) (stop : Nat → Bool)
    (sched : List Nat → List Nat) (BLOCKDIM n_multi : Nat) (randomized : Bool)
    (st : SelectState) (batch_size : Nat)
    (hsched : ∀ l, (sched l).Perm l) (h0 : st.out_size = 0) (hin : st.in_size < 4294967296) :
    (∃ src : List Nat, src.Nodup ∧
      src.length = (select T stop sched BLOCKDIM n_multi randomized st).out_size ∧
      (∀ t ∈ src, t < st.in_size) ∧
      ∀ slot, slot < src.length →
        ((select T stop sched BLOCKDIM n_multi randomized st).out_queue slot).read_id =
          (st.in_queue (src.getD slot 0)).read_id) ∧
    (select T stop sched BLOCKDIM n_multi randomized st).out_size ≤ st.in_size ∧
    (∀ slot, slot < (select T stop sched BLOCKDIM n_multi randomized st).out_size →
      slot < st.in_size) ∧
    ((∀ t, t < st.in_size → (st.in_queue t).read_id < batch_size) →
      ∀ slot, slot < (select T stop sched BLOCKDIM n_multi randomized st).out_size →
        ((select T stop sched BLOCKDIM n_multi randomized st).out_queue slot).read_id
          < batch_size) := by
  obtain ⟨_, _, src, a3, a4, a5, a6⟩ :=
    select_round T stop sched BLOCKDIM n_multi randomized st hsched h0 hin
  have hle := nodup_length_le src st.in_size a3 a5
  have hread : ∀ slot, slot < src.length →
      ((select T stop sched BLOCKDIM n_multi randomized st).out_queue slot).read_id =
        (st.in_queue (src.getD slot 0)).read_id := by
    intro slot hs
    obtain ⟨tf, _, h⟩ := a6 slot hs
    rw [h]
  refine ⟨⟨src, a3, a4, a5, hread⟩, by omega, fun slot hs => by omega, ?_⟩
  intro hb slot hs
  rw [← a4] at hs
  rw [hread slot hs]
  apply hb
  apply a5
  rw [List.getD_eq_getElem _ _ hs]
  exact List.getElem_mem _

/-- C16 witness: a round of deterministic selection over a queue of two reads, the threads run
in reverse order; the first read is retired, the second one emits. -/
theorem round_output_from_input_witness :
    (∃ src : List Nat, src.Nodup ∧
      src.length = (select { sample := fun _ _ _ => 0, set := fun _ c _ _ => c }
        (fun _ => false) List.reverse 2 1 false
        (select_state [{ read_id := 0, top_flag := 1 }, { read_id := 1, top_flag := 1 }]
          [[], [{ range_x := 5, range_y := 7, posinread := 2, indexdir := 1, readtype := true }]]
          (fun _ => 0) 7)).out_size ∧
      (∀ t ∈ src, t < (select_state
          [{ read_id := 0, top_flag := 1 }, { read_id := 1, top_flag := 1 }]
          [[], [{ range_x := 5, range_y := 7, posinread := 2, indexdir := 1, readtype := true }]]
          (fun _ => 0) 7).in_size) ∧
      ∀ slot, slot < src.length →
        ((select { sample := fun _ _ _ => 0, set := fun _ c _ _ => c }
          (fun _ => false) List.reverse 2 1 false
          (select_state [{ read_id := 0, top_flag := 1 }, { read_id := 1, top_flag := 1 }]
            [[], [{ range_x := 5, range_y := 7, posinread := 2, indexdir := 1,
                    readtype := true }]]
            (fun _ => 0) 7)).out_queue slot).read_id =
          ((select_state [{ read_id := 0, top_flag := 1 }, { read_id := 1, top_flag := 1 }]
            [[], [{ range_x := 5, range_y := 7, posinread := 2, indexdir := 1,
                    readtype := true }]]
            (fun _ => 0) 7).in_queue (src.getD slot 0)).read_id) ∧
    (select { sample := fun _ _ _ => 0, set := fun _ c _ _ => c }
        (fun _ => false) List.reverse 2 1 false
        (select_state [{ read_id := 0, top_flag := 1 }, { read_id := 1, top_flag := 1 }]
          [[], [{ range_x := 5, range_y := 7, posinread := 2, indexdir := 1, readtype := true }]]
          (fun _ => 0) 7)).out_size ≤ 2 :=
  ⟨(round_output_from_input { sample := fun _ _ _ => 0, set := fun _ c _ _ => c }
      (fun _ => false) List.reverse 2 1 false
      (select_state [{ read_id := 0, top_flag := 1 }, { read_id := 1, top_flag := 1 }]
        [[], [{ range_x := 5, range_y := 7, posinread := 2, indexdir := 1, readtype := true }]]
        (fun _ => 0) 7) 2 (fun l => List.reverse_perm l) rfl (by decide)).1,
   (round_output_from_input { sample := fun _ _ _ => 0, set := fun _ c _ _ => c }
      (fun _ => false) List.reverse 2 1 false
      (select_state [{ read_id := 0, top_flag := 1 }, { read_id := 1, top_flag := 1 }]
        [[], [{ range_x := 5, range_y := 7, posinread := 2, indexdir := 1, readtype := true }]]
        (fun _ => 0) 7) 2 (fun l => List.reverse_perm l) rfl (by decide)).2.1⟩

/-- C13: over any sequence of selection rounds (each one any of the three kernels, started
with an empty output queue, its input queue being the output queue of the round before),
every entry of the next queue comes from an entry of the current queue with the same read id,
and its top flag is the flag of that entry or 0: a flag that is 0 is never written as 1.
Hence once every entry of a read has its top flag cleared, the top flag of that read is 0 in
every later round. -/
theorem top_flag_stays_cleared (T : SumTreeOps) (stop : Nat → Nat → Bool)
    (sched : Nat → List Nat → List Nat) (BLOCKDIM : Nat) (n_multi : Nat → Nat)
    (randomized : Nat → Bool) (s : Nat → SelectState)
    (hsched : ∀ n l, (sched n l).Perm l)
    (hstart : ∀ n, (s n).out_size = 0 ∧ (s n).in_size < 4294967296)
    (hnext : ∀ n,
      (s (n + 1)).in_size =
        (select T (stop n) (sched n) BLOCKDIM (n_multi n) (randomized n) (s n)).out_size ∧
      ∀ slot, slot < (s (n + 1)).in_size →
        (s (n + 1)).in_queue slot =
          (select T (stop n) (sched n) BLOCKDIM (n_multi n) (randomized n) (s n)).out_queue
            slot) :
    (∀ n slot, slot < (s (n + 1)).in_size →
      ∃ t, t < (s n).in_size ∧
        ((s (n + 1)).in_queue slot).read_id = ((s n).in_queue t).read_id ∧
        (((s (n + 1)).in_queue slot).top_flag = ((s n).in_queue t).top_flag ∨
          ((s (n + 1)).in_queue slot).top_flag = 0)) ∧
    (∀ r n m, n ≤ m →
      (∀ t, t < (s n).in_size → ((s n).in_queue t).read_id = r →
        ((s n).in_queue t).top_flag = 0) →
      ∀ t, t < (s m).in_size → ((s m).in_queue t).read_id = r →
        ((s m).in_queue t).top_flag = 0) := by
  have step : ∀ n slot, slot < (s (n + 1)).in_size →
      ∃ t, t < (s n).in_size ∧
        ((s (n + 1)).in_queue slot).read_id = ((s n).in_queue t).read_id ∧
        (((s (n + 1)).in_queue slot).top_flag = ((s n).in_queue t).top_flag ∨
          ((s (n + 1)).in_queue slot).top_flag = 0) := by
    intro n slot hslot
    obtain ⟨_, _, src, a3, a4, a5, a6⟩ :=
      select_round T (stop n) (sched n) BLOCKDIM (n_multi n) (randomized n) (s n)
        (hsched n) (hstart n).1 (hstart n).2
    obtain ⟨b1, b2⟩ := hnext n
    have hs : slot < src.length := by rw [a4, ← b1]; exact hslot
    obtain ⟨tf, c1, c2⟩ := a6 slot hs
    refine ⟨src.getD slot 0, ?_, ?_, ?_⟩
    · apply a5
      rw [List.getD_eq_getElem _ _ hs]
      exact List.getElem_mem _
    · rw [b2 slot hslot, c2]
    · rw [b2 slot hslot, c2]
      exact c1
  refine ⟨step, ?_⟩
  intro r n m hnm
  induction m, hnm using Nat.le_induction with
  | base => exact fun h => h
  | succ m _ ih =>
    intro h t ht hr
    obtain ⟨t0, d1, d2, d3⟩ := step m t ht
    rcases d3 with d3 | d3
    · rw [d3]
      exact ih h t0 d1 (by rw [← d2]; exact hr)
    · exact d3

/-- C13 witness: rounds of deterministic selection on a queue holding one read whose top flag
is cleared; every round emits one hit and hands the same queue to the next round, and the
flag is still 0 in round 5. -/
theorem top_flag_stays_cleared_witness :
    (select { sample := fun _ _ _ => 0, set := fun _ c _ _ => c } (fun _ => false) (fun l => l)
        2 1 false
        (select_state [{ read_id := 0, top_flag := 0 }]
          [[{ range_x := 3, range_y := 5, posinread := 0, indexdir := 0, readtype := false }]]
          (fun _ => 0) 7)).out_size = 1 ∧
    (select { sample := fun _ _ _ => 0, set := fun _ c _ _ => c } (fun _ => false) (fun l => l)
        2 1 false
        (select_state [{ read_id := 0, top_flag := 0 }]
          [[{ range_x := 3, range_y := 5, posinread := 0, indexdir := 0, readtype := false }]]
          (fun _ => 0) 7)).out_queue 0 = { read_id := 0, top_flag := 0 } ∧
    ((select_state [{ read_id := 0, top_flag := 0 }]
          [[{ range_x := 3, range_y := 5, posinread := 0, indexdir := 0, readtype := false }]]
          (fun _ => 0) 7).in_queue 0).top_flag = 0 :=
  ⟨by decide, by decide,
   (top_flag_stays_cleared { sample := fun _ _ _ => 0, set := fun _ c _ _ => c }
    (fun _ _ => false) (fun _ l => l) 2 (fun _ => 1) (fun _ => false)
    (fun _ => select_state [{ read_id := 0, top_flag := 0 }]
          [[{ range_x := 3, range_y := 5, posinread := 0, indexdir := 0, readtype := false }]]
          (fun _ => 0) 7)
    (fun _ l => List.Perm.refl l)
    (fun _ => ⟨rfl, by beta_reduce; decide⟩)
    (fun _ => ⟨by beta_reduce; decide, by beta_reduce; decide⟩)).2 0 0 5 (by decide)
      (by decide) 0 (by decide) (by decide)⟩

theorem multi_pops_live (n : Nat) (hit : SeedHit) (rest : List SeedHit) (tf : Nat)
    (h : ¬ hit.range_x ≥ hit.range_y) :
    multi_pops (n + 1) (hit :: rest) tf =
      ((hit.range_x, hit, tf) :: (multi_pops n (hit.pop_front.2 :: rest) tf).1,
       (multi_pops n (hit.pop_front.2 :: rest) tf).2.1,
       (multi_pops n (hit.pop_front.2 :: rest) tf).2.2) := by
  simp only [multi_pops, h, if_false]

theorem multi_pops_last (n : Nat) (hit : SeedHit) (tf : Nat)
    (h : hit.range_x ≥ hit.range_y) :
    multi_pops (n + 1) [hit] tf = ([], [], tf) := by
  simp only [multi_pops, h, if_true]

theorem multi_pops_next (n : Nat) (hit hit2 : SeedHit) (rest2 : List SeedHit) (tf : Nat)
    (h : hit.range_x ≥ hit.range_y) :
    multi_pops (n + 1) (hit :: hit2 :: rest2) tf =
      ((hit2.range_x, hit2, 0) :: (multi_pops n (hit2.pop_front.2 :: rest2) 0).1,
       (multi_pops n (hit2.pop_front.2 :: rest2) 0).2.1,
       (multi_pops n (hit2.pop_front.2 :: rest2) 0).2.2) := by
  simp only [multi_pops, h, if_true]

theorem multi_pops_length (n : Nat) :
    ∀ (data : List SeedHit) (tf : Nat), (multi_pops n data tf).1.length ≤ n := by
  induction n with
  | zero => intro data tf; simp [multi_pops]
  | succ n ih =>
    intro data tf
    cases data with
    | nil => simp [multi_pops]
    | cons hit rest =>
      by_cases h : hit.range_x ≥ hit.range_y
      · cases rest with
        | nil => rw [multi_pops_last n hit tf h]; simp
        | cons hit2 rest2 =>
          rw [multi_pops_next n hit hit2 rest2 tf h]
          simp only [List.length_cons]
          have := ih (hit2.pop_front.2 :: rest2) 0
          omega
      · rw [multi_pops_live n hit rest tf h]
        simp only [List.length_cons]
        have := ih (hit.pop_front.2 :: rest) tf
        omega

theorem multi_pops_flag (n : Nat) :
    ∀ (data : List SeedHit) (tf : Nat),
      ((multi_pops n data tf).1 = [] → (multi_pops n data tf).2.2 = tf) ∧
      ((multi_pops n data tf).1 ≠ [] →
        (multi_pops n data tf).2.2 =
          ((multi_pops n data tf).1.getD ((multi_pops n data tf).1.length - 1) default).2.2) := by
  induction n with
  | zero => intro data tf; simp [multi_pops]
  | succ n ih =>
    intro data tf
    cases data with
    | nil => simp [multi_pops]
    | cons hit rest =>
      have key : ∀ (hit0 : SeedHit) (rest0 : List SeedHit) (tf0 : Nat),
          (multi_pops n (hit0.pop_front.2 :: rest0) tf0).2.2 =
            (((hit0.range_x, hit0, tf0) :: (multi_pops n (hit0.pop_front.2 :: rest0) tf0).1).getD
              (((hit0.range_x, hit0, tf0) ::
                (multi_pops n (hit0.pop_front.2 :: rest0) tf0).1).length - 1) default).2.2 := by
        intro hit0 rest0 tf0
        obtain ⟨i1, i2⟩ := ih (hit0.pop_front.2 :: rest0) tf0
        cases hr : (multi_pops n (hit0.pop_front.2 :: rest0) tf0).1 with
        | nil =>
          rw [i1 hr]
          simp
        | cons e es =>
          rw [i2 (by rw [hr]; simp), hr]
          simp
      by_cases h : hit.range_x ≥ hit.range_y
      · cases rest with
        | nil => rw [multi_pops_last n hit tf h]; simp
        | cons hit2 rest2 =>
          rw [multi_pops_next n hit hit2 rest2 tf h]
          refine ⟨fun hh => by simp at hh, fun _ => ?_⟩
          exact key hit2 rest2 0
      · rw [multi_pops_live n hit rest tf h]
        refine ⟨fun hh => by simp at hh, fun _ => ?_⟩
        exact key hit rest tf

theorem store_store {α : Type} (a : Nat → α) (k : Nat) (v w : α) :
    store (store a k v) k w = store a k w := by
  funext x
  by_cases h : x = k
  · subst h; rw [store_same, store_same]
  · rw [store_other _ _ _ _ h, store_other _ _ _ _ h, store_other _ _ _ _ h]

theorem select_multi_step_idle (read_id : Nat) (s : MultiLoop) (ha : s.active = false) :
    select_multi_step read_id s = s := by
  unfold select_multi_step
  simp [ha]

theorem select_multi_loop_idle (read_id : Nat) :
    ∀ (n : Nat) (s : MultiLoop), s.active = false → select_multi_loop read_id n s = s := by
  intro n
  induction n with
  | zero => intro s _; rfl
  | succ n ih =>
    intro s ha
    rw [select_multi_loop, select_multi_step_idle read_id s ha]
    exact ih s ha

theorem select_multi_step_empty (read_id : Nat) (s : MultiLoop) (ha : s.active = true)
    (hd : (s.st.hits read_id).data = []) :
    select_multi_step read_id s = { s with active := false } := by
  unfold select_multi_step
  simp [ha, hd]

theorem select_multi_step_last (read_id : Nat) (s : MultiLoop) (hit : SeedHit)
    (ha : s.active = true) (hd : (s.st.hits read_id).data = [hit])
    (hx : hit.range_x ≥ hit.range_y) :
    select_multi_step read_id s =
      { s with
        active := false
        st := { s.st with
          hits := store s.st.hits read_id { (s.st.hits read_id) with data := [] } } } := by
  unfold select_multi_step
  simp [ha, hd, hx]

theorem select_multi_step_live (read_id : Nat) (s : MultiLoop) (hit : SeedHit)
    (rest : List SeedHit) (ha : s.active = true)
    (hd : (s.st.hits read_id).data = hit :: rest) (hx : ¬ hit.range_x ≥ hit.range_y) :
    select_multi_step read_id s = multi_emit read_id s.top_flag hit rest s := by
  unfold select_multi_step multi_emit
  simp only [ha, hd, hx, if_true, if_false]
  by_cases hp : s.parent = 4294967295
  · simp [hp, ha, hd, hit_entry, SeedHit.pop_front]
  · simp [hp, ha, hd, hit_entry, SeedHit.pop_front]

theorem select_multi_step_next (read_id : Nat) (s : MultiLoop) (hit hit2 : SeedHit)
    (rest2 : List SeedHit) (ha : s.active = true)
    (hd : (s.st.hits read_id).data = hit :: hit2 :: rest2) (hx : hit.range_x ≥ hit.range_y) :
    select_multi_step read_id s = multi_emit read_id 0 hit2 rest2 s := by
  unfold select_multi_step multi_emit
  simp only [ha, hd, hx, if_true]
  by_cases hp : s.parent = 4294967295
  · simp [hp, ha, hit_entry, SeedHit.pop_front, store_same, store_store]
  · simp [hp, ha, hit_entry, SeedHit.pop_front, store_same, store_store]

theorem multi_loop_post_emit (read_id tf1 : Nat) (hit1 : SeedHit) (rest1 : List SeedHit)
    (s s1 : MultiLoop) (r1 : List (Nat × SeedHit × Nat) × List SeedHit × Nat)
    (hs : s.parent = 4294967295 → s.st.out_size ≠ 4294967295)
    (h : multi_loop_post read_id (multi_emit read_id tf1 hit1 rest1 s) r1 s1) :
    multi_loop_post read_id s ((hit1.range_x, hit1, tf1) :: r1.1, r1.2.1, r1.2.2) s1 := by
  obtain ⟨a1, a2, a3, a4, a5, a6, a7, a8, a9, a10, a11, a12, a13, a14, a15, a16, a17⟩ := h
  have hp : (if s.parent = 4294967295 then s.st.out_size else s.parent) ≠ 4294967295 := by
    by_cases hq : s.parent = 4294967295
    · rw [if_pos hq]; exact hs hq
    · rw [if_neg hq]; exact hq
  simp only [multi_emit] at a1 a3 a5 a6 a7 a8 a9 a10 a11 a12 a13 a14 a15 a16 a17
  rw [if_neg hp] at a7 a8 a11 a12
  have e7 : s1.parent = (if s.parent = 4294967295 then s.st.out_size else s.parent) := by
    rw [a7]; split_ifs <;> rfl
  have e8 : s1.st.out_size =
      (if s.parent = 4294967295 then s.st.out_size + 1 else s.st.out_size) := by
    rw [a8]; split_ifs <;> rfl
  refine ⟨?_, a2, ?_, a4, ?_, ?_, ?_, ?_, ?_, ?_, ?_, ?_, a13, a14, a15, a16, a17⟩
  · rw [a1]; simp only [List.length_cons]; omega
  · rw [a3]; simp only [List.length_cons]; omega
  · rw [a5, store_same]
  · intro q hq
    rw [a6 q hq, store_other _ _ _ _ hq]
  · simp only [List.length_cons, Nat.add_one_ne_zero, if_false]
    exact e7
  · simp only [List.length_cons, Nat.add_one_ne_zero, if_false]
    exact e8
  · intro i hi
    simp only [List.length_cons] at hi
    cases i with
    | zero =>
      simp only [Nat.add_zero]
      rw [a10 _ (Or.inl (by omega)), store_same]
      rfl
    | succ i =>
      have := a9 i (by omega)
      rw [show s.st.hits_pool + (i + 1) = s.st.hits_pool + 1 + i by omega, this]
      rfl
  · intro slot hslot
    simp only [List.length_cons] at hslot
    rw [a10 slot (by omega), store_other _ _ _ _ (by omega)]
  · intro i hi
    simp only [List.length_cons] at hi
    cases i with
    | zero =>
      simp only [Nat.add_zero]
      rw [a12 _ _ (Or.inr (Or.inl (by omega))), store_same, store_same]
    | succ i =>
      have := a11 i (by omega)
      rw [show s.n_selected_hits + (i + 1) = s.n_selected_hits + 1 + i by omega, this]
      omega
  · intro p j hpj
    simp only [List.length_cons] at hpj
    by_cases hpp : p = (if s.parent = 4294967295 then s.st.out_size else s.parent)
    · have hj : j < s.n_selected_hits ∨ s.n_selected_hits + (r1.1.length + 1) ≤ j := by
        rcases hpj with h1 | h1
        · exact absurd hpp h1
        · exact h1
      rw [a12 p j (Or.inr (by omega)), hpp, store_same, store_other _ _ _ _ (by omega)]
    · rw [a12 p j (Or.inl hpp), store_other _ _ _ _ hpp]

theorem select_multi_loop_spec (read_id : Nat) :
    ∀ (n : Nat) (s : MultiLoop), s.active = true →
      (s.parent = 4294967295 → s.st.out_size ≠ 4294967295) →
      multi_loop_post read_id s (multi_pops n (s.st.hits read_id).data s.top_flag)
        (select_multi_loop read_id n s) := by
  have hrefl : ∀ (s t : MultiLoop) (data : List SeedHit),
      t.n_selected_hits = s.n_selected_hits → t.top_flag = s.top_flag →
      t.parent = s.parent → (t.st.hits read_id).data = data →
      (t.st.hits read_id).probs = (s.st.hits read_id).probs →
      (∀ q, q ≠ read_id → t.st.hits q = s.st.hits q) →
      t.st.hits_pool = s.st.hits_pool → t.st.out_size = s.st.out_size →
      t.st.hit_queue = s.st.hit_queue → t.st.hits_index = s.st.hits_index →
      t.st.out_queue = s.st.out_queue → t.st.hits_count = s.st.hits_count →
      t.st.rseeds = s.st.rseeds → t.st.in_size = s.st.in_size →
      t.st.in_queue = s.st.in_queue →
      multi_loop_post read_id s ([], data, s.top_flag) t := by
    intro s t data b1 b2 b3 b4 b5 b6 b7 b8 b9 b10 b11 b12 b13 b14 b15
    refine ⟨by simp [b1], b2, by simp [b7], b4, b5, b6, by simp [b3], by simp [b8], ?_, ?_, ?_,
      ?_, b11, b12, b13, b14, b15⟩
    · intro i hi; simp at hi
    · intro slot _; rw [b9]
    · intro i hi; simp at hi
    · intro p j _; rw [b10]
  intro n
  induction n with
  | zero =>
    intro s _ _
    simp only [select_multi_loop, multi_pops]
    exact hrefl s s _ rfl rfl rfl rfl rfl (fun _ _ => rfl) rfl rfl rfl rfl rfl rfl rfl rfl rfl
  | succ n ih =>
    intro s ha hs
    rw [select_multi_loop]
    cases hd : (s.st.hits read_id).data with
    | nil =>
      rw [select_multi_step_empty read_id s ha hd,
        select_multi_loop_idle read_id n _ rfl]
      simp only [multi_pops]
      exact hrefl s _ _ rfl rfl rfl hd rfl (fun _ _ => rfl) rfl rfl rfl rfl rfl rfl rfl rfl rfl
    | cons hit rest =>
      have hemit : ∀ (tf1 : Nat) (hit1 : SeedHit) (rest1 : List SeedHit),
          multi_loop_post read_id s
            ((hit1.range_x, hit1, tf1) :: (multi_pops n (hit1.pop_front.2 :: rest1) tf1).1,
              (multi_pops n (hit1.pop_front.2 :: rest1) tf1).2.1,
              (multi_pops n (hit1.pop_front.2 :: rest1) tf1).2.2)
            (select_multi_loop read_id n (multi_emit read_id tf1 hit1 rest1 s)) := by
        intro tf1 hit1 rest1
        apply multi_loop_post_emit read_id tf1 hit1 rest1 s _ _ hs
        have hp1 : (multi_emit read_id tf1 hit1 rest1 s).parent = 4294967295 →
            (multi_emit read_id tf1 hit1 rest1 s).st.out_size ≠ 4294967295 := by
          intro hq
          exfalso
          simp only [multi_emit] at hq
          by_cases hq2 : s.parent = 4294967295
          · rw [if_pos hq2] at hq; exact hs hq2 hq
          · rw [if_neg hq2] at hq; exact hq2 hq
        have := ih (multi_emit read_id tf1 hit1 rest1 s) rfl hp1
        have hdata : ((multi_emit read_id tf1 hit1 rest1 s).st.hits read_id).data =
            hit1.pop_front.2 :: rest1 := by
          simp only [multi_emit, store_same]
        rw [hdata] at this
        exact this
      by_cases hx : hit.range_x ≥ hit.range_y
      · cases rest with
        | nil =>
          rw [select_multi_step_last read_id s hit ha hd hx,
            select_multi_loop_idle read_id n _ rfl, multi_pops_last n hit _ hx]
          refine hrefl s _ _ rfl rfl rfl ?_ ?_ ?_ rfl rfl rfl rfl rfl rfl rfl rfl rfl
          · simp only [store_same]
          · simp only [store_same]
          · intro q hq
            simp only [store_other _ _ _ _ hq]
        | cons hit2 rest2 =>
          rw [select_multi_step_next read_id s hit hit2 rest2 ha hd hx,
            multi_pops_next n hit hit2 rest2 _ hx]
          exact hemit 0 hit2 rest2
      · rw [select_multi_step_live read_id s hit rest ha hd hx,
          multi_pops_live n hit rest _ hx]
        exact hemit s.top_flag hit rest

/-- C15: in `select_multi_kernel` a live read (not stopped, non-empty store, in a state whose
counter `out_size` is not the sentinel `uint32(-1)`) emits in one round the rows `rows` that
`multi_pops` lists: at most `n_multi` of them, each popped from the current top hit after an
exhausted top has been discarded.  The rows are written to consecutive new slots of the hit
queue and bound in order to the parent slot.  With no row the read takes no slot of the next
active-read queue; with at least one row it takes exactly one, the parent, whose entry records
the read id and the top flag after the last hit and whose hit count is the number of rows. -/
theorem select_multi_kernel_batch (stop : Nat → Bool) (n_multi thread_id : Nat)
    (st : SelectState)
    (ht : thread_id < st.in_size)
    (hstop : stop (st.in_queue thread_id).read_id = false)
    (hne : (st.hits (st.in_queue thread_id).read_id).data ≠ [])
    (hout : st.out_size ≠ 4294967295) :
    ∃ (rows : List (Nat × SeedHit × Nat)) (data1 : List SeedHit) (tf : Nat),
      multi_pops n_multi (st.hits (st.in_queue thread_id).read_id).data
        (st.in_queue thread_id).top_flag = (rows, data1, tf) ∧
      rows.length ≤ n_multi ∧
      (select_multi_kernel stop n_multi thread_id st).hits_pool = st.hits_pool + rows.length ∧
      (∀ i, i < rows.length →
        (select_multi_kernel stop n_multi thread_id st).hit_queue (st.hits_pool + i) =
          hit_entry (st.in_queue thread_id).read_id (rows.getD i default) ∧
        (select_multi_kernel stop n_multi thread_id st).hits_index st.out_size i =
          st.hits_pool + i) ∧
      ((select_multi_kernel stop n_multi thread_id st).hits
        (st.in_queue thread_id).read_id).data = data1 ∧
      (rows.length = 0 →
        (select_multi_kernel stop n_multi thread_id st).out_size = st.out_size ∧
        (select_multi_kernel stop n_multi thread_id st).out_queue = st.out_queue ∧
        (select_multi_kernel stop n_multi thread_id st).hits_count = st.hits_count) ∧
      (1 ≤ rows.length →
        (select_multi_kernel stop n_multi thread_id st).out_size = st.out_size + 1 ∧
        (select_multi_kernel stop n_multi thread_id st).out_queue =
          store st.out_queue st.out_size
            { read_id := (st.in_queue thread_id).read_id, top_flag := tf } ∧
        (select_multi_kernel stop n_multi thread_id st).hits_count =
          store st.hits_count st.out_size rows.length ∧
        tf = (rows.getD (rows.length - 1) default).2.2) := by
  have h1 : ¬ (thread_id ≥ st.in_size) := by omega
  have h3 : ¬ ((st.hits (st.in_queue thread_id).read_id).data.length = 0) := by
    intro h
    exact hne (List.length_eq_zero.mp h)
  have hspec := select_multi_loop_spec (st.in_queue thread_id).read_id n_multi
    { active := true, parent := 4294967295, n_selected_hits := 0,
      top_flag := (st.in_queue thread_id).top_flag, st := st } rfl (fun _ => hout)
  have hlen := multi_pops_length n_multi (st.hits (st.in_queue thread_id).read_id).data
    (st.in_queue thread_id).top_flag
  have hflag := multi_pops_flag n_multi (st.hits (st.in_queue thread_id).read_id).data
    (st.in_queue thread_id).top_flag
  simp only [] at hspec
  generalize hr : multi_pops n_multi (st.hits (st.in_queue thread_id).read_id).data
    (st.in_queue thread_id).top_flag = r at hspec hlen hflag
  generalize hs1 : select_multi_loop (st.in_queue thread_id).read_id n_multi
    { active := true, parent := 4294967295, n_selected_hits := 0,
      top_flag := (st.in_queue thread_id).top_flag, st := st } = s1 at hspec
  have hk : select_multi_kernel stop n_multi thread_id st =
      if s1.parent ≠ 4294967295 then
        { s1.st with
          out_queue := store s1.st.out_queue s1.parent
            { read_id := (st.in_queue thread_id).read_id, top_flag := s1.top_flag }
          hits_count := store s1.st.hits_count s1.parent s1.n_selected_hits }
      else s1.st := by
    unfold select_multi_kernel
    simp only [h1, hstop, h3, if_false, Bool.false_eq_true, hs1]
  obtain ⟨a1, a2, a3, a4, _, _, a7, a8, a9, _, a11, _, a13, a14, _, _, _⟩ := hspec
  simp only [if_true, Nat.zero_add] at a1 a7 a8 a11
  refine ⟨r.1, r.2.1, r.2.2, rfl, hlen, ?_⟩
  by_cases h0 : r.1.length = 0
  · rw [if_pos h0] at a7 a8
    have hp : ¬ (s1.parent ≠ 4294967295) := by rw [a7]; simp
    rw [hk, if_neg hp]
    refine ⟨a3, ?_, a4, ?_, ?_⟩
    · intro i hi; omega
    · intro _; exact ⟨a8, a13, a14⟩
    · intro h; omega
  · rw [if_neg h0] at a7 a8
    have hp : s1.parent ≠ 4294967295 := by rw [a7]; exact hout
    rw [hk, if_pos hp]
    refine ⟨a3, ?_, a4, ?_, ?_⟩
    · intro i hi
      exact ⟨a9 i hi, a11 i hi⟩
    · intro h; exact absurd h h0
    · intro _
      refine ⟨a8, ?_, ?_, ?_⟩
      · simp only [a13, a7, a2]
      · simp only [a14, a7, a1]
      · apply hflag.2
        intro h
        rw [h] at h0
        exact h0 rfl

/-- C15 witness: a read whose top hit holds one row and whose second hit holds two, with
`n_multi = 3`: the three rows 3, 5 and 6 are emitted and the top flag ends cleared. -/
theorem select_multi_kernel_batch_witness :
    multi_pops 3
        [{ range_x := 3, range_y := 4, posinread := 0, indexdir := 0, readtype := false },
         { range_x := 5, range_y := 7, posinread := 2, indexdir := 1, readtype := true }] 1 =
      ([(3, { range_x := 3, range_y := 4, posinread := 0, indexdir := 0, readtype := false }, 1),
        (5, { range_x := 5, range_y := 7, posinread := 2, indexdir := 1, readtype := true }, 0),
        (6, { range_x := 6, range_y := 7, posinread := 2, indexdir := 1, readtype := true }, 0)],
       [{ range_x := 7, range_y := 7, posinread := 2, indexdir := 1, readtype := true }], 0) ∧
    ∃ (rows : List (Nat × SeedHit × Nat)) (data1 : List SeedHit) (tf : Nat),
      multi_pops 3
        ((select_state [{ read_id := 0, top_flag := 1 }]
          [[{ range_x := 3, range_y := 4, posinread := 0, indexdir := 0, readtype := false },
            { range_x := 5, range_y := 7, posinread := 2, indexdir := 1, readtype := true }]]
          (fun _ => 0) 7).hits
          ((select_state [{ read_id := 0, top_flag := 1 }]
            [[{ range_x := 3, range_y := 4, posinread := 0, indexdir := 0, readtype := false },
              { range_x := 5, range_y := 7, posinread := 2, indexdir := 1, readtype := true }]]
            (fun _ => 0) 7).in_queue 0).read_id).data
        ((select_state [{ read_id := 0, top_flag := 1 }]
          [[{ range_x := 3, range_y := 4, posinread := 0, indexdir := 0, readtype := false },
            { range_x := 5, range_y := 7, posinread := 2, indexdir := 1, readtype := true }]]
          (fun _ => 0) 7).in_queue 0).top_flag = (rows, data1, tf) ∧
      rows.length ≤ 3 ∧
      (select_multi_kernel (fun _ => false) 3 0
        (select_state [{ read_id := 0, top_flag := 1 }]
          [[{ range_x := 3, range_y := 4, posinread := 0, indexdir := 0, readtype := false },
            { range_x := 5, range_y := 7, posinread := 2, indexdir := 1, readtype := true }]]
          (fun _ => 0) 7)).hits_pool = 0 + rows.length :=
  ⟨by decide,
   (select_multi_kernel_batch (fun _ => false) 3 0
      (select_state [{ read_id := 0, top_flag := 1 }]
        [[{ range_x := 3, range_y := 4, posinread := 0, indexdir := 0, readtype := false },
          { range_x := 5, range_y := 7, posinread := 2, indexdir := 1, readtype := true }]]
        (fun _ => 0) 7) (by decide) rfl (by decide) (by decide)).imp
      (fun _ h => h.imp (fun _ h => h.imp (fun _ h => ⟨h.1, h.2.1, h.2.2.1⟩)))⟩

/-- C17 (as stated, refuted): a store whose top hit `[3,3)` is exhausted and whose second hit
`[5,5)` has an empty range too.  The round discards the top hit and emits a hit with location
5 from the second one, whose range holds no row: the rows remaining in the store are 0 before
the round and 0 after it, so they do not decrease.  And a store whose two hits both hold the
row 5 (`[5,6)` twice) emits location 5 in two successive rounds. -/
theorem select_kernel_pops_front_counterexample :
    (select_kernel (fun _ => false) 0
      (select_state [{ read_id := 0, top_flag := 1 }]
        [[{ range_x := 3, range_y := 3, posinread := 0, indexdir := 0, readtype := false },
          { range_x := 5, range_y := 5, posinread := 2, indexdir := 1, readtype := true }]]
        (fun _ => 0) 7)).out_size = 1 ∧
    ((select_kernel (fun _ => false) 0
      (select_state [{ read_id := 0, top_flag := 1 }]
        [[{ range_x := 3, range_y := 3, posinread := 0, indexdir := 0, readtype := false },
          { range_x := 5, range_y := 5, posinread := 2, indexdir := 1, readtype := true }]]
        (fun _ => 0) 7)).hit_queue 0).loc = 5 ∧
    ((select_kernel (fun _ => false) 0
      (select_state [{ read_id := 0, top_flag := 1 }]
        [[{ range_x := 3, range_y := 3, posinread := 0, indexdir := 0, readtype := false },
          { range_x := 5, range_y := 5, posinread := 2, indexdir := 1, readtype := true }]]
        (fun _ => 0) 7)).hits 0).data =
      [{ range_x := 6, range_y := 5, posinread := 2, indexdir := 1, readtype := true }] ∧
    remaining_rows
        [{ range_x := 3, range_y := 3, posinread := 0, indexdir := 0, readtype := false },
         { range_x := 5, range_y := 5, posinread := 2, indexdir := 1, readtype := true }] = 0 ∧
    remaining_rows
        [{ range_x := 6, range_y := 5, posinread := 2, indexdir := 1, readtype := true }] = 0 ∧
    ((select_kernel (fun _ => false) 0
      (select_state [{ read_id := 0, top_flag := 1 }]
        [[{ range_x := 5, range_y := 6, posinread := 0, indexdir := 0, readtype := false },
          { range_x := 5, range_y := 6, posinread := 2, indexdir := 1, readtype := true }]]
        (fun _ => 0) 7)).hit_queue 0).loc = 5 ∧
    ((select_kernel (fun _ => false) 0
      (select_state [{ read_id := 0, top_flag := 1 }]
        [[{ range_x := 5, range_y := 6, posinread := 0, indexdir := 0, readtype := false },
          { range_x := 5, range_y := 6, posinread := 2, indexdir := 1, readtype := true }]]
        (fun _ => 0) 7)).hits 0).data =
      [{ range_x := 6, range_y := 6, posinread := 0, indexdir := 0, readtype := false },
       { range_x := 5, range_y := 6, posinread := 2, indexdir := 1, readtype := true }] ∧
    ((select_kernel (fun _ => false) 0
      (select_state [{ read_id := 0, top_flag := 1 }]
        [[{ range_x := 6, range_y := 6, posinread := 0, indexdir := 0, readtype := false },
          { range_x := 5, range_y := 6, posinread := 2, indexdir := 1, readtype := true }]]
        (fun _ => 0) 7)).hit_queue 0).loc = 5 := by
  decide

/-- One round of `select_kernel` on a read that is not stopped and whose stored hits other
than the top one all have non-empty ranges: the top hit is discarded at most once and only when
its range is empty; a round that emits a hit selects a hit `sel` with a non-empty range, emits
its front row and leaves `sel` with the range `[sel.range_x + 1, sel.range_y)`; a round that
emits nothing leaves the store empty. -/
theorem select_kernel_round (stop : Nat → Bool) (thread_id : Nat) (st : SelectState)
    (ht : thread_id < st.in_size)
    (hstop : stop (st.in_queue thread_id).read_id = false)
    (hinv : ∀ hit ∈ (st.hits (st.in_queue thread_id).read_id).data.tail,
      hit.range_x < hit.range_y) :
    ∃ popped : Bool,
      (popped = true →
        ∃ top, (st.hits (st.in_queue thread_id).read_id).data.head? = some top ∧
          top.range_y ≤ top.range_x) ∧
      (((if popped then (st.hits (st.in_queue thread_id).read_id).data.tail
           else (st.hits (st.in_queue thread_id).read_id).data) = [] ∧
        (select_kernel stop thread_id st).out_size = st.out_size ∧
        (select_kernel stop thread_id st).hit_queue = st.hit_queue ∧
        ((select_kernel stop thread_id st).hits (st.in_queue thread_id).read_id).data = []) ∨
       (∃ sel rest,
        (if popped then (st.hits (st.in_queue thread_id).read_id).data.tail
           else (st.hits (st.in_queue thread_id).read_id).data) = sel :: rest ∧
        sel.range_x < sel.range_y ∧
        ((select_kernel stop thread_id st).hits (st.in_queue thread_id).read_id).data =
          { sel with range_x := sel.range_x + 1 } :: rest ∧
        (select_kernel stop thread_id st).out_size = st.out_size + 1 ∧
        ((select_kernel stop thread_id st).hit_queue st.out_size).loc = sel.range_x ∧
        remaining_rows
            ((select_kernel stop thread_id st).hits (st.in_queue thread_id).read_id).data + 1 =
          remaining_rows (st.hits (st.in_queue thread_id).read_id).data)) := by
  have h1 : ¬ (thread_id ≥ st.in_size) := by omega
  unfold select_kernel
  simp only [h1, hstop, if_false, Bool.false_eq_true]
  cases hd : (st.hits (st.in_queue thread_id).read_id).data with
  | nil =>
    refine ⟨false, by simp, Or.inl ?_⟩
    simp [hd]
  | cons hit rest =>
    rw [hd] at hinv
    simp only [List.tail_cons] at hinv
    by_cases hx : hit.range_x ≥ hit.range_y
    · simp only [hx, if_true]
      refine ⟨true, fun _ => ⟨hit, by simp, hx⟩, ?_⟩
      cases rest with
      | nil =>
        refine Or.inl ?_
        simp [store_same]
      | cons hit2 rest2 =>
        have h2 : hit2.range_x < hit2.range_y := hinv hit2 (List.mem_cons_self _ _)
        refine Or.inr ⟨hit2, rest2, by simp, h2, ?_, ?_, ?_, ?_⟩
        · simp [emit_hit, store_same, SeedHit.pop_front]
        · simp [emit_hit]
        · simp [emit_hit, store_same, SeedHit.pop_front]
        · simp only [emit_hit, store_same, SeedHit.pop_front, List.set_cons_zero,
            remaining_rows, List.map_cons, List.sum_cons]
          omega
    · simp only [hx, if_false]
      have h2 : hit.range_x < hit.range_y := by omega
      refine ⟨false, by simp, Or.inr ⟨hit, rest, by simp, h2, ?_, ?_, ?_, ?_⟩⟩
      · simp [emit_hit, store_same, SeedHit.pop_front, hd]
      · simp [emit_hit]
      · simp [emit_hit, store_same, SeedHit.pop_front]
      · simp only [emit_hit, store_same, SeedHit.pop_front, hd, List.set_cons_zero,
          remaining_rows, List.map_cons, List.sum_cons]
        omega

/-- One round of `select_kernel` on the rows of the store of its read: the rows held after the
round were held before it, and when the ranges of the stored hits share no row the emitted row
was held before the round and is held no longer. -/
theorem select_kernel_round_rows (stop : Nat → Bool) (thread_id : Nat) (st : SelectState)
    (ht : thread_id < st.in_size)
    (hstop : stop (st.in_queue thread_id).read_id = false)
    (hinv : ∀ hit ∈ (st.hits (st.in_queue thread_id).read_id).data.tail,
      hit.range_x < hit.range_y) :
    (∀ hit ∈ ((select_kernel stop thread_id st).hits (st.in_queue thread_id).read_id).data.tail,
      hit.range_x < hit.range_y) ∧
    (∀ loc, row_in_store
        ((select_kernel stop thread_id st).hits (st.in_queue thread_id).read_id).data loc →
      row_in_store (st.hits (st.in_queue thread_id).read_id).data loc) ∧
    ((st.hits (st.in_queue thread_id).read_id).data.Pairwise
        (fun a b => ranges_disjoint a b = true) →
      ((select_kernel stop thread_id st).hits (st.in_queue thread_id).read_id).data.Pairwise
        (fun a b => ranges_disjoint a b = true) ∧
      ((select_kernel stop thread_id st).out_size = st.out_size + 1 →
        row_in_store (st.hits (st.in_queue thread_id).read_id).data
          ((select_kernel stop thread_id st).hit_queue st.out_size).loc ∧
        ¬ row_in_store
          ((select_kernel stop thread_id st).hits (st.in_queue thread_id).read_id).data
          ((select_kernel stop thread_id st).hit_queue st.out_size).loc)) := by
  obtain ⟨popped, _, h⟩ := select_kernel_round stop thread_id st ht hstop hinv
  rcases h with ⟨_, ho, _, hnew⟩ | ⟨sel, rest, hd, hne, hnew, ho, hloc, _⟩
  · rw [hnew]
    refine ⟨fun hit hh => absurd hh (List.not_mem_nil _), ?_, fun _ => ⟨List.Pairwise.nil, ?_⟩⟩
    · rintro loc ⟨hit, hm, _⟩
      exact absurd hm (List.not_mem_nil _)
    · intro h
      omega
  · generalize (st.hits (st.in_queue thread_id).read_id).data = data at hinv hd ⊢
    have hcur : ∀ h, h ∈ sel :: rest → h ∈ data := by
      intro h hh
      rw [← hd] at hh
      cases popped with
      | true => exact List.mem_of_mem_tail hh
      | false => exact hh
    have hrest : ∀ h, h ∈ rest → h ∈ data.tail := by
      intro h hh
      cases popped with
      | true =>
        simp only [if_true] at hd
        have : h ∈ data.tail.tail := by rw [hd]; exact hh
        exact List.mem_of_mem_tail this
      | false =>
        simp only [Bool.false_eq_true, if_false] at hd
        rw [hd]
        exact hh
    rw [hnew, hloc]
    refine ⟨fun hit hh => hinv hit (hrest hit hh), ?_, ?_⟩
    · rintro loc ⟨hit, hm, h1, h2⟩
      rcases List.mem_cons.1 hm with hm | hm
      · rw [hm] at h1 h2
        simp only [] at h1 h2
        exact ⟨sel, hcur sel (List.mem_cons_self _ _), by omega, h2⟩
      · exact ⟨hit, hcur hit (List.mem_cons_of_mem _ hm), h1, h2⟩
    · intro hpw
      have hpw2 : (sel :: rest).Pairwise (fun a b => ranges_disjoint a b = true) := by
        rw [← hd]
        cases popped with
        | true => exact hpw.tail
        | false => exact hpw
      obtain ⟨hsel, hpr⟩ := List.pairwise_cons.1 hpw2
      refine ⟨List.pairwise_cons.2 ⟨?_, hpr⟩, fun _ => ⟨?_, ?_⟩⟩
      · intro b hb
        have := hsel b hb
        simp only [ranges_disjoint, decide_eq_true_eq] at this ⊢
        omega
      · exact ⟨sel, hcur sel (List.mem_cons_self _ _), le_rfl, hne⟩
      · rintro ⟨hit, hm, h1, h2⟩
        rcases List.mem_cons.1 hm with hm | hm
        · rw [hm] at h1
          simp only [] at h1
          omega
        · have := hsel hit hm
          simp only [ranges_disjoint, decide_eq_true_eq] at this
          omega

/-- C17 (amended): deterministic selection on one read over `n` successive rounds (round `k`
runs `select_kernel` for the read in state `s k`, and the store of the read in round `k+1` is
the one round `k` left), for a read that is not stopped and whose stored hits other than the
top one all have non-empty ranges at the start.  In every round the top hit is discarded
(`pop_top`) at most once and only when its range is empty; a round that emits a hit selects a
hit `sel` with a non-empty range, emits exactly its front row `sel.range_x` and leaves `sel`
with the range `[sel.range_x + 1, sel.range_y)`, so that the rows remaining in the store
decrease by exactly one; a round that emits nothing leaves the store empty; the condition on
the store holds again in the next round.  When the ranges of the stored hits share no row, no
row is emitted twice: the rows emitted in two different rounds differ. -/
theorem select_kernel_pops_front (stop : Nat → Nat → Bool) (t : Nat → Nat)
    (s : Nat → SelectState) (r n : Nat)
    (ht : ∀ k, k < n → t k < (s k).in_size)
    (hr : ∀ k, k < n → ((s k).in_queue (t k)).read_id = r)
    (hstop : ∀ k, k < n → stop k r = false)
    (hnext : ∀ k, k + 1 < n →
      ((s (k + 1)).hits r).data = ((select_kernel (stop k) (t k) (s k)).hits r).data)
    (hinv : ∀ hit ∈ ((s 0).hits r).data.tail, hit.range_x < hit.range_y) :
    (∀ k, k < n →
      (∀ hit ∈ ((s k).hits r).data.tail, hit.range_x < hit.range_y) ∧
      ∃ popped : Bool,
        (popped = true →
          ∃ top, ((s k).hits r).data.head? = some top ∧ top.range_y ≤ top.range_x) ∧
        (((if popped then ((s k).hits r).data.tail else ((s k).hits r).data) = [] ∧
          (select_kernel (stop k) (t k) (s k)).out_size = (s k).out_size ∧
          (select_kernel (stop k) (t k) (s k)).hit_queue = (s k).hit_queue ∧
          ((select_kernel (stop k) (t k) (s k)).hits r).data = []) ∨
         (∃ sel rest,
          (if popped then ((s k).hits r).data.tail else ((s k).hits r).data) = sel :: rest ∧
          sel.range_x < sel.range_y ∧
          ((select_kernel (stop k) (t k) (s k)).hits r).data =
            { sel with range_x := sel.range_x + 1 } :: rest ∧
          (select_kernel (stop k) (t k) (s k)).out_size = (s k).out_size + 1 ∧
          ((select_kernel (stop k) (t k) (s k)).hit_queue (s k).out_size).loc = sel.range_x ∧
          remaining_rows ((select_kernel (stop k) (t k) (s k)).hits r).data + 1 =
            remaining_rows ((s k).hits r).data))) ∧
    (((s 0).hits r).data.Pairwise (fun a b => ranges_disjoint a b = true) →
      ∀ k m, k < m → m < n →
        (select_kernel (stop k) (t k) (s k)).out_size = (s k).out_size + 1 →
        (select_kernel (stop m) (t m) (s m)).out_size = (s m).out_size + 1 →
        ((select_kernel (stop k) (t k) (s k)).hit_queue (s k).out_size).loc ≠
          ((select_kernel (stop m) (t m) (s m)).hit_queue (s m).out_size).loc) := by
  -- the condition on the store holds in every round
  have hinvk : ∀ k, k < n → ∀ hit ∈ ((s k).hits r).data.tail, hit.range_x < hit.range_y := by
    intro k
    induction k with
    | zero => intro _; exact hinv
    | succ k ih =>
      intro hk
      rw [hnext k hk]
      have h := (select_kernel_round_rows (stop k) (t k) (s k) (ht k (by omega))
        (by rw [hr k (by omega)]; exact hstop k (by omega))
        (by rw [hr k (by omega)]; exact ih (by omega))).1
      rw [hr k (by omega)] at h
      exact h
  have hrows := fun k (hk : k < n) => select_kernel_round_rows (stop k) (t k) (s k) (ht k hk)
    (by rw [hr k hk]; exact hstop k hk) (by rw [hr k hk]; exact hinvk k hk)
  refine ⟨fun k hk => ⟨hinvk k hk, ?_⟩, ?_⟩
  · have h := select_kernel_round (stop k) (t k) (s k) (ht k hk)
      (by rw [hr k hk]; exact hstop k hk) (by rw [hr k hk]; exact hinvk k hk)
    rw [hr k hk] at h
    exact h
  · intro hpw
    have hpwk : ∀ k, k < n →
        ((s k).hits r).data.Pairwise (fun a b => ranges_disjoint a b = true) := by
      intro k
      induction k with
      | zero => intro _; exact hpw
      | succ k ih =>
        intro hk
        rw [hnext k hk]
        have h := ((hrows k (by omega)).2.2 (by rw [hr k (by omega)]; exact ih (by omega))).1
        rw [hr k (by omega)] at h
        exact h
    -- a row emitted in round `k` is held by no later store
    have hgone : ∀ k, k < n →
        (select_kernel (stop k) (t k) (s k)).out_size = (s k).out_size + 1 →
        ∀ d, k + 1 + d < n →
          ¬ row_in_store ((s (k + 1 + d)).hits r).data
            ((select_kernel (stop k) (t k) (s k)).hit_queue (s k).out_size).loc := by
      intro k hk hem d
      induction d with
      | zero =>
        intro hd
        rw [Nat.add_zero, hnext k hd]
        have h := (((hrows k hk).2.2 (by rw [hr k hk]; exact hpwk k hk)).2 hem).2
        rw [hr k hk] at h
        exact h
      | succ d ih =>
        intro hd hin
        apply ih (by omega)
        have e : k + 1 + (d + 1) = (k + 1 + d) + 1 := by omega
        rw [e, hnext (k + 1 + d) (by omega)] at hin
        have h := (hrows (k + 1 + d) (by omega)).2.1 _
          (by rw [hr (k + 1 + d) (by omega)]; exact hin)
        rw [hr (k + 1 + d) (by omega)] at h
        exact h
    intro k m hkm hm hek hem heq
    obtain ⟨d, rfl⟩ : ∃ d, m = k + 1 + d := ⟨m - (k + 1), by omega⟩
    have hin := (((hrows (k + 1 + d) hm).2.2
      (by rw [hr (k + 1 + d) hm]; exact hpwk (k + 1 + d) hm)).2 hem).1
    rw [hr (k + 1 + d) hm, ← heq] at hin
    exact hgone k (by omega) hek d hm hin

/-- C17 witness: two rounds on a read whose exhausted top hit `[3,3)` is followed by the hit
`[5,7)`: the first round discards the top hit and emits row 5, the second one emits row 6. -/
theorem select_kernel_pops_front_witness :
    ((select_kernel (fun _ => false) 0
      (select_state [{ read_id := 0, top_flag := 1 }]
        [[{ range_x := 3, range_y := 3, posinread := 0, indexdir := 0, readtype := false },
          { range_x := 5, range_y := 7, posinread := 2, indexdir := 1, readtype := true }]]
        (fun _ => 0) 7)).hit_queue 0).loc = 5 ∧
    ((select_kernel (fun _ => false) 0
      { select_kernel (fun _ => false) 0 (select_state [{ read_id := 0, top_flag := 1 }]
        [[{ range_x := 3, range_y := 3, posinread := 0, indexdir := 0, readtype := false },
          { range_x := 5, range_y := 7, posinread := 2, indexdir := 1, readtype := true }]]
        (fun _ => 0) 7) with out_size := 0 }).hit_queue 0).loc = 6 ∧
    ((select_kernel (fun _ => false) 0
      (select_state [{ read_id := 0, top_flag := 1 }]
        [[{ range_x := 3, range_y := 3, posinread := 0, indexdir := 0, readtype := false },
          { range_x := 5, range_y := 7, posinread := 2, indexdir := 1, readtype := true }]]
        (fun _ => 0) 7)).hit_queue 0).loc ≠
    ((select_kernel (fun _ => false) 0
      { select_kernel (fun _ => false) 0 (select_state [{ read_id := 0, top_flag := 1 }]
        [[{ range_x := 3, range_y := 3, posinread := 0, indexdir := 0, readtype := false },
          { range_x := 5, range_y := 7, posinread := 2, indexdir := 1, readtype := true }]]
        (fun _ => 0) 7) with out_size := 0 }).hit_queue 0).loc :=
  ⟨by decide, by decide,
   (select_kernel_pops_front (fun _ _ => false) (fun _ => 0)
      (fun k => if k = 0 then (select_state [{ read_id := 0, top_flag := 1 }]
        [[{ range_x := 3, range_y := 3, posinread := 0, indexdir := 0, readtype := false },
          { range_x := 5, range_y := 7, posinread := 2, indexdir := 1, readtype := true }]]
        (fun _ => 0) 7) else { select_kernel (fun _ => false) 0 (select_state [{ read_id := 0, top_flag := 1 }]
        [[{ range_x := 3, range_y := 3, posinread := 0, indexdir := 0, readtype := false },
          { range_x := 5, range_y := 7, posinread := 2, indexdir := 1, readtype := true }]]
        (fun _ => 0) 7) with out_size := 0 }) 0 2
      (by decide) (by decide) (by decide)
      (fun k hk => by
        have hk0 : k = 0 := by omega
        subst hk0
        decide)
      (by decide)).2 (by decide) 0 1
      (by decide) (by decide) (by decide) (by decide)⟩

/-- C29: the direction `update_row` passes to `new_cell` for a cell names a term that attains
the maximum of the three candidates: it is `DELETION` only if `top` is strictly above `left`
and `diagonal`, `INSERTION` only if `left` is at least `top` and strictly above `diagonal`,
and `SUBSTITUTION` only if `diagonal` is the maximum; a tie with `diagonal` gives
`SUBSTITUTION`, and `top = left > diagonal` gives `INSERTION`. -/
theorem direction_attains_max {σ : Type} (C : Context σ) (TYPE : AlignmentType)
    (block M i N r_i : Nat) (q_cache : Nat → Nat) (V S G I : Int) (st : CellState σ) (j : Nat)
    (top left diagonal : Int) :
    (update_cell C TYPE block M i N r_i q_cache V S G I st j).context =
      C.new_cell st.context i N (block + j - 1) M
        (cell_score TYPE (st.band j + G) (st.band (j - 1) + I)
          (st.prev + (if r_i = q_cache (j - 1) then V else S)))
        (direction (st.band j + G) (st.band (j - 1) + I)
          (st.prev + (if r_i = q_cache (j - 1) then V else S))) ∧
    (direction top left diagonal = DELETION ∨ direction top left diagonal = INSERTION ∨
      direction top left diagonal = SUBSTITUTION) ∧
    (direction top left diagonal = DELETION ↔ (top > left ∧ top > diagonal)) ∧
    (direction top left diagonal = INSERTION ↔ (left ≥ top ∧ left > diagonal)) ∧
    (direction top left diagonal = SUBSTITUTION ↔ (diagonal ≥ top ∧ diagonal ≥ left)) ∧
    (direction top left diagonal = DELETION → top = max3 top left diagonal) ∧
    (direction top left diagonal = INSERTION → left = max3 top left diagonal) ∧
    (direction top left diagonal = SUBSTITUTION → diagonal = max3 top left diagonal) := by
  have h1 : SUBSTITUTION ≠ DELETION := by decide
  have h2 : SUBSTITUTION ≠ INSERTION := by decide
  have h3 : INSERTION ≠ DELETION := by decide
  have hmax := max3_direction top left diagonal
  refine ⟨rfl, ?_⟩
  by_cases htl : top > left
  · by_cases htg : top > diagonal
    · have hd : direction top left diagonal = DELETION := by
        unfold direction; rw [if_pos htl, if_pos htg]
      rw [hd] at hmax ⊢
      rw [if_pos rfl] at hmax
      refine ⟨Or.inl rfl, ?_, ?_, ?_, ?_, ?_, ?_⟩
      · exact ⟨fun _ => ⟨htl, htg⟩, fun _ => rfl⟩
      · exact ⟨fun h => absurd h.symm h3, fun h => by omega⟩
      · exact ⟨fun h => absurd h.symm h1, fun h => by omega⟩
      · intro _; exact hmax.symm
      · intro h; exact absurd h.symm h3
      · intro h; exact absurd h.symm h1
    · have hd : direction top left diagonal = SUBSTITUTION := by
        unfold direction; rw [if_pos htl, if_neg htg]
      rw [hd] at hmax ⊢
      rw [if_neg h1, if_neg h2] at hmax
      refine ⟨Or.inr (Or.inr rfl), ?_, ?_, ?_, ?_, ?_, ?_⟩
      · exact ⟨fun h => absurd h h1, fun h => by omega⟩
      · exact ⟨fun h => absurd h h2, fun h => by omega⟩
      · exact ⟨fun _ => by omega, fun _ => rfl⟩
      · intro h; exact absurd h h1
      · intro h; exact absurd h h2
      · intro _; exact hmax.symm
  · by_cases hlg : left > diagonal
    · have hd : direction top left diagonal = INSERTION := by
        unfold direction; rw [if_neg htl, if_pos hlg]
      rw [hd] at hmax ⊢
      rw [if_neg h3, if_pos rfl] at hmax
      refine ⟨Or.inr (Or.inl rfl), ?_, ?_, ?_, ?_, ?_, ?_⟩
      · exact ⟨fun h => absurd h h3, fun h => by omega⟩
      · exact ⟨fun _ => ⟨by omega, hlg⟩, fun _ => rfl⟩
      · exact ⟨fun h => absurd h.symm h2, fun h => by omega⟩
      · intro h; exact absurd h h3
      · intro _; exact hmax.symm
      · intro h; exact absurd h.symm h2
    · have hd : direction top left diagonal = SUBSTITUTION := by
        unfold direction; rw [if_neg htl, if_neg hlg]
      rw [hd] at hmax ⊢
      rw [if_neg h1, if_neg h2] at hmax
      refine ⟨Or.inr (Or.inr rfl), ?_, ?_, ?_, ?_, ?_, ?_⟩
      · exact ⟨fun h => absurd h h1, fun h => by omega⟩
      · exact ⟨fun h => absurd h h2, fun h => by omega⟩
      · exact ⟨fun _ => by omega, fun _ => rfl⟩
      · intro h; exact absurd h h1
      · intro h; exact absurd h h2
      · intro _; exact hmax.symm

/-- C29 witness: with `top = left = 1` above `diagonal = 0` the direction is `INSERTION`. -/
theorem direction_attains_max_witness : direction 1 1 0 = INSERTION :=
  (direction_attains_max (SWScoringContext LOCAL) LOCAL 0 1 0 1 65 (fun _ => 65) 1 (-1) (-1) (-1)
    { context := (), band := fun _ => 0, prev := 0 } 1 1 1 0).2.2.2.1.mpr
    ⟨by decide, by decide⟩

/-- C30: the cell loop of `update_row` run on `SWSubmatrixContext` stores for its cell the
value `stored_dir`: for `LOCAL` the cell score is `>= 0` and the stored value is the `SINK`
marker if and only if the score is 0, and the winning direction otherwise; for `GLOBAL` and
`SEMI_GLOBAL` the stored value is the winning direction and never `SINK`.  Every entry of the
`LOCAL` matrix is `>= 0`. -/
theorem sink_iff_zero_score (TYPE : AlignmentType) (CHECKPOINTS block M i N r_i : Nat)
    (q_cache : Nat → Nat) (V S G I : Int) (st : CellState SubmatrixState) (j : Nat)
    (scoring : Scoring) (pattern text : List Nat) (x y : Nat) :
    (update_cell (SWSubmatrixContext TYPE CHECKPOINTS) TYPE block M i N r_i q_cache V S G I st
        j).context.m_submatrix
        ((block + j - 1 - st.context.m_checkpoint_id * CHECKPOINTS) * N + i) =
      stored_dir TYPE
        ((update_cell (SWSubmatrixContext TYPE CHECKPOINTS) TYPE block M i N r_i q_cache V S G I
          st j).band j)
        (direction (st.band j + G) (st.band (j - 1) + I)
          (st.prev + (if r_i = q_cache (j - 1) then V else S))) ∧
    (TYPE = LOCAL →
      0 ≤ (update_cell (SWSubmatrixContext TYPE CHECKPOINTS) TYPE block M i N r_i q_cache V S G
        I st j).band j) ∧
    (∀ (score : Int) (dir : Nat), dir ≠ SINK →
      (TYPE = LOCAL → (stored_dir TYPE score dir = SINK ↔ score = 0)) ∧
      (TYPE = LOCAL → score ≠ 0 → stored_dir TYPE score dir = dir) ∧
      (TYPE ≠ LOCAL → stored_dir TYPE score dir = dir ∧ stored_dir TYPE score dir ≠ SINK)) ∧
    direction (st.band j + G) (st.band (j - 1) + I)
      (st.prev + (if r_i = q_cache (j - 1) then V else S)) ≠ SINK ∧
    0 ≤ H LOCAL scoring pattern text x y := by
  refine ⟨?_, ?_, ?_, direction_ne_sink _ _ _, ?_⟩
  · unfold update_cell SWSubmatrixContext stored_dir
    by_cases hT : TYPE = LOCAL
    · simp only [hT, if_true, store_same]
    · simp only [hT, if_false, store_same]
  · intro hT
    unfold update_cell cell_score
    simp only [hT, if_true, store_same]
    exact le_max_right _ _
  · intro score dir hdir
    unfold stored_dir
    refine ⟨?_, ?_, ?_⟩
    · intro hT
      simp only [hT, if_true]
      by_cases h0 : score = 0
      · simp [h0]
      · simp [h0, hdir]
    · intro hT h0
      simp [hT, h0]
    · intro hT
      simp [hT, hdir]
  · cases x with
    | zero =>
      rw [H_row_zero]
      simp [row_zero]
    | succ x =>
      cases y with
      | zero =>
        rw [H_col_zero]
        simp
      | succ y =>
        rw [H_rec]
        unfold cell_score
        simp only [if_true]
        exact le_max_right _ _

/-- C30 witness: a `LOCAL` cell of a mismatch has score 0 and stores `SINK`. -/
theorem sink_iff_zero_score_witness :
    stored_dir LOCAL 0 SUBSTITUTION = SINK :=
  ((sink_iff_zero_score LOCAL 4 0 1 0 1 65 (fun _ => 67) 1 (-1) (-1) (-1)
    { context := { m_checkpoints := fun _ => 0, m_checkpoint_id := 0,
                   m_submatrix := fun _ => 0 },
      band := fun _ => 0, prev := 0 } 1
    { match_ := 1, mismatch := -1, deletion := -1, insertion := -1 } [67] [65] 1 1).2.2.1
      0 SUBSTITUTION (by decide)).1 rfl |>.mpr rfl

/-- C23 (code at the failing input): in an arena of size 4 with the pool counter at 0, a
request of 3 elements is bound to slot 0, but a request of 4 elements, which ends exactly at
the end of the arena, is reported as an overflow: `alloc` returns `NULL` and records the
sentinel 4 for the index. -/
theorem alloc_rejects_exact_fit :
    (DeviceVectorArrayView.alloc { m_index := fun _ => 0, m_pool := 0, m_size := 4 } 7 3).1
      = some 0 ∧
    (DeviceVectorArrayView.alloc { m_index := fun _ => 0, m_pool := 0, m_size := 4 } 7 4).1
      = none ∧
    (DeviceVectorArrayView.alloc { m_index := fun _ => 0, m_pool := 0, m_size := 4 } 7
      4).2.m_index 7 = 4 ∧
    ¬ (0 + 4 > 4) := by
  decide

/-- C25: for every element size, vector count `size` and arena size `arena`,
`DeviceVectorArray::resize` and `HostVectorArray::resize` return with `do_alloc = false` the
byte count they return with `do_alloc = true`, which is `sizeof(T)*arena + 4*size` in 64-bit
arithmetic (and exactly that number when `sizeof(T)`, `arena` and `size` are below `2^31`), and
with `do_alloc = false` they leave the array (arena, index table and pool counter) as it
was. -/
theorem resize_dry_run {α : Type} [Inhabited α] (sizeof_T : Nat) (d : DeviceVectorArray α)
    (h : HostVectorArray α) (size arena : Nat) :
    (d.resize sizeof_T size arena false).1 = (d.resize sizeof_T size arena true).1 ∧
    (d.resize sizeof_T size arena false).1 = (sizeof_T * arena + 4 * size) % 18446744073709551616 ∧
    (d.resize sizeof_T size arena false).2 = d ∧
    (h.resize sizeof_T size arena false).1 = (h.resize sizeof_T size arena true).1 ∧
    (h.resize sizeof_T size arena false).1 = (sizeof_T * arena + 4 * size) % 18446744073709551616 ∧
    (h.resize sizeof_T size arena false).2 = h ∧
    (sizeof_T < 2147483648 → arena < 2147483648 → size < 2147483648 →
      (d.resize sizeof_T size arena false).1 = sizeof_T * arena + 4 * size ∧
      (h.resize sizeof_T size arena false).1 = sizeof_T * arena + 4 * size) := by
  have e : (0 + sizeof_T * arena % 18446744073709551616) % 18446744073709551616
      = sizeof_T * arena % 18446744073709551616 := by
    rw [Nat.zero_add, Nat.mod_mod]
  have e2 : (sizeof_T * arena % 18446744073709551616 + 4 * size % 18446744073709551616)
      % 18446744073709551616 = (sizeof_T * arena + 4 * size) % 18446744073709551616 := by
    rw [← Nat.add_mod]
  refine ⟨rfl, ?_, rfl, rfl, ?_, rfl, ?_⟩
  · simp only [DeviceVectorArray.resize, e, e2]
  · simp only [HostVectorArray.resize, e, e2]
  · intro h1 h2 h3
    have hb : sizeof_T * arena < 2147483648 * 2147483648 :=
      Nat.mul_lt_mul'' h1 h2
    have hlt : sizeof_T * arena + 4 * size < 18446744073709551616 := by omega
    simp only [DeviceVectorArray.resize, HostVectorArray.resize, e, e2, Nat.mod_eq_of_lt hlt,
      and_self]

/-- C25 witness: elements of 8 bytes, 3 vectors and an arena of 10 elements need 92 bytes. -/
theorem resize_dry_run_witness :
    (DeviceVectorArray.resize 8 ({ m_arena := [], m_index := [], m_pool := [0] } :
        DeviceVectorArray Nat) 3 10 false).1 = 8 * 10 + 4 * 3 ∧
    (HostVectorArray.resize 8 ({ m_arena := [], m_index := [], m_pool := [0] } :
        HostVectorArray Nat) 3 10 false).1 = 8 * 10 + 4 * 3 :=
  (resize_dry_run 8 ({ m_arena := [], m_index := [], m_pool := [0] } : DeviceVectorArray Nat)
    ({ m_arena := [], m_index := [], m_pool := [0] } : HostVectorArray Nat) 3 10).2.2.2.2.2.2
    (by decide) (by decide) (by decide)

theorem foldl_store_each {β : Type} (size : Nat) (f : Nat → β) :
    ∀ (l : List Nat) (s : Nat → β) (x : Nat),
      l.foldl (fun s t => if t ≥ size then s else store s t (f t)) s x =
        if x ∈ l ∧ x < size then f x else s x := by
  intro l
  induction l with
  | nil => intro s x; simp
  | cons t l ih =>
    intro s x
    rw [List.foldl_cons, ih]
    by_cases hxl : x ∈ l
    · by_cases hxs : x < size
      · simp [hxl, hxs]
      · simp only [hxs, and_false, if_false]
        by_cases ht : t ≥ size
        · simp only [ht, if_true]
        · simp only [ht, if_false]
          exact store_other _ _ _ _ (by omega)
    · by_cases ht : t ≥ size
      · simp only [ht, if_true, hxl, false_and, if_false, List.mem_cons, or_false]
        by_cases hxt : x = t
        · subst hxt
          have : ¬ x < size := by omega
          simp [this]
        · simp [hxt]
      · simp only [ht, if_false, hxl, false_and, List.mem_cons, or_false]
        by_cases hxt : x = t
        · subst hxt
          have : x < size := by omega
          simp [this, store_same]
        · simp [hxt, store_other _ _ _ _ hxt]

/-- C26: after `init_alignments` on a batch (block size positive, `size + BLOCKDIM - 1` below
`2^32`, every thread of the grid run once), for every read `i < size` both records of
`best_data[i]` are the sentinel alignment: reference position `0xFFFFFFFF`, the maximum edit
distance, the given mate id and the score `worst_score_fun(len_i)`, where `len_i` is the
`uint32` difference `read_index[i+1] - read_index[i]` (the plain difference when the index is
non-decreasing and below `2^32`); so the primary score is not below the secondary one, and no
entry at an index `>= size` is written. -/
theorem init_alignments_sentinel (size : Nat) (m_read_index : Nat → Nat)
    (worst_score_fun : Nat → Int) (max_ed mate : Nat) (sched : List Nat → List Nat)
    (BLOCKDIM : Nat) (best_data : Nat → BestAlignments)
    (hsched : ∀ l, (sched l).Perm l) (hB : 0 < BLOCKDIM)
    (hsize : size + BLOCKDIM - 1 < 4294967296) :
    (∀ i, i < size →
      init_alignments size m_read_index worst_score_fun max_ed mate sched BLOCKDIM best_data i =
        { m_a1 := { m_align := 4294967295, m_ed := max_ed,
                    m_score := worst_score_fun (read_length m_read_index i), m_mate := mate },
          m_a2 := { m_align := 4294967295, m_ed := max_ed,
                    m_score := worst_score_fun (read_length m_read_index i), m_mate := mate } } ∧
      (init_alignments size m_read_index worst_score_fun max_ed mate sched BLOCKDIM best_data
        i).m_a1.m_score ≥
        (init_alignments size m_read_index worst_score_fun max_ed mate sched BLOCKDIM best_data
          i).m_a2.m_score ∧
      (m_read_index i ≤ m_read_index (i + 1) → m_read_index (i + 1) < 4294967296 →
        read_length m_read_index i = m_read_index (i + 1) - m_read_index i)) ∧
    (∀ i, size ≤ i →
      init_alignments size m_read_index worst_score_fun max_ed mate sched BLOCKDIM best_data i
        = best_data i) := by
  have hfold : ∀ x,
      init_alignments size m_read_index worst_score_fun max_ed mate sched BLOCKDIM best_data x =
        if x ∈ sched (List.range
            (((size + BLOCKDIM - 1) % 4294967296) / BLOCKDIM * BLOCKDIM)) ∧ x < size then
          ({ m_a1 := worst_alignment max_ed mate (worst_score_fun (read_length m_read_index x)),
             m_a2 := worst_alignment max_ed mate (worst_score_fun (read_length m_read_index x)) }
            : BestAlignments)
        else best_data x := by
    intro x
    unfold init_alignments launch_grid
    have := foldl_store_each size (fun t =>
      ({ m_a1 := worst_alignment max_ed mate (worst_score_fun (read_length m_read_index t)),
         m_a2 := worst_alignment max_ed mate (worst_score_fun (read_length m_read_index t)) }
        : BestAlignments))
      (sched (List.range (((size + BLOCKDIM - 1) % 4294967296) / BLOCKDIM * BLOCKDIM)))
      best_data x
    rw [← this]
    rfl
  have hcover : ∀ x, x < size →
      x ∈ sched (List.range (((size + BLOCKDIM - 1) % 4294967296) / BLOCKDIM * BLOCKDIM)) := by
    intro x hx
    rw [(hsched _).mem_iff, List.mem_range, Nat.mod_eq_of_lt hsize]
    have h1 := Nat.div_add_mod (size + BLOCKDIM - 1) BLOCKDIM
    have h2 := Nat.mod_lt (size + BLOCKDIM - 1) hB
    rw [Nat.mul_comm] at h1
    generalize (size + BLOCKDIM - 1) / BLOCKDIM * BLOCKDIM = q at h1 ⊢
    omega
  refine ⟨?_, ?_⟩
  · intro i hi
    rw [hfold i, if_pos ⟨hcover i hi, hi⟩]
    refine ⟨rfl, le_refl _, ?_⟩
    intro h1 h2
    unfold read_length get_range
    simp only []
    have h3 : m_read_index i < 4294967296 := by omega
    rw [Nat.mod_eq_of_lt h3]
    omega
  · intro i hi
    rw [hfold i, if_neg (by omega)]

/-- C26 witness: a batch of two reads of lengths 5 and 7, blocks of 4 threads run in reverse
order; read 1 gets the score of length 7 and entry 2 is not written. -/
theorem init_alignments_sentinel_witness :
    init_alignments 2 (fun i => [0, 5, 12].getD i 0) (fun len => -(len : Int)) 255 1
        List.reverse 4 (fun _ => default) 1 =
      { m_a1 := { m_align := 4294967295, m_ed := 255,
                  m_score := -(read_length (fun i => [0, 5, 12].getD i 0) 1 : Int),
                  m_mate := 1 },
        m_a2 := { m_align := 4294967295, m_ed := 255,
                  m_score := -(read_length (fun i => [0, 5, 12].getD i 0) 1 : Int),
                  m_mate := 1 } } ∧
    read_length (fun i => [0, 5, 12].getD i 0) 1 = 7 ∧
    init_alignments 2 (fun i => [0, 5, 12].getD i 0) (fun len => -(len : Int)) 255 1
        List.reverse 4 (fun _ => default) 2 = default :=
  ⟨((init_alignments_sentinel 2 (fun i => [0, 5, 12].getD i 0) (fun len => -(len : Int)) 255 1
      List.reverse 4 (fun _ => default) (fun l => List.reverse_perm l) (by decide)
      (by decide)).1 1 (by decide)).1,
   by decide,
   (init_alignments_sentinel 2 (fun i => [0, 5, 12].getD i 0) (fun len => -(len : Int)) 255 1
      List.reverse 4 (fun _ => default) (fun l => List.reverse_perm l) (by decide)
      (by decide)).2 2 (by decide)⟩

theorem band_length_loop_spec (max_dist : Nat) (hm : max_dist * 2 + 1 < 4294967296) :
    ∀ (n fuel k : Nat), k + n = 32 → 2 ≤ k → n + 1 ≤ fuel →
      (k = 2 ∨ 2 ^ (k - 1) ≤ max_dist * 2 + 1) →
      ∃ K, k ≤ K ∧ K ≤ 32 ∧
        band_length_loop fuel (2 ^ k % 4294967296) max_dist = some (2 ^ K % 4294967296) ∧
        max_dist * 2 + 1 ≤ 2 ^ K - 1 ∧ (K = k ∨ 2 ^ (K - 1) ≤ max_dist * 2 + 1) := by
  intro n
  induction n with
  | zero =>
    intro fuel k hk _ hfuel _
    have hk32 : k = 32 := by omega
    subst hk32
    obtain ⟨f, rfl⟩ : ∃ f, fuel = f + 1 := ⟨fuel - 1, by omega⟩
    refine ⟨32, le_refl _, le_refl _, ?_, ?_, Or.inl rfl⟩
    · rw [band_length_loop]
      have h1 : (2 ^ 32 % 4294967296 + 4294967295) % 4294967296 = 4294967295 := by norm_num
      have h2 : (max_dist * 2 + 1) % 4294967296 = max_dist * 2 + 1 := Nat.mod_eq_of_lt hm
      rw [h1, h2, if_neg (by omega)]
    · have : (2 : Nat) ^ 32 = 4294967296 := by norm_num
      omega
  | succ n ih =>
    intro fuel k hk hk2 hfuel hpre
    obtain ⟨f, rfl⟩ : ∃ f, fuel = f + 1 := ⟨fuel - 1, by omega⟩
    have hk31 : k ≤ 31 := by omega
    have hx1 : (2 : Nat) ^ 2 ≤ 2 ^ k := Nat.pow_le_pow_right (by norm_num) hk2
    have hx2 : (2 : Nat) ^ k ≤ 2 ^ 31 := Nat.pow_le_pow_right (by norm_num) hk31
    have hsucc : (2 : Nat) ^ (k + 1) = 2 ^ k * 2 := pow_succ 2 k
    have h2 : (max_dist * 2 + 1) % 4294967296 = max_dist * 2 + 1 := Nat.mod_eq_of_lt hm
    rw [band_length_loop, h2]
    norm_num at hx1 hx2
    by_cases hc : (2 ^ k % 4294967296 + 4294967295) % 4294967296 < max_dist * 2 + 1
    · rw [if_pos hc]
      have hle : 2 ^ k ≤ max_dist * 2 + 1 := by
        generalize (2 : Nat) ^ k = x at hc hx1 hx2
        omega
      have hstep : (2 ^ k % 4294967296 * 2) % 4294967296 = 2 ^ (k + 1) % 4294967296 := by
        rw [hsucc]
        generalize (2 : Nat) ^ k = x at hx1 hx2
        omega
      rw [hstep]
      obtain ⟨K, a1, a2, a3, a4, a5⟩ := ih f (k + 1) (by omega) (by omega) (by omega)
        (Or.inr (by rw [Nat.add_sub_cancel]; exact hle))
      refine ⟨K, by omega, a2, a3, a4, ?_⟩
      rcases a5 with a5 | a5
      · right
        rw [a5, Nat.add_sub_cancel]
        exact hle
      · exact Or.inr a5
    · rw [if_neg hc]
      refine ⟨k, le_refl _, by omega, rfl, ?_, Or.inl rfl⟩
      generalize (2 : Nat) ^ k = x at hc hx1 hx2
      omega

/-- C22 (as stated, refuted): for `max_dist = 0` the function returns 3, while `1 = 2^1 - 1`
is a smaller number of the form `2^k - 1` that is `>= 2*0 + 1`. -/
theorem band_length_counterexample :
    band_length 0 = some 3 ∧ 2 * 0 + 1 ≤ 2 ^ 1 - 1 ∧ 2 ^ 1 - 1 < 3 := by
  decide

/-- C22 (amended): for every `max_dist` with `2*max_dist + 1` below `2^32`,
`Aligner::band_length` returns the smallest number of the form `2^k - 1` with `k >= 2` that is
`>= 2*max_dist + 1`; for `max_dist >= 1` this is the smallest number of the form `2^k - 1`
that is `>= 2*max_dist + 1`. -/
theorem band_length_smallest (max_dist : Nat) (hm : 2 * max_dist + 1 < 4294967296) :
    ∃ K, 2 ≤ K ∧ band_length max_dist = some (2 ^ K - 1) ∧
      2 * max_dist + 1 ≤ 2 ^ K - 1 ∧
      (∀ j, 2 ≤ j → 2 * max_dist + 1 ≤ 2 ^ j - 1 → 2 ^ K - 1 ≤ 2 ^ j - 1) ∧
      (1 ≤ max_dist → ∀ j, 2 * max_dist + 1 ≤ 2 ^ j - 1 → 2 ^ K - 1 ≤ 2 ^ j - 1) := by
  have hm1 : max_dist * 2 + 1 < 4294967296 := by omega
  obtain ⟨K, a1, a2, a3, a4, a5⟩ :=
    band_length_loop_spec max_dist hm1 30 32 2 rfl (le_refl _) (by omega) (Or.inl rfl)
  have h4 : (2 : Nat) ^ 2 % 4294967296 = 4 := by norm_num
  rw [h4] at a3
  have hK1 : (2 : Nat) ^ 2 ≤ 2 ^ K := Nat.pow_le_pow_right (by norm_num) a1
  have hK2 : (2 : Nat) ^ K ≤ 2 ^ 32 := Nat.pow_le_pow_right (by norm_num) a2
  norm_num at hK1 hK2
  have hval : (2 ^ K % 4294967296 + 4294967295) % 4294967296 = 2 ^ K - 1 := by
    generalize (2 : Nat) ^ K = x at hK1 hK2
    omega
  have hmin : ∀ j, 2 ≤ j → 2 * max_dist + 1 ≤ 2 ^ j - 1 → 2 ^ K - 1 ≤ 2 ^ j - 1 := by
    intro j hj hjm
    have hjpos : 0 < 2 ^ j := pow_pos (by norm_num) j
    have hKj : K ≤ j := by
      rcases a5 with a5 | a5
      · omega
      · by_contra hcon
        have : j ≤ K - 1 := by omega
        have h2 : (2 : Nat) ^ j ≤ 2 ^ (K - 1) := Nat.pow_le_pow_right (by norm_num) this
        omega
    have := Nat.pow_le_pow_right (show 0 < 2 by norm_num) hKj
    omega
  refine ⟨K, a1, ?_, by omega, hmin, ?_⟩
  · unfold band_length
    rw [a3]
    simp only [Option.map_some', hval]
  · intro h1 j hjm
    apply hmin j _ hjm
    by_contra hcon
    have hj : j = 0 ∨ j = 1 := by omega
    rcases hj with rfl | rfl
    · norm_num at hjm
    · norm_num at hjm
      omega

/-- C22 witness: for `max_dist = 5` the band length is `15 = 2^4 - 1`. -/
theorem band_length_smallest_witness :
    band_length 5 = some 15 ∧
    ∃ K, 2 ≤ K ∧ band_length 5 = some (2 ^ K - 1) ∧
      2 * 5 + 1 ≤ 2 ^ K - 1 ∧
      (∀ j, 2 ≤ j → 2 * 5 + 1 ≤ 2 ^ j - 1 → 2 ^ K - 1 ≤ 2 ^ j - 1) ∧
      (1 ≤ 5 → ∀ j, 2 * 5 + 1 ≤ 2 ^ j - 1 → 2 ^ K - 1 ≤ 2 ^ j - 1) :=
  ⟨by decide, band_length_smallest 5 (by decide)⟩

theorem range_sum_succ (f : Nat → Int) (n : Nat) :
    range_sum f (n + 1) = range_sum f n + f n := by
  simp [range_sum, List.range_succ]

theorem range_sum_congr (f g : Nat → Int) :
    ∀ n, (∀ i, i < n → f i = g i) → range_sum f n = range_sum g n := by
  intro n
  induction n with
  | zero => intro _; rfl
  | succ n ih =>
    intro h
    rw [range_sum_succ, range_sum_succ, ih (fun i hi => h i (by omega)), h n (by omega)]

theorem range_sum_pairs (f : Nat → Int) :
    ∀ n, range_sum f (2 * n) = range_sum (fun i => f (2 * i) + f (2 * i + 1)) n := by
  intro n
  induction n with
  | zero => rfl
  | succ n ih =>
    have h : 2 * (n + 1) = 2 * n + 1 + 1 := by ring
    rw [h, range_sum_succ, range_sum_succ, ih, range_sum_succ]
    ring

theorem range_sum_zero_tail (f : Nat → Int) (n : Nat) :
    ∀ m, n ≤ m → (∀ i, n ≤ i → i < m → f i = 0) → range_sum f m = range_sum f n := by
  intro m
  induction m with
  | zero =>
    intro h _
    have : n = 0 := by omega
    rw [this]
  | succ m ih =>
    intro h hz
    by_cases hn : n = m + 1
    · rw [hn]
    · rw [range_sum_succ, ih (by omega) (fun i h1 h2 => hz i h1 (by omega)),
        hz m (by omega) (by omega), add_zero]

theorem setup_level_spec (src dst : Nat) (cells : Nat → Int) :
    ∀ n, src + 2 * n ≤ dst → ∀ x,
      SumTree.setup_level src dst n cells x =
        if dst ≤ x ∧ x < dst + n then
          cells (src + 2 * (x - dst)) + cells (src + 2 * (x - dst) + 1)
        else cells x := by
  intro n
  induction n with
  | zero =>
    intro _ x
    have : ¬ (dst ≤ x ∧ x < dst + 0) := by omega
    rw [if_neg this]
    rfl
  | succ n ih =>
    intro h x
    have ih1 := ih (by omega)
    unfold SumTree.setup_level at ih1 ⊢
    rw [List.range_succ, List.foldl_append, List.foldl_cons, List.foldl_nil]
    by_cases hx : x = dst + n
    · subst hx
      rw [store_same, ih1, ih1, if_neg (by omega), if_neg (by omega), if_pos (by omega)]
      have : dst + n - dst = n := by omega
      rw [this]
    · rw [store_other _ _ _ _ hx, ih1]
      by_cases hc : dst ≤ x ∧ x < dst + n
      · rw [if_pos hc, if_pos (by omega)]
      · rw [if_neg hc, if_neg (by omega)]

theorem consistent_congr :
    ∀ (k src : Nat) (c c2 : Nat → Int), (∀ x, src ≤ x → c2 x = c x) →
      SumTree.consistent k src c → SumTree.consistent k src c2 := by
  intro k
  induction k with
  | zero => intro _ _ _ _ _; trivial
  | succ k ih =>
    intro src c c2 h hc
    obtain ⟨h1, h2⟩ := hc
    have hp : 0 < 2 ^ k := Nat.two_pow_pos k
    refine ⟨?_, ih _ c c2 (fun x hx => h x (by omega)) h2⟩
    intro i hi
    rw [h _ (by omega), h _ (by omega), h _ (by omega), h1 i hi]

theorem setup_levels_spec :
    ∀ (k src : Nat) (c : Nat → Int),
      (∀ x, x < src + 2 ^ k → SumTree.setup_levels k src c x = c x) ∧
      SumTree.consistent k src (SumTree.setup_levels k src c) := by
  intro k
  induction k with
  | zero =>
    intro src c
    exact ⟨fun _ _ => rfl, trivial⟩
  | succ k ih =>
    intro src c
    have hp : 0 < 2 ^ k := Nat.two_pow_pos k
    have hs : 2 ^ (k + 1) = 2 ^ k * 2 := by rw [Nat.pow_succ]
    obtain ⟨a1, a2⟩ := ih (src + 2 ^ (k + 1))
      (SumTree.setup_level src (src + 2 ^ (k + 1)) (2 ^ k) c)
    have hlev := setup_level_spec src (src + 2 ^ (k + 1)) c (2 ^ k) (by omega)
    refine ⟨?_, ?_, ?_⟩
    · intro x hx
      rw [SumTree.setup_levels, a1 x (by omega), hlev, if_neg (by omega)]
    · intro i hi
      rw [SumTree.setup_levels, a1 _ (by omega), a1 _ (by omega), a1 _ (by omega),
        hlev, hlev, hlev, if_pos (by omega), if_neg (by omega), if_neg (by omega)]
      have : src + 2 ^ (k + 1) + i - (src + 2 ^ (k + 1)) = i := by omega
      rw [this]
    · rw [SumTree.setup_levels]
      exact a2

theorem consistent_root :
    ∀ (k src : Nat) (c : Nat → Int), SumTree.consistent k src c →
      c (src + 2 ^ (k + 1) - 2) = range_sum (fun i => c (src + i)) (2 ^ k) := by
  intro k
  induction k with
  | zero =>
    intro src c _
    have h1 : range_sum (fun i => c (src + i)) (2 ^ 0) = c src := by
      rw [pow_zero]
      exact (range_sum_succ (fun i => c (src + i)) 0).trans (by simp [range_sum])
    rw [h1]
    rfl
  | succ k ih =>
    intro src c hc
    obtain ⟨h1, h2⟩ := hc
    have hp : 0 < 2 ^ k := Nat.two_pow_pos k
    have hs : 2 ^ (k + 1) = 2 ^ k * 2 := by rw [Nat.pow_succ]
    have hs2 : 2 ^ (k + 1 + 1) = 2 ^ (k + 1) * 2 := by rw [Nat.pow_succ]
    have hidx : src + 2 ^ (k + 1 + 1) - 2 = src + 2 ^ (k + 1) + 2 ^ (k + 1) - 2 := by omega
    have h2k : 2 ^ (k + 1) = 2 * 2 ^ k := by omega
    rw [hidx, ih _ c h2]
    rw [h2k, range_sum_pairs]
    apply range_sum_congr
    intro i hi
    rw [← h2k, h1 i hi]
    simp only [Nat.add_assoc]

theorem add_levels_spec (v : Int) :
    ∀ (k src j : Nat) (c : Nat → Int), j < 2 ^ k →
      (∀ x, x < src → SumTree.add_levels v k src j c x = c x) ∧
      (∀ i, i < 2 ^ k →
        SumTree.add_levels v k src j c (src + i) = c (src + i) + (if i = j then v else 0)) ∧
      (SumTree.consistent k src c → SumTree.consistent k src (SumTree.add_levels v k src j c)) := by
  intro k
  induction k with
  | zero =>
    intro src j c hj
    have hj0 : j = 0 := by simpa using hj
    subst hj0
    refine ⟨?_, ?_, fun _ => trivial⟩
    · intro x hx
      rw [SumTree.add_levels]
      exact store_other _ _ _ _ (by omega)
    · intro i hi
      have hi0 : i = 0 := by simpa using hi
      subst hi0
      rw [SumTree.add_levels, store_same, if_pos rfl]
  | succ k ih =>
    intro src j c hj
    have hp : 0 < 2 ^ k := Nat.two_pow_pos k
    have hs : 2 ^ (k + 1) = 2 ^ k * 2 := by rw [Nat.pow_succ]
    obtain ⟨a1, a2, a3⟩ := ih (src + 2 ^ (k + 1)) (j / 2)
      (store c (src + j) (c (src + j) + v)) (by omega)
    have hleaf : ∀ i, i < 2 ^ (k + 1) →
        SumTree.add_levels v (k + 1) src j c (src + i) =
          c (src + i) + (if i = j then v else 0) := by
      intro i hi
      rw [SumTree.add_levels, a1 _ (by omega)]
      by_cases hij : i = j
      · subst hij
        rw [store_same, if_pos rfl]
      · rw [store_other _ _ _ _ (by omega), if_neg hij, add_zero]
    refine ⟨?_, hleaf, ?_⟩
    · intro x hx
      rw [SumTree.add_levels, a1 x (by omega)]
      exact store_other _ _ _ _ (by omega)
    · intro hc
      obtain ⟨h1, h2⟩ := hc
      refine ⟨?_, ?_⟩
      · intro i hi
        have e1 := hleaf (2 * i) (by omega)
        have e2 := hleaf (2 * i + 1) (by omega)
        rw [← Nat.add_assoc] at e2
        rw [e1, e2]
        rw [SumTree.add_levels, a2 i hi, store_other _ _ _ _ (by omega), h1 i hi]
        by_cases c1 : 2 * i = j
        · have f1 : i = j / 2 := by omega
          have f2 : ¬ 2 * i + 1 = j := by omega
          rw [if_pos c1, if_neg f2, if_pos f1]
          ring
        · by_cases c2 : 2 * i + 1 = j
          · have f1 : i = j / 2 := by omega
            rw [if_neg c1, if_pos c2, if_pos f1]
            ring
          · have f1 : ¬ i = j / 2 := by omega
            rw [if_neg c1, if_neg c2, if_neg f1]
            ring
      · rw [SumTree.add_levels]
        exact a3 (consistent_congr k _ c _
          (fun x hx => store_other _ _ _ _ (by omega)) h2)

theorem next_power_of_two_levels (size : Nat) :
    next_power_of_two size = 2 ^ SumTree.levels size := by
  unfold next_power_of_two SumTree.levels
  by_cases h : size ≤ 1
  · rw [if_pos h, if_pos h, pow_zero]
  · rw [if_neg h, if_neg h]

theorem size_le_padded (size : Nat) : size ≤ 2 ^ SumTree.levels size := by
  unfold SumTree.levels
  by_cases h : size ≤ 1
  · rw [if_pos h, pow_zero]
    exact h
  · rw [if_neg h]
    have := Nat.lt_log2_self (n := size - 1)
    omega

theorem levels_le (size : Nat) (h : size ≤ 2147483648) : SumTree.levels size ≤ 31 := by
  unfold SumTree.levels
  by_cases h1 : size ≤ 1
  · rw [if_pos h1]
    omega
  · rw [if_neg h1]
    have h2 : Nat.log2 (size - 1) < 31 := (Nat.log2_lt (by omega)).2 (by norm_num; omega)
    omega

theorem sum_root (size : Nat) (h : size ≤ 2147483648) (c : Nat → Int) :
    SumTree.sum size c = c (0 + 2 ^ (SumTree.levels size + 1) - 2) := by
  unfold SumTree.sum
  rw [next_power_of_two_levels]
  have hk := levels_le size h
  have h1 : (2 : Nat) ^ SumTree.levels size ≤ 2 ^ 31 := Nat.pow_le_pow_right (by norm_num) hk
  have hp : 0 < 2 ^ SumTree.levels size := Nat.two_pow_pos _
  have hs : 2 ^ (SumTree.levels size + 1) = 2 ^ SumTree.levels size * 2 := by rw [Nat.pow_succ]
  have h31 : (2 : Nat) ^ 31 = 2147483648 := by norm_num
  rw [h31] at h1
  have e : (2 ^ SumTree.levels size * 2 + 4294967294) % 4294967296 =
      0 + 2 ^ (SumTree.levels size + 1) - 2 := by
    rw [hs]
    generalize (2 : Nat) ^ SumTree.levels size = x at h1 hp
    omega
  rw [e]

theorem pad_spec (size : Nat) (zero : Int) (cells : Nat → Int) :
    ∀ n x, (List.range n).foldl (fun c i => if i < size then c else store c i zero) cells x =
      if size ≤ x ∧ x < n then zero else cells x := by
  intro n
  induction n with
  | zero =>
    intro x
    have : ¬ (size ≤ x ∧ x < 0) := by omega
    rw [if_neg this]
    rfl
  | succ n ih =>
    intro x
    rw [List.range_succ, List.foldl_append, List.foldl_cons, List.foldl_nil]
    by_cases hn : n < size
    · rw [if_pos hn, ih]
      by_cases hc : size ≤ x ∧ x < n
      · rw [if_pos hc, if_pos (by omega)]
      · rw [if_neg hc, if_neg (by omega)]
    · rw [if_neg hn]
      by_cases hx : x = n
      · subst hx
        rw [store_same, if_pos (by omega)]
      · rw [store_other _ _ _ _ hx, ih]
        by_cases hc : size ≤ x ∧ x < n
        · rw [if_pos hc, if_pos (by omega)]
        · rw [if_neg hc, if_neg (by omega)]

theorem sum_tree_setup_inv (size : Nat) (cells : Nat → Int) :
    SumTree.consistent (SumTree.levels size) 0 (SumTree.setup size cells 0) ∧
    (∀ i, size ≤ i → i < 2 ^ SumTree.levels size → SumTree.setup size cells 0 i = 0) ∧
    (∀ i, i < size → SumTree.setup size cells 0 i = cells i) := by
  have hpad := pad_spec size 0 cells (next_power_of_two size)
  obtain ⟨a1, a2⟩ := setup_levels_spec (SumTree.levels size) 0
    ((List.range (next_power_of_two size)).foldl
      (fun c i => if i < size then c else store c i 0) cells)
  have hle := size_le_padded size
  refine ⟨a2, ?_, ?_⟩
  · intro i h1 h2
    unfold SumTree.setup
    rw [a1 i (by omega), hpad, if_pos ⟨h1, by rw [next_power_of_two_levels]; exact h2⟩]
  · intro i h1
    unfold SumTree.setup
    rw [a1 i (by omega), hpad, if_neg (by omega)]

theorem sum_tree_apply_inv (size : Nat) (c leaf : Nat → Int) (op : SumTreeOp)
    (hop : op.index < size)
    (h1 : SumTree.consistent (SumTree.levels size) 0 c)
    (h2 : ∀ i, size ≤ i → i < 2 ^ SumTree.levels size → c i = 0)
    (h3 : ∀ i, i < size → c i = leaf i) :
    SumTree.consistent (SumTree.levels size) 0 (op.apply size c) ∧
    (∀ i, size ≤ i → i < 2 ^ SumTree.levels size → op.apply size c i = 0) ∧
    (∀ i, i < size → op.apply size c i = op.leaves leaf i) := by
  have hle := size_le_padded size
  have key : ∀ (j : Nat) (v : Int), j < size →
      SumTree.consistent (SumTree.levels size) 0 (SumTree.add size c j v) ∧
      (∀ i, size ≤ i → i < 2 ^ SumTree.levels size → SumTree.add size c j v i = 0) ∧
      (∀ i, i < size → SumTree.add size c j v i = store leaf j (leaf j + v) i) := by
    intro j v hj
    obtain ⟨_, b2, b3⟩ := add_levels_spec v (SumTree.levels size) 0 j c (by omega)
    have b2x : ∀ i, i < 2 ^ SumTree.levels size →
        SumTree.add size c j v i = c i + (if i = j then v else 0) := by
      intro i hi
      have := b2 i hi
      rw [Nat.zero_add] at this
      exact this
    refine ⟨b3 h1, ?_, ?_⟩
    · intro i hi1 hi2
      rw [b2x i hi2, if_neg (by omega), add_zero, h2 i hi1 hi2]
    · intro i hi
      rw [b2x i (by omega)]
      by_cases hij : i = j
      · subst hij
        rw [if_pos rfl, store_same, h3 i hi]
      · rw [if_neg hij, add_zero, store_other _ _ _ _ hij, h3 i hi]
  cases op with
  | add j v => exact key j v hop
  | set j v =>
    obtain ⟨k1, k2, k3⟩ := key j (v - c j) hop
    refine ⟨k1, k2, ?_⟩
    intro i hi
    have := k3 i hi
    show SumTree.add size c j (v - c j) i = store leaf j v i
    rw [this]
    by_cases hij : i = j
    · subst hij
      rw [store_same, store_same, h3 i hi]
      ring
    · rw [store_other _ _ _ _ hij, store_other _ _ _ _ hij]

theorem sum_tree_foldl_inv (size : Nat) :
    ∀ (ops : List SumTreeOp) (c leaf : Nat → Int),
      (∀ op ∈ ops, SumTreeOp.index op < size) →
      SumTree.consistent (SumTree.levels size) 0 c →
      (∀ i, size ≤ i → i < 2 ^ SumTree.levels size → c i = 0) →
      (∀ i, i < size → c i = leaf i) →
      SumTree.consistent (SumTree.levels size) 0 (ops.foldl (SumTreeOp.apply size) c) ∧
      (∀ i, size ≤ i → i < 2 ^ SumTree.levels size →
        ops.foldl (SumTreeOp.apply size) c i = 0) ∧
      (∀ i, i < size →
        ops.foldl (SumTreeOp.apply size) c i = ops.foldl SumTreeOp.leaves leaf i) := by
  intro ops
  induction ops with
  | nil => intro c leaf _ h1 h2 h3; exact ⟨h1, h2, h3⟩
  | cons op ops ih =>
    intro c leaf hops h1 h2 h3
    obtain ⟨k1, k2, k3⟩ := sum_tree_apply_inv size c leaf op
      (hops op (List.mem_cons_self _ _)) h1 h2 h3
    rw [List.foldl_cons, List.foldl_cons]
    exact ih _ _ (fun o ho => hops o (List.mem_cons_of_mem _ ho)) k1 k2 k3

theorem sum_tree_inv_sum (size : Nat) (hsize : size ≤ 2147483648) (c : Nat → Int)
    (h1 : SumTree.consistent (SumTree.levels size) 0 c)
    (h2 : ∀ i, size ≤ i → i < 2 ^ SumTree.levels size → c i = 0) :
    SumTree.sum size c = range_sum c (2 ^ SumTree.levels size) ∧
    SumTree.sum size c = range_sum c size := by
  have e1 : SumTree.sum size c = range_sum c (2 ^ SumTree.levels size) := by
    rw [sum_root size hsize, consistent_root _ _ _ h1]
    apply range_sum_congr
    intro i _
    rw [Nat.zero_add]
  refine ⟨e1, ?_⟩
  rw [e1]
  exact range_sum_zero_tail c size _ (size_le_padded size) h2

/-- The tree with exact additions: after `setup()` and any sequence of `add(i, v)` and
`set(i, v)` operations with `i < size`, the root equals the sum of the current leaf values, and
the padding leaves stay zero. -/
theorem sum_tree_exact_sum (size : Nat) (cells0 : Nat → Int) (ops : List SumTreeOp)
    (hsize : size ≤ 2147483648) (hops : ∀ op ∈ ops, SumTreeOp.index op < size) :
    SumTree.sum size (ops.foldl (SumTreeOp.apply size) (SumTree.setup size cells0 0)) =
      range_sum (ops.foldl SumTreeOp.leaves cells0) size ∧
    (∀ i, i < size →
      ops.foldl (SumTreeOp.apply size) (SumTree.setup size cells0 0) i =
        ops.foldl SumTreeOp.leaves cells0 i) ∧
    (∀ i, size ≤ i → i < next_power_of_two size →
      ops.foldl (SumTreeOp.apply size) (SumTree.setup size cells0 0) i = 0) ∧
    SumTree.sum size (ops.foldl (SumTreeOp.apply size) (SumTree.setup size cells0 0)) =
      range_sum (ops.foldl (SumTreeOp.apply size) (SumTree.setup size cells0 0))
        (next_power_of_two size) := by
  obtain ⟨s1, s2, s3⟩ := sum_tree_setup_inv size cells0
  obtain ⟨k1, k2, k3⟩ := sum_tree_foldl_inv size ops _ cells0 hops s1 s2 s3
  obtain ⟨e1, e2⟩ := sum_tree_inv_sum size hsize _ k1 k2
  refine ⟨?_, k3, ?_, ?_⟩
  · rw [e2]
    exact range_sum_congr _ _ size k3
  · intro i hi1 hi2
    rw [next_power_of_two_levels] at hi2
    exact k2 i hi1 hi2
  · rw [next_power_of_two_levels]
    exact e1

theorem mask_eq (S : Nat) (hS : S ≤ 31) :
    ((1 <<< S) % 4294967296 + 4294967295) % 4294967296 = 2 ^ S - 1 := by
  rw [Nat.one_shiftLeft]
  have h1 : (2 : Nat) ^ S ≤ 2 ^ 31 := Nat.pow_le_pow_right (by norm_num) hS
  have h2 : 0 < 2 ^ S := Nat.two_pow_pos S
  have h31 : (2 : Nat) ^ 31 = 2147483648 := by norm_num
  rw [h31] at h1
  generalize (2 : Nat) ^ S = x at h1 h2
  omega

theorem testBit_word (x b : Nat) :
    Nat.testBit (x % 4294967296) b = (decide (b < 32) && Nat.testBit x b) := by
  have h : (4294967296 : Nat) = 2 ^ 32 := by norm_num
  rw [h, Nat.testBit_mod_two_pow]

theorem testBit_ones (b : Nat) : Nat.testBit 4294967295 b = decide (b < 32) := by
  have h : (4294967295 : Nat) = 2 ^ 32 - 1 := by norm_num
  rw [h, Nat.testBit_two_pow_sub_one]

theorem field_get_bit (S x o t : Nat) :
    Nat.testBit (((x % 4294967296) >>> o) &&& (2 ^ S - 1)) t =
      (decide (t < S) && (decide (o + t < 32) && Nat.testBit x (o + t))) := by
  rw [Nat.testBit_and, Nat.testBit_shiftRight, testBit_word, Nat.testBit_two_pow_sub_one]
  rw [Bool.and_comm]

theorem field_set_bit (S x o s b : Nat) :
    Nat.testBit (((x % 4294967296) &&&
        (4294967295 ^^^ (((2 ^ S - 1) <<< o) % 4294967296))) |||
      (((s &&& (2 ^ S - 1)) <<< o) % 4294967296)) b =
      (decide (b < 32) &&
        (if o ≤ b ∧ b < o + S then Nat.testBit s (b - o) else Nat.testBit x b)) := by
  rw [Nat.testBit_or, Nat.testBit_and, Nat.testBit_xor, testBit_word, testBit_word, testBit_word,
    testBit_ones, Nat.testBit_shiftLeft, Nat.testBit_shiftLeft, Nat.testBit_and,
    Nat.testBit_two_pow_sub_one]
  by_cases h32 : b < 32
  · by_cases ho : o ≤ b
    · by_cases hs : b - o < S
      · have hc : o ≤ b ∧ b < o + S := ⟨ho, by omega⟩
        rw [if_pos hc]
        simp [h32, ho, hs]
      · have hc : ¬ (o ≤ b ∧ b < o + S) := by omega
        rw [if_neg hc]
        simp [h32, ho, hs]
    · have hc : ¬ (o ≤ b ∧ b < o + S) := by omega
      rw [if_neg hc]
      simp [h32, ho]
  · simp [h32]

theorem word_get_bit (S : Nat) (stream : Nat → Nat) (q o t : Nat) (h : o + S ≤ 32) :
    Nat.testBit (word_get S stream q o) t =
      (decide (t < S) && stream_bit stream (32 * q + o + t)) := by
  unfold word_get stream_bit
  rw [field_get_bit]
  by_cases ht : t < S
  · have h1 : (32 * q + o + t) / 32 = q := by omega
    have h2 : (32 * q + o + t) % 32 = o + t := by omega
    rw [h1, h2, testBit_word]
  · simp [ht]

theorem word_set_bit (S : Nat) (stream : Nat → Nat) (q o s p : Nat) (h : o + S ≤ 32) :
    stream_bit (word_set S stream q o s) p =
      if 32 * q + o ≤ p ∧ p < 32 * q + o + S then Nat.testBit s (p - (32 * q + o))
      else stream_bit stream p := by
  unfold word_set stream_bit
  by_cases hq : p / 32 = q
  · rw [hq, store_same, testBit_word, field_set_bit]
    have hp : p % 32 < 32 := Nat.mod_lt _ (by norm_num)
    by_cases hc : 32 * q + o ≤ p ∧ p < 32 * q + o + S
    · have hc2 : o ≤ p % 32 ∧ p % 32 < o + S := by omega
      have e : p % 32 - o = p - (32 * q + o) := by omega
      rw [if_pos hc, if_pos hc2, e]
      simp [hp]
    · have hc2 : ¬ (o ≤ p % 32 ∧ p % 32 < o + S) := by omega
      rw [if_neg hc, if_neg hc2, testBit_word]
      simp [hp]
  · rw [store_other _ _ _ _ hq, if_neg (by omega)]

theorem rest_set_bit (S y rb s b : Nat) (hrb : rb ≤ S) (hS : S ≤ 32) :
    Nat.testBit (((y % 4294967296) &&& (4294967295 ^^^ (2 ^ (S - rb) - 1))) |||
      (((s &&& (2 ^ S - 1)) % 4294967296) >>> rb)) b =
      if b < S - rb then Nat.testBit s (rb + b) else (decide (b < 32) && Nat.testBit y b) := by
  rw [Nat.testBit_or, Nat.testBit_and, Nat.testBit_xor, testBit_word, testBit_ones,
    Nat.testBit_shiftRight, testBit_word, Nat.testBit_and, Nat.testBit_two_pow_sub_one,
    Nat.testBit_two_pow_sub_one]
  by_cases hb : b < S - rb
  · have h1 : b < 32 := by omega
    have h2 : rb + b < 32 := by omega
    have h3 : rb + b < S := by omega
    rw [if_pos hb]
    simp [hb, h1, h2, h3]
  · have h3 : ¬ rb + b < S := by omega
    rw [if_neg hb]
    simp [hb, h3]
    intro h _
    exact h

theorem words_get_bit (S : Nat) (stream : Nat → Nat) (q o t : Nat) (ho : o < 32)
    (hS : S ≤ 32) :
    Nat.testBit (words_get S stream q o) t =
      (decide (t < S) && stream_bit stream (32 * q + o + t)) := by
  unfold words_get
  by_cases hr : S - min (32 - o) S ≠ 0
  · have hrb : min (32 - o) S = 32 - o := by omega
    rw [if_pos hr, hrb, Nat.testBit_or, testBit_word, Nat.testBit_shiftLeft, Nat.testBit_and,
      testBit_word, Nat.testBit_two_pow_sub_one]
    unfold word_get
    rw [field_get_bit]
    unfold stream_bit
    by_cases ht : t < S
    · by_cases hot : o + t < 32
      · have h1 : (32 * q + o + t) / 32 = q := by omega
        have h2 : (32 * q + o + t) % 32 = o + t := by omega
        have h3 : ¬ t ≥ 32 - o := by omega
        rw [h1, h2, testBit_word]
        simp [ht, hot, h3]
      · have h1 : (32 * q + o + t) / 32 = q + 1 := by omega
        have h2 : (32 * q + o + t) % 32 = t - (32 - o) := by omega
        have h3 : t ≥ 32 - o := by omega
        have h4 : t - (32 - o) < 32 := by omega
        have h5 : t - (32 - o) < S - (32 - o) := by omega
        have h6 : t < 32 := by omega
        rw [h1, h2, testBit_word]
        simp [ht, hot, h3, h4, h5, h6]
    · have h3 : ¬ t - (32 - o) < S - (32 - o) := by omega
      simp [ht, h3]
  · rw [if_neg hr]
    exact word_get_bit S stream q o t (by omega)

theorem words_set_bit (S : Nat) (stream : Nat → Nat) (q o s p : Nat) (ho : o < 32)
    (hS : S ≤ 32) :
    stream_bit (words_set S stream q o s) p =
      if 32 * q + o ≤ p ∧ p < 32 * q + o + S then Nat.testBit s (p - (32 * q + o))
      else stream_bit stream p := by
  unfold words_set
  by_cases hr : S - min (32 - o) S ≠ 0
  · have hrb : min (32 - o) S = 32 - o := by omega
    have hp : p % 32 < 32 := Nat.mod_lt _ (by norm_num)
    rw [if_pos hr, hrb]
    by_cases hq1 : p / 32 = q + 1
    · unfold stream_bit
      rw [hq1, store_same, testBit_word, rest_set_bit S _ _ _ _ (by omega) hS]
      unfold word_set
      rw [store_other _ _ _ _ (by omega)]
      by_cases hc : 32 * q + o ≤ p ∧ p < 32 * q + o + S
      · have hc2 : p % 32 < S - (32 - o) := by omega
        have e : 32 - o + p % 32 = p - (32 * q + o) := by omega
        rw [if_pos hc, if_pos hc2, e]
        simp [hp]
      · have hc2 : ¬ p % 32 < S - (32 - o) := by omega
        rw [if_neg hc, if_neg hc2, testBit_word]
        simp [hp]
    · have e : stream_bit (store (word_set S stream q o s) (q + 1)
          (((word_set S stream q o s (q + 1) % 4294967296) &&&
              (4294967295 ^^^ (2 ^ (S - (32 - o)) - 1))) |||
            (((s &&& (2 ^ S - 1)) % 4294967296) >>> (32 - o)))) p =
          stream_bit (word_set S stream q o s) p := by
        unfold stream_bit
        rw [store_other _ _ _ _ hq1]
      rw [e]
      unfold word_set stream_bit
      by_cases hq : p / 32 = q
      · rw [hq, store_same, testBit_word, field_set_bit]
        by_cases hc : 32 * q + o ≤ p ∧ p < 32 * q + o + S
        · have hc2 : o ≤ p % 32 ∧ p % 32 < o + S := by omega
          have e : p % 32 - o = p - (32 * q + o) := by omega
          rw [if_pos hc, if_pos hc2, e]
          simp [hp]
        · have hc2 : ¬ (o ≤ p % 32 ∧ p % 32 < o + S) := by omega
          rw [if_neg hc, if_neg hc2, testBit_word]
          simp [hp]
      · rw [store_other _ _ _ _ hq, if_neg (by omega)]
  · rw [if_neg hr]
    exact word_set_bit S stream q o s p (by omega)

theorem and_31 (x : Nat) : x &&& 31 = x % 32 := Nat.and_pow_two_sub_one_eq_mod x 5

theorem and_15 (x : Nat) : x &&& 15 = x % 16 := Nat.and_pow_two_sub_one_eq_mod x 4

theorem and_7 (x : Nat) : x &&& 7 = x % 8 := Nat.and_pow_two_sub_one_eq_mod x 3

theorem shr_5 (x : Nat) : x >>> 5 = x / 32 := Nat.shiftRight_eq_div_pow x 5

theorem shr_4 (x : Nat) : x >>> 4 = x / 16 := Nat.shiftRight_eq_div_pow x 4

theorem shr_3 (x : Nat) : x >>> 3 = x / 8 := Nat.shiftRight_eq_div_pow x 3

theorem shl_1 (x : Nat) : x <<< 1 = x * 2 := Nat.shiftLeft_eq x 1

theorem shl_2 (x : Nat) : x <<< 2 = x * 4 := Nat.shiftLeft_eq x 2

/-- The generic reader is `words_get` at the word `i*S/32` and the offset `symbol_offset`. -/
theorem get_symbol_words (BIG : Bool) (S : Nat) (stream : Nat → Nat) (i : Nat)
    (hS : S ≤ 31) (hi : i * S < 18446744073709551616)
    (hfit : is_pow2 S = true → (i * S) % 32 + S ≤ 32) :
    packer_uint32.get_symbol BIG S stream i =
      words_get S stream (i * S / 32) (symbol_offset BIG S i) := by
  cases hp : is_pow2 S
  · simp only [packer_uint32.get_symbol, symbol_offset, words_get, word_get, hp,
      Nat.mod_eq_of_lt hi, and_31, shr_5, mask_eq S hS, Bool.false_eq_true,
      and_false, if_false]
    by_cases hr : S - min (32 - i * S % 32) S ≠ 0
    · rw [if_pos hr, if_pos hr, mask_eq _ (by omega)]
    · rw [if_neg hr, if_neg hr]
  · have hf := hfit hp
    simp only [packer_uint32.get_symbol, symbol_offset, words_get, word_get, hp,
      Nat.mod_eq_of_lt hi, and_31, shr_5, mask_eq S hS, and_true, if_true]
    cases BIG
    · have hr : ¬ (S - min (32 - i * S % 32) S ≠ 0) := by omega
      simp only [Bool.false_eq_true, if_false]
      rw [if_neg hr]
    · have hr : ¬ (S - min (32 - (32 - S - i * S % 32)) S ≠ 0) := by omega
      have ho : (4294967328 - S - i * S % 32) % 4294967296 = 32 - S - i * S % 32 := by omega
      simp only [if_true]
      rw [if_neg hr, ho]

/-- The generic writer is `words_set` at the word `i*S/32` and the offset `symbol_offset`. -/
theorem set_symbol_words (BIG : Bool) (S : Nat) (stream : Nat → Nat) (i s : Nat)
    (hS : S ≤ 31) (hi : i * S < 18446744073709551616)
    (hfit : is_pow2 S = true → (i * S) % 32 + S ≤ 32) :
    packer_uint32.set_symbol BIG S stream i s =
      words_set S stream (i * S / 32) (symbol_offset BIG S i) s := by
  cases hp : is_pow2 S
  · simp only [packer_uint32.set_symbol, symbol_offset, words_set, word_set, hp,
      Nat.mod_eq_of_lt hi, and_31, shr_5, mask_eq S hS, Bool.false_eq_true,
      and_false, if_false]
    by_cases hr : S - min (32 - i * S % 32) S ≠ 0
    · rw [if_pos hr, if_pos hr, mask_eq _ (by omega)]
    · rw [if_neg hr, if_neg hr]
  · have hf := hfit hp
    simp only [packer_uint32.set_symbol, symbol_offset, words_set, word_set, hp,
      Nat.mod_eq_of_lt hi, and_31, shr_5, mask_eq S hS, and_true, if_true]
    cases BIG
    · have hr : ¬ (S - min (32 - i * S % 32) S ≠ 0) := by omega
      simp only [Bool.false_eq_true, if_false]
      rw [if_neg hr]
    · have hr : ¬ (S - min (32 - (32 - S - i * S % 32)) S ≠ 0) := by omega
      have ho : (4294967328 - S - i * S % 32) % 4294967296 = 32 - S - i * S % 32 := by omega
      simp only [if_true]
      rw [if_neg hr, ho]

theorem is_pow2_2 : is_pow2 2 = true := by decide

theorem is_pow2_4 : is_pow2 4 = true := by decide

/-- The 2-bit reader is `words_get` at the word `i*2/32` and the offset `symbol_offset`. -/
theorem get_symbol_2u_words (BIG : Bool) (stream : Nat → Nat) (i : Nat) :
    packer_2u_uint32.get_symbol BIG stream i =
      words_get 2 stream (i * 2 / 32) (symbol_offset BIG 2 i) := by
  have hq : i / 16 = i * 2 / 32 := by omega
  have h3 : (3 : Nat) = 2 ^ 2 - 1 := by norm_num
  simp only [packer_2u_uint32.get_symbol, symbol_offset, words_get, word_get, is_pow2_2,
    and_15, shr_4, shl_1, and_true, if_true, hq]
  cases BIG
  · have hr : ¬ (2 - min (32 - i * 2 % 32) 2 ≠ 0) := by omega
    have ho : i % 16 * 2 % 4294967296 = i * 2 % 32 := by omega
    simp only [Bool.false_eq_true, if_false]
    rw [if_neg hr, ho, ← h3]
  · have hr : ¬ (2 - min (32 - (32 - 2 - i * 2 % 32)) 2 ≠ 0) := by omega
    have ho : (4294967326 - i % 16 * 2 % 4294967296) % 4294967296 = 32 - 2 - i * 2 % 32 := by
      omega
    simp only [if_true]
    rw [if_neg hr, ho, ← h3]

/-- The 2-bit writer is `words_set` at the word `i*2/32` and the offset `symbol_offset`. -/
theorem set_symbol_2u_words (BIG : Bool) (stream : Nat → Nat) (i s : Nat) :
    packer_2u_uint32.set_symbol BIG stream i s =
      words_set 2 stream (i * 2 / 32) (symbol_offset BIG 2 i) s := by
  have hq : i / 16 = i * 2 / 32 := by omega
  have h3 : (3 : Nat) = 2 ^ 2 - 1 := by norm_num
  simp only [packer_2u_uint32.set_symbol, symbol_offset, words_set, word_set, is_pow2_2,
    and_15, shr_4, shl_1, and_true, if_true, hq]
  cases BIG
  · have hr : ¬ (2 - min (32 - i * 2 % 32) 2 ≠ 0) := by omega
    have ho : i % 16 * 2 % 4294967296 = i * 2 % 32 := by omega
    simp only [Bool.false_eq_true, if_false]
    rw [if_neg hr, ho, ← h3]
  · have hr : ¬ (2 - min (32 - (32 - 2 - i * 2 % 32)) 2 ≠ 0) := by omega
    have ho : (4294967326 - i % 16 * 2 % 4294967296) % 4294967296 = 32 - 2 - i * 2 % 32 := by
      omega
    simp only [if_true]
    rw [if_neg hr, ho, ← h3]

/-- The 4-bit reader is `words_get` at the word `i*4/32` and the offset `symbol_offset`. -/
theorem get_symbol_4u_words (BIG : Bool) (stream : Nat → Nat) (i : Nat) :
    packer_4u_uint32.get_symbol BIG stream i =
      words_get 4 stream (i * 4 / 32) (symbol_offset BIG 4 i) := by
  have hq : i / 8 = i * 4 / 32 := by omega
  have h3 : (15 : Nat) = 2 ^ 4 - 1 := by norm_num
  simp only [packer_4u_uint32.get_symbol, symbol_offset, words_get, word_get, is_pow2_4,
    and_7, shr_3, shl_2, and_true, if_true, hq]
  cases BIG
  · have hr : ¬ (4 - min (32 - i * 4 % 32) 4 ≠ 0) := by omega
    have ho : i % 8 * 4 % 4294967296 = i * 4 % 32 := by omega
    simp only [Bool.false_eq_true, if_false]
    rw [if_neg hr, ho, ← h3]
  · have hr : ¬ (4 - min (32 - (32 - 4 - i * 4 % 32)) 4 ≠ 0) := by omega
    have ho : (4294967324 - i % 8 * 4 % 4294967296) % 4294967296 = 32 - 4 - i * 4 % 32 := by
      omega
    simp only [if_true]
    rw [if_neg hr, ho, ← h3]

/-- The 4-bit writer is `words_set` at the word `i*4/32` and the offset `symbol_offset`. -/
theorem set_symbol_4u_words (BIG : Bool) (stream : Nat → Nat) (i s : Nat) :
    packer_4u_uint32.set_symbol BIG stream i s =
      words_set 4 stream (i * 4 / 32) (symbol_offset BIG 4 i) s := by
  have hq : i / 8 = i * 4 / 32 := by omega
  have h3 : (15 : Nat) = 2 ^ 4 - 1 := by norm_num
  simp only [packer_4u_uint32.set_symbol, symbol_offset, words_set, word_set, is_pow2_4,
    and_7, shr_3, shl_2, and_true, if_true, hq]
  cases BIG
  · have hr : ¬ (4 - min (32 - i * 4 % 32) 4 ≠ 0) := by omega
    have ho : i % 8 * 4 % 4294967296 = i * 4 % 32 := by omega
    simp only [Bool.false_eq_true, if_false]
    rw [if_neg hr, ho, ← h3]
  · have hr : ¬ (4 - min (32 - (32 - 4 - i * 4 % 32)) 4 ≠ 0) := by omega
    have ho : (4294967324 - i % 8 * 4 % 4294967296) % 4294967296 = 32 - 4 - i * 4 % 32 := by
      omega
    simp only [if_true]
    rw [if_neg hr, ho, ← h3]

theorem words_get_set_same (S : Nat) (stream : Nat → Nat) (q o s : Nat) (ho : o < 32)
    (hS : S ≤ 32) :
    words_get S (words_set S stream q o s) q o = s % 2 ^ S := by
  apply Nat.eq_of_testBit_eq
  intro t
  rw [words_get_bit S _ q o t ho hS, words_set_bit S stream q o s _ ho hS,
    Nat.testBit_mod_two_pow]
  by_cases ht : t < S
  · have hc : 32 * q + o ≤ 32 * q + o + t ∧ 32 * q + o + t < 32 * q + o + S := by omega
    have e : 32 * q + o + t - (32 * q + o) = t := by omega
    rw [if_pos hc, e]
  · simp [ht]

theorem words_get_set_other (S : Nat) (stream : Nat → Nat) (q o s q2 o2 : Nat) (ho : o < 32)
    (ho2 : o2 < 32) (hS : S ≤ 32)
    (hdis : 32 * q + o + S ≤ 32 * q2 + o2 ∨ 32 * q2 + o2 + S ≤ 32 * q + o) :
    words_get S (words_set S stream q o s) q2 o2 = words_get S stream q2 o2 := by
  apply Nat.eq_of_testBit_eq
  intro t
  rw [words_get_bit S _ q2 o2 t ho2 hS, words_get_bit S _ q2 o2 t ho2 hS,
    words_set_bit S stream q o s _ ho hS]
  by_cases ht : t < S
  · rw [if_neg (by omega)]
  · simp [ht]

theorem words_set_frame (S : Nat) (stream : Nat → Nat) (q o s w : Nat) (h1 : w ≠ q)
    (h2 : w ≠ q + 1) : words_set S stream q o s w = stream w := by
  unfold words_set word_set
  by_cases hr : S - min (32 - o) S ≠ 0
  · rw [if_pos hr, store_other _ _ _ _ h2, store_other _ _ _ _ h1]
  · rw [if_neg hr, store_other _ _ _ _ h1]

theorem words_get_congr (S : Nat) (stream stream2 : Nat → Nat) (q o : Nat)
    (h1 : stream2 q = stream q) (h2 : stream2 (q + 1) = stream (q + 1)) :
    words_get S stream2 q o = words_get S stream q o := by
  unfold words_get word_get
  rw [h1, h2]

theorem symbol_offset_lt (BIG : Bool) (S i : Nat) (hS : 1 ≤ S) :
    symbol_offset BIG S i < 32 := by
  unfold symbol_offset
  by_cases h : BIG = true ∧ is_pow2 S = true
  · rw [if_pos h]
    omega
  · rw [if_neg h]
    omega

theorem is_pow2_cases (S : Nat) (hS1 : 1 ≤ S) (hS8 : S ≤ 8) :
    (is_pow2 S = true ∧ (S = 1 ∨ S = 2 ∨ S = 4 ∨ S = 8)) ∨
    (is_pow2 S = false ∧ (S = 3 ∨ S = 5 ∨ S = 6 ∨ S = 7)) := by
  interval_cases S <;> decide

theorem symbol_fit (S i : Nat) (hS1 : 1 ≤ S) (hS8 : S ≤ 8) (hp : is_pow2 S = true) :
    (i * S) % 32 + S ≤ 32 := by
  rcases is_pow2_cases S hS1 hS8 with ⟨_, h⟩ | ⟨h, _⟩
  · rcases h with rfl | rfl | rfl | rfl <;> omega
  · rw [hp] at h
    exact absurd h (by decide)

theorem fields_disjoint (BIG : Bool) (S i j : Nat) (hS1 : 1 ≤ S) (hS8 : S ≤ 8) (hij : i ≠ j) :
    32 * (i * S / 32) + symbol_offset BIG S i + S ≤ 32 * (j * S / 32) + symbol_offset BIG S j ∨
    32 * (j * S / 32) + symbol_offset BIG S j + S ≤ 32 * (i * S / 32) + symbol_offset BIG S i := by
  unfold symbol_offset
  rcases is_pow2_cases S hS1 hS8 with ⟨hp, h⟩ | ⟨hp, h⟩
  · cases BIG
    · simp only [hp, Bool.false_eq_true, false_and, if_false]
      rcases h with rfl | rfl | rfl | rfl <;> omega
    · simp only [hp, and_self, if_true]
      rcases h with rfl | rfl | rfl | rfl <;> omega
  · simp only [hp, Bool.false_eq_true, and_false, if_false]
    rcases h with rfl | rfl | rfl | rfl <;> omega

/-- C21: for 32-bit storage words, every symbol size `S` from 1 to 8, either endianness, every
stream, distinct symbol indices `i` and `j` (with `i*S` and `j*S` below `2^64`) and every
symbol `s`: after `set_symbol(stream, i, s)`, `get_symbol(stream, i)` returns `s mod 2^S` and
`get_symbol(stream, j)` returns what it returned before; `set_symbol` changes no word other
than the words `i*S/32` and `i*S/32 + 1`, and `get_symbol` reads no other word.  This holds
for the generic packer and for the 2-bit and 4-bit specialisations. -/
theorem packed_stream_roundtrip (BIG : Bool) (S : Nat) (stream : Nat → Nat) (i j s : Nat)
    (hS1 : 1 ≤ S) (hS8 : S ≤ 8) (hij : i ≠ j)
    (hi : i * S < 18446744073709551616) (hj : j * S < 18446744073709551616) :
    (packer_uint32.get_symbol BIG S (packer_uint32.set_symbol BIG S stream i s) i = s % 2 ^ S ∧
     packer_uint32.get_symbol BIG S (packer_uint32.set_symbol BIG S stream i s) j =
       packer_uint32.get_symbol BIG S stream j ∧
     (∀ w, w ≠ i * S / 32 → w ≠ i * S / 32 + 1 →
       packer_uint32.set_symbol BIG S stream i s w = stream w) ∧
     (∀ stream2 : Nat → Nat, stream2 (i * S / 32) = stream (i * S / 32) →
       stream2 (i * S / 32 + 1) = stream (i * S / 32 + 1) →
       packer_uint32.get_symbol BIG S stream2 i = packer_uint32.get_symbol BIG S stream i)) ∧
    (packer_2u_uint32.get_symbol BIG (packer_2u_uint32.set_symbol BIG stream i s) i = s % 2 ^ 2 ∧
     packer_2u_uint32.get_symbol BIG (packer_2u_uint32.set_symbol BIG stream i s) j =
       packer_2u_uint32.get_symbol BIG stream j ∧
     (∀ w, w ≠ i * 2 / 32 → w ≠ i * 2 / 32 + 1 →
       packer_2u_uint32.set_symbol BIG stream i s w = stream w) ∧
     (∀ stream2 : Nat → Nat, stream2 (i * 2 / 32) = stream (i * 2 / 32) →
       stream2 (i * 2 / 32 + 1) = stream (i * 2 / 32 + 1) →
       packer_2u_uint32.get_symbol BIG stream2 i = packer_2u_uint32.get_symbol BIG stream i)) ∧
    (packer_4u_uint32.get_symbol BIG (packer_4u_uint32.set_symbol BIG stream i s) i = s % 2 ^ 4 ∧
     packer_4u_uint32.get_symbol BIG (packer_4u_uint32.set_symbol BIG stream i s) j =
       packer_4u_uint32.get_symbol BIG stream j ∧
     (∀ w, w ≠ i * 4 / 32 → w ≠ i * 4 / 32 + 1 →
       packer_4u_uint32.set_symbol BIG stream i s w = stream w) ∧
     (∀ stream2 : Nat → Nat, stream2 (i * 4 / 32) = stream (i * 4 / 32) →
       stream2 (i * 4 / 32 + 1) = stream (i * 4 / 32 + 1) →
       packer_4u_uint32.get_symbol BIG stream2 i = packer_4u_uint32.get_symbol BIG stream i)) := by
  have hS31 : S ≤ 31 := by omega
  have hS32 : S ≤ 32 := by omega
  have hoi := symbol_offset_lt BIG S i hS1
  have hoj := symbol_offset_lt BIG S j hS1
  have hfi := symbol_fit S i hS1 hS8
  have hfj := symbol_fit S j hS1 hS8
  refine ⟨⟨?_, ?_, ?_, ?_⟩, ⟨?_, ?_, ?_, ?_⟩, ⟨?_, ?_, ?_, ?_⟩⟩
  · rw [set_symbol_words BIG S stream i s hS31 hi hfi,
      get_symbol_words BIG S _ i hS31 hi hfi]
    exact words_get_set_same S stream _ _ s hoi hS32
  · rw [set_symbol_words BIG S stream i s hS31 hi hfi,
      get_symbol_words BIG S _ j hS31 hj hfj, get_symbol_words BIG S _ j hS31 hj hfj]
    exact words_get_set_other S stream _ _ s _ _ hoi hoj hS32
      (fields_disjoint BIG S i j hS1 hS8 hij)
  · intro w h1 h2
    rw [set_symbol_words BIG S stream i s hS31 hi hfi]
    exact words_set_frame S stream _ _ s w h1 h2
  · intro stream2 h1 h2
    rw [get_symbol_words BIG S _ i hS31 hi hfi, get_symbol_words BIG S _ i hS31 hi hfi]
    exact words_get_congr S stream stream2 _ _ h1 h2
  · rw [set_symbol_2u_words, get_symbol_2u_words]
    exact words_get_set_same 2 stream _ _ s (symbol_offset_lt BIG 2 i (by norm_num))
      (by norm_num)
  · rw [set_symbol_2u_words, get_symbol_2u_words, get_symbol_2u_words]
    exact words_get_set_other 2 stream _ _ s _ _ (symbol_offset_lt BIG 2 i (by norm_num))
      (symbol_offset_lt BIG 2 j (by norm_num)) (by norm_num)
      (fields_disjoint BIG 2 i j (by norm_num) (by norm_num) hij)
  · intro w h1 h2
    rw [set_symbol_2u_words]
    exact words_set_frame 2 stream _ _ s w h1 h2
  · intro stream2 h1 h2
    rw [get_symbol_2u_words, get_symbol_2u_words]
    exact words_get_congr 2 stream stream2 _ _ h1 h2
  · rw [set_symbol_4u_words, get_symbol_4u_words]
    exact words_get_set_same 4 stream _ _ s (symbol_offset_lt BIG 4 i (by norm_num))
      (by norm_num)
  · rw [set_symbol_4u_words, get_symbol_4u_words, get_symbol_4u_words]
    exact words_get_set_other 4 stream _ _ s _ _ (symbol_offset_lt BIG 4 i (by norm_num))
      (symbol_offset_lt BIG 4 j (by norm_num)) (by norm_num)
      (fields_disjoint BIG 4 i j (by norm_num) (by norm_num) hij)
  · intro w h1 h2
    rw [set_symbol_4u_words]
    exact words_set_frame 4 stream _ _ s w h1 h2
  · intro stream2 h1 h2
    rw [get_symbol_4u_words, get_symbol_4u_words]
    exact words_get_congr 4 stream stream2 _ _ h1 h2

/-- C21 witness: 3-bit symbols in a stream whose words are all `0xDEADBEEF`; symbol 10 lies in
bits 30..32, across the words 0 and 1.  After writing `0xA5` there it reads as 5, and symbol 11
reads as before. -/
theorem packed_stream_roundtrip_witness :
    packer_uint32.get_symbol false 3
        (packer_uint32.set_symbol false 3 (fun _ => 3735928559) 10 165) 10 = 5 ∧
    packer_uint32.set_symbol false 3 (fun _ => 3735928559) 10 165 0 = 1588444911 ∧
    packer_uint32.set_symbol false 3 (fun _ => 3735928559) 10 165 1 = 3735928559 ∧
    packer_uint32.get_symbol false 3
        (packer_uint32.set_symbol false 3 (fun _ => 3735928559) 10 165) 10 = 165 % 2 ^ 3 ∧
    packer_uint32.get_symbol false 3
        (packer_uint32.set_symbol false 3 (fun _ => 3735928559) 10 165) 11 =
      packer_uint32.get_symbol false 3 (fun _ => 3735928559) 11 :=
  ⟨by decide, by decide, by decide,
   (packed_stream_roundtrip false 3 (fun _ => 3735928559) 10 11 165
      (by decide) (by decide) (by decide) (by decide) (by decide)).1.1,
   (packed_stream_roundtrip false 3 (fun _ => 3735928559) 10 11 165
      (by decide) (by decide) (by decide) (by decide) (by decide)).1.2.1⟩

/-- C39: for every `SmithWatermanScoringScheme` and every gap length `i` (in particular every
`i >= 1`), when no `int`
operation overflows (the negated constants, the gap-open values and the cumulative penalties
are within the 32-bit range), the linear-scan gap penalties agree with the dynamic-programming
gap costs: `cumulative_insertion(i) = -(pattern_gap_open() + (i-1)*pattern_gap_extension())`
and `cumulative_deletion(i) = -(text_gap_open() + (i-1)*text_gap_extension())`. -/
theorem cumulative_gap_costs (s : SmithWatermanScoringScheme) (i : Nat)
    (h1 : -2147483648 < s.m_read_gap_const ∧ s.m_read_gap_const < 2147483648)
    (h2 : -2147483648 < s.m_read_gap_coeff ∧ s.m_read_gap_coeff < 2147483648)
    (h3 : -2147483648 ≤ -s.m_read_gap_const - s.m_read_gap_coeff ∧
      -s.m_read_gap_const - s.m_read_gap_coeff < 2147483648)
    (h4 : -2147483648 ≤ s.m_read_gap_const + s.m_read_gap_coeff * (i : Int) ∧
      s.m_read_gap_const + s.m_read_gap_coeff * (i : Int) < 2147483648)
    (g1 : -2147483648 < s.m_ref_gap_const ∧ s.m_ref_gap_const < 2147483648)
    (g2 : -2147483648 < s.m_ref_gap_coeff ∧ s.m_ref_gap_coeff < 2147483648)
    (g3 : -2147483648 ≤ -s.m_ref_gap_const - s.m_ref_gap_coeff ∧
      -s.m_ref_gap_const - s.m_ref_gap_coeff < 2147483648)
    (g4 : -2147483648 ≤ s.m_ref_gap_const + s.m_ref_gap_coeff * (i : Int) ∧
      s.m_ref_gap_const + s.m_ref_gap_coeff * (i : Int) < 2147483648) :
    s.cumulative_insertion i =
      -(s.pattern_gap_open + ((i : Int) - 1) * s.pattern_gap_extension) ∧
    s.cumulative_deletion i =
      -(s.text_gap_open + ((i : Int) - 1) * s.text_gap_extension) := by
  unfold SmithWatermanScoringScheme.cumulative_insertion
    SmithWatermanScoringScheme.cumulative_deletion
    SmithWatermanScoringScheme.pattern_gap_open SmithWatermanScoringScheme.pattern_gap_extension
    SmithWatermanScoringScheme.text_gap_open SmithWatermanScoringScheme.text_gap_extension
  rw [to_int32_of_range _ h4.1 h4.2, to_int32_of_range _ g4.1 g4.2,
    to_int32_of_range (-s.m_read_gap_const) (by omega) (by omega),
    to_int32_of_range (-s.m_ref_gap_const) (by omega) (by omega),
    to_int32_of_range (-s.m_read_gap_coeff) (by omega) (by omega),
    to_int32_of_range (-s.m_ref_gap_coeff) (by omega) (by omega),
    to_int32_of_range _ h3.1 h3.2, to_int32_of_range _ g3.1 g3.2]
  constructor <;> ring

/-- C39 witness: read gaps with constant 5 and coefficient 3, reference gaps with constant 6
and coefficient 2, gap length 4: the cumulative penalties are 17 and 14. -/
theorem cumulative_gap_costs_witness :
    SmithWatermanScoringScheme.cumulative_insertion
        { m_read_gap_const := 5, m_read_gap_coeff := 3, m_ref_gap_const := 6,
          m_ref_gap_coeff := 2 } 4 = 17 ∧
    SmithWatermanScoringScheme.cumulative_insertion
        { m_read_gap_const := 5, m_read_gap_coeff := 3, m_ref_gap_const := 6,
          m_ref_gap_coeff := 2 } 4 =
      -(SmithWatermanScoringScheme.pattern_gap_open
          { m_read_gap_const := 5, m_read_gap_coeff := 3, m_ref_gap_const := 6,
            m_ref_gap_coeff := 2 } +
        (((4 : Nat) : Int) - 1) * SmithWatermanScoringScheme.pattern_gap_extension
          { m_read_gap_const := 5, m_read_gap_coeff := 3, m_ref_gap_const := 6,
            m_ref_gap_coeff := 2 }) ∧
    SmithWatermanScoringScheme.cumulative_deletion
        { m_read_gap_const := 5, m_read_gap_coeff := 3, m_ref_gap_const := 6,
          m_ref_gap_coeff := 2 } 4 =
      -(SmithWatermanScoringScheme.text_gap_open
          { m_read_gap_const := 5, m_read_gap_coeff := 3, m_ref_gap_const := 6,
            m_ref_gap_coeff := 2 } +
        (((4 : Nat) : Int) - 1) * SmithWatermanScoringScheme.text_gap_extension
          { m_read_gap_const := 5, m_read_gap_coeff := 3, m_ref_gap_const := 6,
            m_ref_gap_coeff := 2 }) :=
  ⟨by decide,
   cumulative_gap_costs
     { m_read_gap_const := 5, m_read_gap_coeff := 3, m_ref_gap_const := 6, m_ref_gap_coeff := 2 }
     4 (by decide) (by decide) (by decide) (by decide) (by decide) (by decide) (by decide)
     (by decide)⟩

/-- The 4-bit big-endian reader over bytes returns the high nibble of byte `c/2` for an even
index and the low nibble for an odd one. -/
theorem get_symbol_nibble (stream : Nat → Nat) (c : Nat) (hc : c * 4 < 18446744073709551616) :
    packer_uint8.get_symbol true 4 stream c =
      if c % 2 = 0 then (stream (c / 2) % 256) / 16 else (stream (c / 2) % 256) % 16 := by
  have hp : is_pow2 4 = true := by decide
  have hq : c * 4 / 8 = c / 2 := by omega
  have h16 : (1 <<< 4) % 256 = 16 := by decide
  have h15 : (16 + 255) % 256 = 15 := by decide
  have hw : stream (c / 2) % 256 < 256 := Nat.mod_lt _ (by norm_num)
  simp only [packer_uint8.get_symbol, hp, if_true, Nat.mod_eq_of_lt hc, and_7, shr_3, hq, h16,
    h15, and_15]
  by_cases he : c % 2 = 0
  · have ho : (4294967304 - 4 - c * 4 % 8) % 4294967296 % 256 = 4 := by omega
    rw [if_pos he, ho, Nat.shiftRight_eq_div_pow]
    have : stream (c / 2) % 256 / 2 ^ 4 % 16 % 256 = stream (c / 2) % 256 / 16 := by
      norm_num
      omega
    exact this
  · have ho : (4294967304 - 4 - c * 4 % 8) % 4294967296 % 256 = 0 := by omega
    rw [if_neg he, ho, Nat.shiftRight_zero]
    omega

theorem decode_BAM_bp_ne_zero : ∀ bp, bp < 16 → decode_BAM_bp bp ≠ 0 := by
  decide

theorem strlen_terminated (l : List Nat) (h : ∀ b ∈ l, b ≠ 0) : strlen (l ++ [0]) = l.length := by
  unfold strlen
  induction l with
  | nil => rfl
  | cons b l ih =>
    have hb : b ≠ 0 := h b (List.mem_cons_self _ _)
    have hb2 : (b != 0) = true := by simpa using hb
    rw [List.cons_append, List.takeWhile_cons, if_pos hb2, List.length_cons, List.length_cons,
      ih (fun x hx => h x (List.mem_cons_of_mem _ hx))]

/-- C40: for a BAM record with `l_seq` bases (`l_seq` a non-negative `int32`), the reader takes
`(l_seq + 1) / 2` sequence bytes and decodes them so that for every `c < l_seq` the decoded
base `c` is the character of `"=ACMGRSVTWYHKDBN"` indexed by the high nibble of byte `c / 2`
when `c` is even and by its low nibble when `c` is odd; only bytes below `(l_seq + 1) / 2` are
read, the buffer is terminated by a zero at position `l_seq`, and the decoded string has length
exactly `l_seq`. -/
theorem bam_decode (l_seq : Nat) (encoded_read : Nat → Nat) (hl : l_seq < 2147483648) :
    encoded_read_len l_seq = (l_seq + 1) / 2 ∧
    (l_seq + 1) / 2 = (l_seq / 2 + l_seq % 2) ∧
    (decoded_read l_seq encoded_read).length = l_seq + 1 ∧
    (decoded_read l_seq encoded_read).getD l_seq 1 = 0 ∧
    strlen (decoded_read l_seq encoded_read) = l_seq ∧
    (∀ c, c < l_seq →
      c / 2 < encoded_read_len l_seq ∧
      (decoded_read l_seq encoded_read).getD c 0 =
        decode_BAM_bp (if c % 2 = 0 then (encoded_read (c / 2) % 256) / 16
          else (encoded_read (c / 2) % 256) % 16) ∧
      (if c % 2 = 0 then (encoded_read (c / 2) % 256) / 16
          else (encoded_read (c / 2) % 256) % 16) < 16 ∧
      (decoded_read l_seq encoded_read).getD c 0 ∈
        [61, 65, 67, 77, 71, 82, 83, 86, 84, 87, 89, 72, 75, 68, 66, 78] ∧
      (∀ other : Nat → Nat, other (c / 2) = encoded_read (c / 2) →
        (decoded_read l_seq other).getD c 0 = (decoded_read l_seq encoded_read).getD c 0)) := by
  have hnib : ∀ c, (if c % 2 = 0 then (encoded_read (c / 2) % 256) / 16
      else (encoded_read (c / 2) % 256) % 16) < 16 := by
    intro c
    split_ifs <;> omega
  have hget : ∀ (enc : Nat → Nat) c, c < l_seq → (decoded_read l_seq enc).getD c 0 =
      decode_BAM_bp (if c % 2 = 0 then (enc (c / 2) % 256) / 16
        else (enc (c / 2) % 256) % 16) := by
    intro enc c hc
    unfold decoded_read
    rw [List.getD_append _ _ _ _ (by simpa using hc)]
    rw [List.getD_eq_getElem _ _ (by simpa using hc)]
    simp only [List.getElem_map, List.getElem_range]
    rw [get_symbol_nibble enc c (by omega)]
  refine ⟨rfl, by omega, ?_, ?_, ?_, ?_⟩
  · simp [decoded_read]
  · unfold decoded_read
    rw [List.getD_append_right _ _ _ _ (by simp)]
    simp
  · unfold decoded_read
    rw [strlen_terminated]
    · simp
    · intro b hb
      simp only [List.mem_map, List.mem_range] at hb
      obtain ⟨c, hc, rfl⟩ := hb
      rw [get_symbol_nibble encoded_read c (by omega)]
      exact decode_BAM_bp_ne_zero _ (hnib c)
  · intro c hc
    refine ⟨by unfold encoded_read_len; omega, hget encoded_read c hc, hnib c, ?_, ?_⟩
    · rw [hget encoded_read c hc]
      have : ∀ n, n < 16 → decode_BAM_bp n ∈
          [61, 65, 67, 77, 71, 82, 83, 86, 84, 87, 89, 72, 75, 68, 66, 78] := by decide
      exact this _ (hnib c)
    · intro other ho
      rw [hget other c hc, hget encoded_read c hc, ho]

/-- C40 witness: the record with 3 bases held in the bytes `0x12 0x80` decodes to `ACT`. -/
theorem bam_decode_witness :
    decoded_read 3 (fun i => [18, 128].getD i 0) = [65, 67, 84, 0] ∧
    strlen (decoded_read 3 (fun i => [18, 128].getD i 0)) = 3 :=
  ⟨by decide, (bam_decode 3 (fun i => [18, 128].getD i 0) (by decide)).2.2.2.2.1⟩

/-- C32 (code at the failing input): 3-bit symbols over 64-bit words.  Symbol 10 occupies the
bits 30..32 of word 0.  Writing 7 there in a stream of zeros sets the three bits (word 0 becomes
`7 * 2^30`), but `get_symbol` reads the word into a 32-bit variable, loses bit 32 and returns 3
instead of 7; the packer over 32-bit words returns 7 at the same input.  Symbol 21 occupies
bit 63 of word 0 and the bits 0..1 of word 1: writing 0 there in a stream of all-ones words
leaves word 1 as `0xFFFFFFFC`, its upper 32 bits cleared, because `set_symbol` reads the
second word into a 32-bit variable. -/
theorem uint64_packer_truncates :
    packer_uint64.set_symbol false 3 (fun _ => 0) 10 7 0 = 7 * 2 ^ 30 ∧
    packer_uint64.get_symbol false 3 (packer_uint64.set_symbol false 3 (fun _ => 0) 10 7) 10
      = 3 ∧
    7 % 2 ^ 3 = 7 ∧
    packer_uint32.get_symbol false 3 (packer_uint32.set_symbol false 3 (fun _ => 0) 10 7) 10
      = 7 ∧
    packer_uint64.set_symbol false 3 (fun _ => 18446744073709551615) 21 0 0
      = 9223372036854775807 ∧
    packer_uint64.set_symbol false 3 (fun _ => 18446744073709551615) 21 0 1 = 4294967292 := by
  refine ⟨?_, ?_, ?_, ?_, ?_, ?_⟩ <;> decide

theorem traceback_index_bound (height width : Nat) (row col : Int) (h1 : 0 < row)
    (h2 : row ≤ height) (h3 : 0 ≤ col) (h4 : col < width) :
    (col * height + (row - 1)).toNat < width * height := by
  have hc : col + 1 ≤ (width : Int) := by omega
  have hh : (0 : Int) ≤ height := Int.natCast_nonneg _
  have hm : (col + 1) * (height : Int) ≤ (width : Int) * height :=
    mul_le_mul_of_nonneg_right hc hh
  have hpos : 0 ≤ col * (height : Int) := mul_nonneg h3 hh
  have hlt : col * (height : Int) + (row - 1) < (width : Int) * height := by
    have : (col + 1) * (height : Int) = col * height + height := by ring
    omega
  have hcast : ((width * height : Nat) : Int) = (width : Int) * height := by push_cast; ring
  omega

/-- The loop of `alignment_traceback` and its recorded reads: with fuel above `row + col` both
return, after at most `row + col` iterations, and every index read is inside the submatrix. -/
theorem traceback_reads_spec (TYPE : AlignmentType) (submatrix : Nat → Nat)
    (height width : Nat) :
    ∀ (fuel : Nat) (row col : Int) (output reads : List Nat),
      row ≤ height → col < width → 0 ≤ row → -1 ≤ col →
      row + col + 1 < fuel →
      ∃ w rs ops, traceback_loop TYPE submatrix height fuel row col output = some w ∧
        traceback_reads TYPE submatrix height fuel row col reads = some (reads ++ rs) ∧
        ((0 < row ∧ 0 ≤ col) → (rs.length : Int) ≤ row + col) ∧
        (¬ (0 < row ∧ 0 ≤ col) → rs.length = 0) ∧
        (∀ idx ∈ rs, idx < width * height) ∧
        w.output = output ++ ops ∧
        rs.length = ops.length + (if w.at_sink then 1 else 0) := by
  intro fuel
  induction fuel with
  | zero =>
    intro row col output reads _ _ _ _ hf
    omega
  | succ fuel ih =>
    intro row col output reads h1 h2 h3 h4 hf
    rw [traceback_loop, traceback_reads]
    by_cases hc : row > 0 ∧ col ≥ 0
    · rw [if_pos hc, if_pos hc]
      have hidx := traceback_index_bound height width row col hc.1 h1 hc.2 h2
      by_cases hs : TYPE = LOCAL ∧ submatrix (col * height + (row - 1)).toNat = SINK
      · simp only [hs, and_self, if_true]
        refine ⟨_, [(col * height + (row - 1)).toNat], [], rfl, rfl, ?_, ?_, ?_, ?_, ?_⟩
        · intro _
          simp only [List.length_singleton]
          omega
        · intro h
          exact absurd hc h
        · intro idx hi
          rw [List.mem_singleton] at hi
          rw [hi]
          exact hidx
        · rw [List.append_nil]
        · rfl
      · simp only [hs, if_false]
        have hb := step_bounds (submatrix (col * height + (row - 1)).toNat) row col
        generalize hop : submatrix (col * height + (row - 1)).toNat = op at hb ⊢
        generalize hr1 : (if op ≠ INSERTION then row - 1 else row) = row1 at hb ⊢
        generalize hc1 : (if op ≠ DELETION then col - 1 else col) = col1 at hb ⊢
        obtain ⟨w, rs, ops, e1, e2, e3, e4, e5, e6, e7⟩ := ih row1 col1 (output ++ [op])
          (reads ++ [(col * height + (row - 1)).toNat])
          (by omega) (by omega) (by omega) (by omega) (by omega)
        refine ⟨w, (col * height + (row - 1)).toNat :: rs, op :: ops, e1, ?_, ?_, ?_, ?_, ?_, ?_⟩
        · rw [e2, List.append_assoc, List.singleton_append]
        · intro _
          rw [List.length_cons]
          by_cases hn : 0 < row1 ∧ 0 ≤ col1
          · have := e3 hn
            push_cast
            omega
          · have := e4 hn
            rw [this]
            push_cast
            omega
        · intro h
          exact absurd hc h
        · intro idx hi
          rcases List.mem_cons.1 hi with hi | hi
          · rw [hi]
            exact hidx
          · exact e5 idx hi
        · rw [e6, List.append_assoc, List.singleton_append]
        · rw [List.length_cons, List.length_cons, e7]
          omega
    · rw [if_neg hc, if_neg hc]
      refine ⟨_, [], [], rfl, by rw [List.append_nil], ?_, ?_, ?_, ?_, ?_⟩
      · intro h
        exact absurd h hc
      · intro _
        rfl
      · intro idx hi
        exact absurd hi (List.not_mem_nil _)
      · rw [List.append_nil]
      · rfl

/-- C34: for every submatrix content and every entry cell with `1 <= row <= submatrix_height`
and `0 <= column < submatrix_width`, the loop of `alignment_traceback` terminates: it returns
within `row + column` iterations (so within `row + column + 1`), each iteration that does not
return decreases `row + column`, each iteration reads the submatrix once, at an index
`column * submatrix_height + row - 1` that lies below `submatrix_width * submatrix_height`,
and the function returns a result. -/
theorem alignment_traceback_terminates (CHECKPOINTS : Nat) (TYPE : AlignmentType)
    (checkpoint_id : Nat) (submatrix : Nat → Nat) (submatrix_width submatrix_height : Nat)
    (sink : Nat × Nat) (output : List Nat)
    (hrow : 1 ≤ sink.1 ∧ sink.1 ≤ submatrix_height)
    (hcol : checkpoint_id * CHECKPOINTS + 1 ≤ sink.2 ∧
      sink.2 < checkpoint_id * CHECKPOINTS + 1 + submatrix_width) :
    (∃ w reads,
      traceback_loop TYPE submatrix submatrix_height (sink.1 + sink.2 + 2) (sink.1 : Int)
        ((sink.2 : Int) - checkpoint_id * CHECKPOINTS - 1) output = some w ∧
      traceback_reads TYPE submatrix submatrix_height (sink.1 + sink.2 + 2) (sink.1 : Int)
        ((sink.2 : Int) - checkpoint_id * CHECKPOINTS - 1) [] = some reads ∧
      (reads.length : Int) ≤ (sink.1 : Int) + ((sink.2 : Int) - checkpoint_id * CHECKPOINTS - 1) ∧
      reads.length ≤ sink.1 + (sink.2 - checkpoint_id * CHECKPOINTS - 1) + 1 ∧
      reads.length = (w.output.length - output.length) + (if w.at_sink then 1 else 0) ∧
      (∀ idx ∈ reads, idx < submatrix_width * submatrix_height)) ∧
    (alignment_traceback CHECKPOINTS TYPE checkpoint_id submatrix submatrix_height sink
      output).isSome = true ∧
    (∀ (op : Nat) (row col : Int),
      (if op ≠ INSERTION then row - 1 else row) + (if op ≠ DELETION then col - 1 else col)
        < row + col) := by
  have hspec := traceback_reads_spec TYPE submatrix submatrix_height submatrix_width
    (sink.1 + sink.2 + 2) (sink.1 : Int) ((sink.2 : Int) - checkpoint_id * CHECKPOINTS - 1)
    output [] (by omega) (by omega) (by omega) (by omega)
    (by push_cast; have : (0 : Int) ≤ checkpoint_id * CHECKPOINTS := by positivity
        omega)
  obtain ⟨w, rs, ops, e1, e2, e3, _, e5, e6, e7⟩ := hspec
  rw [List.nil_append] at e2
  have hlen := e3 ⟨by omega, by omega⟩
  refine ⟨⟨w, rs, e1, e2, hlen, ?_, ?_, e5⟩, ?_, ?_⟩
  · have hc : (checkpoint_id * CHECKPOINTS : Int) = ((checkpoint_id * CHECKPOINTS : Nat) : Int) := by
      push_cast; ring
    rw [hc] at hlen
    omega
  · rw [e7, e6, List.length_append]
    omega
  · unfold alignment_traceback
    simp only [e1]
    rfl
  · intro op row col
    have := step_bounds op row col
    omega

/-- C34 witness: from cell (2, 2) over a submatrix of height 2 and width 2 filled with the
byte 7 the walk reads the indices 3 and 0 and returns. -/
theorem alignment_traceback_terminates_witness :
    traceback_reads GLOBAL (fun _ => 7) 2 (2 + 2 + 2) ((2 : Nat) : Int)
        (((2 : Nat) : Int) - ((0 : Nat) : Int) * ((2 : Nat) : Int) - 1) [] = some [3, 0] ∧
    (alignment_traceback 2 GLOBAL 0 (fun _ => 7) 2 (2, 2) []).isSome = true :=
  ⟨by decide,
   (alignment_traceback_terminates 2 GLOBAL 0 (fun _ => 7) 2 2 (2, 2) []
      (by decide) (by decide)).2.1⟩

/-- The sizes requested by the first `a` calls of a sequence, added up. -/
theorem alloc_all_spec :
    ∀ (reqs : List (Nat × Nat)) (v : DeviceVectorArrayView),
      v.m_pool + (reqs.map Prod.snd).sum < 4294967296 →
      (alloc_all v reqs).1.length = reqs.length ∧
      (alloc_all v reqs).2.m_size = v.m_size ∧
      ∀ a, a < reqs.length →
        (alloc_all v reqs).1.getD a none =
          if v.m_pool + ((reqs.take a).map Prod.snd).sum + (reqs.getD a (0, 0)).2 ≥ v.m_size
          then none else some (v.m_pool + ((reqs.take a).map Prod.snd).sum) := by
  intro reqs
  induction reqs with
  | nil =>
    intro v _
    exact ⟨rfl, rfl, fun a ha => absurd ha (Nat.not_lt_zero a)⟩
  | cons r reqs ih =>
    intro v hv
    obtain ⟨index, size⟩ := r
    simp only [List.map_cons, List.sum_cons] at hv
    have hmod : (v.m_pool + size) % 4294967296 = v.m_pool + size :=
      Nat.mod_eq_of_lt (by omega)
    have hpool : (v.alloc index size).2.m_pool = v.m_pool + size := by
      unfold DeviceVectorArrayView.alloc
      simp only [hmod]
      split_ifs <;> rfl
    have hsize : (v.alloc index size).2.m_size = v.m_size := by
      unfold DeviceVectorArrayView.alloc
      simp only []
      split_ifs <;> rfl
    have hres : (v.alloc index size).1 =
        if v.m_pool + size ≥ v.m_size then none else some v.m_pool := by
      unfold DeviceVectorArrayView.alloc
      simp only [hmod]
      split_ifs <;> rfl
    obtain ⟨i1, i2, i3⟩ := ih (v.alloc index size).2 (by rw [hpool]; omega)
    refine ⟨?_, ?_, ?_⟩
    · simp only [alloc_all, List.length_cons, i1]
    · simp only [alloc_all, i2, hsize]
    · intro a ha
      cases a with
      | zero =>
        simp only [alloc_all, List.getD_cons_zero, List.take_zero, List.map_nil, List.sum_nil,
          Nat.add_zero, hres]
      | succ a =>
        have ha2 : a < reqs.length := by simpa using ha
        simp only [alloc_all, List.getD_cons_succ, List.take_succ_cons, List.map_cons,
          List.sum_cons]
        rw [i3 a ha2, hpool, hsize]
        have e : v.m_pool + size + ((reqs.take a).map Prod.snd).sum =
            v.m_pool + (size + ((reqs.take a).map Prod.snd).sum) := by omega
        rw [e]

theorem take_sum_mono (l : List Nat) (a b : Nat) (hab : a < b) (hb : b ≤ l.length) :
    (l.take a).sum + l.getD a 0 ≤ (l.take b).sum := by
  induction l generalizing a b with
  | nil =>
    simp only [List.length_nil] at hb
    omega
  | cons x l ih =>
    cases b with
    | zero => omega
    | succ b =>
      cases a with
      | zero => simp
      | succ a =>
        simp only [List.take_succ_cons, List.sum_cons, List.getD_cons_succ]
        have := ih a b (by omega) (by simpa using hb)
        omega

/-- C35: in a sequence of `alloc` calls made on a view whose pool counter was just cleared,
as long as the 32-bit pool counter does not wrap around (the requested sizes add up to less
than `2^32`): a successful allocation is bound to the slot that is the sum of the sizes
requested before it and its range `[slot, slot + size)` lies inside the arena; the ranges of
two successful allocations are disjoint, the later one starting at or after the end of the
earlier one; once an allocation has failed every later one fails too; and `clear()` resets the
pool counter to 0. -/
theorem alloc_ranges_disjoint {α : Type} (d : DeviceVectorArray α)
    (v : DeviceVectorArrayView) (reqs : List (Nat × Nat))
    (hclear : v.m_pool = 0) (hwrap : (reqs.map Prod.snd).sum < 4294967296) :
    (∀ a slot, a < reqs.length → (alloc_all v reqs).1.getD a none = some slot →
      slot = ((reqs.take a).map Prod.snd).sum ∧
      slot + (reqs.getD a (0, 0)).2 ≤ v.m_size) ∧
    (∀ a b sa sb, a < b → b < reqs.length →
      (alloc_all v reqs).1.getD a none = some sa → (alloc_all v reqs).1.getD b none = some sb →
      sa + (reqs.getD a (0, 0)).2 ≤ sb) ∧
    (∀ a b, a < b → b < reqs.length →
      (alloc_all v reqs).1.getD a none = none → (alloc_all v reqs).1.getD b none = none) ∧
    (d.clear.device_view).m_pool = 0 := by
  obtain ⟨_, _, h3⟩ := alloc_all_spec reqs v (by omega)
  have hsnd : ∀ a, ((reqs.map Prod.snd).getD a 0) = (reqs.getD a (0, 0)).2 := by
    intro a
    exact List.getD_map reqs ((0 : Nat), (0 : Nat)) Prod.snd
  have hmono : ∀ a b, a < b → b < reqs.length →
      ((reqs.take a).map Prod.snd).sum + (reqs.getD a (0, 0)).2 ≤
        ((reqs.take b).map Prod.snd).sum := by
    intro a b hab hb
    have := take_sum_mono (reqs.map Prod.snd) a b hab (by simpa using Nat.le_of_lt hb)
    rw [hsnd, ← List.map_take, ← List.map_take] at this
    exact this
  refine ⟨?_, ?_, ?_, ?_⟩
  · intro a slot ha hs
    rw [h3 a ha, hclear, Nat.zero_add] at hs
    by_cases hc : ((reqs.take a).map Prod.snd).sum + (reqs.getD a (0, 0)).2 ≥ v.m_size
    · rw [if_pos hc] at hs
      exact absurd hs (by simp)
    · rw [if_neg hc] at hs
      have : ((reqs.take a).map Prod.snd).sum = slot := by simpa using hs
      omega
  · intro a b sa sb hab hb hsa hsb
    rw [h3 a (by omega), hclear, Nat.zero_add] at hsa
    rw [h3 b hb, hclear, Nat.zero_add] at hsb
    have := hmono a b hab hb
    by_cases hca : ((reqs.take a).map Prod.snd).sum + (reqs.getD a (0, 0)).2 ≥ v.m_size
    · rw [if_pos hca] at hsa
      exact absurd hsa (by simp)
    · rw [if_neg hca] at hsa
      by_cases hcb : ((reqs.take b).map Prod.snd).sum + (reqs.getD b (0, 0)).2 ≥ v.m_size
      · rw [if_pos hcb] at hsb
        exact absurd hsb (by simp)
      · rw [if_neg hcb] at hsb
        have e1 : ((reqs.take a).map Prod.snd).sum = sa := by simpa using hsa
        have e2 : ((reqs.take b).map Prod.snd).sum = sb := by simpa using hsb
        omega
  · intro a b hab hb hna
    rw [h3 a (by omega), hclear, Nat.zero_add] at hna
    rw [h3 b hb, hclear, Nat.zero_add]
    have := hmono a b hab hb
    by_cases hca : ((reqs.take a).map Prod.snd).sum + (reqs.getD a (0, 0)).2 ≥ v.m_size
    · rw [if_pos (by omega)]
    · rw [if_neg hca] at hna
      exact absurd hna (by simp)
  · unfold DeviceVectorArray.clear DeviceVectorArray.device_view
    cases d.m_pool <;> simp

/-- C35 witness: an arena of 10 elements and the requests of sizes 3, 4, 5 and 1: the first two
succeed at the slots 0 and 3, the third one fails and so does the fourth, although one element
would still fit after the second one. -/
theorem alloc_ranges_disjoint_witness :
    (alloc_all { m_index := fun _ => 0, m_pool := 0, m_size := 10 }
        [(0, 3), (1, 4), (2, 5), (3, 1)]).1 = [some 0, some 3, none, none] ∧
    (∀ a b, a < b → b < [((0 : Nat), (3 : Nat)), (1, 4), (2, 5), (3, 1)].length →
      (alloc_all { m_index := fun _ => 0, m_pool := 0, m_size := 10 }
        [(0, 3), (1, 4), (2, 5), (3, 1)]).1.getD a none = none →
      (alloc_all { m_index := fun _ => 0, m_pool := 0, m_size := 10 }
        [(0, 3), (1, 4), (2, 5), (3, 1)]).1.getD b none = none) :=
  ⟨by decide,
   (alloc_ranges_disjoint ({ m_arena := [], m_index := [], m_pool := [7] } : DeviceVectorArray Nat)
      { m_index := fun _ => 0, m_pool := 0, m_size := 10 } [(0, 3), (1, 4), (2, 5), (3, 1)]
      rfl (by decide)).2.2.1⟩

theorem float_of_uint32_range (n : Nat) (hn : n < 4294967296) :
    float_of_uint32 n ≤ 4294967296 ∧
    (float_of_uint32 n < 4294967296 ↔ n < 4294967168) := by
  unfold float_of_uint32
  by_cases h24 : n < 16777216
  · rw [if_pos h24]
    omega
  · rw [if_neg h24]
    have hn0 : n ≠ 0 := by omega
    have hlo : 24 ≤ Nat.log2 n := (Nat.le_log2 hn0).2 (by norm_num; omega)
    have hhi : Nat.log2 n < 32 := (Nat.log2_lt hn0).2 (by norm_num; omega)
    have h1 : 2 ^ Nat.log2 n ≤ n := Nat.log2_self_le hn0
    have h2 : n < 2 ^ (Nat.log2 n + 1) := Nat.lt_log2_self
    generalize Nat.log2 n = L at hlo hhi h1 h2
    simp only []
    interval_cases L <;> norm_num at h1 h2 ⊢ <;> split_ifs <;> omega

theorem float_of_uint32_ones : float_of_uint32 4294967295 = 4294967296 := by
  have h := float_of_uint32_range 4294967295 (by norm_num)
  have h2 : ¬ float_of_uint32 4294967295 < 4294967296 := by
    rw [h.2]
    norm_num
  omega

/-- The random branch of `rand_select_kernel`: for a live read `rid` that is no longer on its
top hit and whose tree still has weight, the kernel replaces the seed by `ri`, calls `sample`
once, with `rf = float(ri) / float(0xFFFFFFFFu)`, and emits the sampled hit unless its range
is empty. -/
theorem rand_select_kernel_random (T : SumTreeOps) (stop : Nat → Bool) (thread_id : Nat)
    (st : SelectState) (rid ri : Nat) (ht : thread_id < st.in_size)
    (hrid : rid = (st.in_queue thread_id).read_id)
    (hri : ri = (1664525 * st.rseeds rid + 1013904223) % 4294967296)
    (hstop : stop rid = false)
    (hne : (st.hits rid).data.length ≠ 0)
    (htop : (st.in_queue thread_id).top_flag = 0 ∨
      ((st.hits rid).data.getD 0 default).range_x ≥ ((st.hits rid).data.getD 0 default).range_y)
    (hsum : 0 < SumTree.sum (st.hits rid).data.length (st.hits rid).probs) :
    rand_select_kernel T stop thread_id st =
      if ((st.hits rid).data.getD (T.sample (st.hits rid).data.length (st.hits rid).probs
            (float_of_uint32 ri, float_of_uint32 4294967295)) default).range_x ≥
         ((st.hits rid).data.getD (T.sample (st.hits rid).data.length (st.hits rid).probs
            (float_of_uint32 ri, float_of_uint32 4294967295)) default).range_y
      then { st with rseeds := store st.rseeds rid ri }
      else
        emit_rand_hit T rid 0 (st.hits rid)
          (T.sample (st.hits rid).data.length (st.hits rid).probs
            (float_of_uint32 ri, float_of_uint32 4294967295))
          ((st.hits rid).data.getD (T.sample (st.hits rid).data.length (st.hits rid).probs
            (float_of_uint32 ri, float_of_uint32 4294967295)) default)
          { st with rseeds := store st.rseeds rid ri } := by
  subst hrid
  rw [hri]
  have h1 : ¬ thread_id ≥ st.in_size := by omega
  have h5 : ¬ SumTree.sum (st.hits (st.in_queue thread_id).read_id).data.length
      (st.hits (st.in_queue thread_id).read_id).probs ≤ 0 := by omega
  have htf : (if (st.in_queue thread_id).top_flag ≠ 0 then
        if ((st.hits (st.in_queue thread_id).read_id).data.getD 0 default).range_x ≥
            ((st.hits (st.in_queue thread_id).read_id).data.getD 0 default).range_y then 0
        else (st.in_queue thread_id).top_flag
      else (st.in_queue thread_id).top_flag) = 0 := by
    rcases htop with h | h
    · rw [if_neg (by simpa using h)]
      exact h
    · split_ifs with a
      · rfl
      · simpa using a
  unfold rand_select_kernel
  simp only [h1, if_false, hstop, Bool.false_eq_true, hne, htf, ne_eq, not_true_eq_false, h5]

theorem emit_rand_hit_rseeds (T : SumTreeOps) (read_id top_flag : Nat) (deque : HitDeque)
    (hit_id : Nat) (hit : SeedHit) (st : SelectState) :
    (emit_rand_hit T read_id top_flag deque hit_id hit st).rseeds = st.rseeds := rfl

theorem emit_rand_hit_loc (T : SumTreeOps) (read_id top_flag : Nat) (deque : HitDeque)
    (hit_id : Nat) (hit : SeedHit) (st : SelectState) :
    ((emit_rand_hit T read_id top_flag deque hit_id hit st).hit_queue st.out_size).loc =
      hit.range_x := by
  unfold emit_rand_hit emit_hit
  simp only [store_same, SeedHit.pop_front]

theorem sum_tree_sum_two (probs : Nat → Int) : SumTree.sum 2 probs = probs 2 := by
  simp [SumTree.sum, next_power_of_two, Nat.log2]

/-- C33 (as stated, refuted): the seed 653637408 is replaced by `0xFFFFFFFF`, whose conversion
to `float` is `2^32`, the value of `float(0xFFFFFFFFu)` too: the quotient handed to `sample`
is 1, outside `[0,1)`.  A `sample` that returns 1 exactly when its argument is not below 1
makes the kernel emit the front row 10 of the second hit. -/
theorem rand_select_rf_counterexample :
    (1664525 * 653637408 + 1013904223) % 4294967296 = 4294967295 ∧
    float_of_uint32 ((1664525 * 653637408 + 1013904223) % 4294967296) = 4294967296 ∧
    float_of_uint32 4294967295 = 4294967296 ∧
    ((rand_select_kernel
        { sample := fun _ _ rf => if rf.1 < rf.2 then 0 else 1, set := fun _ c _ _ => c }
        (fun _ => false) 0
        (select_state [{ read_id := 0, top_flag := 0 }]
          [[{ range_x := 3, range_y := 5, posinread := 0, indexdir := 0, readtype := false },
            { range_x := 10, range_y := 12, posinread := 2, indexdir := 1, readtype := true }]]
          (fun _ => 1) 653637408)).hit_queue 0).loc = 10 := by
  have e : (1664525 * 653637408 + 1013904223) % 4294967296 = 4294967295 := by decide
  refine ⟨e, ?_, float_of_uint32_ones, ?_⟩
  · rw [e]
    exact float_of_uint32_ones
  · rw [rand_select_kernel_random _ _ 0 _ 0 4294967295 (by decide) rfl (by decide) rfl
      (by decide) (Or.inl rfl) (by show 0 < SumTree.sum 2 _; rw [sum_tree_sum_two]; decide), float_of_uint32_ones]
    decide

/-- C33 (amended): for every seed value, when randomized selection draws a hit for a read (the
read is live, no longer on its top hit, and its tree has weight), it replaces the seed by
`ri = (1664525*seed + 1013904223) mod 2^32` and calls `sample` with the quotient of
`float(ri)` by `float(0xFFFFFFFFu) = 2^32`, and with no other argument: the kernel depends on
`sample` through that one value only.  The quotient lies in the closed range `[0,1]`; it is
below 1 exactly when `ri < 2^32 - 128`, and 1 for the 128 largest values of `ri`. -/
theorem rand_select_rf_range (T : SumTreeOps) (stop : Nat → Bool) (thread_id : Nat)
    (st : SelectState) (rid ri : Nat) (ht : thread_id < st.in_size)
    (hrid : rid = (st.in_queue thread_id).read_id)
    (hri : ri = (1664525 * st.rseeds rid + 1013904223) % 4294967296)
    (hstop : stop rid = false)
    (hne : (st.hits rid).data.length ≠ 0)
    (htop : (st.in_queue thread_id).top_flag = 0 ∨
      ((st.hits rid).data.getD 0 default).range_x ≥ ((st.hits rid).data.getD 0 default).range_y)
    (hsum : 0 < SumTree.sum (st.hits rid).data.length (st.hits rid).probs) :
    (rand_select_kernel T stop thread_id st).rseeds rid = ri ∧
    (∀ T2 : SumTreeOps, T2.set = T.set →
      T2.sample (st.hits rid).data.length (st.hits rid).probs
          (float_of_uint32 ri, float_of_uint32 4294967295) =
        T.sample (st.hits rid).data.length (st.hits rid).probs
          (float_of_uint32 ri, float_of_uint32 4294967295) →
      rand_select_kernel T2 stop thread_id st = rand_select_kernel T stop thread_id st) ∧
    float_of_uint32 4294967295 = 4294967296 ∧
    float_of_uint32 ri ≤ float_of_uint32 4294967295 ∧
    (float_of_uint32 ri < float_of_uint32 4294967295 ↔ ri < 4294967168) ∧
    (4294967168 ≤ ri → float_of_uint32 ri = float_of_uint32 4294967295) := by
  have hk := rand_select_kernel_random T stop thread_id st rid ri ht hrid hri hstop hne htop hsum
  have hlt : ri < 4294967296 := by
    rw [hri]
    exact Nat.mod_lt _ (by norm_num)
  have hr := float_of_uint32_range ri hlt
  refine ⟨?_, ?_, float_of_uint32_ones, ?_, ?_, ?_⟩
  · rw [hk]
    split_ifs
    · exact store_same _ _ _
    · rw [emit_rand_hit_rseeds]
      exact store_same _ _ _
  · intro T2 hset hsample
    rw [hk, rand_select_kernel_random T2 stop thread_id st rid ri ht hrid hri hstop hne htop hsum,
      hsample]
    unfold emit_rand_hit
    rw [hset]
  · rw [float_of_uint32_ones]
    exact hr.1
  · rw [float_of_uint32_ones]
    exact hr.2
  · intro h
    rw [float_of_uint32_ones]
    have : ¬ float_of_uint32 ri < 4294967296 := by
      rw [hr.2]
      omega
    omega

/-- C33 witness: the seed 7 is replaced by 1025555898, which `float` rounds to 1025555904. -/
theorem rand_select_rf_range_witness :
    (rand_select_kernel { sample := fun _ _ _ => 1, set := fun _ c _ _ => c } (fun _ => false) 0
        (select_state [{ read_id := 0, top_flag := 0 }]
          [[{ range_x := 3, range_y := 5, posinread := 0, indexdir := 0, readtype := false },
            { range_x := 10, range_y := 12, posinread := 2, indexdir := 1, readtype := true }]]
          (fun _ => 1) 7)).rseeds 0 = 1025555898 ∧
    float_of_uint32 1025555898 ≤ float_of_uint32 4294967295 :=
  ⟨(rand_select_rf_range { sample := fun _ _ _ => 1, set := fun _ c _ _ => c } (fun _ => false) 0
      (select_state [{ read_id := 0, top_flag := 0 }]
        [[{ range_x := 3, range_y := 5, posinread := 0, indexdir := 0, readtype := false },
          { range_x := 10, range_y := 12, posinread := 2, indexdir := 1, readtype := true }]]
        (fun _ => 1) 7) 0 1025555898 (by decide) rfl (by decide) rfl
      (by decide) (Or.inl rfl) (by show 0 < SumTree.sum 2 _; rw [sum_tree_sum_two]; decide)).1,
   (rand_select_rf_range { sample := fun _ _ _ => 1, set := fun _ c _ _ => c } (fun _ => false) 0
      (select_state [{ read_id := 0, top_flag := 0 }]
        [[{ range_x := 3, range_y := 5, posinread := 0, indexdir := 0, readtype := false },
          { range_x := 10, range_y := 12, posinread := 2, indexdir := 1, readtype := true }]]
        (fun _ => 1) 7) 0 1025555898 (by decide) rfl (by decide) rfl
      (by decide) (Or.inl rfl) (by show 0 < SumTree.sum 2 _; rw [sum_tree_sum_two]; decide)).2.2.2.1⟩

theorem float_shift_le : ∀ fuel n j, n / 2 ^ j < 16777216 → float_shift fuel n ≤ j := by
  intro fuel
  induction fuel with
  | zero => intro n j _; exact Nat.zero_le j
  | succ fuel ih =>
    intro n j h
    unfold float_shift
    by_cases hn : n < 16777216
    · rw [if_pos hn]; exact Nat.zero_le j
    · rw [if_neg hn]
      cases j with
      | zero => simp at h; omega
      | succ j =>
        have := ih (n / 2) j (by
          rw [Nat.div_div_eq_div_mul, ← Nat.pow_succ']
          exact h)
        omega

/-- A multiple of `2^j` with at most 24 significant bits above bit `j` is not rounded. -/
theorem float_round_nat_exact (n j : Nat) (h1 : n / 2 ^ j < 16777216) (h2 : 2 ^ j ∣ n) :
    float_round_nat n = n := by
  unfold float_round_nat
  have he := float_shift_le 300 n j h1
  generalize float_shift 300 n = e at he
  have hdvd : 2 ^ e ∣ n := Nat.dvd_trans (Nat.pow_dvd_pow 2 he) h2
  have hr : n % 2 ^ e = 0 := Nat.mod_eq_zero_of_dvd hdvd
  have hp : 0 < 2 ^ e := Nat.two_pow_pos e
  simp only [hr, Nat.mul_zero]
  rw [if_neg (by omega)]
  exact Nat.div_mul_cancel hdvd

theorem float_round_exact (x : Int) (j : Nat) (h1 : ((2 : Int) ^ j) ∣ x)
    (h2 : |x| < 16777216 * 2 ^ j) : float_round x = x := by
  unfold float_round
  have hn : x.natAbs / 2 ^ j < 16777216 := by
    apply Nat.div_lt_of_lt_mul
    have : (x.natAbs : Int) < 16777216 * 2 ^ j := by
      rw [Int.natCast_natAbs]; exact h2
    have h3 : (x.natAbs : Int) < ((2 ^ j * 16777216 : Nat) : Int) := by
      push_cast; linarith
    exact_mod_cast h3
  have hd : 2 ^ j ∣ x.natAbs := by
    have : ((2 ^ j : Nat) : Int) ∣ x := by push_cast; exact h1
    exact Int.natCast_dvd.1 this
  rw [float_round_nat_exact x.natAbs j hn hd]
  exact Int.sign_mul_natAbs x

theorem float_add_exact (a b : Int) (j : Nat) (ha : ((2 : Int) ^ j) ∣ a)
    (hb : ((2 : Int) ^ j) ∣ b) (h : |a + b| < 16777216 * 2 ^ j) : float_add a b = a + b :=
  float_round_exact (a + b) j (dvd_add ha hb) h

theorem range_sum_mono (f g : Nat → Int) :
    ∀ n, (∀ i, i < n → f i ≤ g i) → range_sum f n ≤ range_sum g n := by
  intro n
  induction n with
  | zero => intro _; exact le_refl _
  | succ n ih =>
    intro h
    rw [range_sum_succ, range_sum_succ]
    exact add_le_add (ih (fun i hi => h i (by omega))) (h n (by omega))

theorem range_sum_nonneg (f : Nat → Int) (hf : ∀ i, 0 ≤ f i) : ∀ n, 0 ≤ range_sum f n := by
  intro n
  induction n with
  | zero => exact le_refl _
  | succ n ih => rw [range_sum_succ]; exact add_nonneg ih (hf n)

theorem term_le_range_sum (f : Nat → Int) (hf : ∀ i, 0 ≤ f i) :
    ∀ n i, i < n → f i ≤ range_sum f n := by
  intro n
  induction n with
  | zero => intro i hi; omega
  | succ n ih =>
    intro i hi
    rw [range_sum_succ]
    by_cases h : i = n
    · subst h
      have := range_sum_nonneg f hf i
      omega
    · have := ih i (by omega)
      have := hf n
      omega

/-- One pass of `setup` rounds nothing when the sums of the children are `float` values. -/
theorem setup_level_float_eq (src dst : Nat) (c : Nat → Int) :
    ∀ n, src + 2 * n ≤ dst →
      (∀ i, i < n → float_add (c (src + 2 * i)) (c (src + 2 * i + 1)) =
        c (src + 2 * i) + c (src + 2 * i + 1)) →
      SumTree.setup_level_float src dst n c = SumTree.setup_level src dst n c := by
  intro n
  induction n with
  | zero => intro _ _; rfl
  | succ n ih =>
    intro hd h
    have e1 : SumTree.setup_level_float src dst (n + 1) c =
        store (SumTree.setup_level_float src dst n c) (dst + n)
          (float_add (SumTree.setup_level_float src dst n c (src + 2 * n))
            (SumTree.setup_level_float src dst n c (src + 2 * n + 1))) := by
      unfold SumTree.setup_level_float
      rw [List.range_succ, List.foldl_append, List.foldl_cons, List.foldl_nil]
    have e2 : SumTree.setup_level src dst (n + 1) c =
        store (SumTree.setup_level src dst n c) (dst + n)
          (SumTree.setup_level src dst n c (src + 2 * n) +
            SumTree.setup_level src dst n c (src + 2 * n + 1)) := by
      unfold SumTree.setup_level
      rw [List.range_succ, List.foldl_append, List.foldl_cons, List.foldl_nil]
    rw [e1, e2, ih (by omega) (fun i hi => h i (by omega)),
      setup_level_spec src dst c n (by omega) (src + 2 * n),
      setup_level_spec src dst c n (by omega) (src + 2 * n + 1),
      if_neg (by omega), if_neg (by omega), h n (by omega)]

theorem abs_pairs_le (f : Nat → Int) (n : Nat) :
    range_sum (fun i => |f (2 * i) + f (2 * i + 1)|) n ≤ range_sum (fun i => |f i|) (2 * n) := by
  rw [range_sum_pairs (fun i => |f i|) n]
  exact range_sum_mono _ _ n (fun i _ => abs_add _ _)

/-- The passes of `setup` round nothing when the nodes of the lowest level are multiples of
`2^j` whose absolute values add up to less than `2^24 * 2^j`. -/
theorem setup_levels_float_eq (j : Nat) :
    ∀ (k src : Nat) (c : Nat → Int),
      (∀ i, i < 2 ^ k → ((2 : Int) ^ j) ∣ c (src + i)) →
      range_sum (fun i => |c (src + i)|) (2 ^ k) < 16777216 * 2 ^ j →
      SumTree.setup_levels_float k src c = SumTree.setup_levels k src c := by
  intro k
  induction k with
  | zero => intro _ _ _ _; rfl
  | succ k ih =>
    intro src c hdiv hsum
    have hp : 0 < 2 ^ k := Nat.two_pow_pos k
    have hs : 2 ^ (k + 1) = 2 * 2 ^ k := by rw [Nat.pow_succ, Nat.mul_comm]
    have hpair := abs_pairs_le (fun i => c (src + i)) (2 ^ k)
    rw [← hs] at hpair
    have hlevel : SumTree.setup_level_float src (src + 2 ^ (k + 1)) (2 ^ k) c =
        SumTree.setup_level src (src + 2 ^ (k + 1)) (2 ^ k) c := by
      apply setup_level_float_eq src _ c (2 ^ k) (by omega)
      intro i hi
      apply float_add_exact _ _ j (hdiv (2 * i) (by omega))
        (by have := hdiv (2 * i + 1) (by omega); rw [← Nat.add_assoc] at this; exact this)
      have h1 := term_le_range_sum
        (fun i => |c (src + 2 * i) + c (src + (2 * i + 1))|) (fun _ => abs_nonneg _) (2 ^ k) i hi
      simp only [] at h1
      rw [← Nat.add_assoc] at h1
      linarith
    show SumTree.setup_levels_float k (src + 2 ^ (k + 1))
        (SumTree.setup_level_float src (src + 2 ^ (k + 1)) (2 ^ k) c) =
      SumTree.setup_levels k (src + 2 ^ (k + 1))
        (SumTree.setup_level src (src + 2 ^ (k + 1)) (2 ^ k) c)
    rw [hlevel]
    have hval : ∀ i, i < 2 ^ k →
        SumTree.setup_level src (src + 2 ^ (k + 1)) (2 ^ k) c (src + 2 ^ (k + 1) + i) =
          c (src + 2 * i) + c (src + (2 * i + 1)) := by
      intro i hi
      rw [setup_level_spec src _ c (2 ^ k) (by omega), if_pos (by omega)]
      have e : src + 2 ^ (k + 1) + i - (src + 2 ^ (k + 1)) = i := by omega
      rw [e, Nat.add_assoc]
    apply ih
    · intro i hi
      rw [hval i hi]
      exact dvd_add (hdiv (2 * i) (by omega)) (hdiv (2 * i + 1) (by omega))
    · have e : range_sum (fun i =>
          |SumTree.setup_level src (src + 2 ^ (k + 1)) (2 ^ k) c (src + 2 ^ (k + 1) + i)|)
            (2 ^ k) =
          range_sum (fun i => |c (src + 2 * i) + c (src + (2 * i + 1))|) (2 ^ k) :=
        range_sum_congr _ _ _ (fun i hi => by rw [hval i hi])
      rw [e]
      linarith

/-- The walk of `add` rounds nothing when the nodes of the lowest level, before and after the
update, are multiples of `2^j` whose absolute values add up to less than `2^24 * 2^j`. -/
theorem add_levels_float_eq (j : Nat) (v : Int) (hv : ((2 : Int) ^ j) ∣ v) :
    ∀ (k src jdx : Nat) (c : Nat → Int), jdx < 2 ^ k →
      SumTree.consistent k src c →
      (∀ i, i < 2 ^ k → ((2 : Int) ^ j) ∣ c (src + i)) →
      range_sum (fun i => |c (src + i) + (if i = jdx then v else 0)|) (2 ^ k)
        < 16777216 * 2 ^ j →
      SumTree.add_levels_float v k src jdx c = SumTree.add_levels v k src jdx c := by
  intro k
  induction k with
  | zero =>
    intro src jdx c hj _ hdiv hsum
    have hj0 : jdx = 0 := by simpa using hj
    subst hj0
    show store c (src + 0) (float_add (c (src + 0)) v) = store c (src + 0) (c (src + 0) + v)
    rw [float_add_exact _ _ j (hdiv 0 (by simp)) hv]
    have h1 := term_le_range_sum (fun i => |c (src + i) + (if i = 0 then v else 0)|)
      (fun _ => abs_nonneg _) (2 ^ 0) 0 (by simp)
    simp only [if_true] at h1
    linarith
  | succ k ih =>
    intro src jdx c hj hc hdiv hsum
    obtain ⟨hc1, hc2⟩ := hc
    have hp : 0 < 2 ^ k := Nat.two_pow_pos k
    have hs : 2 ^ (k + 1) = 2 * 2 ^ k := by rw [Nat.pow_succ, Nat.mul_comm]
    have hnode : float_add (c (src + jdx)) v = c (src + jdx) + v := by
      apply float_add_exact _ _ j (hdiv jdx hj) hv
      have h1 := term_le_range_sum (fun i => |c (src + i) + (if i = jdx then v else 0)|)
        (fun _ => abs_nonneg _) (2 ^ (k + 1)) jdx hj
      simp only [if_true] at h1
      linarith
    show SumTree.add_levels_float v k (src + 2 ^ (k + 1)) (jdx / 2)
        (store c (src + jdx) (float_add (c (src + jdx)) v)) =
      SumTree.add_levels v k (src + 2 ^ (k + 1)) (jdx / 2)
        (store c (src + jdx) (c (src + jdx) + v))
    rw [hnode]
    have hup : ∀ i, i < 2 ^ k →
        store c (src + jdx) (c (src + jdx) + v) (src + 2 ^ (k + 1) + i) =
          c (src + 2 * i) + c (src + 2 * i + 1) := by
      intro i hi
      rw [store_other _ _ _ _ (by omega), hc1 i hi]
    apply ih
    · omega
    · exact consistent_congr k _ c _ (fun x hx => store_other _ _ _ _ (by omega)) hc2
    · intro i hi
      rw [hup i hi]
      exact dvd_add (hdiv (2 * i) (by omega))
        (by have := hdiv (2 * i + 1) (by omega); rw [← Nat.add_assoc] at this; exact this)
    · have hpair := abs_pairs_le (fun i => c (src + i) + (if i = jdx then v else 0)) (2 ^ k)
      rw [← hs] at hpair
      have e : range_sum (fun i =>
          |store c (src + jdx) (c (src + jdx) + v) (src + 2 ^ (k + 1) + i) +
            (if i = jdx / 2 then v else 0)|) (2 ^ k) =
          range_sum (fun i =>
            |(c (src + 2 * i) + (if 2 * i = jdx then v else 0)) +
              (c (src + (2 * i + 1)) + (if 2 * i + 1 = jdx then v else 0))|) (2 ^ k) := by
        apply range_sum_congr
        intro i hi
        rw [hup i hi, Nat.add_assoc]
        congr 1
        by_cases h1 : i = jdx / 2
        · rw [if_pos h1]
          by_cases h2 : 2 * i = jdx
          · rw [if_pos h2, if_neg (by omega)]; ring
          · rw [if_neg h2, if_pos (by omega)]; ring
        · rw [if_neg h1, if_neg (by omega), if_neg (by omega)]; ring
      rw [e]
      linarith

theorem float_exact_leaves_spec (j size : Nat) (leaf : Nat → Int)
    (h : float_exact_leaves j size leaf = true) :
    (∀ i, i < size → ((2 : Int) ^ j) ∣ leaf i) ∧
    range_sum (fun i => |leaf i|) size < 8388608 * 2 ^ j := by
  unfold float_exact_leaves at h
  simp only [Bool.and_eq_true, List.all_eq_true, List.mem_range, beq_iff_eq,
    decide_eq_true_eq] at h
  refine ⟨fun i hi => Int.dvd_of_emod_eq_zero (h.1 i hi), ?_⟩
  have e : (2 : Int) ^ 23 = 8388608 := by norm_num
  rw [← e]
  exact h.2

/-- The update `add(i, v)` rounds nothing on a tree whose leaves, before and after it, are
multiples of `2^j` with absolute values adding up to less than `2^24 * 2^j`. -/
theorem add_float_eq (j size : Nat) (c leaf newleaf : Nat → Int) (i : Nat) (v : Int)
    (hi : i < size) (hv : ((2 : Int) ^ j) ∣ v)
    (h1 : SumTree.consistent (SumTree.levels size) 0 c)
    (h2 : ∀ m, size ≤ m → m < 2 ^ SumTree.levels size → c m = 0)
    (h3 : ∀ m, m < size → c m = leaf m)
    (hdiv : ∀ m, m < size → ((2 : Int) ^ j) ∣ leaf m)
    (hnew : ∀ m, m < size → newleaf m = leaf m + (if m = i then v else 0))
    (hsum : range_sum (fun m => |newleaf m|) size < 16777216 * 2 ^ j) :
    SumTree.add_float size c i v = SumTree.add size c i v := by
  have hle := size_le_padded size
  unfold SumTree.add_float SumTree.add
  apply add_levels_float_eq j v hv (SumTree.levels size) 0 i c (by omega) h1
  · intro m hm
    rw [Nat.zero_add]
    by_cases hms : m < size
    · rw [h3 m hms]; exact hdiv m hms
    · rw [h2 m (by omega) hm]; exact dvd_zero _
  · have e1 : range_sum (fun m => |c (0 + m) + (if m = i then v else 0)|)
        (2 ^ SumTree.levels size) =
        range_sum (fun m => |c (0 + m) + (if m = i then v else 0)|) size := by
      apply range_sum_zero_tail _ size _ hle
      intro m hm1 hm2
      rw [Nat.zero_add, h2 m hm1 hm2, if_neg (by omega)]
      simp
    have e2 : range_sum (fun m => |c (0 + m) + (if m = i then v else 0)|) size =
        range_sum (fun m => |newleaf m|) size := by
      apply range_sum_congr
      intro m hm
      rw [Nat.zero_add, h3 m hm, hnew m hm]
    rw [e1, e2]
    exact hsum

/-- An update rounds nothing on a tree whose leaves, before and after it, are multiples of
`2^j` with absolute values adding up to less than `2^23 * 2^j`. -/
theorem apply_float_eq (j size : Nat) (c leaf : Nat → Int) (op : SumTreeOp)
    (hop : op.index < size) (hv : op.value % 2 ^ j = 0)
    (h1 : SumTree.consistent (SumTree.levels size) 0 c)
    (h2 : ∀ m, size ≤ m → m < 2 ^ SumTree.levels size → c m = 0)
    (h3 : ∀ m, m < size → c m = leaf m)
    (hold : float_exact_leaves j size leaf = true)
    (hnew : float_exact_leaves j size (op.leaves leaf) = true) :
    op.apply_float size c = op.apply size c := by
  obtain ⟨d1, s1⟩ := float_exact_leaves_spec j size leaf hold
  obtain ⟨d2, s2⟩ := float_exact_leaves_spec j size _ hnew
  have hp : (0 : Int) < 2 ^ j := by positivity
  cases op with
  | add i v =>
    apply add_float_eq j size c leaf (store leaf i (leaf i + v)) i v hop
      (Int.dvd_of_emod_eq_zero hv) h1 h2 h3 d1
    · intro m _
      by_cases hm : m = i
      · subst hm; rw [store_same, if_pos rfl]
      · rw [store_other _ _ _ _ hm, if_neg hm, add_zero]
    · have : range_sum (fun m => |store leaf i (leaf i + v) m|) size < 8388608 * 2 ^ j := s2
      linarith
  | set i v =>
    have hvd : ((2 : Int) ^ j) ∣ v := Int.dvd_of_emod_eq_zero hv
    have hci : c i = leaf i := h3 i hop
    have hdiff : float_add v (-(c i)) = v - c i := by
      have e := float_add_exact v (-(c i)) j hvd (by rw [hci]; exact (dvd_neg.2 (d1 i hop)))
        (by
          have b1 := term_le_range_sum (fun m => |leaf m|) (fun _ => abs_nonneg _) size i hop
          have b2 := term_le_range_sum (fun m => |store leaf i v m|) (fun _ => abs_nonneg _)
            size i hop
          simp only [store_same] at b1 b2
          have s2x : range_sum (fun m => |store leaf i v m|) size < 8388608 * 2 ^ j := s2
          have b3 : |v + -(c i)| ≤ |v| + |c i| := by
            have := abs_add v (-(c i))
            rw [abs_neg] at this
            exact this
          rw [← hci] at b1
          linarith)
      rw [e]; ring
    show SumTree.add_float size c i (float_add v (-(c i))) = SumTree.add size c i (v - c i)
    rw [hdiff]
    apply add_float_eq j size c leaf (store leaf i v) i (v - c i) hop
      (dvd_sub hvd (by rw [hci]; exact d1 i hop)) h1 h2 h3 d1
    · intro m _
      by_cases hm : m = i
      · subst hm; rw [store_same, if_pos rfl, hci]; ring
      · rw [store_other _ _ _ _ hm, if_neg hm, add_zero]
    · have : range_sum (fun m => |store leaf i v m|) size < 8388608 * 2 ^ j := s2
      linarith

theorem float_exact_head (j size : Nat) (leaf : Nat → Int) (ops : List SumTreeOp)
    (h : SumTreeOp.float_exact j size leaf ops = true) :
    float_exact_leaves j size leaf = true := by
  cases ops with
  | nil => exact h
  | cons op ops =>
    unfold SumTreeOp.float_exact at h
    simp only [Bool.and_eq_true] at h
    exact h.1.1

/-- A sequence of updates rounds nothing when the leaves stay multiples of `2^j` with absolute
values adding up to less than `2^23 * 2^j`. -/
theorem foldl_apply_float_eq (j size : Nat) :
    ∀ (ops : List SumTreeOp) (c leaf : Nat → Int),
      (∀ op ∈ ops, SumTreeOp.index op < size) →
      SumTreeOp.float_exact j size leaf ops = true →
      SumTree.consistent (SumTree.levels size) 0 c →
      (∀ i, size ≤ i → i < 2 ^ SumTree.levels size → c i = 0) →
      (∀ i, i < size → c i = leaf i) →
      ops.foldl (SumTreeOp.apply_float size) c = ops.foldl (SumTreeOp.apply size) c := by
  intro ops
  induction ops with
  | nil => intro _ _ _ _ _ _ _; rfl
  | cons op ops ih =>
    intro c leaf hops hex h1 h2 h3
    have hex2 := hex
    unfold SumTreeOp.float_exact at hex2
    simp only [Bool.and_eq_true, beq_iff_eq] at hex2
    obtain ⟨⟨hl, hv⟩, hrest⟩ := hex2
    have hstep := apply_float_eq j size c leaf op (hops op (List.mem_cons_self _ _)) hv h1 h2 h3
      hl (float_exact_head j size _ ops hrest)
    obtain ⟨k1, k2, k3⟩ := sum_tree_apply_inv size c leaf op
      (hops op (List.mem_cons_self _ _)) h1 h2 h3
    rw [List.foldl_cons, List.foldl_cons, hstep]
    exact ih _ _ (fun o ho => hops o (List.mem_cons_of_mem _ ho)) hrest k1 k2 k3

/-- The pass of `setup` rounds nothing on leaves that are multiples of `2^j` with absolute
values adding up to less than `2^23 * 2^j`. -/
theorem setup_float_eq (j size : Nat) (cells : Nat → Int)
    (h : float_exact_leaves j size cells = true) :
    SumTree.setup_float size cells 0 = SumTree.setup size cells 0 := by
  obtain ⟨d1, s1⟩ := float_exact_leaves_spec j size cells h
  have hp : (0 : Int) < 2 ^ j := by positivity
  have hle := size_le_padded size
  have hpad := pad_spec size 0 cells (next_power_of_two size)
  unfold SumTree.setup_float SumTree.setup
  simp only []
  apply setup_levels_float_eq j
  · intro i hi
    rw [Nat.zero_add, hpad]
    split_ifs
    · exact dvd_zero _
    · exact d1 i (by rw [next_power_of_two_levels] at *; omega)
  · have e1 : range_sum (fun i => |(List.range (next_power_of_two size)).foldl
          (fun c i => if i < size then c else store c i 0) cells (0 + i)|)
          (2 ^ SumTree.levels size) =
        range_sum (fun i => |(List.range (next_power_of_two size)).foldl
          (fun c i => if i < size then c else store c i 0) cells (0 + i)|) size := by
      apply range_sum_zero_tail _ size _ hle
      intro i hi1 hi2
      rw [Nat.zero_add, hpad, if_pos ⟨hi1, by rw [next_power_of_two_levels]; exact hi2⟩]
      simp
    have e2 : range_sum (fun i => |(List.range (next_power_of_two size)).foldl
          (fun c i => if i < size then c else store c i 0) cells (0 + i)|) size =
        range_sum (fun i => |cells i|) size := by
      apply range_sum_congr
      intro i hi
      rw [Nat.zero_add, hpad, if_neg (by omega)]
    rw [e1, e2]
    linarith

/-- C27 (as stated, refuted): the weights `16777216 = 2^24` and `1` are both `float` values,
but their sum `16777217` is not: the root `setup()` computes for the tree over these two
leaves is `16777216`, not the arithmetic sum of the leaves. -/
theorem sum_tree_sum_counterexample :
    float_round 16777216 = 16777216 ∧ float_round 1 = 1 ∧
    SumTree.sum 2 (SumTree.setup_float 2 (fun i => [16777216, 1].getD i 0) 0) = 16777216 ∧
    range_sum (fun i => [16777216, 1].getD i 0) 2 = 16777217 := by
  refine ⟨by decide, by decide, ?_, by decide⟩
  rw [sum_tree_sum_two]
  have h1 : SumTree.levels 2 = 1 := by simp [SumTree.levels, Nat.log2]
  have h2 : next_power_of_two 2 = 2 := by simp [next_power_of_two, Nat.log2]
  unfold SumTree.setup_float
  rw [h1, h2]
  decide

/-- C27 (amended): for a sum tree over `size <= 2^31` leaves with `float` weights that are
multiples of a unit `2^j` and whose absolute values add up to less than `2^23` units, at the
start and after every update (so that every sum of leaves, and every difference `set`
computes, is a `float` value): after `setup()` and any sequence of `add(i, v)` and
`set(i, v)` operations with `i < size`, `sum()` (the root, stored at index
`2 * padded_size - 2`) equals the sum of the current leaf values, which are the values the
operations are meant to leave; the padding leaves stay zero, so the sum over all
`padded_size` leaves is the same. -/
theorem sum_tree_sum (j size : Nat) (cells0 : Nat → Int) (ops : List SumTreeOp)
    (hsize : size ≤ 2147483648) (hops : ∀ op ∈ ops, SumTreeOp.index op < size)
    (hexact : SumTreeOp.float_exact j size cells0 ops = true) :
    SumTree.sum size (ops.foldl (SumTreeOp.apply_float size) (SumTree.setup_float size cells0 0))
      = range_sum (ops.foldl SumTreeOp.leaves cells0) size ∧
    (∀ i, i < size →
      ops.foldl (SumTreeOp.apply_float size) (SumTree.setup_float size cells0 0) i =
        ops.foldl SumTreeOp.leaves cells0 i) ∧
    (∀ i, size ≤ i → i < next_power_of_two size →
      ops.foldl (SumTreeOp.apply_float size) (SumTree.setup_float size cells0 0) i = 0) ∧
    SumTree.sum size (ops.foldl (SumTreeOp.apply_float size) (SumTree.setup_float size cells0 0))
      = range_sum (ops.foldl (SumTreeOp.apply_float size) (SumTree.setup_float size cells0 0))
        (next_power_of_two size) := by
  obtain ⟨s1, s2, s3⟩ := sum_tree_setup_inv size cells0
  have e1 := setup_float_eq j size cells0 (float_exact_head j size cells0 ops hexact)
  have e2 := foldl_apply_float_eq j size ops (SumTree.setup size cells0 0) cells0 hops hexact
    s1 s2 s3
  rw [e1, e2]
  exact sum_tree_exact_sum size cells0 ops hsize hops

/-- C27 witness: a tree over 3 leaves with values 5, 7, 2 (and other values in the rest of the
storage), after `setup`, `add(1, 3)`, `set(0, 10)` and `add(2, -2)`: the leaves are 10, 10, 0
and `sum()` is 20. -/
theorem sum_tree_sum_witness :
    range_sum ([SumTreeOp.add 1 3, SumTreeOp.set 0 10, SumTreeOp.add 2 (-2)].foldl
      SumTreeOp.leaves (fun i => [5, 7, 2, 99, 1, 1, 1].getD i 0)) 3 = 20 ∧
    SumTree.sum 3 ([SumTreeOp.add 1 3, SumTreeOp.set 0 10, SumTreeOp.add 2 (-2)].foldl
        (SumTreeOp.apply_float 3)
        (SumTree.setup_float 3 (fun i => [5, 7, 2, 99, 1, 1, 1].getD i 0) 0)) =
      range_sum ([SumTreeOp.add 1 3, SumTreeOp.set 0 10, SumTreeOp.add 2 (-2)].foldl
        SumTreeOp.leaves (fun i => [5, 7, 2, 99, 1, 1, 1].getD i 0)) 3 :=
  ⟨by decide,
   (sum_tree_sum 0 3 (fun i => [5, 7, 2, 99, 1, 1, 1].getD i 0)
      [SumTreeOp.add 1 3, SumTreeOp.set 0 10, SumTreeOp.add 2 (-2)]
      (by decide) (by decide) (by decide)).1⟩

theorem hits_inv_store (hits : Nat → HitDeque) (rid : Nat) (d : HitDeque)
    (hinv : hits_below_top_nonempty hits)
    (hd : ∀ hit, hit ∈ d.data.tail → hit ∈ (hits rid).data.tail) :
    hits_below_top_nonempty (store hits rid d) := by
  intro r hit hh
  by_cases hr : r = rid
  · rw [hr, store_same] at hh
    exact hinv rid hit (hd hit hh)
  · rw [store_other _ _ _ _ hr] at hh
    exact hinv r hit hh

theorem select_kernel_inv (stop : Nat → Bool) (thread_id : Nat) (st : SelectState)
    (hinv : hits_below_top_nonempty st.hits) :
    hits_below_top_nonempty (select_kernel stop thread_id st).hits ∧
    (((select_kernel stop thread_id st).out_size = st.out_size ∧
      (select_kernel stop thread_id st).hit_queue = st.hit_queue) ∨
     (∃ sel, sel ∈ (st.hits (st.in_queue thread_id).read_id).data ∧
        sel.range_x < sel.range_y ∧
        (select_kernel stop thread_id st).out_size = st.out_size + 1 ∧
        ((select_kernel stop thread_id st).hit_queue st.out_size).loc = sel.range_x ∧
        (∀ slot, slot ≠ st.out_size →
          (select_kernel stop thread_id st).hit_queue slot = st.hit_queue slot))) := by
  by_cases h1 : thread_id ≥ st.in_size
  · have e : select_kernel stop thread_id st = st := by
      unfold select_kernel
      rw [if_pos h1]
    rw [e]
    exact ⟨hinv, Or.inl ⟨rfl, rfl⟩⟩
  · by_cases h2 : stop (st.in_queue thread_id).read_id = true
    · have e : select_kernel stop thread_id st = st := by
        unfold select_kernel
        simp only [h1, h2, if_true, if_false]
      rw [e]
      exact ⟨hinv, Or.inl ⟨rfl, rfl⟩⟩
    · have h2f : stop (st.in_queue thread_id).read_id = false := by simpa using h2
      cases hdata : (st.hits (st.in_queue thread_id).read_id).data with
      | nil =>
        have e : select_kernel stop thread_id st = st := by
          unfold select_kernel
          simp only [h1, h2f, if_false, hdata, Bool.false_eq_true]
        rw [e]
        exact ⟨hinv, Or.inl ⟨rfl, rfl⟩⟩
      | cons hit rest =>
        by_cases hx : hit.range_x ≥ hit.range_y
        · cases rest with
          | nil =>
            unfold select_kernel
            simp only [h1, h2f, if_false, hdata, hx, if_true, Bool.false_eq_true]
            refine ⟨?_, Or.inl ⟨trivial, trivial⟩⟩
            apply hits_inv_store _ _ _ hinv
            intro h hh
            exact absurd hh (List.not_mem_nil _)
          | cons hit2 rest2 =>
            have h2ne : hit2.range_x < hit2.range_y := by
              apply hinv (st.in_queue thread_id).read_id hit2
              rw [hdata]
              exact List.mem_cons_self _ _
            unfold select_kernel
            simp only [h1, h2f, if_false, hdata, hx, if_true, Bool.false_eq_true]
            refine ⟨?_, Or.inr ⟨hit2, ?_, h2ne, rfl, ?_, ?_⟩⟩
            · unfold emit_hit
              apply hits_inv_store _ _ _ hinv
              intro h hh
              rw [hdata]
              simp only [List.set_cons_zero, List.tail_cons] at hh ⊢
              exact List.mem_cons_of_mem _ hh
            · exact List.mem_cons_of_mem _ (List.mem_cons_self _ _)
            · unfold emit_hit
              simp only [store_same, SeedHit.pop_front]
            · intro slot hs
              unfold emit_hit
              exact store_other _ _ _ _ hs
        · unfold select_kernel
          simp only [h1, h2f, if_false, hdata, hx, Bool.false_eq_true]
          refine ⟨?_, Or.inr ⟨hit, List.mem_cons_self _ _, by omega, rfl, ?_, ?_⟩⟩
          · unfold emit_hit
            apply hits_inv_store _ _ _ hinv
            intro h hh
            rw [hdata] at hh ⊢
            simp only [List.set_cons_zero, List.tail_cons] at hh ⊢
            exact hh
          · unfold emit_hit
            simp only [store_same, SeedHit.pop_front]
          · intro slot hs
            unfold emit_hit
            exact store_other _ _ _ _ hs

theorem select_multi_step_hits_inv (read_id : Nat) (s : MultiLoop)
    (hinv : hits_below_top_nonempty s.st.hits) :
    hits_below_top_nonempty (select_multi_step read_id s).st.hits := by
  by_cases ha : s.active = true
  · cases hdata : (s.st.hits read_id).data with
    | nil =>
      rw [select_multi_step_empty read_id s ha hdata]
      exact hinv
    | cons hit rest =>
      by_cases hx : hit.range_x ≥ hit.range_y
      · cases rest with
        | nil =>
          rw [select_multi_step_last read_id s hit ha hdata hx]
          apply hits_inv_store _ _ _ hinv
          intro h hh
          exact absurd hh (List.not_mem_nil _)
        | cons hit2 rest2 =>
          rw [select_multi_step_next read_id s hit hit2 rest2 ha hdata hx]
          unfold multi_emit
          apply hits_inv_store _ _ _ hinv
          intro h hh
          rw [hdata]
          simp only [List.tail_cons] at hh ⊢
          exact List.mem_cons_of_mem _ hh
      · rw [select_multi_step_live read_id s hit rest ha hdata hx]
        unfold multi_emit
        apply hits_inv_store _ _ _ hinv
        intro h hh
        rw [hdata]
        simp only [List.tail_cons] at hh ⊢
        exact hh
  · rw [select_multi_step_idle read_id s (by simpa using ha)]
    exact hinv

theorem select_multi_loop_hits_inv (read_id : Nat) :
    ∀ (n : Nat) (s : MultiLoop), hits_below_top_nonempty s.st.hits →
      hits_below_top_nonempty (select_multi_loop read_id n s).st.hits := by
  intro n
  induction n with
  | zero => intro s h; exact h
  | succ n ih =>
    intro s h
    rw [select_multi_loop]
    exact ih _ (select_multi_step_hits_inv read_id s h)

theorem select_multi_kernel_inv (stop : Nat → Bool) (n_multi thread_id : Nat)
    (st : SelectState) (hinv : hits_below_top_nonempty st.hits) :
    hits_below_top_nonempty (select_multi_kernel stop n_multi thread_id st).hits := by
  unfold select_multi_kernel
  by_cases h1 : thread_id ≥ st.in_size
  · rw [if_pos h1]
    exact hinv
  · rw [if_neg h1]
    by_cases h2 : stop (st.in_queue thread_id).read_id = true
    · simp only [h2, if_true]
      exact hinv
    · simp only [h2, Bool.false_eq_true, if_false]
      by_cases h3 : (st.hits (st.in_queue thread_id).read_id).data.length = 0
      · rw [if_pos h3]
        exact hinv
      · rw [if_neg h3]
        have hl := select_multi_loop_hits_inv (st.in_queue thread_id).read_id n_multi
          { active := true, parent := 4294967295, n_selected_hits := 0,
            top_flag := (st.in_queue thread_id).top_flag, st := st } hinv
        split_ifs
        · exact hl
        · exact hl

theorem foldl_hits_inv (kernel : Nat → SelectState → SelectState)
    (hk : ∀ t st, hits_below_top_nonempty st.hits → hits_below_top_nonempty (kernel t st).hits) :
    ∀ (l : List Nat) (st : SelectState), hits_below_top_nonempty st.hits →
      hits_below_top_nonempty (l.foldl (fun s t => kernel t s) st).hits := by
  intro l
  induction l with
  | nil => intro st h; exact h
  | cons t l ih =>
    intro st h
    rw [List.foldl_cons]
    exact ih _ (hk t st h)

theorem multi_pops_nonempty (n : Nat) :
    ∀ (data : List SeedHit) (tf : Nat),
      (∀ hit, hit ∈ data.tail → hit.range_x < hit.range_y) →
      (∀ e, e ∈ (multi_pops n data tf).1 → e.1 = e.2.1.range_x ∧ e.2.1.range_x < e.2.1.range_y) := by
  induction n with
  | zero =>
    intro data tf _ e he
    simp only [multi_pops] at he
    exact absurd he (List.not_mem_nil _)
  | succ n ih =>
    intro data tf hinv e he
    cases data with
    | nil =>
      simp only [multi_pops] at he
      exact absurd he (List.not_mem_nil _)
    | cons hit rest =>
      have hinv1 : ∀ h, h ∈ rest → h.range_x < h.range_y := fun h hh => hinv h hh
      by_cases hx : hit.range_x ≥ hit.range_y
      · cases rest with
        | nil =>
          rw [multi_pops_last n hit tf hx] at he
          exact absurd he (List.not_mem_nil _)
        | cons hit2 rest2 =>
          rw [multi_pops_next n hit hit2 rest2 tf hx] at he
          have h2 : hit2.range_x < hit2.range_y := hinv1 hit2 (List.mem_cons_self _ _)
          rcases List.mem_cons.1 he with he | he
          · rw [he]
            exact ⟨rfl, h2⟩
          · exact ih (hit2.pop_front.2 :: rest2) 0
              (fun h hh => hinv1 h (List.mem_cons_of_mem _ hh)) e he
      · rw [multi_pops_live n hit rest tf hx] at he
        rcases List.mem_cons.1 he with he | he
        · rw [he]
          exact ⟨rfl, Nat.lt_of_not_ge hx⟩
        · exact ih (hit.pop_front.2 :: rest) tf (fun h hh => hinv1 h hh) e he

/-- Every hit `multi_pops` takes a row from is a hit of the store with its front advanced. -/
theorem multi_pops_from_store (n : Nat) :
    ∀ (data : List SeedHit) (tf : Nat) (e : Nat × SeedHit × Nat),
      e ∈ (multi_pops n data tf).1 →
      ∃ h, h ∈ data ∧ h.range_x ≤ e.2.1.range_x ∧ e.2.1.range_y = h.range_y ∧
        e.2.1.posinread = h.posinread ∧ e.2.1.indexdir = h.indexdir ∧
        e.2.1.readtype = h.readtype := by
  induction n with
  | zero =>
    intro data tf e he
    simp [multi_pops] at he
  | succ n ih =>
    intro data tf e he
    cases data with
    | nil => simp [multi_pops] at he
    | cons hit rest =>
      by_cases hx : hit.range_x ≥ hit.range_y
      · cases rest with
        | nil => simp [multi_pops, hx] at he
        | cons hit2 rest2 =>
          rw [multi_pops_next n hit hit2 rest2 tf hx] at he
          rcases List.mem_cons.1 he with he | he
          · rw [he]
            exact ⟨hit2, List.mem_cons_of_mem _ (List.mem_cons_self _ _), le_rfl, rfl, rfl, rfl,
              rfl⟩
          · obtain ⟨h, hm, h1, h2, h3, h4, h5⟩ := ih (hit2.pop_front.2 :: rest2) 0 e he
            rcases List.mem_cons.1 hm with hm | hm
            · rw [hm] at h1 h2 h3 h4 h5
              refine ⟨hit2, List.mem_cons_of_mem _ (List.mem_cons_self _ _), ?_, h2, h3, h4, h5⟩
              simp only [SeedHit.pop_front] at h1
              omega
            · exact ⟨h, List.mem_cons_of_mem _ (List.mem_cons_of_mem _ hm), h1, h2, h3, h4, h5⟩
      · rw [multi_pops_live n hit rest tf hx] at he
        rcases List.mem_cons.1 he with he | he
        · rw [he]
          exact ⟨hit, List.mem_cons_self _ _, le_rfl, rfl, rfl, rfl, rfl⟩
        · obtain ⟨h, hm, h1, h2, h3, h4, h5⟩ := ih (hit.pop_front.2 :: rest) tf e he
          rcases List.mem_cons.1 hm with hm | hm
          · rw [hm] at h1 h2 h3 h4 h5
            refine ⟨hit, List.mem_cons_self _ _, ?_, h2, h3, h4, h5⟩
            simp only [SeedHit.pop_front] at h1
            omega
          · exact ⟨h, List.mem_cons_of_mem _ hm, h1, h2, h3, h4, h5⟩

/-- The rows a live thread of `select_multi_kernel` emits are those of `multi_pops` on the
store of its read, each the front row of a hit with a non-empty range. -/
theorem select_multi_kernel_rows (stop : Nat → Bool) (n_multi thread_id : Nat)
    (st : SelectState) (hinv : hits_below_top_nonempty st.hits)
    (hout : st.out_size ≠ 4294967295) (ht : thread_id < st.in_size)
    (hstop : stop (st.in_queue thread_id).read_id = false)
    (hne : (st.hits (st.in_queue thread_id).read_id).data ≠ []) :
    (select_multi_kernel stop n_multi thread_id st).hits_pool = st.hits_pool +
        (multi_pops n_multi (st.hits (st.in_queue thread_id).read_id).data
          (st.in_queue thread_id).top_flag).1.length ∧
      ∀ i, i < (multi_pops n_multi (st.hits (st.in_queue thread_id).read_id).data
          (st.in_queue thread_id).top_flag).1.length →
        (select_multi_kernel stop n_multi thread_id st).hit_queue (st.hits_pool + i) =
          hit_entry (st.in_queue thread_id).read_id
            ((multi_pops n_multi (st.hits (st.in_queue thread_id).read_id).data
              (st.in_queue thread_id).top_flag).1.getD i default) ∧
        ((multi_pops n_multi (st.hits (st.in_queue thread_id).read_id).data
              (st.in_queue thread_id).top_flag).1.getD i default).1 =
          ((multi_pops n_multi (st.hits (st.in_queue thread_id).read_id).data
              (st.in_queue thread_id).top_flag).1.getD i default).2.1.range_x ∧
        ((multi_pops n_multi (st.hits (st.in_queue thread_id).read_id).data
              (st.in_queue thread_id).top_flag).1.getD i default).2.1.range_x <
          ((multi_pops n_multi (st.hits (st.in_queue thread_id).read_id).data
              (st.in_queue thread_id).top_flag).1.getD i default).2.1.range_y ∧
        ∃ h, h ∈ (st.hits (st.in_queue thread_id).read_id).data ∧
          h.range_x ≤ ((multi_pops n_multi (st.hits (st.in_queue thread_id).read_id).data
              (st.in_queue thread_id).top_flag).1.getD i default).2.1.range_x ∧
          ((multi_pops n_multi (st.hits (st.in_queue thread_id).read_id).data
              (st.in_queue thread_id).top_flag).1.getD i default).2.1.range_y = h.range_y := by
  have h1 : ¬ (thread_id ≥ st.in_size) := by omega
  have h3 : (st.hits (st.in_queue thread_id).read_id).data.length ≠ 0 := by
    intro h
    exact hne (List.length_eq_zero.1 h)
  have hspec := select_multi_loop_spec (st.in_queue thread_id).read_id n_multi
    { active := true, parent := 4294967295, n_selected_hits := 0,
      top_flag := (st.in_queue thread_id).top_flag, st := st } rfl (fun _ => hout)
  have hnonempty := multi_pops_nonempty n_multi (st.hits (st.in_queue thread_id).read_id).data
    (st.in_queue thread_id).top_flag (fun hit hh => hinv _ hit hh)
  have hfrom := multi_pops_from_store n_multi (st.hits (st.in_queue thread_id).read_id).data
    (st.in_queue thread_id).top_flag
  simp only [] at hspec
  generalize hr : multi_pops n_multi (st.hits (st.in_queue thread_id).read_id).data
    (st.in_queue thread_id).top_flag = r at hspec hnonempty hfrom ⊢
  generalize hs1 : select_multi_loop (st.in_queue thread_id).read_id n_multi
    { active := true, parent := 4294967295, n_selected_hits := 0,
      top_flag := (st.in_queue thread_id).top_flag, st := st } = s1 at hspec
  have hk : (select_multi_kernel stop n_multi thread_id st).hits_pool = s1.st.hits_pool ∧
      (select_multi_kernel stop n_multi thread_id st).hit_queue = s1.st.hit_queue := by
    unfold select_multi_kernel
    simp only [h1, hstop, h3, if_false, Bool.false_eq_true, hs1]
    split_ifs <;> exact ⟨rfl, rfl⟩
  obtain ⟨_, _, a3, _, _, _, _, _, a9, _, _, _, _, _, _, _, _⟩ := hspec
  refine ⟨by rw [hk.1, a3], ?_⟩
  intro i hi
  have hmem : r.1.getD i default ∈ r.1 := by
    rw [List.getD_eq_getElem _ _ hi]
    exact List.getElem_mem _
  obtain ⟨g1, g2⟩ := hnonempty _ hmem
  obtain ⟨h, hm, f1, f2, _⟩ := hfrom _ hmem
  rw [hk.2, a9 i hi]
  exact ⟨rfl, g1, g2, h, hm, f1, f2⟩

/-- A thread of `select_multi_kernel` that is not live leaves the state as it is. -/
theorem select_multi_kernel_not_live (stop : Nat → Bool) (n_multi thread_id : Nat)
    (st : SelectState)
    (h : ¬ (thread_id < st.in_size ∧ stop (st.in_queue thread_id).read_id = false ∧
      (st.hits (st.in_queue thread_id).read_id).data ≠ [])) :
    select_multi_kernel stop n_multi thread_id st = st := by
  unfold select_multi_kernel
  by_cases h1 : thread_id ≥ st.in_size
  · rw [if_pos h1]
  · rw [if_neg h1]
    by_cases h2 : stop (st.in_queue thread_id).read_id = true
    · simp only [h2, if_true]
    · have h2f : stop (st.in_queue thread_id).read_id = false := by simpa using h2
      have h3 : (st.hits (st.in_queue thread_id).read_id).data.length = 0 := by
        by_contra hc
        exact h ⟨by omega, h2f, fun hd => hc (by rw [hd]; rfl)⟩
      simp only [h2f, Bool.false_eq_true, if_false, h3, if_true]

/-- C36: when for every read every stored hit other than the top one has a non-empty range,
`select_kernel` either emits nothing or pops the front row of a stored hit `sel` whose range is
non-empty and emits it, so that the emitted location lies in `[sel.range_x, sel.range_y)`.
A live thread of `select_multi_kernel` (in a state whose counter `out_size` is not the
sentinel) emits exactly the rows `multi_pops` takes from the store of its read: each is the
front row `range_x` of a hit whose range is non-empty at the time of the pop, and that hit is a
hit of the store with its front advanced by the earlier pops; a thread that is not live emits
nothing.  The condition on the stores holds again after either kernel and after a whole round
of deterministic or batched selection, whatever the order of the threads. -/
theorem select_never_pops_empty (stop : Nat → Bool) (n_multi thread_id : Nat)
    (st : SelectState) (sched : List Nat → List Nat) (BLOCKDIM : Nat)
    (hinv : hits_below_top_nonempty st.hits) (hout : st.out_size ≠ 4294967295) :
    (hits_below_top_nonempty (select_kernel stop thread_id st).hits ∧
     (((select_kernel stop thread_id st).out_size = st.out_size ∧
       (select_kernel stop thread_id st).hit_queue = st.hit_queue) ∨
      (∃ sel, sel ∈ (st.hits (st.in_queue thread_id).read_id).data ∧
        sel.range_x < sel.range_y ∧
        (select_kernel stop thread_id st).out_size = st.out_size + 1 ∧
        sel.range_x ≤ ((select_kernel stop thread_id st).hit_queue st.out_size).loc ∧
        ((select_kernel stop thread_id st).hit_queue st.out_size).loc < sel.range_y ∧
        (∀ slot, slot ≠ st.out_size →
          (select_kernel stop thread_id st).hit_queue slot = st.hit_queue slot)))) ∧
    (hits_below_top_nonempty (select_multi_kernel stop n_multi thread_id st).hits ∧
     (thread_id < st.in_size → stop (st.in_queue thread_id).read_id = false →
      (st.hits (st.in_queue thread_id).read_id).data ≠ [] →
      (select_multi_kernel stop n_multi thread_id st).hits_pool = st.hits_pool +
        (multi_pops n_multi (st.hits (st.in_queue thread_id).read_id).data
          (st.in_queue thread_id).top_flag).1.length ∧
      ∀ i, i < (multi_pops n_multi (st.hits (st.in_queue thread_id).read_id).data
          (st.in_queue thread_id).top_flag).1.length →
        (select_multi_kernel stop n_multi thread_id st).hit_queue (st.hits_pool + i) =
          hit_entry (st.in_queue thread_id).read_id
            ((multi_pops n_multi (st.hits (st.in_queue thread_id).read_id).data
              (st.in_queue thread_id).top_flag).1.getD i default) ∧
        ((multi_pops n_multi (st.hits (st.in_queue thread_id).read_id).data
              (st.in_queue thread_id).top_flag).1.getD i default).1 =
          ((multi_pops n_multi (st.hits (st.in_queue thread_id).read_id).data
              (st.in_queue thread_id).top_flag).1.getD i default).2.1.range_x ∧
        ((multi_pops n_multi (st.hits (st.in_queue thread_id).read_id).data
              (st.in_queue thread_id).top_flag).1.getD i default).2.1.range_x <
          ((multi_pops n_multi (st.hits (st.in_queue thread_id).read_id).data
              (st.in_queue thread_id).top_flag).1.getD i default).2.1.range_y ∧
        ∃ h, h ∈ (st.hits (st.in_queue thread_id).read_id).data ∧
          h.range_x ≤ ((multi_pops n_multi (st.hits (st.in_queue thread_id).read_id).data
              (st.in_queue thread_id).top_flag).1.getD i default).2.1.range_x ∧
          ((multi_pops n_multi (st.hits (st.in_queue thread_id).read_id).data
              (st.in_queue thread_id).top_flag).1.getD i default).2.1.range_y = h.range_y) ∧
     (¬ (thread_id < st.in_size ∧ stop (st.in_queue thread_id).read_id = false ∧
        (st.hits (st.in_queue thread_id).read_id).data ≠ []) →
      select_multi_kernel stop n_multi thread_id st = st)) ∧
    hits_below_top_nonempty (select_single stop sched BLOCKDIM st).hits ∧
    hits_below_top_nonempty (select_multi stop sched BLOCKDIM n_multi st).hits := by
  refine ⟨⟨(select_kernel_inv stop thread_id st hinv).1, ?_⟩,
    ⟨select_multi_kernel_inv stop n_multi thread_id st hinv,
      fun ht hstop hne => select_multi_kernel_rows stop n_multi thread_id st hinv hout ht hstop
        hne,
      select_multi_kernel_not_live stop n_multi thread_id st⟩, ?_, ?_⟩
  · rcases (select_kernel_inv stop thread_id st hinv).2 with h | ⟨sel, h1, h2, h3, h4, h5⟩
    · exact Or.inl h
    · exact Or.inr ⟨sel, h1, h2, h3, by omega, by omega, h5⟩
  · unfold select_single launch
    exact foldl_hits_inv (select_kernel stop)
      (fun t s h => (select_kernel_inv stop t s h).1) _ st hinv
  · unfold select_multi launch
    exact foldl_hits_inv (select_multi_kernel stop n_multi)
      (fun t s h => select_multi_kernel_inv stop n_multi t s h) _ st hinv

/-- C36 witness: a store whose exhausted top hit `[3,3)` is followed by the hit `[5,7)`, with
`n_multi = 3`: `select_multi_kernel` discards the top hit and emits the rows 5 and 6 of the
second hit, and `select_kernel` emits row 5. -/
theorem select_never_pops_empty_witness :
    (multi_pops 3
        [{ range_x := 3, range_y := 3, posinread := 0, indexdir := 0, readtype := false },
         { range_x := 5, range_y := 7, posinread := 2, indexdir := 1, readtype := true }] 1).1 =
      [(5, { range_x := 5, range_y := 7, posinread := 2, indexdir := 1, readtype := true }, 0),
       (6, { range_x := 6, range_y := 7, posinread := 2, indexdir := 1, readtype := true }, 0)] ∧
    (select_multi_kernel (fun _ => false) 3 0
      (select_state [{ read_id := 0, top_flag := 1 }]
        [[{ range_x := 3, range_y := 3, posinread := 0, indexdir := 0, readtype := false },
          { range_x := 5, range_y := 7, posinread := 2, indexdir := 1, readtype := true }]]
        (fun _ => 0) 7)).hits_pool = 0 + 2 ∧
    ((select_multi_kernel (fun _ => false) 3 0
      (select_state [{ read_id := 0, top_flag := 1 }]
        [[{ range_x := 3, range_y := 3, posinread := 0, indexdir := 0, readtype := false },
          { range_x := 5, range_y := 7, posinread := 2, indexdir := 1, readtype := true }]]
        (fun _ => 0) 7)).hit_queue (0 + 1)).loc = 6 ∧
    hits_below_top_nonempty (select_multi_kernel (fun _ => false) 3 0
      (select_state [{ read_id := 0, top_flag := 1 }]
        [[{ range_x := 3, range_y := 3, posinread := 0, indexdir := 0, readtype := false },
          { range_x := 5, range_y := 7, posinread := 2, indexdir := 1, readtype := true }]]
        (fun _ => 0) 7)).hits ∧
    ((select_kernel (fun _ => false) 0
      (select_state [{ read_id := 0, top_flag := 1 }]
        [[{ range_x := 3, range_y := 3, posinread := 0, indexdir := 0, readtype := false },
          { range_x := 5, range_y := 7, posinread := 2, indexdir := 1, readtype := true }]]
        (fun _ => 0) 7)).hit_queue 0).loc = 5 := by
  have hinv : hits_below_top_nonempty (select_state [{ read_id := 0, top_flag := 1 }]
      [[{ range_x := 3, range_y := 3, posinread := 0, indexdir := 0, readtype := false },
        { range_x := 5, range_y := 7, posinread := 2, indexdir := 1, readtype := true }]]
      (fun _ => 0) 7).hits := by
    intro r hit hh
    have hdata : ((select_state [{ read_id := 0, top_flag := 1 }]
        [[{ range_x := 3, range_y := 3, posinread := 0, indexdir := 0, readtype := false },
          { range_x := 5, range_y := 7, posinread := 2, indexdir := 1, readtype := true }]]
        (fun _ => 0) 7).hits r).data.tail =
        if r = 0 then
          [{ range_x := 5, range_y := 7, posinread := 2, indexdir := 1, readtype := true }]
        else [] := by
      cases r with
      | zero => rfl
      | succ r => cases r <;> rfl
    rw [hdata] at hh
    split_ifs at hh
    · rw [List.mem_singleton] at hh
      rw [hh]
      decide
    · exact absurd hh (List.not_mem_nil _)
  have h := select_never_pops_empty (fun _ => false) 3 0
    (select_state [{ read_id := 0, top_flag := 1 }]
      [[{ range_x := 3, range_y := 3, posinread := 0, indexdir := 0, readtype := false },
        { range_x := 5, range_y := 7, posinread := 2, indexdir := 1, readtype := true }]]
      (fun _ => 0) 7) List.reverse 4 hinv (by decide)
  obtain ⟨hpool, hrows⟩ := h.2.1.2.1 (by decide) rfl (by decide)
  have hmp : (multi_pops 3
        [{ range_x := 3, range_y := 3, posinread := 0, indexdir := 0, readtype := false },
         { range_x := 5, range_y := 7, posinread := 2, indexdir := 1, readtype := true }] 1).1 =
      [(5, { range_x := 5, range_y := 7, posinread := 2, indexdir := 1, readtype := true }, 0),
       (6, { range_x := 6, range_y := 7, posinread := 2, indexdir := 1, readtype := true }, 0)] :=
    by decide
  refine ⟨hmp, ?_, ?_, h.2.1.1, by decide⟩
  · rw [hpool]
    exact congrArg (fun l => 0 + List.length l) hmp
  · exact (congrArg Hit.loc (hrows 1 (by decide)).1).trans (by decide)

/-- The load of a block reads the pattern at the indices of `query_reads` only. -/
theorem load_query_reads (CHECK_M : Bool) (B : Nat) (query : List Nat) (block : Nat)
    (q_cache : Nat → Nat) (t : Nat) :
    load_query CHECK_M B query block q_cache t =
      if t < B ∧ block + t ∈ query_reads CHECK_M B query.length block then
        query.getD (block + t) 0
      else q_cache t := by
  have hmem : block + t ∈ query_reads CHECK_M B query.length block ↔
      t < B ∧ (CHECK_M = false ∨ block + t < min (block + B) query.length) := by
    unfold query_reads
    simp only [List.mem_map, List.mem_filter, List.mem_range, decide_eq_true_eq]
    constructor
    · rintro ⟨a, ⟨ha, hc⟩, e⟩
      have : a = t := by omega
      subst this
      exact ⟨ha, hc⟩
    · rintro ⟨ht, hc⟩
      exact ⟨t, ⟨ht, hc⟩, rfl⟩
  unfold load_query
  simp only [hmem]
  by_cases ht : t < B
  · simp only [ht, true_and]
  · simp only [ht, false_and]

/-- The value of `end_block` for a window: a multiple of the block width past the blocks of
the loop. -/
theorem end_block_window (B M wb we : Nat) (hB : 0 < B) (hwb : B ∣ wb) (h1 : wb ≤ we)
    (h2 : we ≤ M) (h3 : we = M ∨ B ∣ we) (hne : wb < M ∨ M = 0 ∨ we ≠ M) :
    ∃ nb, end_block_of B M we = wb + nb * B + B ∧
      (we ≠ M → we = wb + nb * B) ∧
      (we = M → wb + nb * B ≤ M ∧ M ≤ wb + nb * B + B ∧ (0 < M → wb + nb * B < M)) := by
  obtain ⟨a, ha⟩ := hwb
  by_cases hwe : we = M
  · subst hwe
    obtain ⟨hend, hle, hge, hlt⟩ := end_block_full B we hB
    have hle2 : a ≤ (we + B - 1) / B - 1 := by
      by_cases h0 : we = 0
      · subst h0
        have : B * a = 0 := by omega
        rcases Nat.mul_eq_zero.1 this with h | h
        · omega
        · omega
      · have hlt2 := hlt (by omega)
        have hw : wb < we := by
          rcases hne with h | h | h
          · exact h
          · omega
          · exact absurd rfl h
        have h1 : a * B < ((we + B - 1) / B - 1 + 1) * B := by
          have e4 : ((we + B - 1) / B - 1 + 1) * B = ((we + B - 1) / B - 1) * B + B := by ring
          have e5 : a * B = wb := by rw [ha]; ring
          omega
        have := Nat.lt_of_mul_lt_mul_right h1
        omega
    have hsum : wb + ((we + B - 1) / B - 1 - a) * B = ((we + B - 1) / B - 1) * B := by
      have e5 : wb = a * B := by rw [ha]; ring
      rw [e5, ← Nat.add_mul]
      congr 1
      omega
    refine ⟨(we + B - 1) / B - 1 - a, ?_, fun h => absurd rfl h, fun _ => ?_⟩
    · rw [hend, hsum, Nat.zero_add]
    · rw [hsum]
      exact ⟨by omega, hge, hlt⟩
  · have hdiv : B ∣ we := by
      rcases h3 with h | h
      · exact absurd h hwe
      · exact h
    obtain ⟨b, hb⟩ := hdiv
    have hab : a ≤ b := by
      have : B * a ≤ B * b := by omega
      exact Nat.le_of_mul_le_mul_left this hB
    have hsum : wb + (b - a) * B = we := by
      have e5 : wb = a * B := by rw [ha]; ring
      have e6 : we = b * B := by rw [hb]; ring
      rw [e5, e6, ← Nat.add_mul]
      congr 1
      omega
    refine ⟨b - a, ?_, fun _ => hsum.symm, fun h => absurd h hwe⟩
    simp only [end_block_of, hwe, if_false]
    rw [hsum]

theorem query_reads_full (B M block x : Nat) (h : x ∈ query_reads false B M block) :
    block ≤ x ∧ x < block + B := by
  unfold query_reads at h
  simp only [List.mem_map, List.mem_filter, List.mem_range] at h
  obtain ⟨t, ⟨ht, _⟩, e⟩ := h
  omega

theorem query_reads_last (B M block x : Nat) (h : x ∈ query_reads true B M block) :
    block ≤ x ∧ x < M := by
  unfold query_reads at h
  simp only [List.mem_map, List.mem_filter, List.mem_range, decide_eq_true_eq,
    Bool.true_eq_false, false_or, lt_min_iff] at h
  obtain ⟨t, ⟨ht, hc⟩, e⟩ := h
  omega

/-- The block of a window that holds a column. -/
theorem block_of_column (B wb c n : Nat) (hB : 0 < B) (h1 : wb ≤ c) (h2 : c < wb + n * B) :
    ∃ k, k < n ∧ wb + k * B ≤ c ∧ c < wb + k * B + B ∧
      ∀ k', wb + k' * B ≤ c → c < wb + k' * B + B → k' = k := by
  have hdm := Nat.div_add_mod (c - wb) B
  have hmod := Nat.mod_lt (c - wb) hB
  have e1 : (c - wb) / B * B = B * ((c - wb) / B) := Nat.mul_comm _ _
  refine ⟨(c - wb) / B, ?_, by omega, by omega, ?_⟩
  · have h3 : (c - wb) / B * B < n * B := by omega
    exact Nat.lt_of_mul_lt_mul_right h3
  · intro k' h3 h4
    symm
    apply Nat.div_eq_of_lt_le
    · omega
    · rw [Nat.succ_mul]; omega

/-- The checked load of the first `n` entries of a block, when every read is in range. -/
theorem load_query32_fold (CHECK_M : Bool) (B : Nat) (query : List Nat) (block : Nat)
    (q_cache : Nat → Nat) (hb : block + B < 4294967296)
    (hin : ∀ t, t < B → (CHECK_M = false ∨ block + t < min (block + B) query.length) →
      block + t < query.length) :
    ∀ n, n ≤ B →
      (List.range n).foldl
        (fun acc t =>
          match acc with
          | none => none
          | some q =>
            if CHECK_M = false ∨
                (block + t) % 4294967296 < min ((block + B) % 4294967296) query.length then
              match query.get? ((block + t) % 4294967296) with
              | none => none
              | some a => some (store q t a)
            else some q)
        (some q_cache) =
      some (fun t => if t < n ∧ (CHECK_M = false ∨ block + t < min (block + B) query.length)
        then query.getD (block + t) 0 else q_cache t) := by
  intro n
  induction n with
  | zero =>
    intro _
    simp only [List.range_zero, List.foldl_nil, Nat.not_lt_zero, false_and, if_false]
  | succ n ih =>
    intro hn
    rw [List.range_succ, List.foldl_append, ih (by omega)]
    simp only [List.foldl_cons, List.foldl_nil]
    have e1 : (block + n) % 4294967296 = block + n := Nat.mod_eq_of_lt (by omega)
    have e2 : (block + B) % 4294967296 = block + B := Nat.mod_eq_of_lt hb
    rw [e1, e2]
    by_cases hc : CHECK_M = false ∨ block + n < min (block + B) query.length
    · rw [if_pos hc]
      have hlt := hin n (by omega) hc
      have hget : query.get? (block + n) = some (query.getD (block + n) 0) := by
        rw [List.getD_eq_getElem?_getD, List.get?_eq_getElem?, List.getElem?_eq_getElem hlt]
        rfl
      rw [hget]
      simp only [Option.some.injEq]
      funext t
      by_cases ht : t = n
      · subst ht
        rw [store_same, if_pos ⟨by omega, hc⟩]
      · rw [store_other _ _ _ _ ht]
        by_cases h1 : t < n ∧ (CHECK_M = false ∨ block + t < min (block + B) query.length)
        · rw [if_pos h1, if_pos ⟨by omega, h1.2⟩]
        · rw [if_neg h1, if_neg (by intro h; exact h1 ⟨by omega, h.2⟩)]
    · rw [if_neg hc]
      simp only [Option.some.injEq]
      funext t
      by_cases h1 : t < n ∧ (CHECK_M = false ∨ block + t < min (block + B) query.length)
      · rw [if_pos h1, if_pos ⟨by omega, h1.2⟩]
      · rw [if_neg h1, if_neg (by
          intro h
          by_cases ht : t = n
          · subst ht; exact hc h.2
          · exact h1 ⟨by omega, h.2⟩)]

/-- The checked load of a block is the load, when every read is in range. -/
theorem load_query32_some (CHECK_M : Bool) (B : Nat) (query : List Nat) (block : Nat)
    (q_cache : Nat → Nat) (hb : block + B < 4294967296)
    (hin : ∀ t, t < B → (CHECK_M = false ∨ block + t < min (block + B) query.length) →
      block + t < query.length) :
    load_query32 CHECK_M B query block q_cache =
      some (load_query CHECK_M B query block q_cache) := by
  have h := load_query32_fold CHECK_M B query block q_cache hb hin B le_rfl
  have e : (fun t => if t < B ∧ (CHECK_M = false ∨ block + t < min (block + B) query.length)
      then query.getD (block + t) 0 else q_cache t) = load_query CHECK_M B query block q_cache :=
    rfl
  rw [e] at h
  exact h

/-- The cell loop of `update_row` in `int32`, run for `n` cells none of whose sums wraps. -/
theorem update_cells32_eq {σ : Type} (C : Context σ) (TYPE : AlignmentType)
    (block M i N r_i : Nat) (q : Nat → Nat) (V S G I : Int) (ctx : σ) (band : Nat → Int)
    (prev : Int) (row : Nat → Int) (h0 : row 0 = band 0)
    (hrow : ∀ d, row (d + 1) = cell_score TYPE (band (d + 1) + G) (row d + I)
      ((if d = 0 then prev else band d) + (if r_i = q d then V else S))) :
    ∀ n, block + n ≤ 4294967296 →
      (∀ t, t < n →
        to_int32 (band (t + 1) + G) = band (t + 1) + G ∧
        to_int32 (row t + I) = row t + I ∧
        to_int32 ((if t = 0 then prev else band t) + (if r_i = q t then V else S)) =
          (if t = 0 then prev else band t) + (if r_i = q t then V else S)) →
      (List.range' 1 n).foldl (update_cell32 C TYPE block M i N r_i q V S G I)
          { context := ctx, band := band, prev := prev } =
        (List.range' 1 n).foldl (update_cell C TYPE block M i N r_i q V S G I)
          { context := ctx, band := band, prev := prev } := by
  intro n
  induction n with
  | zero => intro _ _; rfl
  | succ n ih =>
    intro hb hfit
    rw [List.range'_concat, List.foldl_append, List.foldl_append, ih (by omega)
      (fun t ht => hfit t (by omega)),
      update_cells_spec C TYPE block M i N r_i q V S G I ctx band prev row h0 hrow n]
    simp only [List.foldl_cons, List.foldl_nil, update_cell32, update_cell, one_mul]
    have e1 : 1 + n - 1 = n := by omega
    have e2 : block + (1 + n) - 1 = block + n := by omega
    have e4 : (block + n) % 4294967296 = block + n := Nat.mod_eq_of_lt (by omega)
    have hb1 : ¬ (1 ≤ 1 + n ∧ 1 + n ≤ n) := by omega
    have hbn : (if 1 ≤ n ∧ n ≤ n then row n else band n) = row n := by
      by_cases hn : n = 0
      · subst hn; simp [h0]
      · have : 1 ≤ n ∧ n ≤ n := by omega
        simp [this]
    have e3 : (1 : Nat) + n = n + 1 := by omega
    obtain ⟨f1, f2, f3⟩ := hfit n (by omega)
    simp only [e1, e2, e4, hb1, if_false, hbn]
    rw [e3, f1, f2, f3]

theorem to_int32_sum (x y X c : Int) (hx : -X ≤ x ∧ x ≤ X) (hy : -c ≤ y ∧ y ≤ c)
    (hX : X + c ≤ 2147483647) : to_int32 (x + y) = x + y :=
  to_int32_of_range (x + y) (by omega) (by omega)

/-- One call of `update_row` in `int32` on row `i` of a block whose cells follow a matrix `W`
with entries bounded by `X`, for costs bounded by `c` with `X + c` within `int32`. -/
theorem update_row32_eq {σ τ : Type} (CHECK_M : Bool) (C : Context σ) (K : Sink τ) (B : Nat)
    (TYPE : AlignmentType) (block M i N r_i : Nat) (q : Nat → Nat) (V S G I : Int)
    (rs : RowState σ τ) (W : Nat → Nat → Int) (sub : Nat → Nat → Int) (o : Nat) (X c : Int)
    (hband : ∀ k, k ≤ B → rs.band k = W i (o + k))
    (hti : rs.temp_i = W i o)
    (htemp : rs.temp i = W (i + 1) o)
    (hrec : ∀ d, d < B → W (i + 1) (o + d + 1) =
      cell_score TYPE (W i (o + d + 1) + G) (W (i + 1) (o + d) + I) (W i (o + d) + sub i (o + d)))
    (hq : ∀ d, d < B → (if r_i = q d then V else S) = sub i (o + d))
    (hV : -c ≤ V ∧ V ≤ c) (hS : -c ≤ S ∧ S ≤ c) (hG : -c ≤ G ∧ G ≤ c) (hI : -c ≤ I ∧ I ≤ c)
    (hX : X + c ≤ 2147483647)
    (hW1 : ∀ d, d ≤ B → -X ≤ W i (o + d) ∧ W i (o + d) ≤ X)
    (hW2 : ∀ d, d ≤ B → -X ≤ W (i + 1) (o + d) ∧ W (i + 1) (o + d) ≤ X)
    (hblock : block + B < 4294967296) (hi : i + 1 < 4294967296) :
    update_row32 CHECK_M C K B TYPE block M i N r_i q V S G I rs =
      update_row CHECK_M C K B TYPE block M i N r_i q V S G I rs := by
  have habove : ∀ d, d ≤ B →
      (if d = 0 then rs.temp_i else store rs.band 0 (rs.temp i) d) = W i (o + d) := by
    intro d hd
    by_cases h : d = 0
    · subst h; simp [hti]
    · simp only [h, if_false]; rw [store_other _ _ _ _ h]; exact hband d hd
  have hrow : ∀ d, d ≤ B →
      dp_next_row TYPE G I (fun k => if k = 0 then rs.temp_i else store rs.band 0 (rs.temp i) k)
        (store rs.band 0 (rs.temp i) 0) (fun d => if r_i = q d then V else S) d
        = W (i + 1) (o + d) := by
    apply dp_next_row_eq TYPE G I _ _ _ (fun d => W (i + 1) (o + d)) B
    · simp [store_same, htemp]
    · intro d hd
      have h1 : (if d + 1 = 0 then rs.temp_i else store rs.band 0 (rs.temp i) (d + 1))
          = W i (o + d + 1) := by
        simp only [Nat.succ_ne_zero, if_false]
        rw [store_other _ _ _ _ (by omega)]
        exact hband (d + 1) (by omega)
      simp only [h1, habove d (by omega), hq d hd]
      exact hrec d hd
  have hcells := update_cells32_eq C TYPE block M i N r_i q V S G I rs.context
    (store rs.band 0 (rs.temp i)) rs.temp_i
    (dp_next_row TYPE G I (fun k => if k = 0 then rs.temp_i else store rs.band 0 (rs.temp i) k)
        (store rs.band 0 (rs.temp i) 0) (fun d => if r_i = q d then V else S)) rfl
    (by intro d; simp [dp_next_row]) B (by omega)
    (by
      intro t ht
      have hs : -c ≤ (if r_i = q t then V else S) ∧ (if r_i = q t then V else S) ≤ c := by
        split_ifs
        · exact hV
        · exact hS
      refine ⟨?_, ?_, ?_⟩
      · rw [store_other _ _ _ _ (by omega), hband (t + 1) (by omega)]
        exact to_int32_sum _ _ X c (hW1 (t + 1) (by omega)) hG hX
      · rw [hrow t (by omega)]
        exact to_int32_sum _ _ X c (hW2 t (by omega)) hI hX
      · rw [habove t (by omega)]
        exact to_int32_sum _ _ X c (hW1 t (by omega)) hs hX)
  have hi1 : (i + 1) % 4294967296 = i + 1 := Nat.mod_eq_of_lt hi
  unfold update_row32 update_row
  simp only [hcells, hi1]
  congr 1
  by_cases hT : TYPE = LOCAL
  · simp only [hT, if_true]
    cases CHECK_M with
    | true =>
      simp only [if_true]
      apply List.foldl_ext
      intro s t ht
      have htB := List.mem_range'_1.1 ht
      have e : (block + t) % 4294967296 = block + t := Nat.mod_eq_of_lt (by omega)
      rw [e]
    | false =>
      simp only [Bool.false_eq_true, if_false]
      apply List.foldl_ext
      intro s t ht
      have htB := List.mem_range'_1.1 ht
      have e : (block + t) % 4294967296 = block + t := Nat.mod_eq_of_lt (by omega)
      rw [e]
  · simp only [hT, if_false]

/-- The row loop of a block in `int32` whose cells follow a matrix `W` with bounded entries. -/
theorem rows32_eq {σ τ : Type} (CHECK_M : Bool) (C : Context σ) (K : Sink τ) (B : Nat)
    (TYPE : AlignmentType) (block M N : Nat) (ref : List Nat) (q : Nat → Nat) (V S G I : Int)
    (rs0 : RowState σ τ) (W : Nat → Nat → Int) (sub : Nat → Nat → Int) (c0 o : Nat) (X c : Int)
    (hB : 0 < B) (hb : block = c0 + o)
    (hband0 : ∀ k, k ≤ B → rs0.band k = W 0 (o + k))
    (hti0 : rs0.temp_i = W 0 o)
    (htemp : ∀ i, i < N → rs0.temp i = W (i + 1) o)
    (hrec : ∀ i, i < N → ∀ d, d < B → W (i + 1) (o + d + 1) =
      cell_score TYPE (W i (o + d + 1) + G) (W (i + 1) (o + d) + I) (W i (o + d) + sub i (o + d)))
    (hq : ∀ i, i < N → ∀ d, d < B → (if ref.getD i 0 = q d then V else S) = sub i (o + d))
    (hV : -c ≤ V ∧ V ≤ c) (hS : -c ≤ S ∧ S ≤ c) (hG : -c ≤ G ∧ G ≤ c) (hI : -c ≤ I ∧ I ≤ c)
    (hX : X + c ≤ 2147483647)
    (hW : ∀ i, i ≤ N → ∀ d, d ≤ B → -X ≤ W i (o + d) ∧ W i (o + d) ≤ X)
    (hblock : block + B < 4294967296) (hN : N < 4294967296) :
    ∀ n, n ≤ N →
      (List.range n).foldl
        (fun rs i => update_row32 CHECK_M C K B TYPE block M i N (ref.getD i 0) q V S G I rs)
        rs0 =
      (List.range n).foldl
        (fun rs i => update_row CHECK_M C K B TYPE block M i N (ref.getD i 0) q V S G I rs)
        rs0 := by
  intro n
  induction n with
  | zero => intro _; rfl
  | succ n ih =>
    intro hn
    rw [List.range_succ, List.foldl_append, List.foldl_append, ih (by omega)]
    simp only [List.foldl_cons, List.foldl_nil]
    rw [rows_fold_W CHECK_M C K B TYPE block M N ref q V S G I rs0 W sub c0 o hB hb hband0 hti0
      htemp hrec hq n (by omega)]
    exact update_row32_eq CHECK_M C K B TYPE block M n N (ref.getD n 0) q V S G I _ W sub o X c
      (by intro k hk; simp only [hk, if_true])
      rfl
      (by simp only [lt_irrefl, if_false]; exact htemp n (by omega))
      (hrec n (by omega)) (hq n (by omega)) hV hS hG hI hX (hW n (by omega))
      (hW (n + 1) (by omega)) hblock (by omega)

/-- A block in 32-bit arithmetic whose cells follow a matrix `W` with bounded entries and whose
reads of the pattern are in range. -/
theorem score_block32_eq {σ τ : Type} (CHECK_M : Bool) (C : Context σ) (K : Sink τ) (B : Nat)
    (TYPE : AlignmentType) (scoring : Scoring) (score_min : Int) (query ref : List Nat)
    (block : Nat) (st : RunState σ τ) (W : Nat → Nat → Int) (sub : Nat → Nat → Int)
    (c0 o : Nat) (X c : Int) (hB : 0 < B) (hb : block = c0 + o)
    (hr0 : ∀ d, d ≤ B → W 0 (o + d) = row_zero TYPE scoring (block + d))
    (hc0 : ∀ i, i < ref.length → W (i + 1) o = st.temp i)
    (hrec : ∀ i, i < ref.length → ∀ d, d < B → W (i + 1) (o + d + 1) =
      cell_score TYPE (W i (o + d + 1) + scoring.deletion) (W (i + 1) (o + d) + scoring.insertion)
        (W i (o + d) + sub i (o + d)))
    (hq : ∀ i, i < ref.length → ∀ d, d < B →
      (if ref.getD i 0 = load_query CHECK_M B query block st.q_cache d then scoring.match_
        else scoring.mismatch) = sub i (o + d))
    (hV : -c ≤ scoring.match_ ∧ scoring.match_ ≤ c)
    (hS : -c ≤ scoring.mismatch ∧ scoring.mismatch ≤ c)
    (hG : -c ≤ scoring.deletion ∧ scoring.deletion ≤ c)
    (hI : -c ≤ scoring.insertion ∧ scoring.insertion ≤ c)
    (hX : X + c ≤ 2147483647)
    (hW : ∀ i, i ≤ ref.length → ∀ d, d ≤ B → -X ≤ W i (o + d) ∧ W i (o + d) ≤ X)
    (hblock : block + B < 4294967296) (hN : ref.length < 4294967296)
    (hin : ∀ t, t < B → (CHECK_M = false ∨ block + t < min (block + B) query.length) →
      block + t < query.length) :
    score_block32 CHECK_M C K B TYPE scoring score_min query ref block st =
      some (score_block CHECK_M C K B TYPE scoring score_min query ref block st) := by
  have hc : 0 ≤ c := by omega
  have hfb : first_band32 B TYPE scoring block st.band = first_band B TYPE scoring block st.band
      := by
    funext j
    unfold first_band32 first_band
    by_cases hj : j ≤ B
    · simp only [hj, if_true]
      by_cases hT : TYPE ≠ LOCAL
      · rw [if_pos hT, if_pos hT]
        have e : (block + j) % 4294967296 = block + j := Nat.mod_eq_of_lt (by omega)
        have h0 := hr0 j hj
        have hb0 := hW 0 (Nat.zero_le _) j hj
        rw [h0] at hb0
        unfold row_zero at hb0
        rw [if_pos hT] at hb0
        rw [e]
        push_cast at hb0 ⊢
        exact to_int32_of_range _ (by omega) (by omega)
      · rw [if_neg hT, if_neg hT]
    · simp only [hj, if_false]
  have hfbW : ∀ k, k ≤ B → first_band B TYPE scoring block st.band k = W 0 (o + k) := by
    intro k hk
    rw [hr0 k hk]
    simp only [first_band, hk, if_true, row_zero]
    push_cast
    rfl
  unfold score_block32 score_block
  simp only []
  rw [load_query32_some CHECK_M B query block st.q_cache hblock hin, hfb]
  simp only []
  rw [rows32_eq CHECK_M C K B TYPE block query.length ref.length ref
    (load_query CHECK_M B query block st.q_cache) scoring.match_ scoring.mismatch
    scoring.deletion scoring.insertion _ W sub c0 o X c hB hb hfbW
    (by have := hfbW 0 (Nat.zero_le B); simpa using this)
    (by intro i hi; exact (hc0 i hi).symm) hrec hq hV hS hG hI hX hW hblock hN ref.length le_rfl]

theorem to_int32_to_uint32 (x : Int) : to_int32 ((to_uint32 x : Nat) : Int) = to_int32 x := by
  unfold to_int32 to_uint32
  rw [Int.toNat_of_nonneg (Int.emod_nonneg _ (by decide))]
  omega

/-- The early-exit test in `int32` is the test on unbounded integers when the bound it
compares stays within `int32`. -/
theorem early_exit32_eq (scoring : Scoring) (M B block : Nat) (max_score min_score X c : Int)
    (hblock : block + B ≤ M)
    (hV : -c ≤ scoring.match_ ∧ scoring.match_ ≤ c)
    (hlo : -2147483648 ≤ max_score) (hhi : max_score ≤ X) (hX0 : 0 ≤ X)
    (hlow : -X ≤ max_score ∨ 0 ≤ scoring.match_)
    (hX : X + (M : Int) * c ≤ 2147483647) :
    early_exit32 scoring M B block max_score min_score =
      early_exit scoring M B block max_score min_score := by
  have hc : 0 ≤ c := by omega
  have hM0 : (0 : Int) ≤ (M : Int) := Int.natCast_nonneg M
  unfold early_exit32 early_exit
  simp only [to_int32_to_uint32]
  by_cases hc0 : c = 0
  · have hm : scoring.match_ = 0 := by omega
    have hX0 : X ≤ 2147483647 := by rw [hc0] at hX; omega
    rw [hm]
    simp only [mul_zero, add_zero]
    have e0 : to_int32 0 = 0 := by decide
    rw [e0, add_zero, to_int32_of_range max_score hlo (by omega)]
  · have hc1 : 1 ≤ c := by omega
    have hMc : (M : Int) ≤ (M : Int) * c := by nlinarith
    have hmc : to_int32 ((M : Int) - block - B) = (M : Int) - block - B :=
      to_int32_of_range _ (by omega) (by omega)
    rw [hmc]
    have hd0 : (0 : Int) ≤ (M : Int) - block - B := by omega
    have hdM : (M : Int) - block - B ≤ (M : Int) := by omega
    generalize (M : Int) - block - B = mc at hd0 hdM ⊢
    have hp1 : mc * scoring.match_ ≤ (M : Int) * c := by nlinarith
    have hp2 : -((M : Int) * c) ≤ mc * scoring.match_ := by nlinarith
    have hp3 : 0 ≤ scoring.match_ → 0 ≤ mc * scoring.match_ := fun h => mul_nonneg hd0 h
    have hMc0 : 0 ≤ (M : Int) * c := mul_nonneg hM0 hc
    rw [to_int32_of_range (mc * scoring.match_) (by omega) (by omega)]
    have hsum : to_int32 (max_score + mc * scoring.match_) = max_score + mc * scoring.match_ := by
      apply to_int32_of_range
      · rcases hlow with h | h
        · omega
        · have := hp3 h; omega
      · omega
    rw [hsum]

theorem foldl_max_le (f : Nat → Int) (s X : Int) (n : Nat) (hs : s ≤ X)
    (hf : ∀ i, i < n → f i ≤ X) :
    (List.range n).foldl (fun m i => max m (f i)) s ≤ X := by
  induction n with
  | zero => simpa using hs
  | succ n ih =>
    rw [List.range_succ, List.foldl_append]
    simp only [List.foldl_cons, List.foldl_nil]
    exact max_le (ih (fun i hi => hf i (by omega))) (hf n (by omega))

/-- The value of `end_block` in `uint32` when `M + BAND_LEN` does not wrap. -/
theorem end_block_of32_eq (B M we : Nat) (hBlt : B < 4294967296)
    (hMB : M + B ≤ 4294967296) (hwe : we ≤ M) :
    end_block_of32 B M we = end_block_of B M we ∧ end_block_of B M we < 4294967296 := by
  unfold end_block_of32 end_block_of
  by_cases h : we = M
  · simp only [h, if_true]
    have e1 : (M + B - 1) % 4294967296 = M + B - 1 := Nat.mod_eq_of_lt (by omega)
    have h2 : B * ((M + B - 1) / B) ≤ M + B - 1 := Nat.mul_div_le _ _
    have e2 : (B * ((M + B - 1) / B)) % 4294967296 = B * ((M + B - 1) / B) :=
      Nat.mod_eq_of_lt (by omega)
    rw [e1, e2]
    refine ⟨rfl, ?_⟩
    exact max_lt hBlt (by omega)
  · simp only [h, if_false]
    have e1 : (we + B) % 4294967296 = we + B := Nat.mod_eq_of_lt (by omega)
    rw [e1]
    exact ⟨rfl, by omega⟩

/-- The block loop in 32-bit arithmetic follows the block loop on unbounded integers as long
as every block of the loop and every early-exit test does. -/
theorem run_blocks32_eq {σ τ : Type} (C : Context σ) (K : Sink τ) (B : Nat)
    (TYPE : AlignmentType) (scoring : Scoring) (score_min : Int) (query ref : List Nat)
    (min_score : Int) (end_block wb : Nat) (st : RunState σ τ) (nb : Nat)
    (hend : end_block = wb + nb * B + B) (hlt : end_block < 4294967296)
    (hsb : ∀ k, k < nb →
      score_block32 false C K B TYPE scoring score_min query ref (wb + k * B)
          (blocks_state C K B TYPE scoring score_min query ref wb st k) =
        some (score_block false C K B TYPE scoring score_min query ref (wb + k * B)
          (blocks_state C K B TYPE scoring score_min query ref wb st k)))
    (hee : ∀ k, k < nb →
      early_exit32 scoring query.length B (wb + k * B)
          (blocks_max C K B TYPE scoring score_min query ref wb st k) min_score =
        early_exit scoring query.length B (wb + k * B)
          (blocks_max C K B TYPE scoring score_min query ref wb st k) min_score) :
    ∀ fuel k, k ≤ nb →
      run_blocks32 C K B TYPE scoring score_min query ref min_score end_block fuel (wb + k * B)
          (blocks_state C K B TYPE scoring score_min query ref wb st k) =
        run_blocks C K B TYPE scoring score_min query ref min_score end_block fuel (wb + k * B)
          (blocks_state C K B TYPE scoring score_min query ref wb st k) := by
  intro fuel
  induction fuel with
  | zero => intro k _; rfl
  | succ f ih =>
    intro k hk
    have hkB : k * B ≤ nb * B := Nat.mul_le_mul_right B hk
    have e : (wb + k * B + B) % 4294967296 = wb + k * B + B := Nat.mod_eq_of_lt (by omega)
    unfold run_blocks32 run_blocks
    rw [e]
    by_cases hc : wb + k * B + B < end_block
    · have hk' : k < nb := by
        by_contra hn
        have : k = nb := by omega
        subst this
        omega
      have hnext : wb + k * B + B = wb + (k + 1) * B := by
        rw [Nat.add_mul, Nat.one_mul]; omega
      simp only [hc, if_true, hsb k hk']
      have h1 := hee k hk'
      unfold blocks_max at h1
      rw [h1]
      by_cases hx : early_exit scoring query.length B (wb + k * B)
          (score_block false C K B TYPE scoring score_min query ref (wb + k * B)
            (blocks_state C K B TYPE scoring score_min query ref wb st k)).2 min_score = true
      · simp only [hx, if_true]
      · simp only [hx, Bool.false_eq_true, if_false]
        rw [hnext]
        exact ih (k + 1) (by omega)
    · simp only [hc, if_false]

/-- The block loop on unbounded integers returns the same result with any fuel above the
number of blocks. -/
theorem run_blocks_fuel {σ τ : Type} (C : Context σ) (K : Sink τ) (B : Nat)
    (TYPE : AlignmentType) (scoring : Scoring) (score_min : Int) (query ref : List Nat)
    (min_score : Int) (end_block wb : Nat) (st : RunState σ τ) (nb : Nat) (hB : 0 < B)
    (hend : end_block = wb + nb * B + B) (f1 f2 : Nat) (h1 : nb < f1) (h2 : nb < f2) :
    run_blocks C K B TYPE scoring score_min query ref min_score end_block f1 wb st =
      run_blocks C K B TYPE scoring score_min query ref min_score end_block f2 wb st := by
  have a := run_blocks_unroll C K B TYPE scoring score_min query ref min_score end_block wb st
    nb hB hend nb 0 f1 (by omega) h1
  have b := run_blocks_unroll C K B TYPE scoring score_min query ref min_score end_block wb st
    nb hB hend nb 0 f2 (by omega) h2
  simp only [Nat.zero_mul, Nat.add_zero, blocks_state] at a b
  rw [a, b]

/-- The part of `run` after the block loop in 32-bit arithmetic, given its last block. -/
theorem run_tail32_eq {σ τ : Type} (C : Context σ) (K : Sink τ) (B : Nat)
    (TYPE : AlignmentType) (scoring : Scoring) (score_min : Int) (query ref : List Nat)
    (wb we nb : Nat) (st2 : RunState σ τ)
    (heb : end_block_of32 B query.length we = end_block_of B query.length we)
    (hend : end_block_of B query.length we = wb + nb * B + B)
    (hlt : end_block_of B query.length we < 4294967296)
    (hlast : we = query.length →
      score_block32 true C K B TYPE scoring score_min query ref (wb + nb * B) st2 =
        some (score_block true C K B TYPE scoring score_min query ref (wb + nb * B) st2)) :
    run_tail32 C K B TYPE scoring score_min query ref we st2 =
      some (run_tail C K B TYPE scoring score_min query ref we st2) := by
  have e1 : (wb + nb * B + B + 4294967296 - B) % 4294967296 = wb + nb * B := by
    have : wb + nb * B + B + 4294967296 - B = wb + nb * B + 4294967296 := by omega
    rw [this, Nat.add_mod_right]
    exact Nat.mod_eq_of_lt (by omega)
  have e2 : wb + nb * B + B - B = wb + nb * B := by omega
  unfold run_tail32 run_tail
  simp only [heb, hend, e1, e2]
  by_cases h : we = query.length
  · simp only [h, if_true, hlast h, Option.map_some']
  · simp only [h, if_false, Option.map_some']

/-- The function `run` in 32-bit arithmetic agrees with `run` on unbounded integers when the
column indices do not wrap and the window matrix, with a cost or the early-exit bound added,
stays within `int32`. -/
theorem run32_eq_run {σ τ : Type} (C : Context σ) (K : Sink τ) (B : Nat)
    (TYPE : AlignmentType) (scoring : Scoring) (score_min : Int) (query ref : List Nat)
    (min_score : Int) (wb we : Nat) (st : RunState σ τ) (nb : Nat) (X c : Int)
    (hB : 0 < B) (hBlt : B < 4294967296)
    (hend : end_block_of B query.length we = wb + nb * B + B)
    (hloop : wb + nb * B ≤ query.length) (hwe : we ≤ query.length)
    (hMB : query.length + B ≤ 4294967296) (hN : ref.length < 4294967296)
    (hV : -c ≤ scoring.match_ ∧ scoring.match_ ≤ c)
    (hS : -c ≤ scoring.mismatch ∧ scoring.mismatch ≤ c)
    (hG : -c ≤ scoring.deletion ∧ scoring.deletion ≤ c)
    (hI : -c ≤ scoring.insertion ∧ scoring.insertion ≤ c)
    (hX0 : 0 ≤ X) (hX : X + c ≤ 2147483647)
    (hXM : X + (query.length : Int) * c ≤ 2147483647)
    (hmin : -2147483648 ≤ score_min) (hmin0 : score_min ≤ 0)
    (hNm : 0 < ref.length ∨ 0 ≤ scoring.match_)
    (hinit : ∀ i, to_int32 (C.init st.context wb ref.length st.temp scoring i) =
      C.init st.context wb ref.length st.temp scoring i)
    (hW : ∀ qf i d, i ≤ ref.length → d ≤ nb * B + B →
      -X ≤ H_window TYPE scoring ref qf wb (C.init st.context wb ref.length st.temp scoring) i d
        ∧ H_window TYPE scoring ref qf wb (C.init st.context wb ref.length st.temp scoring) i d
          ≤ X) :
    run32 C K B TYPE scoring score_min query ref min_score wb we st =
      run C K B TYPE scoring score_min query ref min_score wb we st := by
  obtain ⟨heb, heblt⟩ := end_block_of32_eq B query.length we hBlt hMB hwe
  have hfun : (fun i => to_int32 (C.init st.context wb ref.length st.temp scoring i)) =
      C.init st.context wb ref.length st.temp scoring := funext hinit
  have hnbB : nb ≤ nb * B := Nat.le_mul_of_pos_right nb hB
  have hkB : ∀ k, k < nb → k * B + B ≤ nb * B := by
    intro k hk
    have : (k + 1) * B ≤ nb * B := Nat.mul_le_mul_right B (by omega)
    rw [Nat.add_mul, Nat.one_mul] at this
    exact this
  -- the blocks of the loop
  have hsb : ∀ k, k < nb →
      score_block32 false C K B TYPE scoring score_min query ref (wb + k * B)
          (blocks_state C K B TYPE scoring score_min query ref wb
            { st with temp := C.init st.context wb ref.length st.temp scoring } k) =
        some (score_block false C K B TYPE scoring score_min query ref (wb + k * B)
          (blocks_state C K B TYPE scoring score_min query ref wb
            { st with temp := C.init st.context wb ref.length st.temp scoring } k)) := by
    intro k hk
    have hk2 := hkB k hk
    have hbs := blocks_state_spec C K B TYPE scoring score_min query ref wb
      { st with temp := C.init st.context wb ref.length st.temp scoring }
      (fun c => query.getD c 0) nb hB (fun _ _ _ => rfl) k (by omega)
    apply score_block32_eq false C K B TYPE scoring score_min query ref (wb + k * B) _
      (H_window TYPE scoring ref (fun c => query.getD c 0) wb
        (C.init st.context wb ref.length st.temp scoring))
      (fun i d => sub_score scoring ref (fun c => query.getD c 0) i (wb + d)) wb (k * B) X c
      hB rfl
    · intro d _
      rw [H_window_row_zero, Nat.add_assoc]
    · intro i hi
      rw [hbs]
      simp only [hi, if_true]
    · intro i _ d _
      exact H_window_rec TYPE scoring ref _ wb _ i (k * B + d)
    · intro i _ d hd
      rw [load_query_full B query _ _ d hd]
      simp only [sub_score, Nat.add_assoc]
    · exact hV
    · exact hS
    · exact hG
    · exact hI
    · exact hX
    · intro i hi d hd
      exact hW _ i (k * B + d) hi (by omega)
    · omega
    · exact hN
    · intro t ht _
      omega
  -- the early-exit tests of the loop
  have hee : ∀ k, k < nb →
      early_exit32 scoring query.length B (wb + k * B)
          (blocks_max C K B TYPE scoring score_min query ref wb
            { st with temp := C.init st.context wb ref.length st.temp scoring } k) min_score =
        early_exit scoring query.length B (wb + k * B)
          (blocks_max C K B TYPE scoring score_min query ref wb
            { st with temp := C.init st.context wb ref.length st.temp scoring } k) min_score := by
    intro k hk
    have hk2 := hkB k hk
    rw [blocks_max_spec C K B TYPE scoring score_min query ref wb
      { st with temp := C.init st.context wb ref.length st.temp scoring }
      (fun c => query.getD c 0) nb hB (fun _ _ _ => rfl) k hk]
    have hfm := le_foldl_max (fun i => H_window TYPE scoring ref (fun c => query.getD c 0) wb
      (C.init st.context wb ref.length st.temp scoring) (i + 1) (k * B + B)) score_min ref.length
    apply early_exit32_eq scoring query.length B (wb + k * B) _ min_score X c (by omega) hV
    · exact le_trans hmin hfm.1
    · apply foldl_max_le _ _ _ _ (by omega)
      intro i hi
      exact (hW _ (i + 1) (k * B + B) (by omega) (by omega)).2
    · exact hX0
    · rcases hNm with h | h
      · left
        exact le_trans (hW _ (0 + 1) (k * B + B) (by omega) (by omega)).1 (hfm.2 0 h)
      · right; exact h
    · exact hXM
  have hrb := run_blocks32_eq C K B TYPE scoring score_min query ref min_score
    (end_block_of B query.length we) wb
    { st with temp := C.init st.context wb ref.length st.temp scoring } nb hend heblt hsb hee
    4294967296 0 (Nat.zero_le _)
  simp only [Nat.zero_mul, Nat.add_zero, blocks_state] at hrb
  have hun := run_blocks_unroll C K B TYPE scoring score_min query ref min_score
    (end_block_of B query.length we) wb
    { st with temp := C.init st.context wb ref.length st.temp scoring } nb hB hend nb 0
    4294967296 (by omega) (by omega)
  simp only [Nat.zero_mul, Nat.add_zero, blocks_state] at hun
  -- the last block
  have htail := run_tail32_eq C K B TYPE scoring score_min query ref wb we nb
    (blocks_state C K B TYPE scoring score_min query ref wb
      { st with temp := C.init st.context wb ref.length st.temp scoring } nb) heb hend heblt
    (by
      intro _
      have hq : ∀ c, wb ≤ c → c < wb + nb * B →
          pad_query query B wb nb st.q_cache c = query.getD c 0 := by
        intro c _ h2
        exact pad_query_below query B wb nb st.q_cache c (by omega)
      rw [blocks_state_spec C K B TYPE scoring score_min query ref wb
        { st with temp := C.init st.context wb ref.length st.temp scoring }
        (pad_query query B wb nb st.q_cache) nb hB hq nb le_rfl]
      apply score_block32_eq true C K B TYPE scoring score_min query ref (wb + nb * B) _
        (H_window TYPE scoring ref (pad_query query B wb nb st.q_cache) wb
          (C.init st.context wb ref.length st.temp scoring))
        (fun i d => sub_score scoring ref (pad_query query B wb nb st.q_cache) i (wb + d))
        wb (nb * B) X c hB rfl
      · intro d _
        rw [H_window_row_zero, Nat.add_assoc]
      · intro i hi
        simp only [hi, if_true]
      · intro i _ d _
        exact H_window_rec TYPE scoring ref _ wb _ i (nb * B + d)
      · intro i _ d hd
        simp only []
        rw [load_query_last query B wb nb st.q_cache d hd]
        simp only [sub_score, Nat.add_assoc]
      · exact hV
      · exact hS
      · exact hG
      · exact hI
      · exact hX
      · intro i hi d hd
        exact hW _ i (nb * B + d) hi (by omega)
      · omega
      · exact hN
      · intro t _ h
        rcases h with h | h
        · exact absurd h (by decide)
        · have := lt_min_iff.1 h
          exact this.2)
  have hrun := run_eq C K B TYPE scoring score_min query ref min_score wb we st nb hB hend
  rw [hrun]
  unfold run32
  simp only [hfun, heb, hrb, hun]
  cases first_exit (blocks_exit C K B TYPE scoring score_min query ref min_score wb
          { st with temp := C.init st.context wb ref.length st.temp scoring }) 0 nb with
  | some e => rfl
  | none =>
    show (run_tail32 C K B TYPE scoring score_min query ref we _).map (fun st3 => (true, st3))
      = some (true, run_tail C K B TYPE scoring score_min query ref we _)
    rw [htail]
    rfl

/-- The scores of a window matrix are bounded by the number of rows and columns up to the
cell times a bound on the magnitudes of the scoring scheme, when the column the window starts
from is. -/
theorem H_window_bound (TYPE : AlignmentType) (scoring : Scoring) (ref : List Nat)
    (qf : Nat → Nat) (c0 : Nat) (col0 : Nat → Int) (c : Int)
    (hV : -c ≤ scoring.match_ ∧ scoring.match_ ≤ c)
    (hS : -c ≤ scoring.mismatch ∧ scoring.mismatch ≤ c)
    (hI : -c ≤ scoring.insertion ∧ scoring.insertion ≤ c)
    (hG : -c ≤ scoring.deletion ∧ scoring.deletion ≤ c) (n : Nat)
    (hcol : ∀ i, i < n →
      -(((c0 + i + 1 : Nat) : Int) * c) ≤ col0 i ∧ col0 i ≤ ((c0 + i + 1 : Nat) : Int) * c) :
    ∀ i, i ≤ n → ∀ d,
      -(((c0 + i + d : Nat) : Int) * c) ≤ H_window TYPE scoring ref qf c0 col0 i d ∧
      H_window TYPE scoring ref qf c0 col0 i d ≤ ((c0 + i + d : Nat) : Int) * c := by
  have hc : 0 ≤ c := by omega
  have hc0 : (0 : Int) ≤ (c0 : Int) := Int.natCast_nonneg c0
  intro i
  induction i with
  | zero =>
    intro _ d
    rw [H_window_row_zero]
    simp only [row_zero, Nat.add_zero]
    have hd : (0 : Int) ≤ (d : Int) := Int.natCast_nonneg d
    push_cast
    split_ifs
    · constructor <;> nlinarith
    · constructor <;> nlinarith
  | succ i ih =>
    intro hi d
    induction d with
    | zero =>
      rw [H_window_col_zero]
      exact hcol i (by omega)
    | succ d ihd =>
      rw [H_window_rec]
      obtain ⟨t1, t2⟩ := ih (by omega) (d + 1)
      obtain ⟨l1, l2⟩ := ihd
      obtain ⟨d1, d2⟩ := ih (by omega) d
      have hs : -c ≤ sub_score scoring ref qf i (c0 + d) ∧
          sub_score scoring ref qf i (c0 + d) ≤ c := by
        unfold sub_score
        split_ifs
        · exact hV
        · exact hS
      generalize H_window TYPE scoring ref qf c0 col0 i (d + 1) = top at t1 t2 ⊢
      generalize H_window TYPE scoring ref qf c0 col0 (i + 1) d = left at l1 l2 ⊢
      generalize H_window TYPE scoring ref qf c0 col0 i d = diag at d1 d2 ⊢
      generalize sub_score scoring ref qf i (c0 + d) = sb at hs ⊢
      push_cast at t1 t2 l1 l2 d1 d2 ⊢
      have hlow : -(((c0 : Int) + ((i : Int) + 1) + ((d : Int) + 1)) * c) ≤
          top + scoring.deletion := by
        nlinarith
      have h1 : top + scoring.deletion ≤ ((c0 : Int) + ((i : Int) + 1) + ((d : Int) + 1)) * c := by
        nlinarith
      have h2 : left + scoring.insertion ≤
          ((c0 : Int) + ((i : Int) + 1) + ((d : Int) + 1)) * c := by
        nlinarith
      have h3 : diag + sb ≤ ((c0 : Int) + ((i : Int) + 1) + ((d : Int) + 1)) * c := by
        nlinarith
      have hb : (0 : Int) ≤ ((c0 : Int) + ((i : Int) + 1) + ((d : Int) + 1)) * c := by
        have : (0 : Int) ≤ (i : Int) := Int.natCast_nonneg i
        have : (0 : Int) ≤ (d : Int) := Int.natCast_nonneg d
        positivity
      unfold cell_score max3
      split_ifs
      · exact ⟨le_trans hlow (le_trans (le_max_left _ _)
          (le_trans (le_max_left _ _) (le_max_left _ _))),
          max_le (max_le (max_le h1 h2) h3) hb⟩
      · exact ⟨le_trans hlow (le_trans (le_max_left _ _) (le_max_left _ _)),
          max_le (max_le h1 h2) h3⟩

/-- The magnitude of a scheme bounds its four scores. -/
theorem magnitude_bounds (scoring : Scoring) :
    0 ≤ scoring.magnitude ∧
    (-scoring.magnitude ≤ scoring.match_ ∧ scoring.match_ ≤ scoring.magnitude) ∧
    (-scoring.magnitude ≤ scoring.mismatch ∧ scoring.mismatch ≤ scoring.magnitude) ∧
    (-scoring.magnitude ≤ scoring.insertion ∧ scoring.insertion ≤ scoring.magnitude) ∧
    (-scoring.magnitude ≤ scoring.deletion ∧ scoring.deletion ≤ scoring.magnitude) := by
  have h1 : |scoring.match_| ≤ scoring.magnitude :=
    le_trans (le_max_left _ _) (le_max_left _ _)
  have h2 : |scoring.mismatch| ≤ scoring.magnitude :=
    le_trans (le_max_right _ _) (le_max_left _ _)
  have h3 : |scoring.insertion| ≤ scoring.magnitude :=
    le_trans (le_max_left _ _) (le_max_right _ _)
  have h4 : |scoring.deletion| ≤ scoring.magnitude :=
    le_trans (le_max_right _ _) (le_max_right _ _)
  exact ⟨le_trans (abs_nonneg _) h1, abs_le.1 h1, abs_le.1 h2, abs_le.1 h3, abs_le.1 h4⟩

/-- The function `run` in 32-bit arithmetic agrees with `run` on unbounded integers in the
range `no_overflow`, on a window whose blocks lie within the pattern, when the column the
context initialises holds `int32` values bounded as the scores of that column are. -/
theorem run32_eq_run_of_no_overflow {σ τ : Type} (C : Context σ) (K : Sink τ) (B : Nat)
    (TYPE : AlignmentType) (scoring : Scoring) (score_min : Int) (query ref : List Nat)
    (min_score : Int) (wb we : Nat) (st : RunState σ τ) (nb : Nat)
    (hB : 0 < B)
    (hend : end_block_of B query.length we = wb + nb * B + B)
    (hloop : wb + nb * B ≤ query.length) (hwe : we ≤ query.length)
    (hno : no_overflow scoring score_min ref.length query.length B)
    (hinit : ∀ i, to_int32 (C.init st.context wb ref.length st.temp scoring i) =
      C.init st.context wb ref.length st.temp scoring i)
    (hcol : ∀ i, i < ref.length →
      -(((wb + i + 1 : Nat) : Int) * scoring.magnitude) ≤
          C.init st.context wb ref.length st.temp scoring i ∧
        C.init st.context wb ref.length st.temp scoring i ≤
          ((wb + i + 1 : Nat) : Int) * scoring.magnitude) :
    run32 C K B TYPE scoring score_min query ref min_score wb we st =
      run C K B TYPE scoring score_min query ref min_score wb we st := by
  obtain ⟨hMB, hBlt, hM31, hN, hmin, hmin0, hNm, hbound⟩ := hno
  obtain ⟨hc, hV, hS, hI, hG⟩ := magnitude_bounds scoring
  generalize scoring.magnitude = c at hc hV hS hI hG hbound hcol
  have hN0 : (0 : Int) ≤ (ref.length : Int) := Int.natCast_nonneg _
  have hM0 : (0 : Int) ≤ (query.length : Int) := Int.natCast_nonneg _
  have hB0 : (0 : Int) ≤ (B : Int) := Int.natCast_nonneg _
  push_cast at hbound
  apply run32_eq_run C K B TYPE scoring score_min query ref min_score wb we st nb
    (((ref.length + query.length + B : Nat) : Int) * c) c hB hBlt hend hloop hwe hMB hN
    hV hS hG hI
  · positivity
  · push_cast; nlinarith
  · push_cast; nlinarith
  · exact hmin
  · exact hmin0
  · exact hNm
  · exact hinit
  · intro qf i d hi hd
    obtain ⟨b1, b2⟩ := H_window_bound TYPE scoring ref qf wb
      (C.init st.context wb ref.length st.temp scoring) c hV hS hI hG ref.length hcol i hi d
    have hle : (((wb + i + d : Nat) : Int)) ≤ ((ref.length + query.length + B : Nat) : Int) := by
      have : wb + i + d ≤ ref.length + query.length + B := by omega
      exact_mod_cast this
    have hmul : ((wb + i + d : Nat) : Int) * c ≤
        ((ref.length + query.length + B : Nat) : Int) * c :=
      mul_le_mul_of_nonneg_right hle hc
    constructor
    · linarith
    · linarith

/-- The column `first_column` writes holds `int32` values bounded as the scores of column 0
are, in the range `no_overflow`. -/
theorem first_column_bounds (TYPE : AlignmentType) (scoring : Scoring) (score_min : Int)
    (N M B : Nat) (column : Nat → Int)
    (hno : no_overflow scoring score_min N M B)
    (hcolumn : ∀ i, to_int32 (column i) = column i) :
    (∀ i, to_int32 (first_column TYPE scoring N column i) = first_column TYPE scoring N column i)
    ∧ ∀ i, i < N →
      -(((0 + i + 1 : Nat) : Int) * scoring.magnitude) ≤ first_column TYPE scoring N column i ∧
        first_column TYPE scoring N column i ≤ ((0 + i + 1 : Nat) : Int) * scoring.magnitude := by
  obtain ⟨hMB, hBlt, hM31, hN, hmin, hmin0, hNm, hbound⟩ := hno
  obtain ⟨hc, hV, hS, hI, hG⟩ := magnitude_bounds scoring
  generalize scoring.magnitude = c at hc hV hS hI hG hbound
  have hM0 : (0 : Int) ≤ (M : Int) := Int.natCast_nonneg _
  have hB0 : (0 : Int) ≤ (B : Int) := Int.natCast_nonneg _
  push_cast at hbound
  have hb : ∀ i, i < N →
      -(((0 + i + 1 : Nat) : Int) * c) ≤ first_column TYPE scoring N column i ∧
        first_column TYPE scoring N column i ≤ ((0 + i + 1 : Nat) : Int) * c := by
    intro i hi
    have hi0 : (0 : Int) ≤ (i : Int) := Int.natCast_nonneg _
    simp only [first_column, hi, if_true]
    push_cast
    split_ifs
    · constructor <;> nlinarith
    · constructor <;> nlinarith
  refine ⟨?_, hb⟩
  intro i
  by_cases hi : i < N
  · obtain ⟨b1, b2⟩ := hb i hi
    have hiN : ((i : Int) + 1) ≤ (N : Int) := by exact_mod_cast hi
    have hi0 : (0 : Int) ≤ (i : Int) := Int.natCast_nonneg _
    push_cast at b1 b2
    have hmul : (0 + (i : Int) + 1) * c ≤ (N : Int) * c :=
      mul_le_mul_of_nonneg_right (by linarith) hc
    have hMc : 0 ≤ (2 * (M : Int) + B + 1) * c := by positivity
    apply to_int32_of_range
    · nlinarith
    · nlinarith
  · simp only [first_column, hi, if_false]
    exact hcolumn i

/-- The whole-pattern dispatch in 32-bit arithmetic agrees with the dispatch on unbounded
integers in the range `no_overflow`. -/
theorem dispatch32_eq {τ : Type} (K : Sink τ) (B : Nat) (TYPE : AlignmentType)
    (scoring : Scoring) (score_min : Int) (pattern text : List Nat) (min_score : Int)
    (st : RunState Unit τ) (hB : 0 < B)
    (hno : no_overflow scoring score_min text.length pattern.length B)
    (hcolumn : ∀ i, to_int32 (st.temp i) = st.temp i) :
    dispatch32 K B TYPE scoring score_min pattern text min_score st =
      dispatch K B TYPE scoring score_min pattern text min_score st := by
  obtain ⟨hend, hle, _, _⟩ := end_block_full B pattern.length hB
  obtain ⟨h1, h2⟩ := first_column_bounds TYPE scoring score_min text.length pattern.length B
    st.temp hno hcolumn
  unfold dispatch32 dispatch
  apply run32_eq_run_of_no_overflow (SWScoringContext TYPE) K B TYPE scoring score_min pattern
    text min_score 0 pattern.length st ((pattern.length + B - 1) / B - 1) hB hend hle le_rfl hno
  · intro i
    simp only [SWScoringContext, if_true]
    exact h1 i
  · intro i hi
    simp only [SWScoringContext, if_true]
    exact h2 i hi

/-- The cell loop of `update_row` leaves the log of an instrumented context as it is. -/
theorem update_cells32_log {σ : Type} (C : Context σ) (TYPE : AlignmentType)
    (block M i N r_i : Nat) (q : Nat → Nat) (V S G I : Int) :
    ∀ (l : List Nat) (cs : CellState (σ × List Nat)),
      (l.foldl (update_cell32 (LogContext C) TYPE block M i N r_i q V S G I) cs).context.2 =
        cs.context.2 := by
  intro l
  induction l with
  | nil => intro cs; rfl
  | cons j l ih =>
    intro cs
    rw [List.foldl_cons, ih]
    rfl

/-- The row loop of a block leaves the log of an instrumented context as it is. -/
theorem update_rows32_log {σ τ : Type} (CHECK_M : Bool) (C : Context σ) (K : Sink τ) (B : Nat)
    (TYPE : AlignmentType) (block M N : Nat) (ref : List Nat) (q : Nat → Nat) (V S G I : Int) :
    ∀ (l : List Nat) (rs : RowState (σ × List Nat) τ),
      (l.foldl (fun rs i => update_row32 CHECK_M (LogContext C) K B TYPE block M i N
        (ref.getD i 0) q V S G I rs) rs).context.2 = rs.context.2 := by
  intro l
  induction l with
  | nil => intro rs; rfl
  | cons i l ih =>
    intro rs
    rw [List.foldl_cons, ih]
    unfold update_row32
    simp only []
    exact update_cells32_log C TYPE block M i N (ref.getD i 0) q V S G I _ _

/-- A block whose reads of the pattern are in range returns, and appends its index to the log
of an instrumented context. -/
theorem score_block32_log {σ τ : Type} (CHECK_M : Bool) (C : Context σ) (K : Sink τ) (B : Nat)
    (TYPE : AlignmentType) (scoring : Scoring) (score_min : Int) (query ref : List Nat)
    (block : Nat) (st : RunState (σ × List Nat) τ)
    (hb : block + B < 4294967296)
    (hin : ∀ t, t < B → (CHECK_M = false ∨ block + t < min (block + B) query.length) →
      block + t < query.length) :
    ∃ r, score_block32 CHECK_M (LogContext C) K B TYPE scoring score_min query ref block st
        = some r ∧ r.1.context.2 = st.context.2 ++ [block] := by
  unfold score_block32
  simp only []
  rw [load_query32_some CHECK_M B query block st.q_cache hb hin]
  refine ⟨_, rfl, ?_⟩
  simp only []
  rw [update_rows32_log CHECK_M C K B TYPE block query.length ref.length ref]
  rfl

/-- The block loop in 32-bit arithmetic over blocks that lie within the pattern returns, and
appends the blocks it processes to the log of an instrumented context: the blocks `k .. e-1`
for some `e` up to the number of blocks `nb`, and all of them when it returns `true`. -/
theorem run_blocks32_log {σ τ : Type} (C : Context σ) (K : Sink τ) (B : Nat)
    (TYPE : AlignmentType) (scoring : Scoring) (score_min : Int) (query ref : List Nat)
    (min_score : Int) (end_block wb nb : Nat) (hB : 0 < B)
    (hend : end_block = wb + nb * B + B) (hlt : end_block < 4294967296)
    (hM : wb + nb * B ≤ query.length) (n : Nat) :
    ∀ k fuel (st : RunState (σ × List Nat) τ), k + n = nb → n < fuel →
      ∃ e flag st', k ≤ e ∧ e ≤ nb ∧
        run_blocks32 (LogContext C) K B TYPE scoring score_min query ref min_score end_block
          fuel (wb + k * B) st = some (flag, st') ∧
        (flag = true → e = nb) ∧ (flag = false → k < e) ∧
        st'.context.2 = st.context.2 ++ (List.range' k (e - k)).map (fun x => wb + x * B) := by
  induction n with
  | zero =>
    intro k fuel st hk hf
    obtain ⟨f, rfl⟩ : ∃ f, fuel = f + 1 := ⟨fuel - 1, by omega⟩
    have hk' : k = nb := by omega
    subst hk'
    have e1 : (wb + k * B + B) % 4294967296 = wb + k * B + B := Nat.mod_eq_of_lt (by omega)
    have hc : ¬ (wb + k * B + B < end_block) := by omega
    refine ⟨k, true, st, le_rfl, le_rfl, ?_, fun _ => rfl, fun h => absurd h (by decide), ?_⟩
    · simp only [run_blocks32, e1, hc, if_false]
    · simp
  | succ n ih =>
    intro k fuel st hk hf
    obtain ⟨f, rfl⟩ : ∃ f, fuel = f + 1 := ⟨fuel - 1, by omega⟩
    have hkB : k * B + B ≤ nb * B := by
      have : (k + 1) * B ≤ nb * B := Nat.mul_le_mul_right B (by omega)
      rw [Nat.add_mul, Nat.one_mul] at this
      exact this
    have e1 : (wb + k * B + B) % 4294967296 = wb + k * B + B := Nat.mod_eq_of_lt (by omega)
    have hc : wb + k * B + B < end_block := by omega
    have hnext : wb + k * B + B = wb + (k + 1) * B := by
      rw [Nat.add_mul, Nat.one_mul]; omega
    obtain ⟨r, hr, hlog⟩ := score_block32_log false C K B TYPE scoring score_min query ref
      (wb + k * B) st (by omega) (by intro t ht _; omega)
    by_cases hx : early_exit32 scoring query.length B (wb + k * B) r.2 min_score = true
    · refine ⟨k + 1, false, r.1, by omega, by omega, ?_, fun h => absurd h (by decide),
        fun _ => by omega, ?_⟩
      · simp only [run_blocks32, e1, hc, if_true, hr, hx]
      · rw [hlog]
        have : k + 1 - k = 1 := by omega
        rw [this]
        rfl
    · obtain ⟨e, flag, st', h1, h2, h3, h4, h5, h6⟩ := ih (k + 1) f r.1 (by omega) (by omega)
      refine ⟨e, flag, st', by omega, h2, ?_, h4, fun _ => by omega, ?_⟩
      · simp only [run_blocks32, e1, hc, if_true, hr, hx, Bool.false_eq_true, if_false]
        rw [hnext]
        exact h3
      · rw [h6, hlog]
        have : e - k = (e - (k + 1)) + 1 := by omega
        rw [this, List.range'_succ, List.map_cons, List.append_assoc]
        rfl

/-- The part of `run` after the block loop in 32-bit arithmetic returns: the reads of the last
block are guarded by `block + t < block_end`; it appends the last block to the log of an
instrumented context when `window_end == M`. -/
theorem run_tail32_log {σ τ : Type} (C : Context σ) (K : Sink τ) (B : Nat)
    (TYPE : AlignmentType) (scoring : Scoring) (score_min : Int) (query ref : List Nat)
    (we : Nat) (st2 : RunState (σ × List Nat) τ)
    (hlt : end_block_of32 B query.length we < 4294967296)
    (hge : we = query.length → B ≤ end_block_of32 B query.length we) :
    ∃ st3, run_tail32 (LogContext C) K B TYPE scoring score_min query ref we st2 = some st3 ∧
      st3.context.2 = st2.context.2 ++
        (if we = query.length then [end_block_of32 B query.length we - B] else []) := by
  unfold run_tail32
  simp only []
  by_cases hwe : we = query.length
  · have hB := hge hwe
    have e1 : (end_block_of32 B query.length we + 4294967296 - B) % 4294967296 =
        end_block_of32 B query.length we - B := by
      have : end_block_of32 B query.length we + 4294967296 - B =
          end_block_of32 B query.length we - B + 4294967296 := by omega
      rw [this, Nat.add_mod_right]
      exact Nat.mod_eq_of_lt (by omega)
    obtain ⟨r, hr, hlog⟩ := score_block32_log true C K B TYPE scoring score_min query ref
      (end_block_of32 B query.length we - B) st2 (by omega)
      (by
        intro t _ h
        rcases h with h | h
        · exact absurd h (by decide)
        · exact (lt_min_iff.1 h).2)
    simp only [hwe, if_true] at e1 hr hlog ⊢
    rw [e1, hr]
    simp only [Option.map_some']
    by_cases hT : TYPE = GLOBAL
    · simp only [hT, if_true]
      exact ⟨_, rfl, hlog⟩
    · simp only [hT, if_false]
      exact ⟨_, rfl, hlog⟩
  · simp only [hwe, if_false, Option.map_some', List.append_nil]
    by_cases hT : TYPE = GLOBAL
    · simp only [hT, if_true]
      exact ⟨_, rfl, rfl⟩
    · simp only [hT, if_false]
      exact ⟨_, rfl, rfl⟩

/-- For a pattern of `2^32 - 1` symbols and blocks of 16 columns the value of `end_block`
wraps to 16, and the run over the whole pattern processes the block at column 0 only. -/
theorem run32_end_block_wraps {σ τ : Type} (C : Context σ) (K : Sink τ)
    (TYPE : AlignmentType) (scoring : Scoring) (score_min : Int) (query ref : List Nat)
    (min_score : Int) (st : RunState (σ × List Nat) τ) (hlen : query.length = 4294967295) :
    (run32 (LogContext C) K 16 TYPE scoring score_min query ref min_score 0 query.length
      st).map (fun r => (r.1, r.2.context.2)) = some (true, st.context.2 ++ [0]) := by
  have heb : end_block_of32 16 query.length query.length = 16 := by
    unfold end_block_of32
    rw [hlen]
    decide
  obtain ⟨st3, h3, hlog⟩ := run_tail32_log C K 16 TYPE scoring score_min query ref query.length
    { st with temp := fun i =>
        to_int32 ((LogContext C).init st.context 0 ref.length st.temp scoring i) }
    (by rw [heb]; decide) (by intro _; rw [heb])
  have hrb : ∀ (f : Nat) (st1 : RunState (σ × List Nat) τ),
      run_blocks32 (LogContext C) K 16 TYPE scoring score_min query ref min_score 16
        (f + 1) 0 st1 = some (true, st1) := by
    intro f st1
    have hc : ¬ ((0 + 16) % 4294967296 < 16) := by decide
    simp only [run_blocks32, hc, if_false]
  unfold run32
  simp only [heb]
  rw [show (4294967296 : Nat) = 4294967295 + 1 from rfl, hrb 4294967295]
  simp only [h3, Option.map_some']
  rw [hlog]
  simp only [heb, if_true, Nat.sub_self]

/-- C37 (as stated, refuted): for a pattern of `M = 2^32 - 1` symbols, block width 16 and the
window `[0, M)` (which begins at a multiple of 16 and ends at `M`), the sum `M + 15` wraps in
`uint32`, `end_block` is 16, and the run processes the block at column 0 only: the columns
from 16 on lie in no block. -/
theorem run_pattern_accesses_counterexample :
    16 ∣ 0 ∧ 0 ≤ (List.replicate 4294967295 65).length ∧
    (List.replicate 4294967295 65).length = 4294967295 ∧
    end_block_of32 16 4294967295 4294967295 = 16 ∧
    (run32 (LogContext (SWScoringContext LOCAL)) NullSink 16 LOCAL
        { match_ := 1, mismatch := -1, deletion := -1, insertion := -1 } (-2147483648)
        (List.replicate 4294967295 65) [65] (-2147483648) 0
        (List.replicate 4294967295 65).length (zero_state ((), []) ())).map
        (fun r => (r.1, r.2.context.2)) = some (true, [0]) :=
  ⟨by decide, Nat.zero_le _, List.length_replicate _ _, by decide,
    run32_end_block_wraps (SWScoringContext LOCAL) NullSink LOCAL
      { match_ := 1, mismatch := -1, deletion := -1, insertion := -1 } (-2147483648)
      (List.replicate 4294967295 65) [65] (-2147483648) (zero_state ((), []) ())
      (List.length_replicate _ _)⟩

/-- C37 (amended): for a pattern of length `M` and a block width `B` with `M + B < 2^32`, and
a window `[begin, end)` with `begin` a multiple of `B`, `begin <= end <= M` and `end` equal to
`M` or a multiple of `B`: the run, whose reads of the pattern are checked against `M`, returns,
so every pattern index it reads is below `M`.  With `nb` the number of blocks of the block
loop, the blocks the run processes are, in order, the blocks at `begin + k*B` for `k < e`,
where `e = nb` unless the run exits early after block `e - 1`, followed by the last block at
`end_block - B` when the run returns `true` and `end = M`.  Every block `k < nb` of the loop
ends at or before `M`, so that at its early-exit test the count `M - block - B` is at least 1
and its unsigned subtraction does not wrap; and every column of `[begin, end)` lies in exactly
one of the blocks. -/
theorem run_pattern_accesses {σ τ : Type} (C : Context σ) (K : Sink τ) (B : Nat)
    (TYPE : AlignmentType) (scoring : Scoring) (score_min : Int) (query ref : List Nat)
    (min_score : Int) (wb we : Nat) (st : RunState (σ × List Nat) τ)
    (hB : 0 < B) (hwb : B ∣ wb) (h1 : wb ≤ we) (h2 : we ≤ query.length)
    (h3 : we = query.length ∨ B ∣ we) (hM : query.length + B < 4294967296) :
    ∃ nb e flag st',
      run32 (LogContext C) K B TYPE scoring score_min query ref min_score wb we st
        = some (flag, st') ∧
      e ≤ nb ∧ (flag = true → e = nb) ∧ (flag = false → 0 < e) ∧
      st'.context.2 = st.context.2 ++ (List.range e).map (fun k => wb + k * B) ++
        (if flag = true ∧ we = query.length then [end_block_of32 B query.length we - B]
          else []) ∧
      (∀ k, k < nb →
        wb + k * B + B ≤ query.length ∧
        1 ≤ query.length - (wb + k * B) - B ∧
        to_uint32 ((query.length : Int) - ((wb + k * B : Nat) : Int) - (B : Int))
          = query.length - (wb + k * B) - B) ∧
      (wb < we → we = query.length → end_block_of32 B query.length we - B = wb + nb * B) ∧
      (∀ c, wb ≤ c → c < we →
        ∃ k, k < nb + (if we = query.length then 1 else 0) ∧
          wb + k * B ≤ c ∧ c < wb + k * B + B ∧
          ∀ k', wb + k' * B ≤ c → c < wb + k' * B + B → k' = k) := by
  obtain ⟨heb, heblt⟩ := end_block_of32_eq B query.length we (by omega) (by omega) h2
  have hge : we = query.length → B ≤ end_block_of32 B query.length we := by
    intro hwe
    unfold end_block_of32
    simp only [hwe, if_true]
    exact le_max_left _ _
  by_cases hedge : wb < query.length ∨ query.length = 0 ∨ we ≠ query.length
  · obtain ⟨nb, hend, hin, hlast⟩ := end_block_window B query.length wb we hB hwb h1 h2 h3 hedge
    have hlt : 0 < nb → wb + nb * B < query.length := by
      intro hnb
      by_cases hwe : we = query.length
      · obtain ⟨_, _, h⟩ := hlast hwe
        apply h
        have : 0 < nb * B := Nat.mul_pos hnb hB
        omega
      · have := hin hwe
        omega
    have hloopM : wb + nb * B ≤ query.length := by
      by_cases hwe : we = query.length
      · exact (hlast hwe).1
      · have := hin hwe
        omega
    have hnbB : nb ≤ nb * B := Nat.le_mul_of_pos_right nb hB
    obtain ⟨e, flag, st2, g1, g2, g3, g4, g5, g6⟩ := run_blocks32_log C K B TYPE scoring
      score_min query ref min_score (end_block_of B query.length we) wb nb hB hend heblt hloopM
      nb 0 4294967296
      { st with temp := fun i =>
        to_int32 ((LogContext C).init st.context wb ref.length st.temp scoring i) }
      (by omega) (by omega)
    simp only [Nat.zero_mul, Nat.add_zero, Nat.sub_zero, ← List.range_eq_range'] at g3 g6
    have hfacts : (∀ k, k < nb →
        wb + k * B + B ≤ query.length ∧
        1 ≤ query.length - (wb + k * B) - B ∧
        to_uint32 ((query.length : Int) - ((wb + k * B : Nat) : Int) - (B : Int))
          = query.length - (wb + k * B) - B) ∧
      (wb < we → we = query.length → end_block_of32 B query.length we - B = wb + nb * B) ∧
      (∀ c, wb ≤ c → c < we →
        ∃ k, k < nb + (if we = query.length then 1 else 0) ∧
          wb + k * B ≤ c ∧ c < wb + k * B + B ∧
          ∀ k', wb + k' * B ≤ c → c < wb + k' * B + B → k' = k) := by
      refine ⟨?_, fun _ _ => by rw [heb, hend]; omega, ?_⟩
      · intro k hk
        have hkB : k * B + B ≤ nb * B := by
          have : (k + 1) * B ≤ nb * B := Nat.mul_le_mul_right B (by omega)
          rw [Nat.add_mul, Nat.one_mul] at this
          exact this
        have hl := hlt (by omega)
        refine ⟨by omega, by omega, ?_⟩
        have e : (query.length : Int) - ((wb + k * B : Nat) : Int) - (B : Int)
            = ((query.length - (wb + k * B) - B : Nat) : Int) := by omega
        rw [e]
        unfold to_uint32
        rw [Int.emod_eq_of_lt (by omega) (by omega)]
        exact Int.toNat_natCast _
      · intro c hc1 hc2
        by_cases hwe : we = query.length
        · obtain ⟨_, hge2, _⟩ := hlast hwe
          simp only [hwe, if_true]
          apply block_of_column B wb c (nb + 1) hB hc1
          rw [Nat.add_mul, Nat.one_mul]
          omega
        · simp only [hwe, if_false, Nat.add_zero]
          apply block_of_column B wb c nb hB hc1
          have := hin hwe
          omega
    cases flag with
    | false =>
      refine ⟨nb, e, false, st2, ?_, g2, fun h => absurd h (by decide), fun _ => g5 rfl, ?_,
        hfacts⟩
      · unfold run32
        simp only [heb, g3]
      · rw [g6]
        simp
    | true =>
      obtain ⟨st3, t1, t2⟩ := run_tail32_log C K B TYPE scoring score_min query ref we st2
        (by rw [heb]; exact heblt) hge
      refine ⟨nb, e, true, st3, ?_, g2, fun _ => g4 rfl, fun h => absurd h (by decide), ?_,
        hfacts⟩
      · unfold run32
        simp only [heb, g3, t1, Option.map_some']
      · rw [t2, g6]
        simp
  · -- the empty window at the end of a pattern whose length is a multiple of `B`
    have hwM : wb = query.length := by omega
    have hweM : we = query.length := by
      by_contra h
      exact hedge (Or.inr (Or.inr h))
    have h0 : 0 < query.length := by omega
    obtain ⟨hend, hle, hge2, hlt⟩ := end_block_full B query.length hB
    have hE : end_block_of B query.length we = query.length := by
      rw [hweM, hend]
      obtain ⟨a, ha⟩ := hwb
      have hlt2 := hlt h0
      have e5 : query.length = a * B := by rw [← hwM, ha]; ring
      have h4 : ((query.length + B - 1) / B - 1) * B < a * B := by omega
      have h5 : a * B < ((query.length + B - 1) / B - 1 + 1 + 1) * B := by
        have e4 : ((query.length + B - 1) / B - 1 + 1 + 1) * B
            = ((query.length + B - 1) / B - 1) * B + B + B := by ring
        omega
      have h6 := Nat.lt_of_mul_lt_mul_right h4
      have h7 := Nat.lt_of_mul_lt_mul_right h5
      have h8 : a = (query.length + B - 1) / B - 1 + 1 := by omega
      have e6 : a * B = ((query.length + B - 1) / B - 1) * B + B := by rw [h8]; ring
      omega
    obtain ⟨st3, t1, t2⟩ := run_tail32_log C K B TYPE scoring score_min query ref we
      { st with temp := fun i =>
        to_int32 ((LogContext C).init st.context wb ref.length st.temp scoring i) }
      (by rw [heb]; exact heblt) hge
    have hrb : ∀ (f : Nat) (st1 : RunState (σ × List Nat) τ),
        run_blocks32 (LogContext C) K B TYPE scoring score_min query ref min_score
          (end_block_of B query.length we) (f + 1) wb st1 = some (true, st1) := by
      intro f st1
      have e1 : (wb + B) % 4294967296 = wb + B := Nat.mod_eq_of_lt (by omega)
      have hc : ¬ (wb + B < end_block_of B query.length we) := by omega
      simp only [run_blocks32, e1, hc, if_false]
    refine ⟨0, 0, true, st3, ?_, le_rfl, fun _ => rfl, fun h => absurd h (by decide), ?_,
      fun k hk => absurd hk (Nat.not_lt_zero k), fun h => by omega, fun c _ _ => by omega⟩
    · unfold run32
      simp only [heb]
      rw [show (4294967296 : Nat) = 4294967295 + 1 from rfl, hrb 4294967295]
      simp only [t1, Option.map_some']
    · rw [t2]
      simp [hweM]

/-- C37 witness: the window `[2, 5)` of a pattern of length 5 with blocks of width 2: the run
returns, its loop blocks end at or before column 5 and the last block is at column 4. -/
theorem run_pattern_accesses_witness :
    ∃ nb flag st',
      run32 (LogContext (SWScoringContext GLOBAL)) TraceSink 2 GLOBAL
        { match_ := 1, mismatch := -1, deletion := -1, insertion := -1 } (-2147483648)
        [65, 67, 71, 84, 65] [65, 71] (-100) 2 5 (zero_state ((), []) []) = some (flag, st') ∧
      end_block_of32 2 5 5 - 2 = 2 + nb * 2 ∧ (∀ k, k < nb → 2 + k * 2 + 2 ≤ 5) := by
  obtain ⟨nb, _, flag, st', hr, _, _, _, _, hb, he, _⟩ := run_pattern_accesses
    (SWScoringContext GLOBAL) TraceSink 2
    GLOBAL { match_ := 1, mismatch := -1, deletion := -1, insertion := -1 } (-2147483648)
    [65, 67, 71, 84, 65] [65, 71] (-100) 2 5 (zero_state ((), []) []) (by decide) (by decide)
    (by decide) (by decide) (by decide) (by decide)
  exact ⟨nb, flag, st', hr, he (by decide) rfl, fun k hk => (hb k hk).1⟩

set_option maxRecDepth 100000

/-- C5 (as stated, refuted): when the product `missing_cols * match` leaves the range of
`int32`, the early exit discards a hit.  End-to-end alignment of a pattern of 18 `A` against
the text `A` with match `2^30`, the other costs `-1`, block width 16 and `min_score = 0`: at
the end of the first block `max_score` is `2^30 - 15` and 2 columns are missing, the product
`2 * 2^30` wraps to `-2^31`, so the test succeeds and the run returns `false`, although the
last-column score `H[1][18] = 2^30 - 17` is not below `min_score`. -/
theorem semi_global_early_exit_sound_counterexample :
    (dispatch32 NullSink 16 SEMI_GLOBAL
        { match_ := 1073741824, mismatch := -1, deletion := -1, insertion := -1 }
        (-2147483648) (List.replicate 18 65) [65] 0 (zero_state () ())).map Prod.fst
      = some false ∧
    early_exit32 { match_ := 1073741824, mismatch := -1, deletion := -1, insertion := -1 }
      18 16 0 1073741809 0 = true ∧
    H SEMI_GLOBAL { match_ := 1073741824, mismatch := -1, deletion := -1, insertion := -1 }
      (List.replicate 18 65) [65] 1 16 = 1073741809 ∧
    H SEMI_GLOBAL { match_ := 1073741824, mismatch := -1, deletion := -1, insertion := -1 }
      (List.replicate 18 65) [65] 1 (List.replicate 18 65).length = 1073741807 := by
  decide

/-- C5 (amended): in the range `no_overflow` of the scores and sizes, on a column of `int32`
values, for SEMI_GLOBAL (end-to-end) alignment with a non-empty text and a scheme with
`match >= 0`, `mismatch <= match` and `insertion = deletion <= 0`, a full-pattern run that
exits early (returns `false`) does so only when every last-column score `H[i][M]`,
`1 <= i <= N`, is strictly below `min_score`. -/
theorem semi_global_early_exit_sound {τ : Type} (K : Sink τ) (BAND_LEN : Nat)
    (scoring : Scoring) (score_min : Int) (pattern text : List Nat) (min_score : Int)
    (st : RunState Unit τ)
    (hB : 0 < BAND_LEN) (hN : 0 < text.length)
    (hmatch : 0 ≤ scoring.match_) (hmis : scoring.mismatch ≤ scoring.match_)
    (hgap : scoring.insertion = scoring.deletion) (hdel : scoring.deletion ≤ 0)
    (hno : no_overflow scoring score_min text.length pattern.length BAND_LEN)
    (hcolumn : ∀ i, to_int32 (st.temp i) = st.temp i)
    (hrun : (dispatch32 K BAND_LEN SEMI_GLOBAL scoring score_min pattern text min_score st).map
      Prod.fst = some false) :
    ∀ i, 1 ≤ i → i ≤ text.length →
      H SEMI_GLOBAL scoring pattern text i pattern.length < min_score := by
  rw [dispatch32_eq K BAND_LEN SEMI_GLOBAL scoring score_min pattern text min_score st hB hno
    hcolumn] at hrun
  exact semi_global_early_exit_sound_unbounded K BAND_LEN scoring score_min pattern text
    min_score st hB hN hno.2.2.1 hmatch hmis hgap hdel hrun

/-- C5 witness: an end-to-end run on pattern `AA`, text `T` with block width 1 and
`min_score = 100` exits early, and the last-column score of row 1 is below 100. -/
theorem semi_global_early_exit_sound_witness :
    (dispatch32 TraceSink 1 SEMI_GLOBAL
        { match_ := 1, mismatch := -1, deletion := -1, insertion := -1 } (-2147483648)
        [65, 65] [84] 100 (zero_state () ([] : List (Int × Nat × Nat)))).map Prod.fst
      = some false ∧
    H SEMI_GLOBAL { match_ := 1, mismatch := -1, deletion := -1, insertion := -1 }
        [65, 65] [84] 1 [65, 65].length < 100 :=
  ⟨by decide,
   semi_global_early_exit_sound TraceSink 1
    { match_ := 1, mismatch := -1, deletion := -1, insertion := -1 } (-2147483648)
    [65, 65] [84] 100 (zero_state () []) (by decide) (by decide) (by decide) (by decide)
    (by decide) (by decide) (by decide) (fun _ => rfl) (by decide) 1 (by decide) (by decide)⟩

set_option maxRecDepth 100000

set_option maxRecDepth 100000

/-- C1 (code at the failing input): end-to-end scoring of pattern `AT` against text `T` with
match 1, mismatch -1, insertion -1, deletion -3 and block width 16.  The scorer passes score -2
to `new_cell` for the cell of text row 1 and pattern column 2 and reports -2 for it, because
the first row of a block is `deletion * j`; the recurrence with the stated boundary
`H[0][j] = j * insertion` gives 0 for that cell. -/
theorem standard_boundary_fails :
    (run (CellTrace SEMI_GLOBAL) NullSink 16 SEMI_GLOBAL
        { match_ := 1, mismatch := -1, deletion := -3, insertion := -1 } (-2147483648)
        [65, 84] [84] (-100) 0 2 (zero_state [] ())).map (fun r => (r.1, r.2.context.take 2))
      = some (true, [(0, 0, -1, SUBSTITUTION), (0, 1, -2, SUBSTITUTION)]) ∧
    (dispatch BestSink 16 SEMI_GLOBAL
        { match_ := 1, mismatch := -1, deletion := -3, insertion := -1 } (-2147483648)
        [65, 84] [84] (-100) (zero_state () (-2147483648, 0, 0))).map (fun r => (r.1, r.2.sink))
      = some (true, (-2, 1, 2)) ∧
    H_standard SEMI_GLOBAL { match_ := 1, mismatch := -1, deletion := -3, insertion := -1 }
        [65, 84] [84] 1 2 = 0 := by
  decide

/-- C2 (code at the failing input): `GLOBAL` scoring of the pattern `A^16 C` against text `A`
with block width 16.  One call over `[0, 17)` makes the single report -15 for cell (1,17); the
two calls over `[0, 16)` and `[16, 17)` make a report of score 1 for cell (1,17) at the end of
the first window, before column 17 is computed, so that the best score of the sink is 1. -/
theorem two_windows_global_differs :
    (dispatch TraceSink 16 GLOBAL { match_ := 1, mismatch := -1, deletion := -1, insertion := -1 }
        (-2147483648) (List.replicate 16 65 ++ [67]) [65] (-100) (zero_state () [])).map
        (fun r => (r.1, r.2.sink))
      = some (true, [(-15, 1, 17)]) ∧
    (dispatch_two_windows TraceSink 16 GLOBAL
        { match_ := 1, mismatch := -1, deletion := -1, insertion := -1 }
        (-2147483648) (List.replicate 16 65 ++ [67]) [65] (-100) 16 (zero_state () ([] : List (Int × Nat × Nat)))).map
        (fun r => (r.1, r.2.sink))
      = some (true, [(1, 1, 17), (-15, 1, 17)]) ∧
    (dispatch BestSink 16 GLOBAL { match_ := 1, mismatch := -1, deletion := -1, insertion := -1 }
        (-2147483648) (List.replicate 16 65 ++ [67]) [65] (-100)
        (zero_state () (-2147483648, 0, 0))).map (fun r => (r.1, r.2.sink))
      = some (true, (-15, 1, 17)) ∧
    (dispatch_two_windows BestSink 16 GLOBAL
        { match_ := 1, mismatch := -1, deletion := -1, insertion := -1 }
        (-2147483648) (List.replicate 16 65 ++ [67]) [65] (-100) 16
        (zero_state () (-2147483648, 0, 0))).map (fun r => (r.1, r.2.sink))
      = some (true, (1, 1, 17)) := by
  refine ⟨?_, ?_, ?_, ?_⟩ <;> decide

/-- C4 (code at the failing input): `GLOBAL` scoring of the pattern `A^16 T` against text `T`
with match 10, mismatch -10, gap costs -1, block width 16 and `min_score = -6`.  The run exits
early after the first block and returns `false`, although the complete computation reports
-6 for the last cell, which reaches `min_score`. -/
theorem early_exit_discards_reachable :
    (dispatch BestSink 16 GLOBAL
        { match_ := 10, mismatch := -10, deletion := -1, insertion := -1 } (-2147483648)
        (List.replicate 16 65 ++ [84]) [84] (-6) (zero_state () (-2147483648, 0, 0))).map
        Prod.fst = some false ∧
    (dispatch BestSink 16 GLOBAL
        { match_ := 10, mismatch := -10, deletion := -1, insertion := -1 } (-2147483648)
        (List.replicate 16 65 ++ [84]) [84] (-1000) (zero_state () (-2147483648, 0, 0))).map
        (fun r => (r.1, r.2.sink)) = some (true, (-6, 1, 17)) ∧
    H GLOBAL { match_ := 10, mismatch := -10, deletion := -1, insertion := -1 }
        (List.replicate 16 65 ++ [84]) [84] 1 17 = -6 := by
  refine ⟨?_, ?_, ?_⟩ <;> decide

/-- C6 (code at the failing input): whole-pattern `LOCAL` scoring of pattern `A` against text
`C` with `min_score = 5` returns `true` although the best score reported to the sink is 0. -/
theorem dispatch_true_below_min_score :
    (dispatch BestSink 16 LOCAL { match_ := 1, mismatch := -1, deletion := -1, insertion := -1 }
        (-2147483648) [65] [67] 5 (zero_state () (-2147483648, 0, 0))).map
        (fun r => (r.1, r.2.sink)) = some (true, (0, 1, 1)) := by
  decide

set_option maxRecDepth 100000

/-- C28 (as stated, refuted): with reference `ACGTACGTACGT`, read `ACGTCCGT` and edit-distance
scoring built with `max_dist = 1`, the end-to-end scorer reports score -1 for the alignment
ending at reference row 12 as well as for the one ending at row 8; the walk back from row 12
leaves the reference at offset 4, so a reference offset other than 0 attains the score -1. -/
theorem end_to_end_example_counterexample :
    (EditDistanceScoringScheme.make 1).threshold_score = -1 ∧
    (dispatch32 TraceSink 16 SEMI_GLOBAL edit_distance_scoring (-2147483648)
        [65, 67, 71, 84, 67, 67, 71, 84] [65, 67, 71, 84, 65, 67, 71, 84, 65, 67, 71, 84]
        (EditDistanceScoringScheme.make 1).threshold_score
        (zero_state () ([] : List (Int × Nat × Nat)))).map
        (fun r => (r.1, r.2.sink.filter (fun s => decide (s.1 = -1))))
      = some (true, [(-1, 8, 8), (-1, 12, 8)]) ∧
    H SEMI_GLOBAL edit_distance_scoring [65, 67, 71, 84, 67, 67, 71, 84]
        [65, 67, 71, 84, 65, 67, 71, 84, 65, 67, 71, 84] 12 8 = -1 ∧
    (window_traceback32 16 8 SEMI_GLOBAL edit_distance_scoring (-2147483648)
        [65, 67, 71, 84, 67, 67, 71, 84] [65, 67, 71, 84, 65, 67, 71, 84, 65, 67, 71, 84]
        (EditDistanceScoringScheme.make 1).threshold_score
        (fun _ => 0) 0 (fun _ => 0) (fun _ => 0) (fun _ => 0) (fun _ => 0) (12, 8)).map
        (fun r => r.2)
      = some ((4, 0), [0, 0, 0, 0, 0, 0, 0, 0]) := by
  refine ⟨?_, ?_, ?_, ?_⟩ <;> decide

/-- C28 (amended): with reference `ACGTACGTACGT`, read `ACGTCCGT` and edit-distance scoring
built with `max_dist = 1` (match 0, every edit -1, threshold -1), the end-to-end scorer
succeeds, and the reports that reach the threshold are exactly two, both with score -1: the
alignments ending at reference rows 8 and 12.  The walk back from either is 8 substitution
moves, reaching reference offset 0 (row 0) and reference offset 4 (row 4 at the left edge
of the matrix, where `alignment_traceback` returns `false`); re-scored, each gives -1, and the
read differs from the reference in exactly one position at either offset, so both have edit
distance 1.  No other reference row reaches -1 and no report scores higher. -/
theorem end_to_end_example :
    (EditDistanceScoringScheme.make 1).threshold_score = -1 ∧
    (dispatch32 TraceSink 16 SEMI_GLOBAL edit_distance_scoring (-2147483648)
        [65, 67, 71, 84, 67, 67, 71, 84] [65, 67, 71, 84, 65, 67, 71, 84, 65, 67, 71, 84]
        (EditDistanceScoringScheme.make 1).threshold_score
        (zero_state () ([] : List (Int × Nat × Nat)))).map
        (fun r => (r.1, r.2.sink.filter
          (fun s => decide ((EditDistanceScoringScheme.make 1).threshold_score ≤ s.1))))
      = some (true, [(-1, 8, 8), (-1, 12, 8)]) ∧
    window_traceback32 16 8 SEMI_GLOBAL edit_distance_scoring (-2147483648)
        [65, 67, 71, 84, 67, 67, 71, 84] [65, 67, 71, 84, 65, 67, 71, 84, 65, 67, 71, 84]
        (EditDistanceScoringScheme.make 1).threshold_score
        (fun _ => 0) 0 (fun _ => 0) (fun _ => 0) (fun _ => 0) (fun _ => 0) (8, 8)
      = some (true, (0, 0), [0, 0, 0, 0, 0, 0, 0, 0]) ∧
    window_traceback32 16 8 SEMI_GLOBAL edit_distance_scoring (-2147483648)
        [65, 67, 71, 84, 67, 67, 71, 84] [65, 67, 71, 84, 65, 67, 71, 84, 65, 67, 71, 84]
        (EditDistanceScoringScheme.make 1).threshold_score
        (fun _ => 0) 0 (fun _ => 0) (fun _ => 0) (fun _ => 0) (fun _ => 0) (12, 8)
      = some (false, (4, 0), [0, 0, 0, 0, 0, 0, 0, 0]) ∧
    rescore edit_distance_scoring [65, 67, 71, 84, 67, 67, 71, 84]
        [65, 67, 71, 84, 65, 67, 71, 84, 65, 67, 71, 84] (8, 8) [0, 0, 0, 0, 0, 0, 0, 0] = -1 ∧
    rescore edit_distance_scoring [65, 67, 71, 84, 67, 67, 71, 84]
        [65, 67, 71, 84, 65, 67, 71, 84, 65, 67, 71, 84] (12, 8) [0, 0, 0, 0, 0, 0, 0, 0] = -1 ∧
    ((List.zip [65, 67, 71, 84, 67, 67, 71, 84]
        (List.take 8 [65, 67, 71, 84, 65, 67, 71, 84, 65, 67, 71, 84])).filter
        (fun p => decide (p.1 ≠ p.2))).length = 1 ∧
    ((List.zip [65, 67, 71, 84, 67, 67, 71, 84]
        (List.take 8 (List.drop 4 [65, 67, 71, 84, 65, 67, 71, 84, 65, 67, 71, 84]))).filter
        (fun p => decide (p.1 ≠ p.2))).length = 1 ∧
    (List.range 13).filter (fun i => decide (-1 ≤ H SEMI_GLOBAL edit_distance_scoring
        [65, 67, 71, 84, 67, 67, 71, 84] [65, 67, 71, 84, 65, 67, 71, 84, 65, 67, 71, 84] i 8))
      = [8, 12] := by
  refine ⟨?_, ?_, ?_, ?_, ?_, ?_, ?_, ?_, ?_⟩ <;> decide

end nvbio
